import Mathlib

/-!
# The cs daemon (`daemon.c`): a shallow embedding

The daemon multiplexes short-lived compiler-cache clients over a pool of
HTTPS connections.  This file embeds the parts of `daemon.c` that carry the
wire protocol, the per-session state machine, the job queue and the
multipart reassembler, and proves properties about them.

Conventions of the embedding.

* A C byte buffer is a `List Nat` (`Bytes`); a `char *` that may be `NULL`
  is an `Option Bytes`.
* A pointer to a heap node is the node's address, a `Nat`; a nullable
  pointer is an `Option Nat`.  A singly linked list is the `List` of its
  nodes in link order.
* `size_t` is 64 bits wide and `int` 32 bits wide (two's complement).
* A system call's outcome is chosen by the environment and handed to the
  model as a `Sys` value.
-/

namespace Daemon

/-- A byte buffer. -/
abbrev Bytes := List Nat

/-! ## The job queue (`queue_new_job`, `pop_queued_job`, `dequeue_job`) -/

/-- One `struct job_queue` node: `addr` is the node's own address, `conn`
the session it points to.  The `next` link is the list order. -/
structure job_queue_node where
  addr : Nat
  conn : Nat
  deriving DecidableEq, Repr

/-- The three globals `job_queue`, `last_queued_get`, `last_queued_post`. -/
structure JobQueue where
  job_queue : List job_queue_node
  last_queued_get : Option Nat
  last_queued_post : Option Nat
  deriving DecidableEq, Repr

/-- The queue at daemon start: all three globals are `NULL`. -/
def JobQueue.empty : JobQueue := ⟨[], none, none⟩

/-- The sessions of the queue, head first. -/
def JobQueue.conns (q : JobQueue) : List Nat := q.job_queue.map (·.conn)

/-- The node addresses of the queue, head first. -/
def JobQueue.addrs (q : JobQueue) : List Nat := q.job_queue.map (·.addr)

/-- The statements `new_jq->next = insert_after->next; insert_after->next = new_jq`
for a non-null `insert_after`: `none` when the pointer is not a node of the
list (the C code would then write through a stale pointer). -/
def link_after (p : Nat) (new_jq : job_queue_node) :
    List job_queue_node → Option (List job_queue_node)
  | [] => none
  | n :: t =>
    if n.addr = p then some (n :: new_jq :: t)
    else (link_after p new_jq t).map (n :: ·)

/-- Embedding of `queue_new_job`.  `addr` is the address `x_malloc` returned
for the new node and `post` is the truth value of `conn->post`. -/
def queue_new_job (q : JobQueue) (addr conn : Nat) (post : Bool) : Option JobQueue :=
  let new_jq : job_queue_node := ⟨addr, conn⟩
  let insert_after := if post then q.last_queued_post else q.last_queued_get
  let last_queued_post :=
    if post then some addr
    else if q.last_queued_post = q.last_queued_get then some addr
    else q.last_queued_post
  let last_queued_get := if post then q.last_queued_get else some addr
  match insert_after with
  | none => some ⟨new_jq :: q.job_queue, last_queued_get, last_queued_post⟩
  | some p =>
    (link_after p new_jq q.job_queue).map
      (fun l => ⟨l, last_queued_get, last_queued_post⟩)

/-- Embedding of `pop_queued_job`.  The outer `none` is a failed `assert`;
otherwise the result is the returned session pointer (`none` for `NULL`)
and the new globals. -/
def pop_queued_job (q : JobQueue) : Option (Option Nat × JobQueue) :=
  match q.job_queue with
  | [] => some (none, q)
  | job :: rest =>
    let lg := if q.last_queued_get = some job.addr then none else q.last_queued_get
    let lp := if q.last_queued_post = some job.addr then none else q.last_queued_post
    let found : Bool := rest.any (fun tmp => lg = some tmp.addr)
    if lg.isSome && !found then none
    else if rest.isEmpty && (lg.isSome || lp.isSome) then none
    else some (some job.conn, ⟨rest, lg, lp⟩)

/-- The loop of `dequeue_job`: `prev` is the node before the cursor. -/
def dequeue_job_loop (conn : Nat) :
    Option Nat → Option Nat → Option Nat → List job_queue_node →
      List job_queue_node × Option Nat × Option Nat
  | _, lg, lp, [] => ([], lg, lp)
  | prev, lg, lp, n :: t =>
    if n.conn = conn then
      (t, (if lg = some n.addr then prev else lg), (if lp = some n.addr then prev else lp))
    else
      let r := dequeue_job_loop conn (some n.addr) lg lp t
      (n :: r.1, r.2.1, r.2.2)

/-- Embedding of `dequeue_job`. -/
def dequeue_job (q : JobQueue) (conn : Nat) : JobQueue :=
  let r := dequeue_job_loop conn none q.last_queued_get q.last_queued_post q.job_queue
  ⟨r.1, r.2.1, r.2.2⟩

/-- One call on the job queue, as the event loop issues them. -/
inductive QOp where
  | enqueue (addr conn : Nat) (post : Bool)
  | pop
  | dequeue (conn : Nat)
  deriving DecidableEq, Repr

/-- Apply one queue call; `none` is a failed assertion or a stale pointer. -/
def QOp.apply (q : JobQueue) : QOp → Option JobQueue
  | .enqueue a c p => queue_new_job q a c p
  | .pop => (pop_queued_job q).map (·.2)
  | .dequeue c => some (dequeue_job q c)

/-- Apply a sequence of queue calls in order. -/
def run_ops : JobQueue → List QOp → Option JobQueue
  | q, [] => some q
  | q, op :: rest =>
    match op.apply q with
    | none => none
    | some q' => run_ops q' rest

/-- The allocator contract: every `x_malloc` in `queue_new_job` returns an
address that is not the address of a node still linked in the queue. -/
def allocs_fresh : JobQueue → List QOp → Prop
  | _, [] => True
  | q, op :: rest =>
    (match op with
      | .enqueue a _ _ => a ∉ q.addrs
      | _ => True) ∧
    (match op.apply q with
      | none => True
      | some q' => allocs_fresh q' rest)

/-- Pop until the queue is empty (at most `fuel` times), collecting the
dispatched sessions; `none` is a failed assertion. -/
def drain : Nat → JobQueue → Option (List Nat)
  | 0, _ => some []
  | n + 1, q =>
    match pop_queued_job q with
    | none => none
    | some (none, _) => some []
    | some (some c, q') => (drain n q').map (c :: ·)

/-- The two-segment FIFO of the specification: pending GETs and pending
POSTs, each in arrival order. -/
structure SegQueue where
  gets : List Nat
  posts : List Nat
  deriving DecidableEq, Repr

/-- The specification's effect of one queue call on the two segments: a new
job joins the tail of its segment, a pop takes the first GET (the first POST
when no GET is pending), a dequeue drops the session's first pending job. -/
def SegQueue.apply (s : SegQueue) : QOp → SegQueue
  | .enqueue _ c p => if p then ⟨s.gets, s.posts ++ [c]⟩ else ⟨s.gets ++ [c], s.posts⟩
  | .pop =>
    match s.gets with
    | _ :: g => ⟨g, s.posts⟩
    | [] => ⟨[], s.posts.tail⟩
  | .dequeue c => if c ∈ s.gets then ⟨s.gets.erase c, s.posts⟩ else ⟨s.gets, s.posts.erase c⟩

/-- The two segments after a sequence of calls. -/
def SegQueue.run (s : SegQueue) (ops : List QOp) : SegQueue := ops.foldl SegQueue.apply s

/-! ### Proof-side definitions for the job queue -/

/-- The address of the last node of `l`, or `p` when `l` is empty. -/
def lastOr : Option Nat → List job_queue_node → Option Nat
  | p, [] => p
  | _, n :: t => lastOr (some n.addr) t

/-- Remove the first node that points to session `c`. -/
def eraseConn (c : Nat) : List job_queue_node → List job_queue_node
  | [] => []
  | n :: t => if n.conn = c then t else n :: eraseConn c t

/-- The arrivals of one kind (`post`), in arrival order. -/
def arrivals (post : Bool) (ops : List QOp) : List Nat :=
  ops.filterMap (fun op =>
    match op with
    | .enqueue _ c p => if p = post then some c else none
    | _ => none)

/-- The coupling between the linked list with its two side pointers and the
two segments of the specification. -/
def QInv (q : JobQueue) (s : SegQueue) : Prop :=
  ∃ G P : List job_queue_node,
    q.job_queue = G ++ P ∧ G.map (·.conn) = s.gets ∧ P.map (·.conn) = s.posts ∧
    (q.job_queue.map (·.addr)).Nodup ∧
    q.last_queued_get = lastOr none G ∧ q.last_queued_post = lastOr none (G ++ P)


/-! ## Bytes, C strings and the 32-bit length prefix -/

/-- The C string stored in a buffer: the bytes before the first NUL. -/
def cstr (b : Bytes) : Bytes := b.takeWhile (· ≠ 0)

/-- `strlen`. -/
def strlen (b : Bytes) : Nat := (cstr b).length

/-- The four bytes `x & 0xFF`, `(x & 0xFF00) >> 8`, `(x & 0xFF0000) >> 16`,
`(x & 0xFF000000) >> 24` that every encoder of the wire protocol stores for
a length `x`. -/
def le32 (x : Nat) : Bytes :=
  [x % 256, x / 256 % 256, x / 65536 % 256, x / 16777216 % 256]

/-- The expression
`(d[0] & 0xFF) | ((d[1] & 0xFF) << 8) | ((d[2] & 0xFF) << 16) | ((d[3] & 0xFF) << 24)`
of type `int`, as an unsigned 32-bit pattern. -/
def le32_bits (d : Bytes) : Nat :=
  d.getD 0 0 % 256 + d.getD 1 0 % 256 * 256 + d.getD 2 0 % 256 * 65536
    + d.getD 3 0 % 256 * 16777216

/-- The conversion of that `int` to `size_t`: a pattern with the top bit set
is a negative `int` and is sign-extended to 64 bits. -/
def decode_size (d : Bytes) : Nat :=
  if le32_bits d < 2147483648 then le32_bits d
  else le32_bits d + (18446744073709551616 - 4294967296)

/-! ## The client library: request frames -/

/-- Modelled from the spec: `struct stashed_file` is declared outside the
files under `src/`; the spec gives its layout `{ share_name, size, data[size] }`. -/
structure stashed_file where
  shm_name : Bytes
  size : Nat
  data : Bytes
  deriving DecidableEq, Repr

/-- Bytes `set_daemon_url` passes to `send_all`: `'U'`, the length, the URL. -/
def set_daemon_url (url : Bytes) : Bytes :=
  [85] ++ le32 (strlen url) ++ cstr url

/-- Bytes `add_daemon_header` passes to `send_all`: `'H'`, the length, the line. -/
def add_daemon_header (header : Bytes) : Bytes :=
  [72] ++ le32 (strlen header) ++ cstr header

/-- Bytes `add_daemon_form_data` passes to `send_all`. -/
def add_daemon_form_data (name data : Bytes) : Bytes :=
  [70] ++ le32 (strlen name) ++ cstr name ++ le32 (strlen data) ++ cstr data

/-- Bytes `add_daemon_form_attachment` passes to `send_all`; `sizeof_sf` is
`sizeof (*sf)` and `map_size = sizeof (*sf) + sf->size` in `size_t`. -/
def add_daemon_form_attachment (sizeof_sf : Nat) (name : Bytes) (sf : stashed_file)
    (filename : Bytes) : Bytes :=
  let map_size := (sizeof_sf + sf.size) % 18446744073709551616
  [65] ++ le32 (strlen name) ++ cstr name ++ le32 (strlen sf.shm_name) ++ cstr sf.shm_name
    ++ le32 (strlen filename) ++ cstr filename ++ le32 map_size

/-- Bytes `request_daemon_response` passes to `send_all`: the single `'R'`. -/
def request_daemon_response : Bytes := [82]

/-! ## Responses -/

/-- `enum daemon_response_codes`. -/
inductive daemon_response_codes where
  | D_REQUEST_FAILED
  | D_RESPONSE_INCOMPLETE
  | D_RESPONSE_COMPLETE
  | D_HTTP_RESULT_CODE
  | D_BODY
  | D_ATTACHMENT
  deriving DecidableEq, Repr

/-- `union daemon_responses`, tagged by the member in use. -/
inductive daemon_responses where
  | http_result_code (code : Int)
  | body (headers : Option Bytes) (headersize : Nat) (data : Option Bytes) (datasize : Nat)
  | attachment (headers : Option Bytes) (headersize : Nat) (filename : Option Bytes)
      (tmp_filename : Option Bytes)
  deriving DecidableEq, Repr

/-- `struct response_part`.  `fd` tells whether the part's `FILE *` is open;
`tmp_file` holds the bytes written so far to the file named `tmp_filename`.
The `next` link is the order of `server_response.parts`. -/
structure response_part where
  headers : Option Bytes := none
  headersize : Nat := 0
  type : Option Bytes := none
  data : Option Bytes := none
  datasize : Nat := 0
  filename : Option Bytes := none
  tmp_filename : Option Bytes := none
  fd : Bool := false
  tmp_file : Bytes := []
  deriving DecidableEq, Repr

/-- `struct server_response`.  `last` is the last element of `parts`. -/
structure server_response where
  code : Int := 0
  complete : Bool := false
  type : Option Bytes := none
  size : Nat := 0
  boundary : Option Bytes := none
  parts : List response_part := []
  data_stash : Option Bytes := none
  data_stash_size : Nat := 0
  deriving DecidableEq, Repr

/-! ## Sessions and daemon globals -/

/-- The `dfa_state` enumeration of `struct local_connection_state`. -/
inductive dfa where
  | STATE_RECV_INIT
  | STATE_RECV_SIZE
  | STATE_RECV_URL
  | STATE_RECV_HEADER
  | STATE_RECV_FORM_NAME
  | STATE_RECV_FORM_DATA
  | STATE_RECV_ATTACHMENT_NAME
  | STATE_RECV_ATTACHMENT_FILE
  | STATE_RECV_ATTACHMENT_FILENAME
  | STATE_RECV_ATTACHMENT_COMPLETE
  | STATE_WAITING
  | STATE_INPROGRESS
  | STATE_SEND_INIT
  | STATE_SEND_DATA_HEADER
  | STATE_SEND_DATA_BODY
  | STATE_SEND_ATTACHMENT_HEADER
  | STATE_SEND_ATTACHMENT_FAILNAME
  | STATE_SEND_ATTACHMENT_TMPFILENAME
  | STATE_SEND_DR_DONE
  | STATE_RESET
  deriving DecidableEq, Repr

open dfa daemon_response_codes

/-- One section of the multipart form built by `curl_formadd`: a field
(`CURLFORM_COPYNAME`, `CURLFORM_COPYCONTENTS`) or an attachment
(`CURLFORM_COPYNAME`, `CURLFORM_BUFFER` filename, `CURLFORM_BUFFERPTR` the
data of the mapped share `share`, `CURLFORM_BUFFERLENGTH`). -/
inductive form_item where
  | contents (name contents : Bytes)
  | buffer (name filename share : Bytes) (bufferlength : Nat)
  deriving DecidableEq, Repr

/-- `struct mmap`: a mapping recorded for cleanup; `addr` names the mapped
share, `length` is the mapped length. -/
structure mmap_rec where
  addr : Bytes
  length : Nat
  deriving DecidableEq, Repr

/-- `struct local_connection_state`.  `self` is the address of the struct.
`post` is the form from `post` to `last`; `mmaps` is the list headed by
`mmaps`; `current_part` is the rest of the part list from the cursor on.
`current_data` holds the bytes received so far into the buffer.  The
`request_time` stamp is not modelled. -/
structure local_connection_state where
  self : Nat
  fd : Nat
  client_number : Nat
  job_number : Nat := 0
  url : Option Bytes := none
  header_list : List Bytes := []
  post : List form_item := []
  mmaps : List mmap_rec := []
  iconn : Option Nat := none
  response : Option server_response := none
  dfa_state : dfa := STATE_RECV_INIT
  dfa_next_state : dfa := STATE_RECV_INIT
  current_data : Option Bytes := none
  stashed_string0 : Option Bytes := none
  stashed_string1 : Option Bytes := none
  stashed_string2 : Option Bytes := none
  send_buffer : Option Bytes := none
  current_offset : Nat := 0
  current_size : Nat := 0
  dr : Option daemon_responses := none
  response_begun : Bool := false
  current_part : List response_part := []
  deriving DecidableEq, Repr

/-- `struct internet_connection_state`; `curl_handle` identifies the easy
handle, `lconn` is the address of the session being served. -/
structure internet_connection_state where
  curl_handle : Nat
  connection_number : Nat
  active : Bool := false
  response : Option server_response := none
  lconn : Option Nat := none
  deriving DecidableEq, Repr

/-- The file-scope variables of `daemon.c` that the embedded functions use.
`local_list` is the list headed by `local` (session addresses in link
order).  The floating-point response-time statistics are not modelled. -/
structure daemon where
  local_list : List Nat := []
  last_local : Option Nat := none
  jq : JobQueue := JobQueue.empty
  active_clients : Int := 0
  waiting_jobs : Int := 0
  client_counter : Nat := 0
  get_request_counter : Nat := 0
  post_request_counter : Nat := 0
  fds_read : List Nat := []
  fds_write : List Nat := []
  master_socket : Option Nat := none
  nfds : Nat := 0
  internet : List internet_connection_state := []
  active_internet_connection_count : Int := 0
  internet_pool_count : Int := 0
  internet_request_counter : Nat := 0
  deriving DecidableEq, Repr

/-- `FD_SET`. -/
def fd_set (fd : Nat) (s : List Nat) : List Nat := if fd ∈ s then s else fd :: s

/-- `FD_CLR`. -/
def fd_clr (fd : Nat) (s : List Nat) : List Nat := s.filter (· ≠ fd)

/-! ## The environment of one session -/

/-- The outcome the kernel chooses for one `recv` or `send`: transfer up to
`k` bytes, fail with `EAGAIN`/`EWOULDBLOCK`/`EINTR`, or fail otherwise. -/
inductive Sys where
  | xfer (k : Nat)
  | again
  | fail
  deriving DecidableEq, Repr

/-- The stream socket of a session: `inq` are the bytes the client wrote
that the daemon has not received yet, `out` the bytes the daemon wrote,
`peer_closed` whether the client closed its end. -/
structure Socket where
  inq : Bytes := []
  out : Bytes := []
  peer_closed : Bool := false
  deriving DecidableEq, Repr

/-- What `recv` returned. -/
inductive RecvResult where
  | data (bs : Bytes)
  | zero
  | again
  | error
  deriving DecidableEq, Repr

/-- `recv (fd, buf, len, flags)` on a non-blocking stream socket.  With
nothing queued the call fails with `EAGAIN`, or returns 0 once the peer has
closed.  With bytes queued a request for `len = 0` bytes returns 0;
otherwise between 1 and `len` of the queued bytes are returned. -/
def sys_recv (s : Socket) (len : Nat) : Sys → RecvResult × Socket
  | .fail => (.error, s)
  | .again => (.again, s)
  | .xfer k =>
    if s.inq = [] then (if s.peer_closed then .zero else .again, s)
    else if len = 0 then (.zero, s)
    else if k = 0 then (.again, s)
    else (.data (s.inq.take (min k len)), { s with inq := s.inq.drop (min k len) })

/-- The lines of the daemon's log (`cc_log`) that concern one session. -/
inductive log_line where
  | url_unset
  | job_ready
  | unexpected_code (c : Nat)
  | sent (c : Nat)
  | job_complete
  | closing
  | send_error
  | request_completed
  | request_failed
  deriving DecidableEq, Repr

/-- The daemon as seen by one call of `do_local_comms (conn)`: the globals
`d`, the session `conn` the call works on (`live` is false once
`close_local_connection` has freed it) with its socket `sock` and the lines
`log` logged for it, the other sessions `others`, the shared-memory objects
of the host by name, the values of the helpers `temp_dir ()` and
`tmp_string ()`, the next address `x_malloc` hands out, and `ub`, set when
the C code would go through a pointer that is `NULL` or stale. -/
structure World where
  d : daemon
  conn : local_connection_state
  live : Bool := true
  sock : Socket := {}
  others : List local_connection_state := []
  shm : List (Bytes × stashed_file) := []
  temp_dir : Bytes := []
  tmp_string : Bytes := []
  heap : Nat := 0
  log : List log_line := []
  ub : Bool := false
  deriving DecidableEq, Repr

/-! ## Response reassembly (`receive_cloud_response_headers`, `receive_cloud_response`) -/

/-- `memmem`: the offset of the first occurrence of `needle` in `hay`. -/
def memmem : Bytes → Bytes → Option Nat
  | [], needle => if needle = [] then some 0 else none
  | h :: t, needle =>
    if needle.isPrefixOf (h :: t) then some 0 else (memmem t needle).map (· + 1)

/-- `memchr` / `strchr`: the offset of the first byte equal to `c`. -/
def memchr (hay : Bytes) (c : Nat) : Option Nat :=
  match hay.indexOf c with
  | i => if i < hay.length then some i else none

/-- `"\r\n"`. -/
def CRLF : Bytes := [13, 10]

/-- `"Content-Type: "`. -/
def lit_content_type : Bytes := [67, 111, 110, 116, 101, 110, 116, 45, 84, 121, 112, 101, 58, 32]

/-- `"Content-Disposition: "`. -/
def lit_content_disposition : Bytes :=
  [67, 111, 110, 116, 101, 110, 116, 45, 68, 105, 115, 112, 111, 115, 105, 116, 105, 111, 110,
   58, 32]

/-- `"attachment; filename="`. -/
def lit_attachment_filename : Bytes :=
  [97, 116, 116, 97, 99, 104, 109, 101, 110, 116, 59, 32, 102, 105, 108, 101, 110, 97, 109,
   101, 61]

/-- `"multipart/mixed"`. -/
def lit_multipart_mixed : Bytes :=
  [109, 117, 108, 116, 105, 112, 97, 114, 116, 47, 109, 105, 120, 101, 100]

/-- `" boundary=\""`. -/
def lit_boundary : Bytes := [32, 98, 111, 117, 110, 100, 97, 114, 121, 61, 34]

/-- `"HTTP/1.1"`. -/
def lit_http : Bytes := [72, 84, 84, 80, 47, 49, 46, 49]

/-- `"Content-Length:"`. -/
def lit_content_length : Bytes :=
  [67, 111, 110, 116, 101, 110, 116, 45, 76, 101, 110, 103, 116, 104, 58]

/-- `"/download."`. -/
def lit_download : Bytes := [47, 100, 111, 119, 110, 108, 111, 97, 100, 46]

/-- `isspace` in the C locale. -/
def isspace (c : Nat) : Bool := c = 32 || (9 ≤ c && c ≤ 13)

/-- The decimal digits at the front of a buffer, as a number, with how many
there were. -/
def scan_digits : Bytes → Nat → Nat → Nat × Nat
  | c :: t, acc, n => if 48 ≤ c ∧ c ≤ 57 then scan_digits t (acc * 10 + (c - 48)) (n + 1)
                      else (acc, n)
  | [], acc, n => (acc, n)

/-- The `%d` / `%zu` conversion of `sscanf`: white space, an optional sign,
at least one digit.  The result is the sign and the magnitude; values out of
the range of the target type are outside the model. -/
def scan_number (s : Bytes) : Option (Bool × Nat) :=
  let s := s.dropWhile isspace
  let neg := s.head? = some 45
  let s := if s.head? = some 45 ∨ s.head? = some 43 then s.tail else s
  let r := scan_digits s 0 0
  if r.2 = 0 then none else some (neg, r.1)

/-- Embedding of `receive_cloud_response_headers`: `data` is the header line
handed over by libcurl (`size` bytes, read as a C string). -/
def receive_cloud_response_headers (response : server_response) (data : Bytes) :
    server_response :=
  let size := data.length
  let s := cstr data
  if size < 13 then response
  else if lit_http.isPrefixOf s ∧ (scan_number (s.drop 8)).isSome then
    match scan_number (s.drop 8) with
    | some (neg, v) => { response with code := if neg then -(v : Int) else (v : Int) }
    | none => response
  else if data.take (min size 14) = lit_content_type.take (min size 14) then
    let data1 := data.drop 14
    let len := size - 14
    let endp := (memchr data1 59).getD len
    let type0 := cstr (data1.take endp)
    let skipped := type0.takeWhile (fun c => c = 13 || c = 10)
    let token := (type0.drop skipped.length).takeWhile (fun c => !(c = 13 || c = 10))
    let response := { response with type := some (if token = [] then type0 else skipped ++ token) }
    if data1.take (min len 15) = lit_multipart_mixed.take (min len 15) then
      let len2 := len - (endp + 1)
      let data2 := data1.drop (endp + 1)
      if data2.take (min len2 11) = lit_boundary.take (min len2 11) then
        let data3 := data2.drop 11
        match memchr data3 34 with
        | some e => { response with boundary := some (cstr ([13, 10, 45, 45] ++ data3.take e)) }
        | none => response
      else response
    else response
  else if lit_content_length.isPrefixOf s ∧ (scan_number (s.drop 15)).isSome then
    match scan_number (s.drop 15) with
    | some (neg, v) =>
      { response with size := if neg then (18446744073709551616 - v % 18446744073709551616)
                                            % 18446744073709551616
                              else v }
    | none => response
  else response

/-- The line loop `while (data < end)` of the part-header reader over the
region `[data, end)`: the bytes consumed, the part with the lines appended
to `headers`, and `header_complete`. -/
def read_header_lines : Nat → Bytes → response_part → Nat → Nat × response_part × Bool
  | 0, _, part, used => (used, part, false)
  | fuel + 1, region, part, used =>
    if region = [] then (used, part, false)
    else
      match memmem region CRLF with
      | none => (used, part, false)
      | some i =>
        let line_length := i + 2
        if line_length = 2 then (used + 2, part, true)
        else
          let part := { part with
            headers := some ((part.headers.getD []).take part.headersize ++ region.take line_length)
            headersize := part.headersize + line_length }
          read_header_lines fuel (region.drop line_length) part (used + line_length)

/-- The `while (1)` loop that parses a complete header block; `headers` is
the C string from the cursor on.  `temp_dir` and `tmp_string` are the values
of the helpers `temp_dir ()` and `tmp_string ()`. -/
def parse_part_headers (temp_dir tmp_string : Bytes) :
    Nat → Bytes → response_part → response_part
  | 0, _, part => part
  | fuel + 1, headers, part =>
    let linefeed := (memchr headers 10).getD headers.length
    let lineend := if linefeed > 0 ∧ headers.getD (linefeed - 1) 0 = 13 then linefeed - 1
                   else linefeed
    let part :=
      if lit_content_type.isPrefixOf headers then
        { part with type := some ((headers.drop 14).take (lineend - 14)) }
      else if lit_content_disposition.isPrefixOf headers then
        if lit_attachment_filename.isPrefixOf (headers.drop 21) then
          let h := headers.drop 42
          let nameend :=
            match memchr h 59 with
            | none => lineend
            | some j => if 42 + j > lineend then lineend else 42 + j
          let filename := h.take (nameend - 42)
          let basename :=
            match memchr filename.reverse 47 with
            | none => filename
            | some k => filename.drop (filename.length - 1 - k)
          { part with
              filename := some filename
              tmp_filename := some (temp_dir ++ lit_download ++ basename ++ [46] ++ tmp_string)
              fd := true
              tmp_file := [] }
        else part
      else part
    if linefeed < headers.length then
      parse_part_headers temp_dir tmp_string fuel (headers.drop (linefeed + 1)) part
    else part

/-- The local variables of `receive_cloud_response` that change in its main
loop: the parts before the current one, the current part `part`, the
unprocessed bytes `data` (`size` is their number) and `response->complete`. -/
structure rcr_state where
  done : List response_part
  part : response_part
  data : Bytes
  complete : Bool
  deriving DecidableEq, Repr

/-- One iteration of the main loop of `receive_cloud_response`.  `flush`
says that `netdata == NULL`.  The Boolean tells whether the loop condition
is tested again (`false`: the iteration left through `break`). -/
def rcr_iter (boundary : Option Bytes) (flush : Bool) (temp_dir tmp_string : Bytes)
    (st : rcr_state) : rcr_state × Bool :=
  let boundary_len := match boundary with
    | none => 0
    | some b => strlen b
  let size := st.data.length
  let found : Option Nat := match boundary with
    | none => none
    | some b => memmem st.data (cstr b)
  let endp : Nat := match boundary, found with
    | none, _ => size
    | some _, some i => i
    | some _, none => if flush then size else size - boundary_len
  let end_of_part_found := found.isSome
  -- the part headers
  let hdr : Option (Nat × response_part) :=
    if st.done ≠ [] ∧ !st.part.fd ∧ st.part.data.isNone then
      let r := read_header_lines (endp + 1) (st.data.take endp) st.part 0
      if r.2.2 ∧ r.2.1.headers.isSome then
        some (r.1, parse_part_headers temp_dir tmp_string
          ((cstr (r.2.1.headers.getD [])).length + 1) (cstr (r.2.1.headers.getD [])) r.2.1)
      else if r.2.2 then some (r.1, { r.2.1 with data := some [] })
      else none
    else some (0, st.part)
  match hdr with
  | none =>
    let r := read_header_lines (endp + 1) (st.data.take endp) st.part 0
    ({ st with part := r.2.1, data := st.data.drop r.1 }, false)
  | some (used, part) =>
    let payload := (st.data.take endp).drop used
    let part :=
      if payload ≠ [] then
        if part.fd then { part with tmp_file := part.tmp_file ++ payload }
        else { part with
                 data := some ((part.data.getD []).take part.datasize ++ payload)
                 datasize := part.datasize + payload.length }
      else part
    let data := st.data.drop endp
    if end_of_part_found then
      let next_line : Option Nat :=
        match memmem (data.drop boundary_len) CRLF with
        | some j => some (boundary_len + j + 2)
        | none => if flush then some data.length else none
      match next_line with
      | none => ({ st with part := part, data := data }, false)
      | some nl =>
        let part := { part with fd := false }
        if nl > boundary_len ∧ (data.drop boundary_len).take 2 = [45, 45] then
          ({ st with part := part, data := data, complete := true }, false)
        else
          ({ st with done := st.done ++ [part], part := {}, data := data.drop nl }, true)
    else ({ st with part := part, data := data }, true)

/-- The main loop `while (size > boundary_len || (netdata == NULL && size > 0))`. -/
def rcr_loop (boundary : Option Bytes) (flush : Bool) (temp_dir tmp_string : Bytes) :
    Nat → rcr_state → rcr_state
  | 0, st => st
  | fuel + 1, st =>
    let boundary_len := match boundary with
      | none => 0
      | some b => strlen b
    if st.data.length > boundary_len ∨ (flush ∧ st.data.length > 0) then
      match rcr_iter boundary flush temp_dir tmp_string st with
      | (st', true) => rcr_loop boundary flush temp_dir tmp_string fuel st'
      | (st', false) => st'
    else st

/-- Embedding of `receive_cloud_response (netdata, blocksize, nblocks, response)`:
`netdata` is `none` for the `NULL` pointer of the final flush call, else the
`blocksize * nblocks` bytes handed over.  The main loop is given one pass
more than there are unprocessed bytes.  The result is the response and the
C return value. -/
def receive_cloud_response (temp_dir tmp_string : Bytes) (netdata : Option Bytes)
    (response : server_response) : server_response × Nat :=
  let orig_size := (netdata.getD []).length
  if response.complete then (response, orig_size)
  else
    let data : Option Bytes :=
      match response.data_stash with
      | some stash => some (stash.take response.data_stash_size ++ netdata.getD [])
      | none => netdata
    let response := { response with data_stash := none, data_stash_size := 0 }
    match data with
    | none => (response, 0)
    | some data =>
      let st0 : rcr_state :=
        match response.parts.getLast? with
        | none => ⟨[], {}, data, false⟩
        | some part => ⟨response.parts.dropLast, part, data, false⟩
      let st := rcr_loop response.boundary netdata.isNone temp_dir tmp_string
        (data.length + 1) st0
      let response := { response with parts := st.done ++ [st.part], complete := st.complete }
      let response :=
        if st.data.length > 0 ∧ !response.complete then
          { response with data_stash := some st.data, data_stash_size := st.data.length }
        else response
      let response :=
        if response.boundary.isNone ∧ st.part.datasize = response.size then
          { response with complete := true }
        else response
      (response, orig_size)

/-- Feed the body callback the chunks in order, then make the final flush
call, as libcurl and `handle_completed_internet_connections` do. -/
def feed_chunks (temp_dir tmp_string : Bytes) (response : server_response)
    (chunks : List Bytes) : server_response :=
  (receive_cloud_response temp_dir tmp_string none
    (chunks.foldl (fun r c => (receive_cloud_response temp_dir tmp_string (some c) r).1)
      response)).1

/-! ## Request construction on the daemon side -/

/-- Embedding of `reset_response`. -/
def reset_response (conn : local_connection_state) : local_connection_state :=
  { conn with response := none }

/-- Embedding of `set_url`; `url` is the buffer handed over, whose C string
becomes the session URL. -/
def set_url (conn : local_connection_state) (url : Bytes) : local_connection_state :=
  { reset_response conn with url := some (cstr url) }

/-- Embedding of `add_header` (`curl_slist_append` copies the C string to
the end of the list). -/
def add_header (conn : local_connection_state) (header : Bytes) : local_connection_state :=
  { reset_response conn with header_list := conn.header_list ++ [cstr header] }

/-- Embedding of `add_form_data` (`curl_formadd` is taken to succeed and to
append one section). -/
def add_form_data (conn : local_connection_state) (name data : Bytes) :
    local_connection_state :=
  { reset_response conn with post := conn.post ++ [.contents (cstr name) (cstr data)] }

/-- Embedding of `add_form_attachment`: `shm` are the host's shared-memory
objects by name.  `shm_open`/`mmap` succeed when an object of that name
exists and `size` is not zero.  The result is the C return value and the
session. -/
def add_form_attachment (shm : List (Bytes × stashed_file)) (conn : local_connection_state)
    (name shared_name : Bytes) (size : Nat) (filename : Bytes) :
    Nat × local_connection_state :=
  match (if size = 0 then none else shm.lookup (cstr shared_name)) with
  | none => (0, conn)
  | some sf =>
    if cstr sf.shm_name ≠ cstr shared_name then (0, conn)
    else
      let conn1 := { conn with mmaps := ⟨cstr shared_name, size⟩ :: conn.mmaps }
      (1, { reset_response conn1 with
              post := conn1.post ++ [.buffer (cstr name) (cstr filename) (cstr shared_name) sf.size] })

/-- Embedding of `cleanup_form`: the form is freed and every recorded
mapping is unmapped. -/
def cleanup_form (conn : local_connection_state) : local_connection_state :=
  { conn with post := [], mmaps := [] }

/-! ## `get_response` -/

/-- The loop `while (conn->current_part && !retval)` of `get_response`: the
response found, if any, and the new cursor. -/
def next_part : List response_part → Option daemon_responses × List response_part
  | [] => (none, [])
  | p :: t =>
    if p.data.isSome then (some (.body p.headers p.headersize p.data p.datasize), t)
    else if p.filename.isSome then
      (some (.attachment p.headers p.headersize p.filename p.tmp_filename), t)
    else next_part t

/-- The `enum` value that goes with a member of the union. -/
def daemon_responses.code : daemon_responses → daemon_response_codes
  | .http_result_code _ => D_HTTP_RESULT_CODE
  | .body .. => D_BODY
  | .attachment .. => D_ATTACHMENT

/-- Embedding of `get_response (conn, &conn->dr)`. -/
def get_response (conn : local_connection_state) :
    daemon_response_codes × local_connection_state :=
  match conn.response with
  | none => (D_REQUEST_FAILED, conn)
  | some r =>
    if !conn.response_begun then
      let conn := { conn with current_part := r.parts }
      if !r.complete then (D_RESPONSE_INCOMPLETE, { conn with response := none })
      else (D_HTTP_RESULT_CODE,
              { conn with dr := some (.http_result_code r.code), response_begun := true })
    else
      match next_part conn.current_part with
      | (none, rest) =>
        (D_RESPONSE_COMPLETE,
          { conn with current_part := rest, response := none, response_begun := false })
      | (some dr, rest) => (dr.code, { conn with current_part := rest, dr := some dr })

/-! ## Accepting and closing sessions -/

/-- The session `accept_local_connections` allocates with `x_calloc`. -/
def new_lcs (self newfd client_number : Nat) : local_connection_state :=
  { self := self, fd := newfd, client_number := client_number }

/-- The list walk of `close_local_connection`: unlink `conn` and repair
`last_local`. -/
def unlink_local (conn : Nat) : Option Nat → Option Nat → List Nat → List Nat × Option Nat
  | _, last, [] => ([], last)
  | prev, last, x :: t =>
    if x = conn then (t, if last = some conn then prev else last)
    else
      let r := unlink_local conn (some x) last t
      (x :: r.1, r.2)

/-- Embedding of `close_local_connection`. -/
def close_local_connection (w : World) : World :=
  let conn := w.conn
  let r := unlink_local conn.self none w.d.last_local w.d.local_list
  let d := { w.d with
    local_list := r.1
    last_local := r.2
    fds_read := fd_clr conn.fd w.d.fds_read
    fds_write := fd_clr conn.fd w.d.fds_write }
  let d := if conn.dfa_state = STATE_WAITING then
      { d with jq := dequeue_job d.jq conn.self, waiting_jobs := d.waiting_jobs - 1 }
    else d
  let d := { d with active_clients := d.active_clients - 1 }
  let d := match conn.iconn with
    | none => d
    | some h =>
      let internet := d.internet.map
        (fun ic => if ic.connection_number = h then { ic with lconn := none } else ic)
      { d with internet := internet }
  let conn := { cleanup_form conn with
    header_list := [], response := none, url := none, current_data := none,
    stashed_string0 := none, stashed_string1 := none, send_buffer := none, dr := none }
  { w with d := d, conn := conn, live := false, log := w.log ++ [.closing] }

/-! ## Non-blocking receive and send -/

/-- Embedding of `recv_all_nonblock`; the Boolean is the C return value. -/
def recv_all_nonblock (w : World) (initial_size : Nat) (io : Sys) : World × Bool :=
  let conn :=
    if w.conn.current_data.isNone then
      { w.conn with current_data := some [], current_offset := 0, current_size := initial_size }
    else w.conn
  match sys_recv w.sock conn.current_size io with
  | (.zero, sock) => (close_local_connection { w with conn := conn, sock := sock }, false)
  | (.again, sock) => ({ w with conn := conn, sock := sock }, false)
  | (.error, sock) => ({ w with conn := conn, sock := sock }, false)
  | (.data bs, sock) =>
    let conn := { conn with
      current_data := conn.current_data.map (· ++ bs)
      current_offset := conn.current_offset + bs.length
      current_size := conn.current_size - bs.length }
    ({ w with conn := conn, sock := sock }, conn.current_size == 0)

/-- Embedding of `send_all_nonblock`; the Boolean is the C return value. -/
def send_all_nonblock (w : World) (initial_data : Bytes) (initial_size : Nat) (io : Sys) :
    World × Bool :=
  let conn :=
    if w.conn.send_buffer.isNone then
      { w.conn with send_buffer := some initial_data, current_offset := 0,
                    current_size := initial_size }
    else w.conn
  let w := { w with conn := conn }
  match io with
  | .fail => (close_local_connection { w with log := w.log ++ [.send_error] }, false)
  | .again => (w, false)
  | .xfer k =>
    let n := min k conn.current_size
    let bs := ((conn.send_buffer.getD []).drop conn.current_offset).take n
    let conn := { conn with current_offset := conn.current_offset + n,
                            current_size := conn.current_size - n }
    let w := { w with sock := { w.sock with out := w.sock.out ++ bs } }
    if conn.current_size ≠ 0 then ({ w with conn := conn }, false)
    else ({ w with conn := { conn with send_buffer := none } }, true)

/-! ## `do_local_comms` -/

/-- How one pass through the `while (1)` of `do_local_comms` ends: with
another pass or with `return`. -/
inductive Flow where
  | cont
  | ret
  deriving DecidableEq, Repr

/-- The packet `STATE_SEND_INIT` builds for the value `get_response`
returned, with the state that follows it. -/
def build_packet (code : daemon_response_codes) (dr : Option daemon_responses) :
    Bytes × dfa :=
  match code with
  | D_RESPONSE_INCOMPLETE => ([69], STATE_RESET)
  | D_RESPONSE_COMPLETE => ([67], STATE_RESET)
  | D_REQUEST_FAILED => ([70], STATE_RESET)
  | D_HTTP_RESULT_CODE =>
    match dr with
    | some (.http_result_code c) =>
      ([82, (c % 256).toNat, (c / 256 % 256).toNat], STATE_SEND_INIT)
    | _ => ([82, 0, 0], STATE_SEND_INIT)
  | D_BODY =>
    match dr with
    | some (.body _ headersize _ datasize) =>
      ([68] ++ le32 headersize ++ le32 datasize, STATE_SEND_DATA_HEADER)
    | _ => ([68] ++ le32 0 ++ le32 0, STATE_SEND_DATA_HEADER)
  | D_ATTACHMENT =>
    match dr with
    | some (.attachment _ headersize filename tmp_filename) =>
      ([65] ++ le32 headersize ++ le32 (strlen (filename.getD []))
          ++ le32 (strlen (tmp_filename.getD [])), STATE_SEND_ATTACHMENT_HEADER)
    | _ => ([65] ++ le32 0 ++ le32 0 ++ le32 0, STATE_SEND_ATTACHMENT_HEADER)

/-- The buffer and length a body-transmit state passes to
`send_all_nonblock`, read from `conn->dr`. -/
def send_operand (st : dfa) (dr : Option daemon_responses) : Bytes × Nat :=
  match st, dr with
  | STATE_SEND_DATA_HEADER, some (.body headers headersize _ _) => (headers.getD [], headersize)
  | STATE_SEND_DATA_BODY, some (.body _ _ data datasize) => (data.getD [], datasize)
  | STATE_SEND_ATTACHMENT_HEADER, some (.attachment headers headersize _ _) =>
    (headers.getD [], headersize)
  | STATE_SEND_ATTACHMENT_FAILNAME, some (.attachment _ _ filename _) =>
    (cstr (filename.getD []), strlen (filename.getD []))
  | STATE_SEND_ATTACHMENT_TMPFILENAME, some (.attachment _ _ _ tmp_filename) =>
    (cstr (tmp_filename.getD []), strlen (tmp_filename.getD []))
  | _, _ => ([], 0)

/-- The state a body-transmit state moves to when its send is complete. -/
def send_successor : dfa → dfa
  | STATE_SEND_DATA_HEADER => STATE_SEND_DATA_BODY
  | STATE_SEND_DATA_BODY => STATE_SEND_DR_DONE
  | STATE_SEND_ATTACHMENT_HEADER => STATE_SEND_ATTACHMENT_FAILNAME
  | STATE_SEND_ATTACHMENT_FAILNAME => STATE_SEND_ATTACHMENT_TMPFILENAME
  | STATE_SEND_ATTACHMENT_TMPFILENAME => STATE_SEND_DR_DONE
  | s => s

/-- The inner `switch (conn->dfa_state)` of the receive-field states, run
once the field is complete; `data` is `conn->current_data`. -/
def field_complete (conn : local_connection_state) (data : Bytes) : local_connection_state :=
  match conn.dfa_state with
  | STATE_RECV_URL => { set_url conn data with dfa_state := STATE_RECV_INIT }
  | STATE_RECV_HEADER => { add_header conn data with dfa_state := STATE_RECV_INIT }
  | STATE_RECV_FORM_NAME =>
    { conn with stashed_string0 := some data, dfa_state := STATE_RECV_SIZE,
                dfa_next_state := STATE_RECV_FORM_DATA }
  | STATE_RECV_FORM_DATA =>
    { add_form_data conn (conn.stashed_string0.getD []) data with
        stashed_string0 := none, dfa_state := STATE_RECV_INIT }
  | STATE_RECV_ATTACHMENT_NAME =>
    { conn with stashed_string0 := some data, dfa_state := STATE_RECV_SIZE,
                dfa_next_state := STATE_RECV_ATTACHMENT_FILE }
  | STATE_RECV_ATTACHMENT_FILE =>
    { conn with stashed_string1 := some data, dfa_state := STATE_RECV_SIZE,
                dfa_next_state := STATE_RECV_ATTACHMENT_FILENAME }
  | STATE_RECV_ATTACHMENT_FILENAME =>
    { conn with stashed_string2 := some data, dfa_state := STATE_RECV_SIZE,
                dfa_next_state := STATE_RECV_ATTACHMENT_COMPLETE }
  | _ => conn

/-- Whether the state's case makes a system call (one `recv` or `send`). -/
def uses_io : dfa → Bool
  | STATE_RECV_ATTACHMENT_COMPLETE => false
  | STATE_WAITING => false
  | STATE_INPROGRESS => false
  | STATE_SEND_DR_DONE => false
  | STATE_RESET => false
  | _ => true

/-- One pass through the `while (1)` loop of `do_local_comms`; `io` is the
outcome of the system call the pass makes, if it makes one. -/
def do_local_comms_step (w : World) (io : Sys) : World × Flow :=
  match w.conn.dfa_state with
  | STATE_RECV_INIT =>
    match recv_all_nonblock w 1 io with
    | (w, false) => (w, .ret)
    | (w, true) =>
      let c := (w.conn.current_data.getD []).headD 0
      let conn := { w.conn with dfa_state := STATE_RECV_SIZE }
      if c = 85 then
        ({ w with conn := { conn with dfa_next_state := STATE_RECV_URL, current_data := none } },
          .cont)
      else if c = 72 then
        ({ w with conn := { conn with dfa_next_state := STATE_RECV_HEADER,
                                      current_data := none } }, .cont)
      else if c = 70 then
        ({ w with conn := { conn with dfa_next_state := STATE_RECV_FORM_NAME,
                                      current_data := none } }, .cont)
      else if c = 65 then
        ({ w with conn := { conn with dfa_next_state := STATE_RECV_ATTACHMENT_NAME,
                                      current_data := none } }, .cont)
      else if c = 82 then
        if conn.url.isNone then
          ({ w with conn := { conn with dfa_state := STATE_SEND_INIT, current_data := none },
                    log := w.log ++ [.url_unset] }, .cont)
        else
          let conn := { conn with dfa_state := STATE_WAITING, current_data := none }
          let w := { w with conn := conn, log := w.log ++ [log_line.job_ready] }
          match queue_new_job w.d.jq w.heap conn.self (!conn.post.isEmpty) with
          | none => ({ w with ub := true }, .ret)
          | some jq =>
            ({ w with heap := w.heap + 1,
                      d := { w.d with jq := jq, waiting_jobs := w.d.waiting_jobs + 1 } }, .cont)
      else
        (close_local_connection { w with conn := conn, log := w.log ++ [.unexpected_code c] },
          .ret)
  | STATE_RECV_SIZE =>
    match recv_all_nonblock w 4 io with
    | (w, false) => (w, .ret)
    | (w, true) =>
      ({ w with conn := { w.conn with
            current_size := decode_size (w.conn.current_data.getD [])
            current_data := none
            dfa_state := w.conn.dfa_next_state } }, .cont)
  | STATE_RECV_URL | STATE_RECV_HEADER | STATE_RECV_FORM_NAME | STATE_RECV_FORM_DATA
  | STATE_RECV_ATTACHMENT_NAME | STATE_RECV_ATTACHMENT_FILE | STATE_RECV_ATTACHMENT_FILENAME =>
    match recv_all_nonblock w w.conn.current_size io with
    | (w, false) => (w, .ret)
    | (w, true) =>
      ({ w with conn := { field_complete w.conn (w.conn.current_data.getD []) with
            current_data := none } }, .cont)
  | STATE_RECV_ATTACHMENT_COMPLETE =>
    let r := add_form_attachment w.shm w.conn (w.conn.stashed_string0.getD [])
      (w.conn.stashed_string1.getD []) w.conn.current_size (w.conn.stashed_string2.getD [])
    ({ w with conn := { r.2 with stashed_string0 := none, stashed_string1 := none,
                                 stashed_string2 := none, dfa_state := STATE_RECV_INIT } }, .cont)
  | STATE_WAITING | STATE_INPROGRESS => (w, .ret)
  | STATE_SEND_INIT =>
    let conn :=
      if w.conn.send_buffer.isNone then
        let r := get_response w.conn
        let p := build_packet r.1 r.2.dr
        { r.2 with dfa_next_state := p.2, current_data := some p.1, current_size := p.1.length,
                   dr := if r.1 = D_HTTP_RESULT_CODE then none else r.2.dr }
      else w.conn
    match send_all_nonblock { w with conn := conn } (conn.current_data.getD [])
        conn.current_size io with
    | (w, false) => (w, .ret)
    | (w, true) =>
      ({ w with conn := { w.conn with dfa_state := w.conn.dfa_next_state, current_data := none },
                log := w.log ++ [.sent ((w.conn.current_data.getD []).headD 0)] }, .cont)
  | STATE_SEND_DATA_HEADER | STATE_SEND_DATA_BODY | STATE_SEND_ATTACHMENT_HEADER
  | STATE_SEND_ATTACHMENT_FAILNAME | STATE_SEND_ATTACHMENT_TMPFILENAME =>
    let op := send_operand w.conn.dfa_state w.conn.dr
    match send_all_nonblock w op.1 op.2 io with
    | (w, false) => (w, .ret)
    | (w, true) =>
      ({ w with conn := { w.conn with dfa_state := send_successor w.conn.dfa_state } }, .cont)
  | STATE_SEND_DR_DONE =>
    ({ w with conn := { w.conn with dr := none, dfa_state := STATE_SEND_INIT } }, .cont)
  | STATE_RESET =>
    let conn := cleanup_form { w.conn with url := none }
    ({ w with
        conn := { conn with response := none, job_number := (conn.job_number + 1) % 4294967296,
                            dfa_state := STATE_RECV_INIT }
        d := { w.d with fds_write := fd_clr conn.fd w.d.fds_write }
        log := w.log ++ [.job_complete] }, .cont)

/-- Embedding of `do_local_comms (conn)`: passes through the loop until one
returns.  `oracle` lists the outcomes of the system calls in call order (a
call past the end of the list fails with `EAGAIN`); the result is the world
at `return` and the unused outcomes, or `none` when `fuel` passes did not
reach a `return`. -/
def do_local_comms : Nat → World → List Sys → Option (World × List Sys)
  | 0, _, _ => none
  | fuel + 1, w, oracle =>
    let rest := if uses_io w.conn.dfa_state then oracle.tail else oracle
    match do_local_comms_step w (oracle.headD .again) with
    | (w', .ret) => some (w', rest)
    | (w', .cont) => do_local_comms fuel w' rest

/-! ## Dispatch and completion (`dispatch_jobs`, `handle_completed_internet_connections`) -/

/-- What `dispatch_jobs` does to the session it pops: it links the handle
and moves the session to `STATE_INPROGRESS`. -/
def dispatch_effect (conn : local_connection_state) (iconn : Nat) : local_connection_state :=
  { conn with iconn := some iconn, dfa_state := STATE_INPROGRESS }

/-- What `handle_completed_internet_connections` does to the session that
owns a finished handle: the handle's response moves into the session, the
session goes to `STATE_SEND_INIT` and forgets the handle. -/
def completion_effect (conn : local_connection_state) (response : Option server_response) :
    local_connection_state :=
  { conn with response := response, dfa_state := STATE_SEND_INIT, iconn := none }

/-- Apply `f` to the session at address `addr`, wherever it is held. -/
def World.update_conn (w : World) (addr : Nat) (f : local_connection_state → local_connection_state) :
    World :=
  if w.live ∧ w.conn.self = addr then { w with conn := f w.conn }
  else { w with others := w.others.map (fun c => if c.self = addr then f c else c) }

/-- The session at address `addr`, wherever it is held. -/
def World.find_conn (w : World) (addr : Nat) : Option local_connection_state :=
  if w.live ∧ w.conn.self = addr then some w.conn
  else w.others.find? (fun c => c.self = addr)

/-- Embedding of `setup_internet_request`, as far as the daemon's own state
goes: the handle gets a zeroed response (`calloc` is taken to succeed). -/
def setup_internet_request (iconn : internet_connection_state) : internet_connection_state :=
  { iconn with response := some {} }

/-- A store through the pointer a list walk stopped at: `f` is applied to
the first node that satisfies `p`, the nodes before and after it are as they
were. -/
def update_first (p : internet_connection_state → Bool)
    (f : internet_connection_state → internet_connection_state) :
    List internet_connection_state → List internet_connection_state
  | [] => []
  | ic :: rest => if p ic then f ic :: rest else ic :: update_first p f rest

/-- One pass of the loop of `dispatch_jobs`, entered when its condition
holds: `ub` is set when the queue is empty or no handle is inactive.  The
handle found is the first inactive one of the pool. -/
def dispatch_one (w : World) : World :=
  match pop_queued_job w.d.jq with
  | none => { w with ub := true }
  | some (none, _) => { w with ub := true }
  | some (some lconn, jq) =>
    match w.d.internet.find? (fun ic => !ic.active) with
    | none => { w with ub := true }
    | some iconn =>
      let internet := update_first (fun ic => !ic.active)
        (fun ic => setup_internet_request { ic with lconn := some lconn, active := true })
        w.d.internet
      let d := { w.d with
        jq := jq
        internet := internet
        active_internet_connection_count := w.d.active_internet_connection_count + 1
        internet_request_counter := (w.d.internet_request_counter + 1) % 4294967296
        waiting_jobs := w.d.waiting_jobs - 1 }
      { w with d := d }.update_conn lconn (fun c => dispatch_effect c iconn.connection_number)

/-- Embedding of `dispatch_jobs`, with at most `fuel` passes of its loop. -/
def dispatch_jobs : Nat → World → World
  | 0, w => w
  | fuel + 1, w =>
    if w.d.waiting_jobs ≠ 0 ∧ w.d.active_internet_connection_count < w.d.internet_pool_count
        ∧ !w.ub then
      dispatch_jobs fuel (dispatch_one w)
    else w

/-- `CURLE_OK`. -/
def CURLE_OK : Nat := 0

/-- The body of the loop of `handle_completed_internet_connections` for one
`CURLMSG_DONE` message naming the easy handle `eh` with result `result`.
The handle found is the first of the pool with that easy handle; `ub` is
set when there is none, when it has no response, or when its session
reference names no session. -/
def handle_completed_one (w : World) (eh : Nat) (result : Nat) : World :=
  match w.d.internet.find? (fun ic => ic.curl_handle = eh) with
  | none => { w with ub := true }
  | some iconn =>
    match iconn.response with
    | none => { w with ub := true }
    | some resp =>
      let response := (receive_cloud_response w.temp_dir w.tmp_string none resp).1
      let reset (d : daemon) : daemon :=
        { d with
            internet := update_first (fun ic => ic.curl_handle = eh)
              (fun ic => { ic with response := none, lconn := none, active := false })
              d.internet
            active_internet_connection_count := d.active_internet_connection_count - 1 }
      match iconn.lconn with
      | none => { w with d := reset w.d }
      | some l =>
        match w.find_conn l with
        | none => { w with ub := true }
        | some lconn =>
          let d := if lconn.post.isEmpty then
              { w.d with get_request_counter := (w.d.get_request_counter + 1) % 4294967296 }
            else
              { w.d with post_request_counter := (w.d.post_request_counter + 1) % 4294967296 }
          let d := { d with fds_write := fd_set lconn.fd d.fds_write }
          let line := if result = CURLE_OK then log_line.request_completed
                      else log_line.request_failed
          { w with d := reset d, log := w.log ++ [line] }.update_conn l
            (fun c => completion_effect c (some response))

/-- Embedding of `handle_completed_internet_connections`: `msgs` are the
`CURLMSG_DONE` messages `curl_multi_info_read` returns, in order. -/
def handle_completed_internet_connections (w : World) (msgs : List (Nat × Nat)) : World :=
  msgs.foldl (fun w m => handle_completed_one w m.1 m.2) w

/-! ## Accepting sessions -/

/-- Embedding of `shutdown_master_socket`. -/
def shutdown_master_socket (d : daemon) : daemon :=
  match d.master_socket with
  | none => d
  | some m => { d with fds_read := fd_clr m d.fds_read, master_socket := none }

/-- The loop of `accept_local_connections`: `incoming` lists, for each
successful `accept`, the address `x_calloc` returns and the new descriptor;
`hard_error` says that the failing `accept` which ends the loop failed with
an error other than `EAGAIN`, `EWOULDBLOCK` or `EINTR`.  The new sessions
are returned in acceptance order. -/
def accept_local_connections (d : daemon) (hard_error : Bool) :
    List (Nat × Nat) → daemon × List local_connection_state
  | [] => (if hard_error then shutdown_master_socket d else d, [])
  | (self, newfd) :: rest =>
    let new := new_lcs self newfd d.client_counter
    let d := { d with
      client_counter := (d.client_counter + 1) % 4294967296
      local_list := d.local_list ++ [self]
      last_local := some self
      active_clients := d.active_clients + 1
      fds_read := fd_set newfd d.fds_read
      nfds := if newfd ≥ d.nfds then newfd + 1 else d.nfds }
    if d.active_clients ≥ 900 ∨ newfd ≥ 900 then (shutdown_master_socket d, [new])
    else
      let r := accept_local_connections d hard_error rest
      (r.1, new :: r.2)

/-! ## Runs of one session -/

/-- What can happen to a session between two looks at it: one pass of the
loop of `do_local_comms` with the outcome of its system call; the client
writing to or closing its socket; `dispatch_jobs` handing the job to a
handle; `handle_completed_internet_connections` handing over a response;
the rest of the daemon changing the globals; the host's shared-memory
objects changing. -/
inductive SessionEvent where
  | pass (io : Sys)
  | client_send (bs : Bytes)
  | client_close
  | dispatched (iconn : Nat)
  | completed (response : Option server_response)
  | globals (d : daemon)
  | host (shm : List (Bytes × stashed_file))
  deriving DecidableEq, Repr

/-- The effect of one event.  A pass needs a live session; a dispatch finds
the session waiting and a completion finds it in progress, as the event
loop's own bookkeeping arranges. -/
def session_step (w : World) : SessionEvent → World
  | .pass io => if w.live then (do_local_comms_step w io).1 else w
  | .client_send bs => { w with sock := { w.sock with inq := w.sock.inq ++ bs } }
  | .client_close => { w with sock := { w.sock with peer_closed := true } }
  | .dispatched h =>
    if w.live ∧ w.conn.dfa_state = STATE_WAITING then { w with conn := dispatch_effect w.conn h }
    else w
  | .completed r =>
    if w.live ∧ w.conn.dfa_state = STATE_INPROGRESS then
      { w with conn := completion_effect w.conn r
               d := { w.d with fds_write := fd_set w.conn.fd w.d.fds_write } }
    else w
  | .globals d => { w with d := d }
  | .host shm => { w with shm := shm }

/-- A run: the events in order. -/
def run_events (w : World) (evs : List SessionEvent) : World := evs.foldl session_step w

/-- The world with a freshly accepted session and nothing else of note. -/
def World.fresh (d : daemon) (self newfd client_number : Nat) : World :=
  { d := d, conn := new_lcs self newfd client_number }

/-! ## Proof-side definitions for the session state machine -/

/-- Where a session stands with respect to its request, as the log shows
it: no request submitted since the last terminal; a request submitted and
no terminal sent yet; the terminal sent and the session not yet back in the
receive phase; the session torn down. -/
inductive Phase where
  | idle
  | submitted
  | terminated
  | closed
  deriving DecidableEq, Repr

/-- The terminal frames `'C'`, `'E'` and `'F'`. -/
def is_terminal (c : Nat) : Bool := c = 67 || c = 69 || c = 70

/-- The protocol monitor: which log line may follow in which phase.  A
submit (`job_ready`, or `url_unset` for a submit without URL) is expected
only when idle; a frame (`sent`) only after a submit and before the
terminal; the return to the receive phase (`job_complete`) only right after
a terminal.  `none` is a violation. -/
def monitor_step : Option Phase → log_line → Option Phase
  | some .idle, .url_unset => some .submitted
  | some .idle, .job_ready => some .submitted
  | some .idle, .unexpected_code _ => some .idle
  | some .idle, .closing => some .closed
  | some .submitted, .sent c => if is_terminal c then some .terminated else some .submitted
  | some .submitted, .send_error => some .submitted
  | some .submitted, .closing => some .closed
  | some .terminated, .job_complete => some .idle
  | _, _ => none

/-- The monitor run over a whole log, from the idle phase. -/
def monitor (log : List log_line) : Option Phase := log.foldl monitor_step (some .idle)

/-- The phase a live session is in, read off its state. -/
def phase_of : dfa → Phase
  | STATE_RECV_INIT | STATE_RECV_SIZE | STATE_RECV_URL | STATE_RECV_HEADER
  | STATE_RECV_FORM_NAME | STATE_RECV_FORM_DATA | STATE_RECV_ATTACHMENT_NAME
  | STATE_RECV_ATTACHMENT_FILE | STATE_RECV_ATTACHMENT_FILENAME
  | STATE_RECV_ATTACHMENT_COMPLETE => .idle
  | STATE_RESET => .terminated
  | _ => .submitted

/-- The states in which no response is held and nothing is being sent. -/
def quiet : dfa → Bool
  | STATE_SEND_INIT | STATE_SEND_DATA_HEADER | STATE_SEND_DATA_BODY
  | STATE_SEND_ATTACHMENT_HEADER | STATE_SEND_ATTACHMENT_FAILNAME
  | STATE_SEND_ATTACHMENT_TMPFILENAME | STATE_SEND_DR_DONE => false
  | _ => true

/-- The states that transmit the payload of a `'D'` or `'A'` frame. -/
def body_send : dfa → Bool
  | STATE_SEND_DATA_HEADER | STATE_SEND_DATA_BODY | STATE_SEND_ATTACHMENT_HEADER
  | STATE_SEND_ATTACHMENT_FAILNAME | STATE_SEND_ATTACHMENT_TMPFILENAME => true
  | _ => false

/-- The session as `STATE_SEND_INIT` leaves it once it has built a packet. -/
def packet_built (c : local_connection_state) : local_connection_state :=
  { (get_response c).2 with
      dfa_next_state := (build_packet (get_response c).1 (get_response c).2.dr).2,
      current_data := some (build_packet (get_response c).1 (get_response c).2.dr).1,
      current_size := (build_packet (get_response c).1 (get_response c).2.dr).1.length,
      dr := if (get_response c).1 = D_HTTP_RESULT_CODE then none else (get_response c).2.dr }

/-- What holds of a packet that `STATE_SEND_INIT` has built and not yet
sent completely. -/
def PendingPacket (c : local_connection_state) : Prop :=
  ∃ p, c.current_data = some p ∧
    ((c.dfa_next_state = STATE_RESET ∧ is_terminal (p.headD 0) = true ∧ c.response = none ∧
        c.response_begun = false ∧ c.dr = none) ∨
     (is_terminal (p.headD 0) = false ∧ c.response_begun = true ∧ c.response.isSome = true ∧
        ((c.dfa_next_state = STATE_SEND_INIT ∧ c.dr = none) ∨
          c.dfa_next_state = STATE_SEND_DATA_HEADER ∨
          c.dfa_next_state = STATE_SEND_ATTACHMENT_HEADER)))

/-- The facts about a live session that every run keeps. -/
structure SessionFacts (c : local_connection_state) : Prop where
  quiet_clean : quiet c.dfa_state = true →
    c.response = none ∧ c.response_begun = false ∧ c.send_buffer = none ∧ c.dr = none
  recv_init : c.dfa_state = STATE_RECV_INIT →
    c.current_data = none ∨ (c.current_data = some [] ∧ c.current_size = 1)
  recv_size_next : c.dfa_state = STATE_RECV_SIZE → phase_of c.dfa_next_state = .idle
  no_buffer : (c.dfa_state = STATE_WAITING ∨ c.dfa_state = STATE_INPROGRESS ∨
      c.dfa_state = STATE_RESET ∨ c.dfa_state = STATE_RECV_ATTACHMENT_COMPLETE) →
    c.current_data = none
  send_init_idle : c.dfa_state = STATE_SEND_INIT → c.send_buffer = none →
    (c.response_begun = true → c.response.isSome = true) ∧ c.dr = none
  send_init_busy : c.dfa_state = STATE_SEND_INIT → c.send_buffer ≠ none → PendingPacket c
  sending : (body_send c.dfa_state = true ∨ c.dfa_state = STATE_SEND_DR_DONE) →
    c.response_begun = true ∧ c.response.isSome = true
  dr_done : c.dfa_state = STATE_SEND_DR_DONE → c.send_buffer = none

/-- The invariant of a session's runs: the log is one the monitor accepts,
the monitor's phase is the one the session's state stands for, and the
session facts hold. -/
def SInv (w : World) : Prop :=
  if w.live then monitor w.log = some (phase_of w.conn.dfa_state) ∧ SessionFacts w.conn
  else monitor w.log = some .closed

/-! ## Proof-side definitions for the reassembly of a single-part response -/

/-- What holds of a response without boundary once the body callback has
been called at least once and has taken the bytes `acc` in all: there is no
stash, the one part holds `acc` in memory, and the response is marked
complete exactly when `acc` has the declared length `n`. -/
def SinglePart (r : server_response) (n : Nat) (acc : Bytes) : Prop :=
  r.boundary = none ∧ r.data_stash = none ∧ r.size = n ∧
  (r.complete = true ↔ acc.length = n) ∧
  ∃ p, r.parts = [p] ∧ p.fd = false ∧ p.datasize = acc.length ∧ p.data.getD [] = acc ∧
    (acc ≠ [] → p.data = some acc)

/-! ## The response frames, as the protocol describes them -/

/-- The frame code of a part: `'D'` for a part that holds in-memory data,
`'A'` for a part that holds an attachment filename, none for a part that
holds neither. -/
def part_code (p : response_part) : Option Nat :=
  if p.data.isSome then some 68 else if p.filename.isSome then some 65 else none

/-- The bytes of the frame of a part: the code, the 32-bit lengths, the
header block and the data, or the header block and the two file names. -/
def part_frame (p : response_part) : Bytes :=
  if p.data.isSome then
    [68] ++ le32 p.headersize ++ le32 p.datasize ++ (p.headers.getD []).take p.headersize
      ++ (p.data.getD []).take p.datasize
  else if p.filename.isSome then
    [65] ++ le32 p.headersize ++ le32 (strlen (p.filename.getD []))
      ++ le32 (strlen (p.tmp_filename.getD [])) ++ (p.headers.getD []).take p.headersize
      ++ cstr (p.filename.getD []) ++ cstr (p.tmp_filename.getD [])
  else []

/-- The status frame: `'R'` and the low 16 bits of the HTTP code. -/
def status_frame (code : Int) : Bytes :=
  [82, (code % 256).toNat, (code / 256 % 256).toNat]

/-- The number of `send` calls the frame of a part takes when every call
transfers its whole buffer. -/
def part_sends (p : response_part) : Nat :=
  if p.data.isSome then 3 else if p.filename.isSome then 4 else 0

/-- The number of passes of `do_local_comms` the frame of a part takes when
every `send` transfers its whole buffer. -/
def part_passes (p : response_part) : Nat :=
  if p.data.isSome then 4 else if p.filename.isSome then 5 else 0

/-- The largest buffer handed to `send` for a part. -/
def part_max_send (p : response_part) : Nat :=
  max 13 (max p.headersize (max p.datasize
    (max (strlen (p.filename.getD [])) (strlen (p.tmp_filename.getD [])))))

/-- A session ready to build the next packet of its response `r`, with the
cursor at `parts`. -/
def SendReady (w : World) (r : server_response) (parts : List response_part) : Prop :=
  w.live = true ∧ w.conn.dfa_state = STATE_SEND_INIT ∧ w.conn.send_buffer = none ∧
  w.conn.response = some r ∧ w.conn.response_begun = true ∧ w.conn.current_part = parts ∧
  w.conn.dr = none

/-! ## The client's calls and the receive phase -/

/-- One call of the client library that builds the request. -/
inductive ClientCall where
  | url (url : Bytes)
  | header (header : Bytes)
  | form_data (name data : Bytes)
  | form_attachment (name : Bytes) (sf : stashed_file) (filename : Bytes)
  deriving DecidableEq, Repr

/-- The bytes the call hands to `send_all`, buffer after buffer: its frame.
They are the bytes on the daemon's socket when no `send` is interrupted or
fails (`client_request_wire`); what `send_all` puts on the wire otherwise is
`client_request`. -/
def ClientCall.frame (sizeof_sf : Nat) : ClientCall → Bytes
  | .url u => set_daemon_url u
  | .header h => add_daemon_header h
  | .form_data n v => add_daemon_form_data n v
  | .form_attachment n sf f => add_daemon_form_attachment sizeof_sf n sf f

/-- What the call does to the session `local` when the library is built
with `DISABLE_DAEMON`: it calls the daemon-side function directly. -/
def ClientCall.direct (shm : List (Bytes × stashed_file)) (sizeof_sf : Nat)
    (conn : local_connection_state) : ClientCall → local_connection_state
  | .url u => set_url conn u
  | .header h => add_header conn h
  | .form_data n v => add_form_data conn n v
  | .form_attachment n sf f =>
    (add_form_attachment shm conn n sf.shm_name
      ((sizeof_sf + sf.size) % 18446744073709551616) f).2

/-- A string the wire protocol carries intact: not empty, and its length
fits the `int` the client stores it in. -/
def wire_string (s : Bytes) : Prop := 1 ≤ strlen s ∧ strlen s < 2147483648

/-- The calls whose frames the daemon can take: every string is a
`wire_string` and the map size of an attachment is below `2^31`. -/
def ClientCall.sendable (sizeof_sf : Nat) : ClientCall → Prop
  | .url u => wire_string u
  | .header h => wire_string h
  | .form_data n v => wire_string n ∧ wire_string v
  | .form_attachment n sf f =>
    wire_string n ∧ wire_string sf.shm_name ∧ wire_string f ∧
    (sizeof_sf + sf.size) % 18446744073709551616 < 2147483648

instance (s : Bytes) : Decidable (wire_string s) :=
  inferInstanceAs (Decidable (1 ≤ strlen s ∧ strlen s < 2147483648))

instance (sizeof_sf : Nat) : (c : ClientCall) → Decidable (c.sendable sizeof_sf)
  | .url u => inferInstanceAs (Decidable (wire_string u))
  | .header h => inferInstanceAs (Decidable (wire_string h))
  | .form_data n v => inferInstanceAs (Decidable (wire_string n ∧ wire_string v))
  | .form_attachment n sf f =>
    inferInstanceAs (Decidable (wire_string n ∧ wire_string sf.shm_name ∧ wire_string f ∧
      (sizeof_sf + sf.size) % 18446744073709551616 < 2147483648))

/-- The states that receive one field with `recv_all_nonblock`. -/
def receiving : dfa → Bool
  | STATE_RECV_INIT | STATE_RECV_SIZE | STATE_RECV_URL | STATE_RECV_HEADER
  | STATE_RECV_FORM_NAME | STATE_RECV_FORM_DATA | STATE_RECV_ATTACHMENT_NAME
  | STATE_RECV_ATTACHMENT_FILE | STATE_RECV_ATTACHMENT_FILENAME => true
  | _ => false

/-- The `initial_size` a receiving state passes to `recv_all_nonblock`. -/
def init_size (c : local_connection_state) : Nat :=
  match c.dfa_state with
  | STATE_RECV_INIT => 1
  | STATE_RECV_SIZE => 4
  | _ => c.current_size

/-- The world `w` with the receive buffer, its offset and remaining size and
the unread bytes of the socket replaced. -/
def mid (w : World) (cd : Option Bytes) (off sz : Nat) (inq : Bytes) : World :=
  { w with conn := { w.conn with current_data := cd, current_offset := off, current_size := sz },
           sock := { w.sock with inq := inq } }

/-- Every sequence of passes from `w` either leaves bytes unread or goes
through the world `v`. -/
def Passes (w v : World) : Prop :=
  ∀ ios : List Sys, (run_events w (ios.map .pass)).sock.inq ≠ [] ∨
    ∃ ios1 ios2, ios = ios1 ++ ios2 ∧ run_events w (ios1.map .pass) = v

/-- System-call outcomes that all transfer at least one byte when there is
one to transfer. -/
def transferring (ios : List Sys) : Prop := ∀ io ∈ ios, ∃ k, 1 ≤ k ∧ io = .xfer k

/-- Passes from `w` whose system calls all transfer reach the world `v`
within the first `n` of them. -/
def Within (n : Nat) (w v : World) : Prop :=
  ∀ ios : List Sys, transferring ios → n ≤ ios.length →
    ∃ ios1 ios2, ios = ios1 ++ ios2 ∧ ios1.length ≤ n ∧ run_events w (ios1.map .pass) = v

/-- The receive phase leads from `w` to `v`: no sequence of passes reads all
bytes without going through `v`, and enough transferring passes get there. -/
def Thru (w v : World) : Prop := Passes w v ∧ ∃ n, Within n w v

/-- A live session at the start of a frame, with `inq` unread. -/
def AtFrame (w : World) (inq : Bytes) : Prop :=
  w.live = true ∧ w.conn.dfa_state = STATE_RECV_INIT ∧
  (w.conn.current_data = none ∨ (w.conn.current_data = some [] ∧ w.conn.current_size = 1)) ∧
  w.sock.inq = inq

/-- The request a session holds: URL, header list, form, mappings and the
stored response. -/
def request_of (c : local_connection_state) :
    Option Bytes × List Bytes × List form_item × List mmap_rec × Option server_response :=
  (c.url, c.header_list, c.post, c.mmaps, c.response)

/-- The state `STATE_RECV_INIT` selects for a frame code. -/
def code_state (c : Nat) : dfa :=
  if c = 85 then STATE_RECV_URL
  else if c = 72 then STATE_RECV_HEADER
  else if c = 70 then STATE_RECV_FORM_NAME
  else STATE_RECV_ATTACHMENT_NAME

/-! ## Proof-side definitions for the send phase -/

/-- The frame codes the log shows as sent, in order. -/
def sent_codes (log : List log_line) : List Nat :=
  log.filterMap (fun l => match l with
    | .sent c => some c
    | _ => none)

/-- The world `w` with the send buffer, its offset and remaining size and
the bytes written to the socket replaced. -/
def smid (w : World) (sb : Option Bytes) (off sz : Nat) (out : Bytes) : World :=
  { w with conn := { w.conn with send_buffer := sb, current_offset := off, current_size := sz },
           sock := { w.sock with out := out } }

/-- What `x` has written and logged is a prefix of the bytes `bytes` and of
the frame codes `codes`. -/
def Emitting (bytes : Bytes) (codes : List Nat) (x : World) : Prop :=
  ∃ rem remc, x.sock.out ++ rem = bytes ∧ sent_codes x.log ++ remc = codes

/-- Every sequence of passes from `w` either has emitted a prefix of
`bytes` and `codes` or goes through the world `v`. -/
def SPasses (bytes : Bytes) (codes : List Nat) (w v : World) : Prop :=
  ∀ ios : List Sys, Emitting bytes codes (run_events w (ios.map .pass)) ∨
    ∃ ios1 ios2, ios = ios1 ++ ios2 ∧ run_events w (ios1.map .pass) = v

/-- The send phase leads from `w` to `v`: until a run goes through `v` it
has emitted a prefix of `bytes` and `codes`, and enough transferring passes
get there. -/
def SThru (bytes : Bytes) (codes : List Nat) (w v : World) : Prop :=
  SPasses bytes codes w v ∧ ∃ n, Within n w v

/-- The states that send with `send_all_nonblock`. -/
def sending : dfa → Bool
  | STATE_SEND_INIT | STATE_SEND_DATA_HEADER | STATE_SEND_DATA_BODY
  | STATE_SEND_ATTACHMENT_HEADER | STATE_SEND_ATTACHMENT_FAILNAME
  | STATE_SEND_ATTACHMENT_TMPFILENAME => true
  | _ => false

/-- A part that gets no frame: it holds neither data nor a filename. -/
def is_skip (p : response_part) : Bool := p.data.isNone && p.filename.isNone

/-- A session ready to build the next packet of its response `r`, with the
cursor at `parts` or at parts without frame before them. -/
def SendReadyS (w : World) (r : server_response) (parts : List response_part) : Prop :=
  w.live = true ∧ w.conn.dfa_state = STATE_SEND_INIT ∧ w.conn.send_buffer = none ∧
  w.conn.response = some r ∧ w.conn.response_begun = true ∧ w.conn.dr = none ∧
  ∃ skips, w.conn.current_part = skips ++ parts ∧ ∀ q ∈ skips, is_skip q = true

/-- The `'D'` frame in the order the protocol table words it: the code, the
length of the header block, the header block, the length of the data, the
data.  Used only to compare against what the daemon writes. -/
def D_frame_as_specified (headers data : Bytes) : Bytes :=
  [68] ++ le32 headers.length ++ headers ++ le32 data.length ++ data

/-! ## Proof-side definitions for `dispatch_jobs` -/

/-- The inactive handles of the pool, in pool order. -/
def inactive_handles (l : List internet_connection_state) : List internet_connection_state :=
  l.filter (fun ic => !ic.active)

/-- The pool after the sessions `cs` have been given, in order, the inactive
handles in pool order, as far as both last: a handle that is given to the
session `c` is set up for it, the other handles are as they were. -/
def assign_handles :
    List Nat → List internet_connection_state → List internet_connection_state
  | [], l => l
  | _ :: _, [] => []
  | c :: cs, ic :: l =>
    if ic.active then ic :: assign_handles (c :: cs) l
    else setup_internet_request { ic with lconn := some c, active := true }
      :: assign_handles cs l

/-- What `dispatch_jobs` relies on: no undefined behaviour so far, a job
queue whose side pointers are sound, `waiting_jobs` equal to the length of
the queue, `active_internet_connection_count` equal to the number of handles
marked active, and `internet_pool_count` equal to the number of handles. -/
def DispatchReady (w : World) : Prop :=
  w.ub = false ∧ (∃ s, QInv w.d.jq s) ∧
  w.d.waiting_jobs = (w.d.jq.job_queue.length : Int) ∧
  w.d.active_internet_connection_count
    = ((w.d.internet.filter (fun ic => ic.active)).length : Int) ∧
  w.d.internet_pool_count = (w.d.internet.length : Int)

/-- The outcome `w'` of `dispatch_jobs` run from `w`, with `n` the smaller
of the number of queued jobs and the number of inactive handles: the first
`n` jobs have left the queue; the pool is the one in which the queued
sessions were given the inactive handles in order; the queue is empty or no
handle is inactive; each dispatched session, paired in queue order with the
inactive handles in pool order, is the session it was with the handle's
number as its handle reference and in `STATE_INPROGRESS` (given that no
session is queued twice); every other session is as it was. -/
def Dispatched (w w' : World) : Prop :=
  w'.d.jq.conns
    = w.d.jq.conns.drop (min w.d.jq.conns.length (inactive_handles w.d.internet).length) ∧
  w'.d.internet = assign_handles w.d.jq.conns w.d.internet ∧
  (w'.d.jq.conns = [] ∨ inactive_handles w'.d.internet = []) ∧
  (w.d.jq.conns.Nodup →
    ∀ p ∈ List.zip w.d.jq.conns
        ((inactive_handles w.d.internet).map (fun ic => ic.connection_number)),
      w'.find_conn p.1 = (w.find_conn p.1).map (fun s => dispatch_effect s p.2)) ∧
  (∀ a, a ∉ w.d.jq.conns.take
      (min w.d.jq.conns.length (inactive_handles w.d.internet).length) →
    w'.find_conn a = w.find_conn a)

/-! ## Exit functions (`exitfn.c`) -/

/-- The `function` member of a `struct exit_function`: a function the
caller registered, named by its address, or the file's own
`call_nullary_exit_function`. -/
inductive exit_fn where
  | user (f : Nat)
  | call_nullary_exit_function
  deriving DecidableEq, Repr

/-- The `context` member: a pointer the caller passed, or the
`struct nullary_exit_function` that `exitfn_add_nullary` allocated, holding
the nullary function. -/
inductive exit_context where
  | ptr (p : Nat)
  | nullary (function : Nat)
  deriving DecidableEq, Repr

/-- `struct exit_function`; the `next` link is the list order. -/
structure exit_function where
  function : exit_fn
  context : exit_context
  deriving DecidableEq, Repr

/-- One call of a registered function: `f (context)` for a function added
with `exitfn_add`, `f ()` for one added with `exitfn_add_nullary`. -/
inductive exit_call where
  | unary (f : Nat) (context : exit_context)
  | nullary (f : Nat)
  deriving DecidableEq, Repr

/-- The file-scope variable `exit_functions` (head first) with the calls of
registered functions made so far, in order; `ub` is set when
`call_nullary_exit_function` is handed a context that is not its own. -/
structure exitfn_state where
  exit_functions : List exit_function := []
  calls : List exit_call := []
  ub : Bool := false
  deriving DecidableEq, Repr

/-- Embedding of `exitfn_add`. -/
def exitfn_add (s : exitfn_state) (function : exit_fn) (context : exit_context) :
    exitfn_state :=
  { s with exit_functions := ⟨function, context⟩ :: s.exit_functions }

/-- Embedding of `exitfn_add_nullary`. -/
def exitfn_add_nullary (s : exitfn_state) (function : Nat) : exitfn_state :=
  exitfn_add s .call_nullary_exit_function (.nullary function)

/-- Embedding of `exitfn_reset`. -/
def exitfn_reset (s : exitfn_state) : exitfn_state :=
  { s with exit_functions := [] }

/-- The statement `p->function (p->context)`.  The registered functions are
taken not to call back into `exitfn.c`. -/
def call_exit_function (s : exitfn_state) (p : exit_function) : exitfn_state :=
  match p.function, p.context with
  | .user f, c => { s with calls := s.calls ++ [.unary f c] }
  | .call_nullary_exit_function, .nullary f => { s with calls := s.calls ++ [.nullary f] }
  | .call_nullary_exit_function, .ptr _ => { s with ub := true }

/-- The loop `while (p)` of `exitfn_call`, from the node `p` on. -/
def exitfn_call_loop : List exit_function → exitfn_state → exitfn_state
  | [], s => s
  | p :: next, s => exitfn_call_loop next (call_exit_function s p)

/-- Embedding of `exitfn_call`. -/
def exitfn_call (s : exitfn_state) : exitfn_state :=
  { exitfn_call_loop s.exit_functions s with exit_functions := [] }

/-- One registration made by the program. -/
inductive ExitReg where
  | add (f context : Nat)
  | add_nullary (f : Nat)
  deriving DecidableEq, Repr

/-- The registration call. -/
def ExitReg.apply (s : exitfn_state) : ExitReg → exitfn_state
  | .add f c => exitfn_add s (.user f) (.ptr c)
  | .add_nullary f => exitfn_add_nullary s f

/-- The call that the registration asks for. -/
def ExitReg.call : ExitReg → exit_call
  | .add f c => .unary f (.ptr c)
  | .add_nullary f => .nullary f

/-! ## The client library: blocking `send_all` and `recv_all` -/

/-- What one `send` or `recv` on the client's blocking socket returns: a
byte count, or -1 with `EAGAIN`, `EWOULDBLOCK` or `EINTR`, or -1 with another
error. -/
inductive BlockingResult where
  | count (n : Nat)
  | transient
  | error
  deriving DecidableEq, Repr

/-- The result is a byte count. -/
def BlockingResult.is_count : BlockingResult → Bool
  | .count _ => true
  | _ => false

/-- The result is a byte count of at least one byte. -/
def BlockingResult.positive : BlockingResult → Bool
  | .count n => decide (1 ≤ n)
  | _ => false

/-- The results of the `recv` calls of one `recv_all` call in which no call
is interrupted or fails and the connection stays open: every result is a
count of at least one byte, and there are at least `n` of them. -/
def steady (rs : List BlockingResult) (n : Nat) : Prop :=
  (∀ r ∈ rs, r.positive = true) ∧ n ≤ rs.length

/-- The outcome of `send_all`: the return value (`none` when the results
listed ran out inside the loop), the bytes put on the wire in order, and
`ub`, set when `send` was handed a pointer before the start of `data`. -/
structure send_all_result where
  retval : Option Nat
  wire : Bytes
  ub : Bool
  deriving DecidableEq, Repr

/-- The loop of `send_all (fd, data, length)` with the local `sent`; the
list gives what the successive `send` calls return, a count being cut to
the length asked for. -/
def send_all_loop (data : Bytes) (length : Int) :
    List BlockingResult → Int → Bytes → send_all_result
  | [], sent, wire => if sent < length then ⟨none, wire, false⟩ else ⟨some 1, wire, false⟩
  | r :: rest, sent, wire =>
    if ¬ sent < length then ⟨some 1, wire, false⟩
    else if sent < 0 then ⟨none, wire, true⟩
    else
      match r with
      | .error => ⟨some 0, wire, false⟩
      | .transient => send_all_loop data length rest (sent + -1) wire
      | .count n =>
        let k := min n (length - sent).toNat
        send_all_loop data length rest (sent + k) (wire ++ (data.drop sent.toNat).take k)

/-- Embedding of `send_all`. -/
def send_all (data : Bytes) (length : Int) (results : List BlockingResult) : send_all_result :=
  send_all_loop data length results 0 []

/-- The outcome of the loop of `recv_all`: the return value (`none` when the
results listed ran out inside the loop), the buffer, the bytes of the stream
not yet received, and `ub`, set when `recv` was handed a pointer before the
start of the buffer. -/
structure recv_all_result where
  retval : Option Nat
  data : Bytes
  stream : Bytes
  ub : Bool
  deriving DecidableEq, Repr

/-- The loop of `recv_all (fd, data, length)` with the local `received`:
`data` is the caller's buffer, `stream` the bytes the peer has sent.  A
count is cut to the length asked for and to what the stream holds; a `recv`
that so delivers nothing returns 0. -/
def recv_all_loop (length : Int) :
    List BlockingResult → Int → Bytes → Bytes → recv_all_result
  | [], received, data, stream =>
    if received < length then ⟨none, data, stream, false⟩ else ⟨some 1, data, stream, false⟩
  | r :: rest, received, data, stream =>
    if ¬ received < length then ⟨some 1, data, stream, false⟩
    else if received < 0 then ⟨none, data, stream, true⟩
    else
      match r with
      | .error => ⟨some 0, data, stream, false⟩
      | .transient => recv_all_loop length rest (received + -1) data stream
      | .count n =>
        let k := min (min n (length - received).toNat) stream.length
        if k = 0 then ⟨some 0, data, stream, false⟩
        else
          recv_all_loop length rest (received + k)
            (data.take received.toNat ++ stream.take k ++ data.drop (received.toNat + k))
            (stream.drop k)

/-! ## The client library: sending the request frames -/

/-- The `int` in which the client functions store a `strlen` result. -/
def int_of_size (n : Nat) : Int :=
  if n % 4294967296 < 2147483648 then (n % 4294967296 : Nat)
  else ((n % 4294967296 : Nat) : Int) - 4294967296

/-- One call of the client library, `request_daemon_response` included, as
its chain `send_all (..) && send_all (..) && ..`: the buffers handed to
`send_all`, in order, each with its `length` argument. -/
def client_sends (sizeof_sf : Nat) : Option ClientCall → List (Bytes × Int)
  | some (.url u) => [([85] ++ le32 (strlen u), 5), (cstr u, int_of_size (strlen u))]
  | some (.header h) => [([72] ++ le32 (strlen h), 5), (cstr h, int_of_size (strlen h))]
  | some (.form_data n v) =>
    [([70] ++ le32 (strlen n), 5), (cstr n, int_of_size (strlen n)),
     (le32 (strlen v), 4), (cstr v, int_of_size (strlen v))]
  | some (.form_attachment n sf f) =>
    [([65] ++ le32 (strlen n), 5), (cstr n, int_of_size (strlen n)),
     (le32 (strlen sf.shm_name), 4), (cstr sf.shm_name, int_of_size (strlen sf.shm_name)),
     (le32 (strlen f), 4), (cstr f, int_of_size (strlen f)),
     (le32 ((sizeof_sf + sf.size) % 18446744073709551616), 4)]
  | none => [([82], 1)]

/-- What a run of client calls put on the wire: the bytes, whether every
`send_all` returned 1, and `stuck`, set when a `send_all` did not return
within the results listed for it or was handed a pointer before its buffer. -/
structure client_wire where
  wire : Bytes
  ok : Bool
  stuck : Bool
  deriving DecidableEq, Repr

/-- The chain `send_all (..) && send_all (..) && ..` of one client call.
`oracle` lists, for each `send_all` call in order, what its `send` calls
return.  The result is the return value of the chain (`none`: stuck), the
bytes put on the wire, and the part of `oracle` not used. -/
def send_chain :
    List (Bytes × Int) → List (List BlockingResult) →
      Option Nat × Bytes × List (List BlockingResult)
  | [], oracle => (some 1, [], oracle)
  | (buf, len) :: rest, oracle =>
    let r := send_all buf len (oracle.headD [])
    if r.ub then (none, r.wire, oracle.tail)
    else
      match r.retval with
      | none => (none, r.wire, oracle.tail)
      | some 1 =>
        let t := send_chain rest oracle.tail
        (t.1, r.wire ++ t.2.1, t.2.2)
      | some _ => (some 0, r.wire, oracle.tail)

/-- The client calls made one after the other (the callers do not look at
the return values), `none` standing for `request_daemon_response`. -/
def client_run (sizeof_sf : Nat) :
    List (Option ClientCall) → List (List BlockingResult) → client_wire
  | [], _ => ⟨[], true, false⟩
  | c :: cs, oracle =>
    let r := send_chain (client_sends sizeof_sf c) oracle
    match r.1 with
    | none => ⟨r.2.1, false, true⟩
    | some v =>
      let t := client_run sizeof_sf cs r.2.2
      ⟨r.2.1 ++ t.wire, decide (v = 1) && t.ok, t.stuck⟩

/-- The calls `calls` followed by `request_daemon_response`. -/
def client_request (sizeof_sf : Nat) (calls : List ClientCall)
    (oracle : List (List BlockingResult)) : client_wire :=
  client_run sizeof_sf (calls.map some ++ [none]) oracle

/-! ## The client library: response frames -/

/-- Embedding of the client's blocking `recv_all (dh, buf, length)`:
`results` lists what the `recv` calls of this call return and `stream` is
what the daemon has sent and will send before it closes the connection.
`length` is a `ssize_t`, so a `size_t` value from `2^63` on is negative and
nothing is read. -/
def recv_all (results : List BlockingResult) (stream : Bytes) (length : Nat) :
    recv_all_result :=
  if 9223372036854775808 ≤ length then ⟨some 1, [], stream, false⟩
  else recv_all_loop length results 0 (List.replicate length 0) stream

/-- One `recv_all` call of `get_daemon_response` with the test of its
return value.  `oracle` lists, for each `recv_all` call in order, what its
`recv` calls return.  The outer `none` says that the call did not return
within the results listed for it, or that `recv` was handed a pointer before
the buffer; the inner `none` is the return value 0, else the buffer filled.
With it come the rest of the stream and the part of `oracle` not used. -/
def recv_next (oracle : List (List BlockingResult)) (stream : Bytes) (length : Nat) :
    Option (Option Bytes × Bytes × List (List BlockingResult)) :=
  match oracle with
  | [] => none
  | rs :: oracle =>
    let r := recv_all rs stream length
    if r.ub then none
    else
      match r.retval with
      | none => none
      | some 0 => some (none, r.stream, oracle)
      | some _ => some (some r.data, r.stream, oracle)

/-- What `get_daemon_response` returns: the code, the value stored through
`dr_ptr`, the rest of the stream and the part of the oracle not used. -/
structure daemon_read where
  code : daemon_response_codes
  dr : Option daemon_responses
  stream : Bytes
  oracle : List (List BlockingResult)
  deriving DecidableEq, Repr

/-- Embedding of `get_daemon_response` for a connected handle.  The result
is `none` when a `recv_all` call does not return within the results listed
for it or runs into undefined behaviour. -/
def get_daemon_response : List (List BlockingResult) → Bytes → Option daemon_read
  | [], _ => none
  | rs :: oracle, stream =>
    match recv_next [rs] stream 1 with
    | none => none
    | some (none, stream, _) => some ⟨D_RESPONSE_INCOMPLETE, none, stream, oracle⟩
    | some (some buffer, stream, _) =>
      let c := buffer.headD 0
      if c = 70 then some ⟨D_REQUEST_FAILED, none, stream, oracle⟩
      else if c = 69 then some ⟨D_RESPONSE_INCOMPLETE, none, stream, oracle⟩
      else if c = 67 then some ⟨D_RESPONSE_COMPLETE, none, stream, oracle⟩
      else if c = 82 then
        match recv_next oracle stream 2 with
        | none => none
        | some (none, stream, oracle) => some ⟨D_RESPONSE_INCOMPLETE, none, stream, oracle⟩
        | some (some b, stream, oracle) =>
          some ⟨D_HTTP_RESULT_CODE,
            some (.http_result_code ((b.getD 0 0 % 256 + b.getD 1 0 % 256 * 256 : Nat) : Int)),
            stream, oracle⟩
      else if c = 68 then
        match recv_next oracle stream 8 with
        | none => none
        | some (none, stream, oracle) => some ⟨D_RESPONSE_INCOMPLETE, none, stream, oracle⟩
        | some (some b, stream, oracle) =>
          let headersize := decode_size (b.take 4)
          let datasize := decode_size (b.drop 4)
          match recv_next oracle stream headersize with
          | none => none
          | some (none, stream, oracle) => some ⟨D_RESPONSE_INCOMPLETE, none, stream, oracle⟩
          | some (some headers, stream, oracle) =>
            match recv_next oracle stream datasize with
            | none => none
            | some (none, stream, oracle) =>
              some ⟨D_RESPONSE_INCOMPLETE, none, stream, oracle⟩
            | some (some data, stream, oracle) =>
              some ⟨D_BODY, some (.body (some headers) headersize (some data) datasize),
                stream, oracle⟩
      else if c = 65 then
        match recv_next oracle stream 12 with
        | none => none
        | some (none, stream, oracle) => some ⟨D_RESPONSE_INCOMPLETE, none, stream, oracle⟩
        | some (some b, stream, oracle) =>
          let headersize := decode_size (b.take 4)
          let filenamesize := decode_size ((b.drop 4).take 4)
          let tmp_filenamesize := decode_size (b.drop 8)
          match recv_next oracle stream headersize with
          | none => none
          | some (none, stream, oracle) => some ⟨D_RESPONSE_INCOMPLETE, none, stream, oracle⟩
          | some (some headers, stream, oracle) =>
            match recv_next oracle stream filenamesize with
            | none => none
            | some (none, stream, oracle) =>
              some ⟨D_RESPONSE_INCOMPLETE, none, stream, oracle⟩
            | some (some filename, stream, oracle) =>
              match recv_next oracle stream tmp_filenamesize with
              | none => none
              | some (none, stream, oracle) =>
                some ⟨D_RESPONSE_INCOMPLETE, none, stream, oracle⟩
              | some (some tmp_filename, stream, oracle) =>
                some ⟨D_ATTACHMENT,
                  some (.attachment (some headers) headersize (some filename)
                    (some tmp_filename)),
                  stream, oracle⟩
      else get_daemon_response oracle stream

/-! ## The client: connecting to the daemon (`connect_to_daemon`, `init_daemon_connection`) -/

/-- `daemon_handle`, an `int`. -/
abbrev daemon_handle := Int

/-- What the system calls of `connect_to_daemon` return: `socket` is the new
descriptor, or none for -1; `chdir_ok` says whether `chdir (conf->cache_dir)`
succeeds; `connects` lists the results of the successive `connect` calls
(true for a connection), a call past the end of the list failing. -/
structure connect_env where
  socket : Option Nat
  chdir_ok : Bool
  connects : List Bool
  deriving DecidableEq, Repr

/-- What `connect_to_daemon` did: the handle it returns, whether it called
`launch_daemon`, how many times it called `connect`, and whether it closed
the descriptor. -/
structure connect_result where
  handle : daemon_handle
  launched : Bool
  connect_calls : Nat
  closed : Bool
  deriving DecidableEq, Repr

/-- The loop `for (int t = 0; t < 200; t++)` with `t` tries left: whether a
`connect` succeeded, and the number of calls made. -/
def connect_retry : Nat → List Bool → Nat → Bool × Nat
  | 0, _, calls => (false, calls)
  | _ + 1, [], calls => (false, calls + 1)
  | t + 1, c :: rest, calls => if c then (true, calls + 1) else connect_retry t rest (calls + 1)

/-- Embedding of `connect_to_daemon` (built with the daemon enabled). -/
def connect_to_daemon (env : connect_env) : connect_result :=
  match env.socket with
  | none => ⟨0, false, 0, false⟩
  | some newfd =>
    let first : Bool × List Bool × Nat :=
      if !env.chdir_ok then (false, env.connects, 0)
      else (env.connects.headD false, env.connects.tail, 1)
    if first.1 then ⟨newfd, false, first.2.2, false⟩
    else
      let r := connect_retry 200 first.2.1 first.2.2
      if r.1 then ⟨newfd, true, r.2, false⟩
      else ⟨0, true, r.2, true⟩

/-- `"offline"`. -/
def lit_offline : Bytes := [111, 102, 102, 108, 105, 110, 101]

/-- Embedding of `cloud_offline_mode`. -/
def cloud_offline_mode (cloud_mode : Bytes) : Bool := cstr cloud_mode = lit_offline

/-- The `send_all` calls that `add_daemon_header (dh, header)` makes, each
with its descriptor and bytes; `send_ok` says whether a `send_all` on the
descriptor succeeds. -/
def add_daemon_header_calls (dh : daemon_handle) (header : Bytes) (send_ok : Bool) :
    List (daemon_handle × Bytes) :=
  if dh = -1 then []
  else if send_ok then [(dh, [72] ++ le32 (strlen header)), (dh, cstr header)]
  else [(dh, [72] ++ le32 (strlen header))]

/-- What `init_daemon_connection` did: the handle it returns, the value of
`conf->cloud_mode` afterwards, and the `send_all` calls of its two
`add_daemon_header` calls. -/
structure init_result where
  dh : daemon_handle
  cloud_mode : Bytes
  header_calls : List (daemon_handle × Bytes)
  deriving DecidableEq, Repr

/-- Embedding of `init_daemon_connection`. -/
def init_daemon_connection (cloud_mode user_key_header client_id_header : Bytes)
    (env : connect_env) (send_ok : Bool) : init_result :=
  let dh := (connect_to_daemon env).handle
  if dh = -1 then ⟨-1, lit_offline, []⟩
  else
    ⟨dh, cloud_mode,
      add_daemon_header_calls dh user_key_header send_ok
        ++ add_daemon_header_calls dh client_id_header send_ok⟩

/-- The condition of the main loop of `receive_cloud_response`,
`size > boundary_len || (netdata == NULL && size > 0)`. -/
def rcr_cond (boundary : Option Bytes) (flush : Bool) (st : rcr_state) : Bool :=
  decide (st.data.length > (match boundary with
    | none => 0
    | some b => strlen b)) || (flush && decide (st.data.length > 0))

/-- The finite executions of the main loop of `receive_cloud_response`:
`rcr_while … st st'` says that the loop entered in state `st` is left in
state `st'`, through its condition or through a `break`, after finitely many
iterations. -/
inductive rcr_while (boundary : Option Bytes) (flush : Bool) (temp_dir tmp_string : Bytes) :
    rcr_state → rcr_state → Prop
  | exit (st : rcr_state) : rcr_cond boundary flush st = false →
      rcr_while boundary flush temp_dir tmp_string st st
  | brk (st st' : rcr_state) : rcr_cond boundary flush st = true →
      rcr_iter boundary flush temp_dir tmp_string st = (st', false) →
      rcr_while boundary flush temp_dir tmp_string st st'
  | next (st st' st'' : rcr_state) : rcr_cond boundary flush st = true →
      rcr_iter boundary flush temp_dir tmp_string st = (st', true) →
      rcr_while boundary flush temp_dir tmp_string st' st'' →
      rcr_while boundary flush temp_dir tmp_string st st''

/-! ## The client: `cloud_cache_get` -/

/-- A body or attachment frame as the client reads it: the header block and
the data, or the header block, the filename and the temporary path. -/
inductive part_read where
  | body (headers data : Bytes)
  | attachment (headers filename tmp_filename : Bytes)
  deriving DecidableEq, Repr

/-- The bytes of the frame on the socket. -/
def part_read.wire : part_read → Bytes
  | .body hb db => [68] ++ le32 hb.length ++ le32 db.length ++ hb ++ db
  | .attachment hb fn tmp =>
    [65] ++ le32 hb.length ++ le32 fn.length ++ le32 tmp.length ++ hb ++ fn ++ tmp

/-- No read is interrupted: for each of the lengths, in order, the oracle
lists at least that many `recv` results, all of them positive counts. -/
def steady_reads : List (List BlockingResult) → List Nat → Bool
  | _, [] => true
  | [], _ :: _ => false
  | rs :: oracle, n :: lengths =>
    rs.all BlockingResult.positive && decide (n ≤ rs.length) && steady_reads oracle lengths

/-! ## The client: the `files needed` answer in `post_results_to_cloud` -/

/-- `struct cloud_file_list`; the hash plays no part here and is kept as
bytes. -/
structure cloud_file_list where
  path : Bytes
  hash : Bytes := []
  deriving DecidableEq, Repr

/-- The fields of `struct state` that the upload reads. -/
structure upload_state where
  object_file_to_push : Option Bytes := none
  object_path : Bytes := []
  source_files : List cloud_file_list := []
  include_files : List cloud_file_list := []
  deriving DecidableEq, Repr

/-- A call that `post_results_to_cloud` makes on its daemon handle. -/
inductive daemon_call where
  | set_daemon_url (url : Bytes)
  | add_daemon_form_data (name data : Bytes)
  | add_daemon_form_attachment (name : Bytes) (sf : stashed_file) (filename : Bytes)
  | request_daemon_response
  | close_daemon
  deriving DecidableEq, Repr

/-- How the loop over the requested names is left: it ran to its end with
`count` files attached, it jumped to `bailout`, `assert (sf)` failed, or
`add_daemon_form_attachment` was handed the `NULL` that `find_stashed_file`
returned for the object file (undefined behaviour). -/
inductive files_needed_exit where
  | finished (count : Nat)
  | bailout
  | assert_failed
  | null_stash
  deriving DecidableEq, Repr

/-- `"object"`. -/
def lit_object : Bytes := [111, 98, 106, 101, 99, 116]

/-- `"source"`. -/
def lit_source : Bytes := [115, 111, 117, 114, 99, 101]

/-- `"data"`. -/
def lit_data : Bytes := [100, 97, 116, 97]

/-- `strcmp (a, b) == 0`. -/
def streq (a b : Bytes) : Bool := cstr a = cstr b

/-- The two scans `for (n = 0; !found && n < count; n++)` over the source
and the include files. -/
def find_cloud_file (st : upload_state) (filename : Bytes) : Option cloud_file_list :=
  match st.source_files.find? (fun f => streq f.path filename) with
  | some f => some f
  | none => st.include_files.find? (fun f => streq f.path filename)

/-- The loop `for (i = 0, count = 0; i < len; i++)` over the entries of the
JSON array `data`; an entry is `some filename` when it is a JSON string and
`none` otherwise.  `find_stashed_file` is defined outside the files under
`src/` and is a parameter.  The result is the way the loop is left and the
calls made on the handle, in order. -/
def files_needed_loop (st : upload_state) (find_stashed_file : Bytes → Option stashed_file) :
    List (Option Bytes) → Nat → List daemon_call → files_needed_exit × List daemon_call
  | [], count, calls => (.finished count, calls)
  | none :: rest, count, calls => files_needed_loop st find_stashed_file rest count calls
  | some filename :: rest, count, calls =>
    if streq filename st.object_path then
      if st.object_file_to_push.isNone then (.bailout, calls)
      else
        match find_stashed_file filename with
        | none => (.null_stash, calls)
        | some sf =>
          files_needed_loop st find_stashed_file rest (count + 1)
            (calls ++ [.add_daemon_form_attachment lit_object sf filename])
    else
      match find_cloud_file st filename with
      | none => (.bailout, calls)
      | some _ =>
        match find_stashed_file filename with
        | none => (.assert_failed, calls)
        | some sf =>
          files_needed_loop st find_stashed_file rest (count + 1)
            (calls ++ [.add_daemon_form_attachment lit_source sf filename])

/-- What the response to one submitted request comes to in
`post_results_to_cloud`: the request failed or the response could not be
used (`fail`, `early_fail`, no `result` member), or the value of `result`;
for `"files needed"` the member `data`, when it is a JSON array. -/
inductive server_answer where
  | failed
  | success
  | error
  | source_list_needed
  | files_needed (data : Option (List (Option Bytes)))
  | other
  deriving DecidableEq, Repr

/-- How `post_results_to_cloud` ends: it reached `bailout:` and closed the
handle, it was stopped by `assert`, it ran into undefined behaviour, or it
waits for a response that is not among `answers`. -/
inductive post_end where
  | closed
  | aborted
  | undefined
  | waiting
  deriving DecidableEq, Repr

/-- The outer `while (1)` loop of `post_results_to_cloud` and the label
`bailout:`, over the answers to the successive requests.  `post_data` is the
JSON text posted, `post_data_sources` the text with the member `sources`
added.  The result is the calls made on the handle and the way the function
ends. -/
def post_results_loop (st : upload_state) (find_stashed_file : Bytes → Option stashed_file)
    (url post_data_sources : Bytes) :
    List server_answer → Bytes → List daemon_call → List daemon_call × post_end
  | [], post_data, calls =>
    (calls ++ [.set_daemon_url url, .add_daemon_form_data lit_data post_data,
               .request_daemon_response], .waiting)
  | a :: answers, post_data, calls =>
    let calls := calls ++ [.set_daemon_url url, .add_daemon_form_data lit_data post_data,
                           .request_daemon_response]
    match a with
    | .failed => (calls ++ [.close_daemon], .closed)
    | .success => (calls ++ [.close_daemon], .closed)
    | .error => (calls ++ [.close_daemon], .closed)
    | .other => (calls ++ [.close_daemon], .closed)
    | .source_list_needed =>
      post_results_loop st find_stashed_file url post_data_sources answers post_data_sources calls
    | .files_needed none => (calls ++ [.close_daemon], .closed)
    | .files_needed (some entries) =>
      match files_needed_loop st find_stashed_file entries 0 calls with
      | (.finished 0, calls) => (calls ++ [.close_daemon], .closed)
      | (.finished (_ + 1), calls) =>
        post_results_loop st find_stashed_file url post_data_sources answers post_data calls
      | (.bailout, calls) => (calls ++ [.close_daemon], .closed)
      | (.assert_failed, calls) => (calls, .aborted)
      | (.null_stash, calls) => (calls, .undefined)

/-- The condition of the claim on a requested name: it equals the recorded
object path and an object file is queued for upload, or it is the path of a
recorded source or include file. -/
def upload_allowed (st : upload_state) (filename : Bytes) : Prop :=
  (streq filename st.object_path = true ∧ st.object_file_to_push.isSome = true) ∨
  ∃ f ∈ st.source_files ++ st.include_files, streq f.path filename = true

/-- The attachment calls a list of calls may hold: each attaches a requested
name that may be uploaded, under `"object"` for the object path and under
`"source"` otherwise, with the stashed file found for that name. -/
def attach_ok (st : upload_state) (find_stashed_file : Bytes → Option stashed_file)
    (c : daemon_call) : Prop :=
  match c with
  | .add_daemon_form_attachment name sf filename =>
    upload_allowed st filename ∧ find_stashed_file filename = some sf ∧
      ((name = lit_object ∧ streq filename st.object_path = true) ∨
       (name = lit_source ∧ streq filename st.object_path = false))
  | _ => True

/-! ## Multipart bodies, as the specification describes them -/

theorem lastOr_append_cons (p : Option Nat) (l : List job_queue_node) (n : job_queue_node)
    (t : List job_queue_node) : lastOr p (l ++ n :: t) = lastOr (some n.addr) t := by
  induction l generalizing p with
  | nil => rfl
  | cons a l ih => simpa [lastOr] using ih (some a.addr)

theorem lastOr_of_ne_nil (p p' : Option Nat) (l : List job_queue_node) (h : l ≠ []) :
    lastOr p l = lastOr p' l := by
  cases l with
  | nil => exact absurd rfl h
  | cons a l => rfl

theorem lastOr_mem (p : Option Nat) (l : List job_queue_node) (h : l ≠ []) :
    ∃ n ∈ l, lastOr p l = some n.addr := by
  induction l generalizing p with
  | nil => exact absurd rfl h
  | cons a l ih =>
    by_cases hl : l = []
    · subst hl; exact ⟨a, by simp, rfl⟩
    · obtain ⟨n, hn, e⟩ := ih (some a.addr) hl
      exact ⟨n, List.mem_cons_of_mem _ hn, by simpa [lastOr] using e⟩

theorem lastOr_none_eq_none (l : List job_queue_node) (h : lastOr none l = none) : l = [] := by
  by_contra hl
  obtain ⟨n, _, e⟩ := lastOr_mem none l hl
  rw [h] at e; cases e

theorem lastOr_ne_head (a : job_queue_node) (t : List job_queue_node) (p : Option Nat)
    (hnd : ((a :: t).map (·.addr)).Nodup) (ht : t ≠ []) : lastOr p t ≠ some a.addr := by
  obtain ⟨n, hn, e⟩ := lastOr_mem p t ht
  rw [e]
  intro h
  have h1 : a.addr ∉ t.map (·.addr) := (List.nodup_cons.mp hnd).1
  apply h1
  have : n.addr = a.addr := by injection h
  rw [← this]
  exact List.mem_map_of_mem _ hn

theorem link_after_last (G P : List job_queue_node) (new_jq : job_queue_node) (p : Nat)
    (hnd : ((G ++ P).map (·.addr)).Nodup) (hp : lastOr none G = some p) :
    link_after p new_jq (G ++ P) = some (G ++ new_jq :: P) := by
  induction G with
  | nil => simp [lastOr] at hp
  | cons a t ih =>
    by_cases ht : t = []
    · subst ht
      simp [lastOr] at hp
      simp [link_after, hp]
    · have hnd1 : ((a :: t).map (·.addr)).Nodup := by
        have := hnd
        simp only [List.cons_append, List.map_cons, List.map_append] at this ⊢
        rw [List.nodup_cons] at this ⊢
        refine ⟨fun h => this.1 (List.mem_append_left _ h), ?_⟩
        exact (List.nodup_append.mp this.2).1
      have hne : a.addr ≠ p := by
        intro h
        have := lastOr_ne_head a t (some a.addr) hnd1 ht
        apply this
        have e : lastOr none (a :: t) = lastOr (some a.addr) t := rfl
        rw [← e, hp, h]
      have hnd2 : ((t ++ P).map (·.addr)).Nodup := by
        have := hnd
        simp only [List.cons_append, List.map_cons] at this
        exact (List.nodup_cons.mp this).2
      have hp2 : lastOr none t = some p := by
        rw [lastOr_of_ne_nil none (some a.addr) t ht]; exact hp
      simp [link_after, hne, ih hnd2 hp2]

theorem dequeue_loop_posts (c : Nat) (P : List job_queue_node) (prev lg : Option Nat)
    (hlg : ∀ a, lg = some a → a ∉ P.map (·.addr)) (hnd : (P.map (·.addr)).Nodup) :
    dequeue_job_loop c prev lg (lastOr prev P) P
      = (eraseConn c P, lg, lastOr prev (eraseConn c P)) := by
  induction P generalizing prev with
  | nil => simp [dequeue_job_loop, eraseConn]
  | cons n t ih =>
    have hnd' : (t.map (·.addr)).Nodup := (List.nodup_cons.mp hnd).2
    by_cases hc : n.conn = c
    · have h1 : lg ≠ some n.addr := fun h => hlg _ h (by simp)
      by_cases ht : t = []
      · subst ht
        simp [dequeue_job_loop, eraseConn, hc, h1, lastOr]
      · have h2 := lastOr_ne_head n t (some n.addr) hnd ht
        have h3 : lastOr prev (n :: t) = lastOr (some n.addr) t := rfl
        simp [dequeue_job_loop, eraseConn, hc, h1, h3, h2]
        exact lastOr_of_ne_nil _ _ t ht
    · have h3 : lastOr prev (n :: t) = lastOr (some n.addr) t := rfl
      have := ih (some n.addr) (fun a ha hm => hlg a ha (by simp [hm])) hnd'
      simp [dequeue_job_loop, eraseConn, hc, h3, this, lastOr]

theorem dequeue_loop_gets (c : Nat) (G P : List job_queue_node) (prev : Option Nat)
    (hprev : ∀ a, prev = some a → a ∉ (G ++ P).map (·.addr))
    (hnd : ((G ++ P).map (·.addr)).Nodup) :
    dequeue_job_loop c prev (lastOr prev G) (lastOr prev (G ++ P)) (G ++ P)
      = if c ∈ G.map (·.conn) then
          (eraseConn c G ++ P, lastOr prev (eraseConn c G), lastOr prev (eraseConn c G ++ P))
        else
          (G ++ eraseConn c P, lastOr prev G, lastOr prev (G ++ eraseConn c P)) := by
  induction G generalizing prev with
  | nil =>
    have hnd' : (P.map (·.addr)).Nodup := by simpa using hnd
    have := dequeue_loop_posts c P prev prev (fun a ha => by simpa using hprev a ha) hnd'
    simpa [lastOr] using this
  | cons n t ih =>
    have hndc : ((n :: (t ++ P)).map (·.addr)).Nodup := by simpa using hnd
    have hnd' : ((t ++ P).map (·.addr)).Nodup := (List.nodup_cons.mp hndc).2
    have hn : n.addr ∉ (t ++ P).map (·.addr) := (List.nodup_cons.mp hndc).1
    have e1 : lastOr prev (n :: t) = lastOr (some n.addr) t := rfl
    have e2 : lastOr prev (n :: (t ++ P)) = lastOr (some n.addr) (t ++ P) := rfl
    rw [List.cons_append, e1, e2]
    by_cases hc : n.conn = c
    · have hmem : c ∈ (n :: t).map (·.conn) := by simp [hc]
      rw [if_pos hmem]
      have hndt : ((n :: t).map (·.addr)).Nodup :=
        hnd.sublist ((List.sublist_append_left (n :: t) P).map _)
      have g1 : (if lastOr (some n.addr) t = some n.addr then prev else lastOr (some n.addr) t)
          = lastOr prev t := by
        by_cases ht : t = []
        · subst ht; simp [lastOr]
        · rw [if_neg (lastOr_ne_head n t _ hndt ht)]
          exact lastOr_of_ne_nil _ _ t ht
      have g2 : (if lastOr (some n.addr) (t ++ P) = some n.addr then prev
          else lastOr (some n.addr) (t ++ P)) = lastOr prev (t ++ P) := by
        by_cases ht : t ++ P = []
        · rw [ht]; simp [lastOr]
        · rw [if_neg (lastOr_ne_head n (t ++ P) _ hndc ht)]
          exact lastOr_of_ne_nil _ _ _ ht
      rw [dequeue_job_loop, if_pos hc, g1, g2]
      simp [eraseConn, hc]
    · have ih' := ih (some n.addr) (fun a ha => by cases ha; exact hn) hnd'
      have hmem : (c ∈ (n :: t).map (·.conn)) ↔ (c ∈ t.map (·.conn)) := by
        simp only [List.map_cons, List.mem_cons]
        constructor
        · rintro (h | h)
          · exact absurd h.symm hc
          · exact h
        · exact Or.inr
      rw [dequeue_job_loop, if_neg hc, ih']
      by_cases hm : c ∈ t.map (·.conn)
      · rw [if_pos hm, if_pos (hmem.mpr hm)]
        simp [eraseConn, hc, lastOr]
      · rw [if_neg hm, if_neg (fun h => hm (hmem.mp h))]
        simp [lastOr]

theorem eraseConn_conns (c : Nat) (l : List job_queue_node) :
    (eraseConn c l).map (·.conn) = (l.map (·.conn)).erase c := by
  induction l with
  | nil => rfl
  | cons n t ih =>
    by_cases hc : n.conn = c
    · simp [eraseConn, hc]
    · simp [eraseConn, hc, List.erase_cons_tail, ih]

theorem eraseConn_sublist (c : Nat) (l : List job_queue_node) : (eraseConn c l).Sublist l := by
  induction l with
  | nil => exact List.Sublist.refl _
  | cons n t ih =>
    by_cases hc : n.conn = c
    · simp [eraseConn, hc]
    · simp [eraseConn, hc, ih]

theorem queue_new_job_post (q : JobQueue) (G P : List job_queue_node) (a c : Nat)
    (hq : q.job_queue = G ++ P) (hnd : ((G ++ P).map (·.addr)).Nodup)
    (hlp : q.last_queued_post = lastOr none (G ++ P)) :
    queue_new_job q a c true
      = some ⟨G ++ (P ++ [⟨a, c⟩]), q.last_queued_get, some a⟩ := by
  by_cases hnil : G ++ P = []
  · have hG0 : G = [] := (List.append_eq_nil.mp hnil).1
    have hP0 : P = [] := (List.append_eq_nil.mp hnil).2
    subst hG0 hP0
    have h0 : q.last_queued_post = none := by rw [hlp]; rfl
    simp [queue_new_job, h0, hq]
  · obtain ⟨n, _, e⟩ := lastOr_mem none (G ++ P) hnil
    have h1 := link_after_last (G ++ P) [] ⟨a, c⟩ n.addr (by simpa using hnd) e
    simp only [List.append_nil] at h1
    have h0 : q.last_queued_post = some n.addr := by rw [hlp, e]
    simp [queue_new_job, h0, hq, h1]

theorem queue_new_job_get (q : JobQueue) (G P : List job_queue_node) (a c : Nat)
    (hq : q.job_queue = G ++ P) (hnd : ((G ++ P).map (·.addr)).Nodup)
    (hlg : q.last_queued_get = lastOr none G) :
    queue_new_job q a c false
      = some ⟨(G ++ [⟨a, c⟩]) ++ P, some a,
          if q.last_queued_post = q.last_queued_get then some a else q.last_queued_post⟩ := by
  by_cases hnil : G = []
  · subst hnil
    have h0 : q.last_queued_get = none := by rw [hlg]; rfl
    simp [queue_new_job, h0, hq]
  · obtain ⟨n, _, e⟩ := lastOr_mem none G hnil
    have h1 := link_after_last G P ⟨a, c⟩ n.addr hnd e
    have h0 : q.last_queued_get = some n.addr := by rw [hlg, e]
    simp [queue_new_job, h0, hq, h1]

theorem lastOr_append_of_ne_nil (p : Option Nat) (G P : List job_queue_node) (hP : P ≠ []) :
    lastOr p (G ++ P) = lastOr none P := by
  cases P with
  | nil => exact absurd rfl hP
  | cons b t => rw [lastOr_append_cons]; rfl

theorem pop_ptr (job : job_queue_node) (T : List job_queue_node)
    (hnd : ((job :: T).map (·.addr)).Nodup) :
    (if lastOr (some job.addr) T = some job.addr then none else lastOr (some job.addr) T)
      = lastOr none T := by
  by_cases ht : T = []
  · subst ht; simp [lastOr]
  · rw [if_neg (lastOr_ne_head job T _ hnd ht)]
    exact lastOr_of_ne_nil _ _ T ht

theorem pop_found (G P : List job_queue_node) (x : Nat) (h : lastOr none G = some x) :
    (G ++ P).any (fun tmp => lastOr none G = some tmp.addr) = true := by
  have hG : G ≠ [] := by
    intro h0; subst h0; simp [lastOr] at h
  obtain ⟨n, hn, e⟩ := lastOr_mem none G hG
  rw [List.any_eq_true]
  exact ⟨n, List.mem_append_left _ hn, by simp [e]⟩

theorem pop_queued_job_cons (q : JobQueue) (job : job_queue_node) (G P : List job_queue_node)
    (hq : q.job_queue = job :: (G ++ P))
    (hlg : (if q.last_queued_get = some job.addr then none else q.last_queued_get)
      = lastOr none G)
    (hlp : (if q.last_queued_post = some job.addr then none else q.last_queued_post)
      = lastOr none (G ++ P)) :
    pop_queued_job q = some (some job.conn, ⟨G ++ P, lastOr none G, lastOr none (G ++ P)⟩) := by
  unfold pop_queued_job
  rw [hq]
  simp only [hlg, hlp]
  have h1 : ((lastOr none G).isSome && !(G ++ P).any (fun tmp => lastOr none G = some tmp.addr))
      = false := by
    cases hx : lastOr none G with
    | none => simp
    | some x => rw [← hx, pop_found G P x hx]; simp
  have h2 : ((G ++ P).isEmpty && ((lastOr none G).isSome || (lastOr none (G ++ P)).isSome))
      = false := by
    by_cases hnil : G ++ P = []
    · have hG0 : G = [] := (List.append_eq_nil.mp hnil).1
      have hP0 : P = [] := (List.append_eq_nil.mp hnil).2
      subst hG0 hP0; simp [lastOr]
    · have : (G ++ P).isEmpty = false := by
        cases hh : G ++ P with
        | nil => exact absurd hh hnil
        | cons _ _ => rfl
      rw [this]; rfl
  simp only [h1, h2]
  simp

/-- Every queue call keeps the coupling with the two-segment FIFO. -/
theorem QInv_step (q : JobQueue) (s : SegQueue) (op : QOp) (h : QInv q s)
    (hf : match op with
      | .enqueue a _ _ => a ∉ q.addrs
      | _ => True) :
    ∃ q', op.apply q = some q' ∧ QInv q' (s.apply op) := by
  obtain ⟨G, P, hq, hG, hP, hnd, hlg, hlp⟩ := h
  have hnd0 : ((G ++ P).map (·.addr)).Nodup := by rw [← hq]; exact hnd
  cases op with
  | enqueue a c p =>
    have ha : a ∉ (G ++ P).map (·.addr) := by
      simpa [JobQueue.addrs, hq] using hf
    cases p with
    | true =>
      refine ⟨_, queue_new_job_post q G P a c hq hnd0 hlp, G, P ++ [(⟨a, c⟩ : job_queue_node)], rfl, hG,
        by simp [SegQueue.apply, hP], ?_, hlg, ?_⟩
      · show ((G ++ (P ++ [(⟨a, c⟩ : job_queue_node)])).map (·.addr)).Nodup
        rw [← List.append_assoc, List.map_append, List.nodup_append]
        refine ⟨hnd0, by simp, ?_⟩
        intro x hx hx2
        simp at hx2
        exact ha (hx2 ▸ hx)
      · show some a = lastOr none (G ++ (P ++ [(⟨a, c⟩ : job_queue_node)]))
        rw [← List.append_assoc, lastOr_append_cons]; rfl
    | false =>
      refine ⟨_, queue_new_job_get q G P a c hq hnd0 hlg, G ++ [(⟨a, c⟩ : job_queue_node)], P, rfl,
        by simp [SegQueue.apply, hG], by simp [SegQueue.apply, hP], ?_, ?_, ?_⟩
      · show (((G ++ [(⟨a, c⟩ : job_queue_node)]) ++ P).map (·.addr)).Nodup
        have hperm : List.Perm (((G ++ [(⟨a, c⟩ : job_queue_node)]) ++ P).map (·.addr))
            (a :: (G ++ P).map (·.addr)) := by
          simp only [List.map_append, List.map_cons, List.map_nil, List.append_assoc,
            List.singleton_append]
          exact List.perm_middle
        exact hperm.nodup_iff.mpr (List.nodup_cons.mpr ⟨ha, hnd0⟩)
      · show some a = lastOr none (G ++ [(⟨a, c⟩ : job_queue_node)])
        rw [lastOr_append_cons]; rfl
      · show _ = lastOr none ((G ++ [(⟨a, c⟩ : job_queue_node)]) ++ P)
        by_cases hPn : P = []
        · subst hPn
          have : q.last_queued_post = q.last_queued_get := by
            rw [hlg, hlp]; simp
          rw [if_pos this, List.append_nil, lastOr_append_cons]; rfl
        · have hne : q.last_queued_post ≠ q.last_queued_get := by
            rw [hlg, hlp, lastOr_append_of_ne_nil none G P hPn]
            intro heq
            obtain ⟨n, hn, e⟩ := lastOr_mem none P hPn
            by_cases hGn : G = []
            · subst hGn
              rw [e] at heq
              simp [lastOr] at heq
            · obtain ⟨m, hm, em⟩ := lastOr_mem none G hGn
              rw [e, em] at heq
              have hmn : n.addr = m.addr := by injection heq
              have := hnd0
              rw [List.map_append, List.nodup_append] at this
              exact this.2.2 (List.mem_map_of_mem _ hm) (hmn ▸ List.mem_map_of_mem _ hn)
          rw [if_neg hne, hlp, lastOr_append_of_ne_nil none G P hPn]
          exact (lastOr_append_of_ne_nil none (G ++ [(⟨a, c⟩ : job_queue_node)]) P hPn).symm
  | pop =>
    cases hjq : q.job_queue with
    | nil =>
      refine ⟨q, by simp [QOp.apply, pop_queued_job, hjq], ?_⟩
      have hG0 : G = [] := by
        have := hq.symm; rw [hjq] at this; exact (List.append_eq_nil.mp this).1
      have hP0 : P = [] := by
        have := hq.symm; rw [hjq] at this; exact (List.append_eq_nil.mp this).2
      subst hG0 hP0
      refine ⟨[], [], hq, ?_, ?_, hnd, hlg, hlp⟩
      · simp [SegQueue.apply, ← hG]
      · simp [SegQueue.apply, ← hG, ← hP]
    | cons job rest =>
      have hndj : ((job :: rest).map (·.addr)).Nodup := by rw [← hjq]; exact hnd
      cases G with
      | nil =>
        have hPe : P = job :: rest := by rw [← hjq, hq]; rfl
        have hq' : q.job_queue = job :: ([] ++ rest) := by rw [hjq]; rfl
        have e1 : (if q.last_queued_get = some job.addr then none else q.last_queued_get)
            = lastOr none [] := by
          rw [hlg]; simp [lastOr]
        have e2 : (if q.last_queued_post = some job.addr then none else q.last_queued_post)
            = lastOr none ([] ++ rest) := by
          rw [hlp, hPe]
          exact pop_ptr job rest hndj
        refine ⟨⟨[] ++ rest, lastOr none [], lastOr none ([] ++ rest)⟩,
          by simp [QOp.apply, pop_queued_job_cons q job [] rest hq' e1 e2], ?_⟩
        refine ⟨[], rest, rfl, ?_, ?_, (List.nodup_cons.mp hndj).2, rfl, rfl⟩
        · simp [SegQueue.apply, ← hG]
        · simp [SegQueue.apply, ← hG, ← hP, hPe]
      | cons g G' =>
        have hge : g = job ∧ G' ++ P = rest := by
          have : g :: (G' ++ P) = job :: rest := by rw [← hjq, hq]; rfl
          exact List.cons_eq_cons.mp this
        obtain ⟨hg, hrest⟩ := hge
        subst hg
        have hq' : q.job_queue = g :: (G' ++ P) := by rw [hq]; rfl
        have hndG : ((g :: G').map (·.addr)).Nodup :=
          hnd0.sublist ((List.sublist_append_left (g :: G') P).map _)
        have e1 : (if q.last_queued_get = some g.addr then none else q.last_queued_get)
            = lastOr none G' := by
          rw [hlg]; exact pop_ptr g G' hndG
        have e2 : (if q.last_queued_post = some g.addr then none else q.last_queued_post)
            = lastOr none (G' ++ P) := by
          rw [hlp]; exact pop_ptr g (G' ++ P) (by simpa using hnd0)
        refine ⟨⟨G' ++ P, lastOr none G', lastOr none (G' ++ P)⟩,
          by simp [QOp.apply, pop_queued_job_cons q g G' P hq' e1 e2], ?_⟩
        refine ⟨G', P, rfl, ?_, ?_, ?_, rfl, rfl⟩
        · simp [SegQueue.apply, ← hG]
        · simp [SegQueue.apply, ← hG, hP]
        · rw [hrest]; exact (List.nodup_cons.mp hndj).2
  | dequeue c =>
    have hl := dequeue_loop_gets c G P none (fun a ha => by cases ha) hnd0
    refine ⟨dequeue_job q c, rfl, ?_⟩
    by_cases hm : c ∈ G.map (·.conn)
    · rw [if_pos hm] at hl
      have hm' : c ∈ s.gets := hG ▸ hm
      refine ⟨eraseConn c G, P, ?_, ?_, ?_, ?_, ?_, ?_⟩
      · simp [dequeue_job, hq, hlg, hlp, hl]
      · simp [SegQueue.apply, hm', eraseConn_conns, hG]
      · simp [SegQueue.apply, hm', hP]
      · simp only [dequeue_job, hq, hlg, hlp, hl]
        exact hnd0.sublist (((eraseConn_sublist c G).append (List.Sublist.refl P)).map _)
      · simp [dequeue_job, hq, hlg, hlp, hl]
      · simp [dequeue_job, hq, hlg, hlp, hl]
    · rw [if_neg hm] at hl
      have hm' : c ∉ s.gets := hG ▸ hm
      refine ⟨G, eraseConn c P, ?_, ?_, ?_, ?_, ?_, ?_⟩
      · simp [dequeue_job, hq, hlg, hlp, hl]
      · simp [SegQueue.apply, hm', hG]
      · simp [SegQueue.apply, hm', ← hP, eraseConn_conns]
      · simp only [dequeue_job, hq, hlg, hlp, hl]
        exact hnd0.sublist (((List.Sublist.refl G).append (eraseConn_sublist c P)).map _)
      · simp [dequeue_job, hq, hlg, hlp, hl]
      · simp [dequeue_job, hq, hlg, hlp, hl]

theorem QInv_run (ops : List QOp) (q : JobQueue) (s : SegQueue) (h : QInv q s)
    (hf : allocs_fresh q ops) :
    ∃ q', run_ops q ops = some q' ∧ QInv q' (s.run ops) := by
  induction ops generalizing q s with
  | nil => exact ⟨q, rfl, h⟩
  | cons op rest ih =>
    obtain ⟨hf1, hf2⟩ := hf
    obtain ⟨q1, e1, h1⟩ := QInv_step q s op h hf1
    rw [e1] at hf2
    obtain ⟨q2, e2, h2⟩ := ih q1 (s.apply op) h1 hf2
    exact ⟨q2, by simp [run_ops, e1, e2], by simpa [SegQueue.run] using h2⟩

theorem QInv_conns (q : JobQueue) (s : SegQueue) (h : QInv q s) :
    q.conns = s.gets ++ s.posts := by
  obtain ⟨G, P, hq, hG, hP, -, -, -⟩ := h
  simp [JobQueue.conns, hq, hG, hP]

theorem pop_result (q q' : JobQueue) (r : Option Nat) (h : pop_queued_job q = some (r, q')) :
    r = q.conns.head? ∧ q'.conns = q.conns.tail := by
  unfold pop_queued_job at h
  cases hjq : q.job_queue with
  | nil =>
    rw [hjq] at h
    simp at h
    obtain ⟨h1, h2⟩ := h
    subst h1 h2
    simp [JobQueue.conns, hjq]
  | cons job rest =>
    rw [hjq] at h
    dsimp only at h
    generalize (if q.last_queued_get = some job.addr then none else q.last_queued_get) = lg at h
    generalize (if q.last_queued_post = some job.addr then none else q.last_queued_post) = lp at h
    split at h
    · cases h
    · split at h
      · cases h
      · injection h with h
        injection h with h1 h2
        subst h1 h2
        simp [JobQueue.conns, hjq]

theorem drain_all (fuel : Nat) (q : JobQueue) (s : SegQueue) (h : QInv q s)
    (hfuel : q.job_queue.length ≤ fuel) : drain fuel q = some q.conns := by
  induction fuel generalizing q s with
  | zero =>
    have : q.job_queue = [] := List.length_eq_zero.mp (Nat.le_zero.mp hfuel)
    simp [drain, JobQueue.conns, this]
  | succ n ih =>
    obtain ⟨q1, e1, h1⟩ := QInv_step q s .pop h trivial
    simp only [QOp.apply, Option.map_eq_some'] at e1
    obtain ⟨⟨r, q2⟩, e2, e3⟩ := e1
    simp only at e3
    subst e3
    obtain ⟨hr, hc⟩ := pop_result q q2 r e2
    have hlen : q2.job_queue.length ≤ n := by
      have : q2.conns.length = q.conns.length - 1 := by rw [hc]; simp
      simp only [JobQueue.conns, List.length_map] at this
      omega
    have ih' := ih q2 _ h1 hlen
    rw [drain, e2]
    cases hcs : q.conns with
    | nil =>
      rw [hcs] at hr
      simp at hr
      subst hr
      rfl
    | cons c t =>
      rw [hcs] at hr hc
      simp at hr hc
      subst hr
      simp [ih', hc]

theorem arrivals_append (post : Bool) (a b : List QOp) :
    arrivals post (a ++ b) = arrivals post a ++ arrivals post b := by
  simp [arrivals, List.filterMap_append]

theorem SegQueue_sublist (ops : List QOp) (s : SegQueue) (A B : List Nat)
    (hA : s.gets.Sublist A) (hB : s.posts.Sublist B) :
    (s.run ops).gets.Sublist (A ++ arrivals false ops) ∧
    (s.run ops).posts.Sublist (B ++ arrivals true ops) := by
  induction ops generalizing s A B with
  | nil => simpa [SegQueue.run, arrivals] using ⟨hA, hB⟩
  | cons op rest ih =>
    have hcons : ∀ p, arrivals p (op :: rest) = arrivals p [op] ++ arrivals p rest :=
      fun p => arrivals_append p [op] rest
    rw [hcons, hcons, ← List.append_assoc, ← List.append_assoc]
    have hrun : s.run (op :: rest) = (s.apply op).run rest := rfl
    rw [hrun]
    apply ih
    · cases op with
      | enqueue a c p =>
        cases p with
        | true => simpa [SegQueue.apply, arrivals] using hA
        | false =>
          simp only [SegQueue.apply, arrivals, List.filterMap_cons, List.filterMap_nil]
          exact hA.append (List.Sublist.refl _)
      | pop =>
        simp only [SegQueue.apply, arrivals, List.filterMap_cons, List.filterMap_nil,
          List.append_nil]
        cases hg : s.gets with
        | nil => simp
        | cons x g => rw [hg] at hA; exact (List.sublist_cons_self x g).trans hA
      | dequeue c =>
        simp only [SegQueue.apply, arrivals, List.filterMap_cons, List.filterMap_nil,
          List.append_nil]
        split
        · exact (List.erase_sublist c s.gets).trans hA
        · exact hA
    · cases op with
      | enqueue a c p =>
        cases p with
        | false => simpa [SegQueue.apply, arrivals] using hB
        | true =>
          simp only [SegQueue.apply, arrivals, List.filterMap_cons, List.filterMap_nil]
          exact hB.append (List.Sublist.refl _)
      | pop =>
        simp only [SegQueue.apply, arrivals, List.filterMap_cons, List.filterMap_nil,
          List.append_nil]
        cases hg : s.gets with
        | nil => exact (List.tail_sublist s.posts).trans hB
        | cons x g => exact hB
      | dequeue c =>
        simp only [SegQueue.apply, arrivals, List.filterMap_cons, List.filterMap_nil,
          List.append_nil]
        split
        · exact hB
        · exact (List.erase_sublist c s.posts).trans hB

/-- C3: after any sequence of `queue_new_job`, `pop_queued_job` and
`dequeue_job` calls from the empty queue (the allocator handing out node
addresses that are not linked in the queue), no assertion fails, and the
linked list holds the pending GET sessions followed by the pending POST
sessions, each segment a subsequence of its arrivals in arrival order;
popping until the queue is empty therefore returns the GETs in arrival
order and then the POSTs in arrival order. -/
theorem job_queue_gets_before_posts (ops : List QOp)
    (hfresh : allocs_fresh JobQueue.empty ops) :
    ∃ q, run_ops JobQueue.empty ops = some q ∧
      q.conns = (SegQueue.run ⟨[], []⟩ ops).gets ++ (SegQueue.run ⟨[], []⟩ ops).posts ∧
      (SegQueue.run ⟨[], []⟩ ops).gets.Sublist (arrivals false ops) ∧
      (SegQueue.run ⟨[], []⟩ ops).posts.Sublist (arrivals true ops) ∧
      ∀ fuel, q.job_queue.length ≤ fuel →
        drain fuel q
          = some ((SegQueue.run ⟨[], []⟩ ops).gets ++ (SegQueue.run ⟨[], []⟩ ops).posts) := by
  have h0 : QInv JobQueue.empty ⟨[], []⟩ :=
    ⟨[], [], rfl, rfl, rfl, by simp [JobQueue.empty], rfl, rfl⟩
  obtain ⟨q, e, hq⟩ := QInv_run ops _ _ h0 hfresh
  have hs := SegQueue_sublist ops ⟨[], []⟩ [] [] (List.Sublist.refl _) (List.Sublist.refl _)
  refine ⟨q, e, QInv_conns q _ hq, by simpa using hs.1, by simpa using hs.2, ?_⟩
  intro fuel hfuel
  rw [drain_all fuel q _ hq hfuel, QInv_conns q _ hq]

/-- Witness for C3: a POST, two GETs and another POST arrive, the second GET
is withdrawn, one more GET arrives and the head is popped. -/
theorem job_queue_gets_before_posts_witness :
    allocs_fresh JobQueue.empty
        [.enqueue 1 10 true, .enqueue 2 11 false, .enqueue 3 12 false, .enqueue 4 13 true,
         .dequeue 12, .enqueue 3 14 false, .pop] ∧
    ∃ q, run_ops JobQueue.empty
        [.enqueue 1 10 true, .enqueue 2 11 false, .enqueue 3 12 false, .enqueue 4 13 true,
         .dequeue 12, .enqueue 3 14 false, .pop] = some q ∧
      q.conns = [14, 10, 13] :=
  have hf : allocs_fresh JobQueue.empty
        [.enqueue 1 10 true, .enqueue 2 11 false, .enqueue 3 12 false, .enqueue 4 13 true,
         .dequeue 12, .enqueue 3 14 false, .pop] := by
    simp [allocs_fresh, QOp.apply, queue_new_job, link_after, dequeue_job, dequeue_job_loop,
      pop_queued_job, JobQueue.empty, JobQueue.addrs]
  ⟨hf, by
    obtain ⟨q, e, hc, -⟩ := job_queue_gets_before_posts _ hf
    refine ⟨q, e, ?_⟩
    rw [hc]
    decide⟩

/-! ### The session state machine: invariant of every run -/

theorem monitor_append (log : List log_line) (l : List log_line) :
    monitor (log ++ l) = l.foldl monitor_step (monitor log) := by
  simp [monitor, List.foldl_append]

theorem SInv_fresh (d : daemon) (self newfd cn : Nat) : SInv (World.fresh d self newfd cn) := by
  simp only [SInv, World.fresh, new_lcs]
  refine ⟨rfl, ?_⟩
  constructor <;> simp [quiet, body_send]

theorem SInv_close (w : World) (ph : Phase) (hm : monitor w.log = some ph)
    (hp : ph = .idle ∨ ph = .submitted) : SInv (close_local_connection w) := by
  simp only [SInv, close_local_connection, Bool.false_eq_true, if_false, monitor_append, hm,
    List.foldl_cons, List.foldl_nil]
  rcases hp with rfl | rfl <;> rfl

theorem close_live (w : World) : (close_local_connection w).live = false := rfl

theorem sys_recv_out (s : Socket) (len : Nat) (io : Sys) : (sys_recv s len io).2.out = s.out := by
  unfold sys_recv
  cases io with
  | fail => rfl
  | again => rfl
  | xfer k =>
    simp only
    split
    · rfl
    · split
      · rfl
      · split <;> rfl

theorem close_sock (w : World) : (close_local_connection w).sock = w.sock := rfl

/-- The shape of every result of `recv_all_nonblock`: the session differs
from the one before in its receive scratch only, unless it was closed. -/
theorem recv_all_nonblock_shape (w : World) (n : Nat) (io : Sys) :
    ∃ a b m s', s'.out = w.sock.out ∧ (
      (recv_all_nonblock w n io =
          (close_local_connection { w with
            conn := { w.conn with current_data := a, current_offset := b, current_size := m },
            sock := s' }, false)) ∨
      (recv_all_nonblock w n io =
          ({ w with
            conn := { w.conn with current_data := a, current_offset := b, current_size := m },
            sock := s' }, false)) ∨
      (recv_all_nonblock w n io =
          ({ w with
            conn := { w.conn with current_data := a, current_offset := b, current_size := m },
            sock := s' }, true) ∧ m = 0)) := by
  unfold recv_all_nonblock
  by_cases hcd : w.conn.current_data.isNone = true
  · simp only [hcd, if_true]
    cases hr : sys_recv w.sock n io with
    | mk r s' =>
      have ho : s'.out = w.sock.out := by
        have h1 := congrArg (fun p => p.2.out) hr
        simp only [sys_recv_out] at h1; exact h1.symm
      cases r with
      | zero => exact ⟨some [], 0, n, s', ho, Or.inl rfl⟩
      | again => exact ⟨some [], 0, n, s', ho, Or.inr (Or.inl rfl)⟩
      | error => exact ⟨some [], 0, n, s', ho, Or.inr (Or.inl rfl)⟩
      | data bs =>
        simp only
        by_cases h0 : n - bs.length = 0
        · refine ⟨Option.map (· ++ bs) (some []), 0 + bs.length, n - bs.length, s', ho,
            Or.inr (Or.inr ⟨?_, h0⟩)⟩
          simp [h0]
        · refine ⟨Option.map (· ++ bs) (some []), 0 + bs.length, n - bs.length, s', ho,
            Or.inr (Or.inl ?_)⟩
          simp [h0]
  · simp only [hcd, Bool.false_eq_true, if_false]
    cases hr : sys_recv w.sock w.conn.current_size io with
    | mk r s' =>
      have ho : s'.out = w.sock.out := by
        have h1 := congrArg (fun p => p.2.out) hr
        simp only [sys_recv_out] at h1; exact h1.symm
      cases r with
      | zero =>
        refine ⟨w.conn.current_data, w.conn.current_offset, w.conn.current_size, s', ho, Or.inl ?_⟩
        rfl
      | again =>
        refine ⟨w.conn.current_data, w.conn.current_offset, w.conn.current_size, s', ho,
          Or.inr (Or.inl ?_)⟩
        rfl
      | error =>
        refine ⟨w.conn.current_data, w.conn.current_offset, w.conn.current_size, s', ho,
          Or.inr (Or.inl ?_)⟩
        rfl
      | data bs =>
        simp only
        by_cases h0 : w.conn.current_size - bs.length = 0
        · refine ⟨Option.map (· ++ bs) w.conn.current_data, w.conn.current_offset + bs.length,
            w.conn.current_size - bs.length, s', ho, Or.inr (Or.inr ⟨?_, h0⟩)⟩
          simp [h0]
        · refine ⟨Option.map (· ++ bs) w.conn.current_data, w.conn.current_offset + bs.length,
            w.conn.current_size - bs.length, s', ho, Or.inr (Or.inl ?_)⟩
          simp [h0]

/-- The shape of every result of `send_all_nonblock`. -/
theorem send_all_nonblock_shape (w : World) (data : Bytes) (n : Nat) (io : Sys) :
    ∃ sb b m s',
      (send_all_nonblock w data n io =
          (close_local_connection { w with
            conn := { w.conn with send_buffer := sb, current_offset := b, current_size := m },
            log := w.log ++ [.send_error] }, false)) ∨
      (send_all_nonblock w data n io =
          ({ w with
            conn := { w.conn with send_buffer := sb, current_offset := b, current_size := m },
            sock := s' }, false) ∧ sb ≠ none) ∨
      (send_all_nonblock w data n io =
          ({ w with
            conn := { w.conn with send_buffer := none, current_offset := b, current_size := m },
            sock := s' }, true)) := by
  unfold send_all_nonblock
  by_cases hsb : w.conn.send_buffer.isNone = true
  · simp only [hsb, if_true]
    cases io with
    | fail => exact ⟨_, _, _, w.sock, Or.inl rfl⟩
    | again => exact ⟨some data, 0, n, w.sock, Or.inr (Or.inl ⟨rfl, by simp⟩)⟩
    | xfer k =>
      simp only
      by_cases h0 : n - min k n = 0
      · simp only [h0, ne_eq, not_true_eq_false, if_false]
        exact ⟨none, _, _, _, Or.inr (Or.inr rfl)⟩
      · simp only [h0, ne_eq, not_false_eq_true, if_true]
        exact ⟨some data, _, _, _, Or.inr (Or.inl ⟨rfl, by simp⟩)⟩
  · simp only [hsb, Bool.false_eq_true, if_false]
    have hne : w.conn.send_buffer ≠ none := by
      intro h; rw [h] at hsb; simp at hsb
    cases io with
    | fail =>
      exact ⟨w.conn.send_buffer, w.conn.current_offset, w.conn.current_size, w.sock, Or.inl rfl⟩
    | again =>
      exact ⟨w.conn.send_buffer, w.conn.current_offset, w.conn.current_size, w.sock,
        Or.inr (Or.inl ⟨rfl, hne⟩)⟩
    | xfer k =>
      simp only
      by_cases h0 : w.conn.current_size - min k w.conn.current_size = 0
      · simp only [h0, ne_eq, not_true_eq_false, if_false]
        exact ⟨none, _, _, _, Or.inr (Or.inr rfl)⟩
      · simp only [h0, ne_eq, not_false_eq_true, if_true]
        exact ⟨w.conn.send_buffer, _, _, _, Or.inr (Or.inl ⟨rfl, hne⟩)⟩

theorem recv_all_nonblock_init (w : World) (io : Sys)
    (hr : w.conn.current_data = none ∨ (w.conn.current_data = some [] ∧ w.conn.current_size = 1)) :
    ∃ b s', s'.out = w.sock.out ∧ (
      (recv_all_nonblock w 1 io =
          (close_local_connection { w with
            conn := { w.conn with current_data := some [], current_offset := b, current_size := 1 },
            sock := s' }, false)) ∨
      (recv_all_nonblock w 1 io =
          ({ w with
            conn := { w.conn with current_data := some [], current_offset := b, current_size := 1 },
            sock := s' }, false)) ∨
      (∃ x, recv_all_nonblock w 1 io =
          ({ w with
            conn := { w.conn with current_data := some [x], current_offset := b, current_size := 0 },
            sock := s' }, true) ∧ w.sock.inq = x :: s'.inq)) := by
  have key : ∀ bs s', sys_recv w.sock 1 io = (RecvResult.data bs, s') →
      ∃ x, bs = [x] ∧ w.sock.inq = x :: s'.inq := by
    intro bs s' hrecv
    unfold sys_recv at hrecv
    cases io with
    | fail => simp at hrecv
    | again => simp at hrecv
    | xfer k =>
      simp only at hrecv
      split at hrecv
      · split at hrecv <;> simp at hrecv
      · split at hrecv
        · simp at hrecv
        · split at hrecv
          · simp at hrecv
          · rename_i h1 h2 h3
            have hk : min k 1 = 1 := by omega
            rw [hk] at hrecv
            cases hq : w.sock.inq with
            | nil => exact absurd hq h1
            | cons x t =>
              rw [hq] at hrecv
              simp at hrecv
              exact ⟨x, hrecv.1.symm, by rw [← hrecv.2]⟩
  unfold recv_all_nonblock
  rcases hr with hr | ⟨hr, hsz⟩
  · simp only [hr, Option.isNone_none, if_true]
    cases hrecv : sys_recv w.sock 1 io with
    | mk r s' =>
      have ho : s'.out = w.sock.out := by
        have h1 := congrArg (fun p => p.2.out) hrecv
        simp only [sys_recv_out] at h1; exact h1.symm
      cases r with
      | zero => exact ⟨0, s', ho, Or.inl rfl⟩
      | again => exact ⟨0, s', ho, Or.inr (Or.inl rfl)⟩
      | error => exact ⟨0, s', ho, Or.inr (Or.inl rfl)⟩
      | data bs =>
        obtain ⟨x, hx, hq⟩ := key bs s' hrecv
        subst hx
        exact ⟨0 + 1, s', ho, Or.inr (Or.inr ⟨x, by simp, hq⟩)⟩
  · simp only [hr, Option.isNone_some, Bool.false_eq_true, if_false, hsz]
    cases hrecv : sys_recv w.sock 1 io with
    | mk r s' =>
      have ho : s'.out = w.sock.out := by
        have h1 := congrArg (fun p => p.2.out) hrecv
        simp only [sys_recv_out] at h1; exact h1.symm
      cases r with
      | zero =>
        refine ⟨w.conn.current_offset, s', ho, Or.inl ?_⟩
        rw [← hr, ← hsz]
      | again =>
        refine ⟨w.conn.current_offset, s', ho, Or.inr (Or.inl ?_)⟩
        rw [← hr, ← hsz]
      | error =>
        refine ⟨w.conn.current_offset, s', ho, Or.inr (Or.inl ?_)⟩
        rw [← hr, ← hsz]
      | data bs =>
        obtain ⟨x, hx, hq⟩ := key bs s' hrecv
        subst hx
        exact ⟨w.conn.current_offset + 1, s', ho, Or.inr (Or.inr ⟨x, by simp [hr, hsz], hq⟩)⟩

theorem SInv_pass_recv_init (w : World) (io : Sys) (h : SInv w) (hl : w.live = true)
    (hs : w.conn.dfa_state = STATE_RECV_INIT) : SInv (do_local_comms_step w io).1 := by
  have h' := h
  simp only [SInv, hl, if_true, hs, phase_of] at h'
  obtain ⟨hm, hf⟩ := h'
  have hq := hf.quiet_clean (by simp [hs, quiet])
  have hri := hf.recv_init hs
  unfold do_local_comms_step
  simp only [hs]
  obtain ⟨b, s', -, hr | hr | ⟨x, hr, -⟩⟩ := recv_all_nonblock_init w io hri
  · rw [hr]
    exact SInv_close _ _ hm (Or.inl rfl)
  · rw [hr]
    simp only [SInv, hl, if_true]
    refine ⟨by simp [hm, hs, phase_of], ?_⟩
    constructor <;> simp [hs, quiet, body_send, hq, phase_of]
  · rw [hr]
    simp only [Option.getD_some, List.headD_cons]
    by_cases h1 : x = 85
    · simp only [h1, if_true, SInv, hl]
      refine ⟨by simp [hm, phase_of], ?_⟩
      constructor <;> simp [quiet, body_send, hq, phase_of]
    by_cases h2 : x = 72
    · simp only [h2, if_true, SInv, hl]
      refine ⟨by simp [hm, phase_of], ?_⟩
      constructor <;> simp [quiet, body_send, hq, phase_of]
    by_cases h3 : x = 70
    · simp only [h3, if_true, SInv, hl]
      refine ⟨by simp [hm, phase_of], ?_⟩
      constructor <;> simp [quiet, body_send, hq, phase_of]
    by_cases h4 : x = 65
    · simp only [h4, if_true, SInv, hl]
      refine ⟨by simp [hm, phase_of], ?_⟩
      constructor <;> simp [quiet, body_send, hq, phase_of]
    by_cases h5 : x = 82
    · simp only [h5]
      by_cases hu : w.conn.url.isNone = true
      · simp only [hu, if_true, SInv, hl]
        refine ⟨by simp [hm, phase_of, monitor_append, monitor_step], ?_⟩
        constructor <;> simp [quiet, body_send, hq, phase_of]
      · simp only [hu, Bool.false_eq_true, if_false]
        cases hqn : queue_new_job w.d.jq w.heap w.conn.self (!w.conn.post.isEmpty) with
        | none =>
          simp only [SInv, hl, if_true]
          refine ⟨by simp [hm, phase_of, monitor_append, monitor_step], ?_⟩
          constructor <;> simp [quiet, body_send, hq, phase_of]
        | some jq =>
          simp only [SInv, hl, if_true]
          refine ⟨by simp [hm, phase_of, monitor_append, monitor_step], ?_⟩
          constructor <;> simp [quiet, body_send, hq, phase_of]
    · simp only [h1, h2, h3, h4, h5, if_false]
      refine SInv_close _ .idle ?_ (Or.inl rfl)
      simp [monitor_append, hm, monitor_step]

theorem SInv_pass_recv_size (w : World) (io : Sys) (h : SInv w) (hl : w.live = true)
    (hs : w.conn.dfa_state = STATE_RECV_SIZE) : SInv (do_local_comms_step w io).1 := by
  have h' := h
  simp only [SInv, hl, if_true, hs, phase_of] at h'
  obtain ⟨hm, hf⟩ := h'
  have hq := hf.quiet_clean (by simp [hs, quiet])
  have hn := hf.recv_size_next hs
  unfold do_local_comms_step
  simp only [hs]
  obtain ⟨a, b, m, s', -, hr | hr | ⟨hr, -⟩⟩ := recv_all_nonblock_shape w 4 io
  · rw [hr]
    exact SInv_close _ _ hm (Or.inl rfl)
  · rw [hr]
    simp only [SInv, hl, if_true]
    refine ⟨by simp [hm, hs, phase_of], ?_⟩
    constructor <;> first | exact (fun _ => hn) | simp [hs, quiet, body_send, hq]
  · rw [hr]
    simp only [SInv, hl, if_true]
    refine ⟨by simp [hm, hn], ?_⟩
    cases hnx : w.conn.dfa_next_state <;> simp [hnx, phase_of] at hn <;>
      constructor <;> simp [hnx, quiet, body_send, hq, phase_of]

theorem SInv_pass_recv_field (w : World) (io : Sys) (h : SInv w) (hl : w.live = true)
    (hs : w.conn.dfa_state = STATE_RECV_URL ∨ w.conn.dfa_state = STATE_RECV_HEADER ∨
      w.conn.dfa_state = STATE_RECV_FORM_NAME ∨ w.conn.dfa_state = STATE_RECV_FORM_DATA ∨
      w.conn.dfa_state = STATE_RECV_ATTACHMENT_NAME ∨
      w.conn.dfa_state = STATE_RECV_ATTACHMENT_FILE ∨
      w.conn.dfa_state = STATE_RECV_ATTACHMENT_FILENAME) :
    SInv (do_local_comms_step w io).1 := by
  have h' := h
  simp only [SInv, hl, if_true] at h'
  obtain ⟨hm, hf⟩ := h'
  have hq := hf.quiet_clean (by rcases hs with hs | hs | hs | hs | hs | hs | hs <;> simp [hs, quiet])
  have hm' : monitor w.log = some .idle := by
    rcases hs with hs | hs | hs | hs | hs | hs | hs <;> simpa [hs, phase_of] using hm
  obtain ⟨a, b, m, s', -, hr | hr | ⟨hr, -⟩⟩ := recv_all_nonblock_shape w w.conn.current_size io
  · have : (do_local_comms_step w io).1 = close_local_connection { w with
        conn := { w.conn with current_data := a, current_offset := b, current_size := m },
        sock := s' } := by
      unfold do_local_comms_step
      rcases hs with hs | hs | hs | hs | hs | hs | hs <;> simp only [hs] <;> rw [hr] <;> simp [hs]
    rw [this]
    exact SInv_close _ _ hm' (Or.inl rfl)
  · have : (do_local_comms_step w io).1 = { w with
        conn := { w.conn with current_data := a, current_offset := b, current_size := m },
        sock := s' } := by
      unfold do_local_comms_step
      rcases hs with hs | hs | hs | hs | hs | hs | hs <;> simp only [hs] <;> rw [hr] <;> simp [hs]
    rw [this]
    simp only [SInv, hl, if_true]
    refine ⟨by rcases hs with hs | hs | hs | hs | hs | hs | hs <;> simp [hm', hs, phase_of], ?_⟩
    rcases hs with hs | hs | hs | hs | hs | hs | hs <;>
      constructor <;> simp [hs, quiet, body_send, hq, phase_of]
  · have : (do_local_comms_step w io).1 = { w with
        conn := { field_complete
            { w.conn with current_data := a, current_offset := b, current_size := m }
            (a.getD []) with current_data := none },
        sock := s' } := by
      unfold do_local_comms_step
      rcases hs with hs | hs | hs | hs | hs | hs | hs <;> simp only [hs] <;> rw [hr] <;> simp [hs]
    rw [this]
    simp only [SInv, hl, if_true]
    rcases hs with hs | hs | hs | hs | hs | hs | hs <;>
      simp only [field_complete, hs, set_url, add_header, add_form_data, reset_response] <;>
      refine ⟨by simp [hm', phase_of], ?_⟩ <;>
      constructor <;> simp [quiet, body_send, hq, phase_of]

theorem SInv_pass_attachment_complete (w : World) (io : Sys) (h : SInv w) (hl : w.live = true)
    (hs : w.conn.dfa_state = STATE_RECV_ATTACHMENT_COMPLETE) :
    SInv (do_local_comms_step w io).1 := by
  have h' := h
  simp only [SInv, hl, if_true, hs, phase_of] at h'
  obtain ⟨hm, hf⟩ := h'
  have hq := hf.quiet_clean (by simp [hs, quiet])
  have hb := hf.no_buffer (by simp [hs])
  unfold do_local_comms_step
  simp only [hs, SInv, hl, if_true]
  refine ⟨by simp [hm, phase_of], ?_⟩
  unfold add_form_attachment
  split
  · constructor <;> simp [quiet, body_send, hq, phase_of, hb]
  · split
    · constructor <;> simp [quiet, body_send, hq, phase_of, hb]
    · constructor <;> simp [quiet, body_send, hq, phase_of, hb, reset_response]

theorem next_part_kind (l : List response_part) :
    (next_part l).1 = none ∨
    (∃ h hs d ds, (next_part l).1 = some (.body h hs d ds)) ∨
    (∃ h hs f t, (next_part l).1 = some (.attachment h hs f t)) := by
  induction l with
  | nil => exact Or.inl rfl
  | cons p t ih =>
    unfold next_part
    split
    · exact Or.inr (Or.inl ⟨_, _, _, _, rfl⟩)
    · split
      · exact Or.inr (Or.inr ⟨_, _, _, _, rfl⟩)
      · exact ih

theorem packet_built_pending (c : local_connection_state)
    (hb : c.response_begun = true → c.response.isSome = true) (hd : c.dr = none) :
    PendingPacket (packet_built c) ∧ (packet_built c).dfa_state = c.dfa_state ∧
      (packet_built c).send_buffer = c.send_buffer := by
  unfold packet_built get_response PendingPacket
  cases hr : c.response with
  | none =>
    have hbf : c.response_begun = false := by
      cases hbb : c.response_begun with
      | false => rfl
      | true => have := hb hbb; rw [hr] at this; simp at this
    simp only [build_packet]
    refine ⟨⟨_, rfl, ?_⟩, ?_, ?_⟩ <;> simp [is_terminal, hd, hr, hbf]
  | some r =>
    cases hbb : c.response_begun with
    | false =>
      simp only [Bool.not_false, if_true]
      cases hc : r.complete with
      | false =>
        simp only [Bool.not_false, if_true, build_packet]
        refine ⟨⟨_, rfl, ?_⟩, ?_, ?_⟩ <;> simp [is_terminal, hd, hr, hbb]
      | true =>
        simp only [Bool.not_true, Bool.false_eq_true, if_false, build_packet]
        refine ⟨⟨_, rfl, ?_⟩, ?_, ?_⟩ <;> simp [is_terminal, hd, hr, hbb]
    | true =>
      simp only [Bool.not_true, Bool.false_eq_true, if_false]
      rcases next_part_kind c.current_part with hn | ⟨h, hs, d, ds, hn⟩ | ⟨h, hs, f, t, hn⟩
      · have : next_part c.current_part = (none, (next_part c.current_part).2) := by
          rw [← hn]
        rw [this]
        simp only [build_packet]
        refine ⟨⟨_, rfl, ?_⟩, ?_, ?_⟩ <;> simp [is_terminal, hd, hr, hbb]
      · have : next_part c.current_part = (some (.body h hs d ds), (next_part c.current_part).2) := by
          rw [← hn]
        rw [this]
        simp only [daemon_responses.code, build_packet]
        refine ⟨⟨_, rfl, ?_⟩, ?_, ?_⟩ <;> simp [is_terminal, hd, hr, hbb]
      · have : next_part c.current_part
            = (some (.attachment h hs f t), (next_part c.current_part).2) := by
          rw [← hn]
        rw [this]
        simp only [daemon_responses.code, build_packet]
        refine ⟨⟨_, rfl, ?_⟩, ?_, ?_⟩ <;> simp [is_terminal, hd, hr, hbb]

theorem SInv_pass_send_init (w : World) (io : Sys) (h : SInv w) (hl : w.live = true)
    (hs : w.conn.dfa_state = STATE_SEND_INIT) : SInv (do_local_comms_step w io).1 := by
  have h' := h
  simp only [SInv, hl, if_true, hs, phase_of] at h'
  obtain ⟨hm, hf⟩ := h'
  -- the session once the packet is there
  obtain ⟨c0, hc0, hp, hs0⟩ : ∃ c0 : local_connection_state,
      (do_local_comms_step w io).1 =
        (match send_all_nonblock { w with conn := c0 } (c0.current_data.getD [])
            c0.current_size io with
          | (w, false) => (w, Flow.ret)
          | (w, true) =>
            ({ w with conn := { w.conn with dfa_state := w.conn.dfa_next_state,
                                            current_data := none },
                      log := w.log ++ [log_line.sent ((w.conn.current_data.getD []).headD 0)] },
              Flow.cont)).1 ∧
      PendingPacket c0 ∧ c0.dfa_state = STATE_SEND_INIT := by
    by_cases hsb : w.conn.send_buffer.isNone = true
    · have hsn : w.conn.send_buffer = none := by simpa using hsb
      obtain ⟨hb, hd⟩ := hf.send_init_idle hs hsn
      obtain ⟨hp, hst, -⟩ := packet_built_pending w.conn hb hd
      refine ⟨packet_built w.conn, ?_, hp, by rw [hst, hs]⟩
      unfold do_local_comms_step
      simp only [hs, hsb, if_true]
      rfl
    · have hsn : w.conn.send_buffer ≠ none := by
        intro h0; rw [h0] at hsb; simp at hsb
      refine ⟨w.conn, ?_, hf.send_init_busy hs hsn, hs⟩
      unfold do_local_comms_step
      simp only [hs, hsb, Bool.false_eq_true, if_false]
  rw [hc0]
  obtain ⟨p, hcd, hcase⟩ := hp
  obtain ⟨sb, b, m, s', hr | ⟨hr, hsb⟩ | hr⟩ :=
    send_all_nonblock_shape { w with conn := c0 } (c0.current_data.getD []) c0.current_size io
  · rw [hr]
    refine SInv_close _ .submitted ?_ (Or.inr rfl)
    simp [monitor_append, hm, monitor_step]
  · rw [hr]
    simp only [SInv, hl, if_true]
    refine ⟨by simp [hm, hs0, phase_of], ?_⟩
    constructor <;> simp [hs0, quiet, body_send, hsb]
    exact ⟨p, hcd, hcase⟩
  · rw [hr]
    simp only [SInv, hl, if_true, hcd, Option.getD_some, monitor_append, hm, List.foldl_cons,
      List.foldl_nil]
    rcases hcase with ⟨hn, ht, hres, hbg, hdr⟩ | ⟨ht, hbg, hres, (⟨hn, hdr⟩ | hn | hn)⟩ <;>
      rw [List.headD_eq_head?_getD] at ht
    · refine ⟨by simp [hn, monitor_step, ht, phase_of], ?_⟩
      constructor <;> simp [hn, quiet, body_send, hres, hbg, hdr]
    · refine ⟨by simp [hn, monitor_step, ht, phase_of], ?_⟩
      constructor <;> simp [hn, quiet, body_send, hres, hbg, hdr]
    · refine ⟨by simp [hn, monitor_step, ht, phase_of], ?_⟩
      constructor <;> simp [hn, quiet, body_send, hres, hbg]
    · refine ⟨by simp [hn, monitor_step, ht, phase_of], ?_⟩
      constructor <;> simp [hn, quiet, body_send, hres, hbg]

theorem SInv_pass_body_send (w : World) (io : Sys) (h : SInv w) (hl : w.live = true)
    (hs : body_send w.conn.dfa_state = true) : SInv (do_local_comms_step w io).1 := by
  have h' := h
  simp only [SInv, hl, if_true] at h'
  obtain ⟨hm, hf⟩ := h'
  obtain ⟨hbg, hres⟩ := hf.sending (Or.inl hs)
  have hm' : monitor w.log = some .submitted := by
    cases hst : w.conn.dfa_state <;> simp [hst, body_send] at hs <;> simpa [hst, phase_of] using hm
  have hstep : (do_local_comms_step w io).1 =
      (match send_all_nonblock w (send_operand w.conn.dfa_state w.conn.dr).1
          (send_operand w.conn.dfa_state w.conn.dr).2 io with
        | (w, false) => (w, Flow.ret)
        | (w, true) =>
          ({ w with conn := { w.conn with dfa_state := send_successor w.conn.dfa_state } },
            Flow.cont)).1 := by
    unfold do_local_comms_step
    cases hst : w.conn.dfa_state <;> simp [hst, body_send] at hs <;> rfl
  rw [hstep]
  obtain ⟨sb, b, m, s', hr | ⟨hr, hsb⟩ | hr⟩ :=
    send_all_nonblock_shape w (send_operand w.conn.dfa_state w.conn.dr).1
      (send_operand w.conn.dfa_state w.conn.dr).2 io
  · rw [hr]
    refine SInv_close _ .submitted ?_ (Or.inr rfl)
    simp [monitor_append, hm', monitor_step]
  · rw [hr]
    simp only [SInv, hl, if_true]
    cases hst : w.conn.dfa_state <;> simp [hst, body_send] at hs <;>
      refine ⟨by simp [hm', phase_of], ?_⟩ <;>
      constructor <;> simp [quiet, body_send, hbg, hres]
  · rw [hr]
    simp only [SInv, hl, if_true]
    cases hst : w.conn.dfa_state <;> simp [hst, body_send] at hs <;>
      simp only [send_successor] <;>
      refine ⟨by simp [hm', phase_of], ?_⟩ <;>
      constructor <;> simp [quiet, body_send, hbg, hres]

theorem SInv_pass_rest (w : World) (io : Sys) (h : SInv w) (hl : w.live = true)
    (hs : w.conn.dfa_state = STATE_WAITING ∨ w.conn.dfa_state = STATE_INPROGRESS ∨
      w.conn.dfa_state = STATE_SEND_DR_DONE ∨ w.conn.dfa_state = STATE_RESET) :
    SInv (do_local_comms_step w io).1 := by
  have h' := h
  simp only [SInv, hl, if_true] at h'
  obtain ⟨hm, hf⟩ := h'
  rcases hs with hs | hs | hs | hs
  · have : (do_local_comms_step w io).1 = w := by unfold do_local_comms_step; simp only [hs]
    rw [this]; exact h
  · have : (do_local_comms_step w io).1 = w := by unfold do_local_comms_step; simp only [hs]
    rw [this]; exact h
  · obtain ⟨hbg, hres⟩ := hf.sending (Or.inr hs)
    unfold do_local_comms_step
    simp only [hs, SInv, hl, if_true]
    refine ⟨by simpa [hs, phase_of] using hm, ?_⟩
    constructor <;> simp [quiet, body_send, hbg, hres, hf.dr_done hs]
  · have hq := hf.quiet_clean (by simp [hs, quiet])
    unfold do_local_comms_step
    simp only [hs, SInv, hl, if_true, cleanup_form, monitor_append]
    refine ⟨by simp [show monitor w.log = some .terminated by simpa [hs, phase_of] using hm,
      monitor_step, phase_of], ?_⟩
    constructor <;> simp [quiet, body_send, hq, hf.no_buffer (Or.inr (Or.inr (Or.inl hs)))]

/-- Every pass through the loop of `do_local_comms` keeps the invariant. -/
theorem SInv_pass (w : World) (io : Sys) (h : SInv w) (hl : w.live = true) :
    SInv (do_local_comms_step w io).1 := by
  cases hs : w.conn.dfa_state
  case STATE_RECV_INIT => exact SInv_pass_recv_init w io h hl hs
  case STATE_RECV_SIZE => exact SInv_pass_recv_size w io h hl hs
  case STATE_RECV_ATTACHMENT_COMPLETE => exact SInv_pass_attachment_complete w io h hl hs
  case STATE_SEND_INIT => exact SInv_pass_send_init w io h hl hs
  case STATE_WAITING => exact SInv_pass_rest w io h hl (by simp [hs])
  case STATE_INPROGRESS => exact SInv_pass_rest w io h hl (by simp [hs])
  case STATE_SEND_DR_DONE => exact SInv_pass_rest w io h hl (by simp [hs])
  case STATE_RESET => exact SInv_pass_rest w io h hl (by simp [hs])
  case STATE_SEND_DATA_HEADER => exact SInv_pass_body_send w io h hl (by simp [hs, body_send])
  case STATE_SEND_DATA_BODY => exact SInv_pass_body_send w io h hl (by simp [hs, body_send])
  case STATE_SEND_ATTACHMENT_HEADER =>
    exact SInv_pass_body_send w io h hl (by simp [hs, body_send])
  case STATE_SEND_ATTACHMENT_FAILNAME =>
    exact SInv_pass_body_send w io h hl (by simp [hs, body_send])
  case STATE_SEND_ATTACHMENT_TMPFILENAME =>
    exact SInv_pass_body_send w io h hl (by simp [hs, body_send])
  all_goals exact SInv_pass_recv_field w io h hl (by simp [hs])

/-- Every event keeps the invariant. -/
theorem SInv_step (w : World) (ev : SessionEvent) (h : SInv w) : SInv (session_step w ev) := by
  cases ev with
  | pass io =>
    simp only [session_step]
    split
    · exact SInv_pass w io h (by assumption)
    · exact h
  | client_send bs => exact h
  | client_close => exact h
  | globals d => exact h
  | host shm => exact h
  | dispatched i =>
    simp only [session_step]
    split
    · rename_i hc
      obtain ⟨hl, hs⟩ := hc
      have h' := h
      simp only [SInv, hl, if_true] at h'
      obtain ⟨hm, hf⟩ := h'
      have hq := hf.quiet_clean (by simp [hs, quiet])
      simp only [SInv, hl, if_true, dispatch_effect]
      refine ⟨by simpa [hs, phase_of] using hm, ?_⟩
      constructor <;> simp [quiet, body_send, hq, hf.no_buffer (Or.inl hs)]
    · exact h
  | completed r =>
    simp only [session_step]
    split
    · rename_i hc
      obtain ⟨hl, hs⟩ := hc
      have h' := h
      simp only [SInv, hl, if_true] at h'
      obtain ⟨hm, hf⟩ := h'
      have hq := hf.quiet_clean (by simp [hs, quiet])
      simp only [SInv, hl, if_true, completion_effect]
      refine ⟨by simpa [hs, phase_of] using hm, ?_⟩
      constructor <;> simp [quiet, body_send, hq]
    · exact h

/-- The invariant holds after every run from a freshly accepted session. -/
theorem SInv_run (d : daemon) (self newfd cn : Nat) (evs : List SessionEvent) :
    SInv (run_events (World.fresh d self newfd cn) evs) := by
  have key : ∀ (evs : List SessionEvent) (w : World), SInv w → SInv (run_events w evs) := by
    intro evs
    induction evs with
    | nil => intro w h; exact h
    | cons ev rest ih => intro w h; exact ih _ (SInv_step w ev h)
  exact key evs _ (SInv_fresh d self newfd cn)

theorem recv_all_nonblock_out (w : World) (n : Nat) (io : Sys) :
    (recv_all_nonblock w n io).1.sock.out = w.sock.out := by
  obtain ⟨a, b, m, s', ho, hr | hr | ⟨hr, -⟩⟩ := recv_all_nonblock_shape w n io <;>
    rw [hr] <;> exact ho

/-- A pass in a state that stands for the idle or the terminated phase
writes nothing to the client. -/
theorem pass_out_quiet (w : World) (io : Sys) (hq : quiet w.conn.dfa_state = true) :
    (do_local_comms_step w io).1.sock.out = w.sock.out := by
  unfold do_local_comms_step
  cases hs : w.conn.dfa_state <;> simp [hs, quiet] at hq <;> simp only []
  case STATE_RECV_INIT =>
    have := recv_all_nonblock_out w 1 io
    cases hr : recv_all_nonblock w 1 io with
    | mk w' ready =>
      rw [hr] at this
      cases ready
      · simpa using this
      · simp only []
        split_ifs <;> first | (simp only [close_sock]; exact this) | exact this | skip
        split <;> exact this
  case STATE_RECV_SIZE =>
    have := recv_all_nonblock_out w 4 io
    cases hr : recv_all_nonblock w 4 io with
    | mk w' ready =>
      rw [hr] at this
      cases ready <;> simpa using this
  all_goals
    have := recv_all_nonblock_out w w.conn.current_size io
    cases hr : recv_all_nonblock w w.conn.current_size io with
    | mk w' ready =>
      rw [hr] at this
      cases ready <;> simpa using this

/-- C5: in every run of a session from its acceptance (any passes of
`do_local_comms` with any outcomes of `recv` and `send`, any client
traffic, dispatches and completions) the log is one the protocol monitor
accepts: a frame is logged as sent only after a submit, between a submit
and the return to the receive phase exactly one terminal `'C'`, `'E'` or
`'F'` is sent and no frame follows it; and in any phase other than
"submitted" no event makes the daemon write a byte to the client. -/
theorem exactly_one_terminal_per_request (d : daemon) (self newfd cn : Nat)
    (evs : List SessionEvent) :
    (monitor (run_events (World.fresh d self newfd cn) evs).log).isSome = true ∧
    ∀ ev, monitor (run_events (World.fresh d self newfd cn) evs).log ≠ some .submitted →
      (session_step (run_events (World.fresh d self newfd cn) evs) ev).sock.out
        = (run_events (World.fresh d self newfd cn) evs).sock.out := by
  have h := SInv_run d self newfd cn evs
  generalize run_events (World.fresh d self newfd cn) evs = w at h
  constructor
  · unfold SInv at h
    split at h
    · rw [h.1]; rfl
    · rw [h]; rfl
  · intro ev hph
    cases ev with
    | pass io =>
      simp only [session_step]
      split
      · rename_i hl
        simp only [SInv, hl, if_true] at h
        apply pass_out_quiet
        cases hs : w.conn.dfa_state <;> simp [quiet] <;>
          exact hph (by rw [h.1, hs]; rfl)
      · rfl
    | client_send bs => rfl
    | client_close => rfl
    | globals d => rfl
    | host shm => rfl
    | dispatched i => simp only [session_step]; split <;> rfl
    | completed r => simp only [session_step]; split <;> rfl

/-! ### Single passes with a system call that transfers the whole buffer -/

theorem do_local_comms_succ (fuel : Nat) (w : World) (oracle : List Sys) :
    do_local_comms (fuel + 1) w oracle =
      match do_local_comms_step w (oracle.headD .again) with
      | (w', .ret) => some (w', if uses_io w.conn.dfa_state then oracle.tail else oracle)
      | (w', .cont) =>
        do_local_comms fuel w' (if uses_io w.conn.dfa_state then oracle.tail else oracle) := rfl

theorem recv_init_full (w : World) (x : Nat) (rest : Bytes) (k : Nat) (hk : 1 ≤ k)
    (hinq : w.sock.inq = x :: rest)
    (hri : w.conn.current_data = none ∨ (w.conn.current_data = some [] ∧ w.conn.current_size = 1)) :
    ∃ b, recv_all_nonblock w 1 (.xfer k) =
      ({ w with
          conn := { w.conn with current_data := some [x], current_offset := b, current_size := 0 },
          sock := { w.sock with inq := rest } }, true) := by
  have hs : sys_recv w.sock 1 (.xfer k) = (.data [x], { w.sock with inq := rest }) := by
    unfold sys_recv
    have hk' : min k 1 = 1 := by omega
    have hk0 : k ≠ 0 := by omega
    simp [hinq, hk', hk0]
  unfold recv_all_nonblock
  rcases hri with hr | ⟨hr, hsz⟩
  · simp only [hr, Option.isNone_none, if_true, hs]
    exact ⟨0 + 1, by simp⟩
  · simp only [hr, Option.isNone_some, Bool.false_eq_true, if_false, hsz, hs]
    exact ⟨w.conn.current_offset + 1, by simp [hsz]⟩

theorem send_full (w : World) (data : Bytes) (n k : Nat) (hk : n ≤ k)
    (hsb : w.conn.send_buffer = none) :
    send_all_nonblock w data n (.xfer k) =
      ({ w with
          conn := { w.conn with send_buffer := none, current_offset := n, current_size := 0 },
          sock := { w.sock with out := w.sock.out ++ data.take n } }, true) := by
  unfold send_all_nonblock
  have hmin : min k n = n := by omega
  simp [hsb, hmin]

theorem pass_send_init_full (w : World) (k : Nat) (hs : w.conn.dfa_state = STATE_SEND_INIT)
    (hsb : w.conn.send_buffer = none)
    (hk : (build_packet (get_response w.conn).1 (get_response w.conn).2.dr).1.length ≤ k) :
    do_local_comms_step w (.xfer k) =
      ({ w with
          conn := { packet_built w.conn with
            dfa_state := (packet_built w.conn).dfa_next_state
            current_data := none
            send_buffer := none
            current_offset := (build_packet (get_response w.conn).1 (get_response w.conn).2.dr).1.length
            current_size := 0 }
          sock := { w.sock with out := w.sock.out
            ++ (build_packet (get_response w.conn).1 (get_response w.conn).2.dr).1 }
          log := w.log ++ [.sent
            ((build_packet (get_response w.conn).1 (get_response w.conn).2.dr).1.headD 0)] },
        .cont) := by
  have hb : ∀ c : local_connection_state, c.send_buffer = none →
      (packet_built c).send_buffer = none := by
    intro c hc
    unfold packet_built get_response
    split
    · exact hc
    · split
      · split <;> exact hc
      · split <;> exact hc
  unfold do_local_comms_step
  simp only [hs, hsb, Option.isNone_none, if_true]
  have hsf := send_full { w with conn := packet_built w.conn }
    (build_packet (get_response w.conn).1 (get_response w.conn).2.dr).1
    (build_packet (get_response w.conn).1 (get_response w.conn).2.dr).1.length k hk
    (hb w.conn hsb)
  have e : (packet_built w.conn).current_data
      = some (build_packet (get_response w.conn).1 (get_response w.conn).2.dr).1 := rfl
  have e2 : (packet_built w.conn).current_size
      = (build_packet (get_response w.conn).1 (get_response w.conn).2.dr).1.length := rfl
  show (match send_all_nonblock { w with conn := packet_built w.conn }
      ((packet_built w.conn).current_data.getD []) (packet_built w.conn).current_size (.xfer k) with
    | (w, false) => (w, Flow.ret)
    | (w, true) => _) = _
  rw [e, e2, Option.getD_some, hsf]
  simp [e]

theorem pass_reset (w : World) (io : Sys) (hs : w.conn.dfa_state = STATE_RESET) :
    do_local_comms_step w io =
      ({ w with
          conn := { w.conn with url := none, post := [], mmaps := [], response := none,
                                job_number := (w.conn.job_number + 1) % 4294967296,
                                dfa_state := STATE_RECV_INIT }
          d := { w.d with fds_write := fd_clr w.conn.fd w.d.fds_write }
          log := w.log ++ [.job_complete] }, .cont) := by
  unfold do_local_comms_step
  simp only [hs]
  rfl

theorem pass_recv_init_again (w : World) (hs : w.conn.dfa_state = STATE_RECV_INIT)
    (hcd : w.conn.current_data = none) :
    do_local_comms_step w .again =
      ({ w with conn := { w.conn with current_data := some [], current_offset := 0,
                                      current_size := 1 } }, .ret) := by
  unfold do_local_comms_step
  simp only [hs]
  unfold recv_all_nonblock sys_recv
  simp [hcd, hs]

theorem get_response_none (c : local_connection_state) (h : c.response = none) :
    get_response c = (D_REQUEST_FAILED, c) := by
  unfold get_response; rw [h]

theorem get_response_incomplete (c : local_connection_state) (r : server_response)
    (h : c.response = some r) (hb : c.response_begun = false) (hc : r.complete = false) :
    get_response c = (D_RESPONSE_INCOMPLETE, { c with current_part := r.parts, response := none }) := by
  unfold get_response; rw [h]; simp [hb, hc]

theorem get_response_code (c : local_connection_state) (r : server_response)
    (h : c.response = some r) (hb : c.response_begun = false) (hc : r.complete = true) :
    get_response c = (D_HTTP_RESULT_CODE,
      { c with current_part := r.parts, dr := some (.http_result_code r.code),
               response_begun := true }) := by
  unfold get_response; rw [h]; simp [hb, hc]

theorem pass_recv_init_blocked (w : World) (hs : w.conn.dfa_state = STATE_RECV_INIT)
    (hri : w.conn.current_data = none ∨ (w.conn.current_data = some [] ∧ w.conn.current_size = 1))
    (io : Sys) (hio : io = .again ∨ (w.sock.inq = [] ∧ w.sock.peer_closed = false ∧ io ≠ .fail)) :
    ∃ w', do_local_comms_step w io = (w', .ret) ∧ w'.sock = w.sock ∧ w'.log = w.log ∧
      w'.d = w.d ∧ w'.live = w.live ∧ w'.ub = w.ub ∧ w'.heap = w.heap ∧
      w'.conn = { w.conn with current_data := some [], current_offset := w'.conn.current_offset,
                              current_size := 1 } := by
  have hrecv : sys_recv w.sock 1 io = (.again, w.sock) := by
    rcases hio with rfl | ⟨h1, h2, h3⟩
    · rfl
    · cases io with
      | fail => exact absurd rfl h3
      | again => rfl
      | xfer k => simp [sys_recv, h1, h2]
  unfold do_local_comms_step
  simp only [hs]
  unfold recv_all_nonblock
  rcases hri with hr | ⟨hr, hsz⟩
  · simp only [hr, Option.isNone_none, if_true, hrecv]
    refine ⟨_, rfl, rfl, rfl, rfl, rfl, rfl, rfl, ?_⟩
    simp [hs]
  · simp only [hr, Option.isNone_some, Bool.false_eq_true, if_false, hsz, hrecv]
    refine ⟨_, rfl, rfl, rfl, rfl, rfl, rfl, rfl, ?_⟩
    cases hc : w.conn
    simp_all

/-- C9: a session (reached by any run) that stands at the start of a frame
and whose client has written just the submit byte `'R'`.  With no URL set,
`do_local_comms` answers with the single frame `'F'`, touches neither the
job queue nor `waiting_jobs` and is back in `STATE_RECV_INIT`.  With a URL
set it sends nothing, enters the session in the job queue with
`queue_new_job` (at the tail of the GET segment when the form is empty, at
the tail of the queue otherwise), adds one to `waiting_jobs` and leaves the
session in `STATE_WAITING`. -/
theorem submit_frame (d : daemon) (self newfd cn : Nat) (evs : List SessionEvent)
    (k1 k2 fuel : Nat) (hk1 : 1 ≤ k1) (hk2 : 1 ≤ k2)
    (hl : (run_events (World.fresh d self newfd cn) evs).live = true)
    (hs : (run_events (World.fresh d self newfd cn) evs).conn.dfa_state = STATE_RECV_INIT)
    (hinq : (run_events (World.fresh d self newfd cn) evs).sock.inq = [82]) :
    ((run_events (World.fresh d self newfd cn) evs).conn.url = none →
      ∃ w', do_local_comms (fuel + 4) (run_events (World.fresh d self newfd cn) evs)
            [.xfer k1, .xfer k2] = some (w', []) ∧
        w'.sock.out = (run_events (World.fresh d self newfd cn) evs).sock.out ++ [70] ∧
        w'.log = (run_events (World.fresh d self newfd cn) evs).log
                  ++ [.url_unset, .sent 70, .job_complete] ∧
        w'.d.jq = (run_events (World.fresh d self newfd cn) evs).d.jq ∧
        w'.d.waiting_jobs = (run_events (World.fresh d self newfd cn) evs).d.waiting_jobs ∧
        w'.conn.dfa_state = STATE_RECV_INIT ∧ w'.live = true) ∧
    ((run_events (World.fresh d self newfd cn) evs).conn.url ≠ none →
      ∀ s, QInv (run_events (World.fresh d self newfd cn) evs).d.jq s →
        (run_events (World.fresh d self newfd cn) evs).heap
          ∉ (run_events (World.fresh d self newfd cn) evs).d.jq.addrs →
      ∃ w', do_local_comms (fuel + 2) (run_events (World.fresh d self newfd cn) evs)
            [.xfer k1] = some (w', []) ∧
        w'.conn.dfa_state = STATE_WAITING ∧
        w'.d.waiting_jobs = (run_events (World.fresh d self newfd cn) evs).d.waiting_jobs + 1 ∧
        w'.sock.out = (run_events (World.fresh d self newfd cn) evs).sock.out ∧
        w'.log = (run_events (World.fresh d self newfd cn) evs).log ++ [.job_ready] ∧
        queue_new_job (run_events (World.fresh d self newfd cn) evs).d.jq
            (run_events (World.fresh d self newfd cn) evs).heap
            (run_events (World.fresh d self newfd cn) evs).conn.self
            (!(run_events (World.fresh d self newfd cn) evs).conn.post.isEmpty)
          = some w'.d.jq ∧
        w'.d.jq.conns =
          (if (run_events (World.fresh d self newfd cn) evs).conn.post.isEmpty then
            s.gets ++ [(run_events (World.fresh d self newfd cn) evs).conn.self] ++ s.posts
          else s.gets ++ s.posts ++ [(run_events (World.fresh d self newfd cn) evs).conn.self]) ∧
        w'.ub = (run_events (World.fresh d self newfd cn) evs).ub) := by
  have hinv := SInv_run d self newfd cn evs
  generalize run_events (World.fresh d self newfd cn) evs = w at *
  simp only [SInv, hl, if_true] at hinv
  obtain ⟨-, hf⟩ := hinv
  have hq := hf.quiet_clean (by simp [hs, quiet])
  have hri := hf.recv_init hs
  obtain ⟨b, hrecv⟩ := recv_init_full w 82 [] k1 hk1 hinq hri
  constructor
  · intro hu
    -- pass 1: the submit byte arrives
    obtain ⟨w1, hw1, e1⟩ : ∃ w1, w1 = ({ w with
            conn := { w.conn with dfa_state := STATE_SEND_INIT, current_data := none,
                                  current_offset := b, current_size := 0 },
            sock := { w.sock with inq := [] },
            log := w.log ++ [.url_unset] } : World) ∧
        do_local_comms_step w (.xfer k1) = (w1, .cont) := by
      refine ⟨_, rfl, ?_⟩
      unfold do_local_comms_step
      simp only [hs, hrecv]
      simp [hu]
    have f1 : w1.conn.dfa_state = STATE_SEND_INIT := by rw [hw1]
    have f1r : w1.conn.response = none := by rw [hw1]; exact hq.1
    have f1b : w1.conn.send_buffer = none := by rw [hw1]; exact hq.2.2.1
    -- pass 2: the packet 'F' is built and sent
    have hg := get_response_none w1.conn f1r
    obtain ⟨w2, hw2, e2⟩ : ∃ w2, w2 = ({ w1 with
            conn := { w1.conn with dfa_state := STATE_RESET, dfa_next_state := STATE_RESET,
                                   current_data := none, send_buffer := none,
                                   current_offset := 1, current_size := 0 },
            sock := { w1.sock with out := w1.sock.out ++ [70] },
            log := w1.log ++ [.sent 70] } : World) ∧
        do_local_comms_step w1 (.xfer k2) = (w2, .cont) := by
      refine ⟨_, rfl, ?_⟩
      rw [pass_send_init_full w1 k2 f1 f1b (by rw [hg]; simp [build_packet]; omega)]
      simp [packet_built, hg, build_packet]
    have f2 : w2.conn.dfa_state = STATE_RESET := by rw [hw2]
    -- pass 3: RESET
    obtain ⟨w3, hw3, e3⟩ : ∃ w3, w3 = ({ w2 with
            conn := { w2.conn with url := none, post := [], mmaps := [], response := none,
                                   job_number := (w2.conn.job_number + 1) % 4294967296,
                                   dfa_state := STATE_RECV_INIT },
            d := { w2.d with fds_write := fd_clr w2.conn.fd w2.d.fds_write },
            log := w2.log ++ [.job_complete] } : World) ∧
        do_local_comms_step w2 .again = (w3, .cont) :=
      ⟨_, rfl, pass_reset w2 .again f2⟩
    have f3 : w3.conn.dfa_state = STATE_RECV_INIT := by rw [hw3]
    have f3d : w3.conn.current_data = none := by rw [hw3, hw2]
    -- pass 4: nothing more to read
    obtain ⟨w4, e4, g1, g2, g3, g4, -, -, g5⟩ :=
      pass_recv_init_blocked w3 f3 (Or.inl f3d) .again (Or.inl rfl)
    refine ⟨w4, ?_, ?_⟩
    · rw [do_local_comms_succ]
      simp only [List.headD_cons, e1, hs, uses_io, if_true, List.tail_cons]
      rw [do_local_comms_succ]
      simp only [List.headD_cons, e2, f1, uses_io, if_true, List.tail_cons]
      rw [do_local_comms_succ]
      simp only [List.headD_nil, e3, f2, uses_io, Bool.false_eq_true, if_false]
      rw [do_local_comms_succ]
      simp only [List.headD_nil, e4, f3, uses_io, if_true, List.tail_nil]
    · rw [g1, g2, g3, g4, g5, hw3, hw2, hw1]
      simp [hl]
  · intro hu s hqi hfresh
    obtain ⟨G, P, hjq, hG, hP, hnd, hlg, hlp⟩ := hqi
    have hu' : w.conn.url.isNone = false := by
      cases hx : w.conn.url with
      | none => exact absurd hx hu
      | some _ => rfl
    have hqn : ∃ jq, queue_new_job w.d.jq w.heap w.conn.self (!w.conn.post.isEmpty) = some jq ∧
        jq.conns = (if w.conn.post.isEmpty then s.gets ++ [w.conn.self] ++ s.posts
                    else s.gets ++ s.posts ++ [w.conn.self]) := by
      have hnd0 : ((G ++ P).map (·.addr)).Nodup := by rw [← hjq]; exact hnd
      cases hp : w.conn.post.isEmpty with
      | true =>
        refine ⟨_, queue_new_job_get w.d.jq G P w.heap w.conn.self hjq hnd0 hlg, ?_⟩
        simp [JobQueue.conns, hG, hP]
      | false =>
        refine ⟨_, queue_new_job_post w.d.jq G P w.heap w.conn.self hjq hnd0 hlp, ?_⟩
        simp [JobQueue.conns, hG, hP]
    obtain ⟨jq, hjq1, hjq2⟩ := hqn
    obtain ⟨w1, hw1, e1⟩ : ∃ w1, w1 = ({ w with
            conn := { w.conn with dfa_state := STATE_WAITING, current_data := none,
                                  current_offset := b, current_size := 0 },
            sock := { w.sock with inq := [] },
            log := w.log ++ [.job_ready],
            heap := w.heap + 1,
            d := { w.d with jq := jq, waiting_jobs := w.d.waiting_jobs + 1 } } : World) ∧
        do_local_comms_step w (.xfer k1) = (w1, .cont) := by
      refine ⟨_, rfl, ?_⟩
      unfold do_local_comms_step
      simp only [hs, hrecv]
      simp [hu', hjq1]
    have f1 : w1.conn.dfa_state = STATE_WAITING := by rw [hw1]
    have e2 : do_local_comms_step w1 .again = (w1, .ret) := by
      unfold do_local_comms_step
      simp only [f1]
    refine ⟨w1, ?_, ?_⟩
    · rw [do_local_comms_succ]
      simp only [List.headD_cons, e1, hs, uses_io, if_true, List.tail_cons]
      rw [do_local_comms_succ]
      simp only [List.headD_nil, e2, f1, uses_io, Bool.false_eq_true, if_false]
    · rw [hw1]
      simp [hjq1, hjq2]

/-- Witness for C9: a fresh session whose client writes `'R'` alone gets
the single byte `'F'`; one whose client first sets the URL `"a"` is queued. -/
theorem submit_frame_witness :
    (∃ w', do_local_comms 4 (run_events (World.fresh {} 1 5 0) [.client_send [82]])
          [.xfer 1, .xfer 1] = some (w', []) ∧ w'.sock.out = [70] ∧
        w'.d.jq = JobQueue.empty) ∧
    (∃ w', do_local_comms 2
          (run_events (World.fresh {} 1 5 0)
            [.client_send (set_daemon_url [97] ++ request_daemon_response),
             .pass (.xfer 1), .pass (.xfer 4), .pass (.xfer 1)])
          [.xfer 1] = some (w', []) ∧ w'.conn.dfa_state = STATE_WAITING ∧
        w'.d.waiting_jobs = 1 ∧ w'.d.jq.conns = [1]) := by
  constructor
  · obtain ⟨w', h1, h2, -, h4, -⟩ :=
      (submit_frame {} 1 5 0 [.client_send [82]] 1 1 0 (by decide) (by decide)
        (by decide) (by decide) (by decide)).1 (by decide)
    exact ⟨w', h1, h2, h4⟩
  · obtain ⟨w', h1, h2, h3, -, -, -, h7, -⟩ :=
      (submit_frame {} 1 5 0
        [.client_send (set_daemon_url [97] ++ request_daemon_response),
         .pass (.xfer 1), .pass (.xfer 4), .pass (.xfer 1)] 1 1 0 (by decide) (by decide)
        (by decide) (by decide) (by decide)).2 (by decide) ⟨[], []⟩
        ⟨[], [], rfl, rfl, rfl, by decide, rfl, rfl⟩ (by decide)
    exact ⟨w', h1, h2, h3, h7⟩

theorem recv_all_loop_done (length : Int) (results : List BlockingResult) (received : Int)
    (data stream : Bytes) (h : ¬ received < length) :
    recv_all_loop length results received data stream = ⟨some 1, data, stream, false⟩ := by
  cases results with
  | nil => unfold recv_all_loop; rw [if_neg h]
  | cons r rs => unfold recv_all_loop; rw [if_pos h]

theorem recv_all_one_byte (n : Nat) (rs : List BlockingResult) (c : Nat) (stream : Bytes)
    (hn : 1 ≤ n) :
    recv_all (.count n :: rs) (c :: stream) 1 = ⟨some 1, [c], stream, false⟩ := by
  have hk : min (min n ((1 : Int) - 0).toNat) (c :: stream).length = 1 := by
    have : ((1 : Int) - 0).toNat = 1 := rfl
    rw [this]
    simp only [List.length_cons]
    omega
  unfold recv_all
  rw [if_neg (by omega)]
  unfold recv_all_loop
  simp only [Nat.cast_one, zero_lt_one, not_true_eq_false, if_false, lt_self_iff_false, hk,
    one_ne_zero]
  rw [recv_all_loop_done _ _ _ _ _ (by omega)]
  rfl

/-- The client reads the single byte `'E'`.  Whatever its `recv` calls
return, `get_daemon_response` returns nothing but `D_RESPONSE_INCOMPLETE`
(the byte, a closed connection and a hard error all give this code; after a
transient error first it hands `recv` a pointer before the buffer). -/
theorem get_daemon_response_incomplete_byte (oracle : List (List BlockingResult))
    (x : daemon_read) (h : get_daemon_response oracle [69] = some x) :
    x.code = D_RESPONSE_INCOMPLETE := by
  cases oracle with
  | nil => simp [get_daemon_response] at h
  | cons rs oracle =>
    cases rs with
    | nil => simp [get_daemon_response, recv_next, recv_all, recv_all_loop] at h
    | cons r rs =>
      cases r with
      | error =>
        simp [get_daemon_response, recv_next, recv_all, recv_all_loop] at h
        rw [← h]
      | transient =>
        cases rs with
        | nil => simp [get_daemon_response, recv_next, recv_all, recv_all_loop] at h
        | cons r2 rs2 => simp [get_daemon_response, recv_next, recv_all, recv_all_loop] at h
      | count n =>
        cases n with
        | zero =>
          simp [get_daemon_response, recv_next, recv_all, recv_all_loop] at h
          rw [← h]
        | succ m =>
          rw [get_daemon_response, recv_next, recv_all_one_byte (m + 1) rs 69 [] (by omega)] at h
          simp at h
          rw [← h]

/-- When the first `recv` delivers the byte `'E'`, `get_daemon_response`
returns `D_RESPONSE_INCOMPLETE`. -/
theorem get_daemon_response_incomplete_read (n : Nat) (rs : List BlockingResult)
    (oracle : List (List BlockingResult)) (hn : 1 ≤ n) :
    get_daemon_response ((.count n :: rs) :: oracle) [69]
      = some ⟨D_RESPONSE_INCOMPLETE, none, [], oracle⟩ := by
  rw [get_daemon_response, recv_next, recv_all_one_byte n rs 69 [] hn]
  simp

theorem incomplete_response_whole_send (d : daemon) (self newfd cn : Nat) (evs : List SessionEvent)
    (r : server_response) (k fuel : Nat) (hk : 1 ≤ k)
    (hl : (run_events (World.fresh d self newfd cn) evs).live = true)
    (hs : (run_events (World.fresh d self newfd cn) evs).conn.dfa_state = STATE_INPROGRESS)
    (hc : r.complete = false) :
    ∃ w', do_local_comms (fuel + 3)
          (session_step (run_events (World.fresh d self newfd cn) evs) (.completed (some r)))
          [.xfer k] = some (w', []) ∧
      w'.sock.out = (run_events (World.fresh d self newfd cn) evs).sock.out ++ [69] ∧
      w'.log = (run_events (World.fresh d self newfd cn) evs).log ++ [.sent 69, .job_complete] ∧
      w'.conn.dfa_state = STATE_RECV_INIT ∧ w'.live = true ∧
      (∀ (oracle : List (List BlockingResult)) (x : daemon_read),
        get_daemon_response oracle
            (w'.sock.out.drop (run_events (World.fresh d self newfd cn) evs).sock.out.length)
          = some x → x.code = D_RESPONSE_INCOMPLETE) ∧
      (∀ (n : Nat) (rs : List BlockingResult) (oracle : List (List BlockingResult)), 1 ≤ n →
        get_daemon_response ((.count n :: rs) :: oracle)
            (w'.sock.out.drop (run_events (World.fresh d self newfd cn) evs).sock.out.length)
          = some ⟨D_RESPONSE_INCOMPLETE, none, [], oracle⟩) ∧
      D_RESPONSE_INCOMPLETE ≠ D_REQUEST_FAILED := by
  have hinv := SInv_run d self newfd cn evs
  generalize run_events (World.fresh d self newfd cn) evs = w at *
  simp only [SInv, hl, if_true] at hinv
  obtain ⟨-, hf⟩ := hinv
  have hq := hf.quiet_clean (by simp [hs, quiet])
  obtain ⟨w0, hw0⟩ : ∃ w0, w0 = ({ w with
      conn := completion_effect w.conn (some r),
      d := { w.d with fds_write := fd_set w.conn.fd w.d.fds_write } } : World) := ⟨_, rfl⟩
  have e0 : session_step w (.completed (some r)) = w0 := by
    simp [session_step, hl, hs, hw0]
  rw [e0]
  have f0 : w0.conn.dfa_state = STATE_SEND_INIT := by rw [hw0]; rfl
  have f0b : w0.conn.send_buffer = none := by rw [hw0]; exact hq.2.2.1
  have hg := get_response_incomplete w0.conn r (by rw [hw0]; rfl) (by rw [hw0]; exact hq.2.1) hc
  obtain ⟨w1, hw1, e1⟩ : ∃ w1, w1 = ({ w0 with
          conn := { w0.conn with dfa_state := STATE_RESET, dfa_next_state := STATE_RESET,
                                 current_data := none, send_buffer := none,
                                 current_offset := 1, current_size := 0,
                                 current_part := r.parts, response := none },
          sock := { w0.sock with out := w0.sock.out ++ [69] },
          log := w0.log ++ [.sent 69] } : World) ∧
      do_local_comms_step w0 (.xfer k) = (w1, .cont) := by
    refine ⟨_, rfl, ?_⟩
    rw [pass_send_init_full w0 k f0 f0b (by rw [hg]; simp [build_packet]; omega)]
    simp [packet_built, hg, build_packet]
  have f1 : w1.conn.dfa_state = STATE_RESET := by rw [hw1]
  obtain ⟨w2, hw2, e2⟩ : ∃ w2, w2 = ({ w1 with
          conn := { w1.conn with url := none, post := [], mmaps := [], response := none,
                                 job_number := (w1.conn.job_number + 1) % 4294967296,
                                 dfa_state := STATE_RECV_INIT },
          d := { w1.d with fds_write := fd_clr w1.conn.fd w1.d.fds_write },
          log := w1.log ++ [.job_complete] } : World) ∧
      do_local_comms_step w1 .again = (w2, .cont) :=
    ⟨_, rfl, pass_reset w1 .again f1⟩
  have f2 : w2.conn.dfa_state = STATE_RECV_INIT := by rw [hw2]
  have f2d : w2.conn.current_data = none := by rw [hw2, hw1]
  obtain ⟨w3, e3, g1, g2, g3, g4, -, -, g5⟩ :=
    pass_recv_init_blocked w2 f2 (Or.inl f2d) .again (Or.inl rfl)
  have hout : w3.sock.out = w.sock.out ++ [69] := by
    rw [g1, hw2, hw1, hw0]
  refine ⟨w3, ?_, hout, ?_, ?_, ?_, ?_, ?_, by decide⟩
  · rw [do_local_comms_succ]
    simp only [List.headD_cons, e1, f0, uses_io, if_true, List.tail_cons]
    rw [do_local_comms_succ]
    simp only [List.headD_nil, e2, f1, uses_io, Bool.false_eq_true, if_false]
    rw [do_local_comms_succ]
    simp only [List.headD_nil, e3, f2, uses_io, if_true, List.tail_nil]
  · rw [g2, hw2, hw1, hw0]; simp
  · rw [g5, hw2]
  · rw [g4, hw2, hw1, hw0]; exact hl
  · intro oracle x hx
    rw [hout] at hx
    simp only [List.drop_left] at hx
    exact get_daemon_response_incomplete_byte oracle x hx
  · intro n rs oracle hn
    rw [hout]
    simp only [List.drop_left]
    exact get_daemon_response_incomplete_read n rs oracle hn

/-- C10, counterexample: a session that received the header `"h"` and a
submit without URL has sent its terminal `'F'` and passed through
`STATE_RESET`, and its header list is not the empty list of a fresh
session. -/
theorem reset_keeps_header_list :
    (run_events (World.fresh {} 1 5 0)
        [.client_send (add_daemon_header [104] ++ request_daemon_response),
         .pass (.xfer 1), .pass (.xfer 4), .pass (.xfer 2), .pass (.xfer 1),
         .pass (.xfer 1), .pass (.xfer 1)]).log
      = [.url_unset, .sent 70, .job_complete] ∧
    (run_events (World.fresh {} 1 5 0)
        [.client_send (add_daemon_header [104] ++ request_daemon_response),
         .pass (.xfer 1), .pass (.xfer 4), .pass (.xfer 2), .pass (.xfer 1),
         .pass (.xfer 1), .pass (.xfer 1)]).conn.dfa_state = STATE_RECV_INIT ∧
    (run_events (World.fresh {} 1 5 0)
        [.client_send (add_daemon_header [104] ++ request_daemon_response),
         .pass (.xfer 1), .pass (.xfer 4), .pass (.xfer 2), .pass (.xfer 1),
         .pass (.xfer 1), .pass (.xfer 1)]).conn.header_list
      ≠ (new_lcs 1 5 0).header_list := by
  decide

/-- C10, amended: a session (reached by any run) that stands in
`STATE_RESET`, where it is exactly after its terminal frame, leaves the
state in one pass with URL, form, mapped-attachment list, response,
response-begun flag, send buffer, receive buffer and pending packet equal
to those of a fresh session and in the fresh session's state
`STATE_RECV_INIT`; the header list is the one it had, and the job number is
one more. -/
theorem reset_restores_request_fields (d : daemon) (self newfd cn : Nat)
    (evs : List SessionEvent) (io : Sys)
    (hl : (run_events (World.fresh d self newfd cn) evs).live = true)
    (hs : (run_events (World.fresh d self newfd cn) evs).conn.dfa_state = STATE_RESET) :
    (do_local_comms_step (run_events (World.fresh d self newfd cn) evs) io).2 = .cont ∧
    (do_local_comms_step (run_events (World.fresh d self newfd cn) evs) io).1.conn =
      { new_lcs (run_events (World.fresh d self newfd cn) evs).conn.self
          (run_events (World.fresh d self newfd cn) evs).conn.fd
          (run_events (World.fresh d self newfd cn) evs).conn.client_number with
        header_list := (run_events (World.fresh d self newfd cn) evs).conn.header_list,
        job_number :=
          ((run_events (World.fresh d self newfd cn) evs).conn.job_number + 1) % 4294967296,
        iconn := (run_events (World.fresh d self newfd cn) evs).conn.iconn,
        dfa_next_state := (run_events (World.fresh d self newfd cn) evs).conn.dfa_next_state,
        stashed_string0 := (run_events (World.fresh d self newfd cn) evs).conn.stashed_string0,
        stashed_string1 := (run_events (World.fresh d self newfd cn) evs).conn.stashed_string1,
        stashed_string2 := (run_events (World.fresh d self newfd cn) evs).conn.stashed_string2,
        current_offset := (run_events (World.fresh d self newfd cn) evs).conn.current_offset,
        current_size := (run_events (World.fresh d self newfd cn) evs).conn.current_size,
        current_part := (run_events (World.fresh d self newfd cn) evs).conn.current_part } := by
  have hinv := SInv_run d self newfd cn evs
  generalize run_events (World.fresh d self newfd cn) evs = w at *
  simp only [SInv, hl, if_true] at hinv
  obtain ⟨-, hf⟩ := hinv
  obtain ⟨h1, h2, h3, h4⟩ := hf.quiet_clean (by simp [hs, quiet])
  have h5 := hf.no_buffer (Or.inr (Or.inr (Or.inl hs)))
  rw [pass_reset w io hs]
  refine ⟨rfl, ?_⟩
  cases hc : w.conn
  simp_all [new_lcs]

/-- Witness for C10: the session of the counterexample, one pass before
it leaves `STATE_RESET`. -/
theorem reset_restores_request_fields_witness :
    (do_local_comms_step (run_events (World.fresh {} 1 5 0)
        [.client_send (add_daemon_header [104] ++ request_daemon_response),
         .pass (.xfer 1), .pass (.xfer 4), .pass (.xfer 2), .pass (.xfer 1),
         .pass (.xfer 1)]) .again).2 = .cont :=
  (reset_restores_request_fields {} 1 5 0
    [.client_send (add_daemon_header [104] ++ request_daemon_response),
     .pass (.xfer 1), .pass (.xfer 4), .pass (.xfer 2), .pass (.xfer 1),
     .pass (.xfer 1)] .again (by decide) (by decide)).1

/-- C6, evaluated at the failing input: a session sets the URL `"a"` and
submits; `dispatch_jobs` hands it to the one pooled handle; libcurl reports
the transfer done with result 7 (`CURLE_COULDNT_CONNECT`) before any byte
arrived.  `handle_completed_internet_connections` logs the failure and hands
the session the zeroed response, and `do_local_comms` sends the single byte
`'E'` (69), not `'F'` (70), before it returns to `STATE_RECV_INIT`. -/
theorem transport_error_sends_incomplete :
    (do_local_comms 3
        (handle_completed_internet_connections
          (dispatch_jobs 1
            (run_events
              (World.fresh
                { internet := [{ curl_handle := 100, connection_number := 0 }],
                  internet_pool_count := 1 } 1 5 0)
              [.client_send (set_daemon_url [97] ++ request_daemon_response),
               .pass (.xfer 1), .pass (.xfer 4), .pass (.xfer 1), .pass (.xfer 1)]))
          [(100, 7)])
        [.xfer 1]).map (fun p => (p.1.sock.out, p.1.log, p.1.conn.dfa_state, p.1.ub))
      = some ([69], [.job_ready, .request_failed, .sent 69, .job_complete],
              STATE_RECV_INIT, false) := by
  decide

/-- C2, evaluated at the failing input: the header line
`Content-Type: multipart/mixed; boundary="b"` followed by the body
`"\r\n--b\r\nA: b\r\n\r\nxy\r\n--b--\r\n"`.  The header callback sets the
boundary `"\r\n--b"`.  Delivered in one chunk, `receive_cloud_response` marks
the response complete with the part data `"xy"`; delivered as its first 20
bytes and then the other 6, or one byte at a time, it leaves the response
incomplete with no part data. -/
theorem multipart_chunking_differs :
    (receive_cloud_response_headers {}
        [67, 111, 110, 116, 101, 110, 116, 45, 84, 121, 112, 101, 58, 32, 109, 117, 108,
         116, 105, 112, 97, 114, 116, 47, 109, 105, 120, 101, 100, 59, 32, 98, 111, 117,
         110, 100, 97, 114, 121, 61, 34, 98, 34, 13, 10]).boundary
      = some [13, 10, 45, 45, 98] ∧
    (feed_chunks [] []
      (receive_cloud_response_headers {}
        [67, 111, 110, 116, 101, 110, 116, 45, 84, 121, 112, 101, 58, 32, 109, 117, 108,
         116, 105, 112, 97, 114, 116, 47, 109, 105, 120, 101, 100, 59, 32, 98, 111, 117,
         110, 100, 97, 114, 121, 61, 34, 98, 34, 13, 10])
      [[13, 10, 45, 45, 98, 13, 10, 65, 58, 32, 98, 13, 10, 13, 10, 120, 121, 13, 10, 45,
         45, 98, 45, 45, 13, 10]]).complete = true ∧
    (feed_chunks [] []
      (receive_cloud_response_headers {}
        [67, 111, 110, 116, 101, 110, 116, 45, 84, 121, 112, 101, 58, 32, 109, 117, 108,
         116, 105, 112, 97, 114, 116, 47, 109, 105, 120, 101, 100, 59, 32, 98, 111, 117,
         110, 100, 97, 114, 121, 61, 34, 98, 34, 13, 10])
      [[13, 10, 45, 45, 98, 13, 10, 65, 58, 32, 98, 13, 10, 13, 10, 120, 121, 13, 10, 45,
         45, 98, 45, 45, 13, 10]]).parts.map (fun p => p.data)
      = [none, some [120, 121]] ∧
    (feed_chunks [] []
      (receive_cloud_response_headers {}
        [67, 111, 110, 116, 101, 110, 116, 45, 84, 121, 112, 101, 58, 32, 109, 117, 108,
         116, 105, 112, 97, 114, 116, 47, 109, 105, 120, 101, 100, 59, 32, 98, 111, 117,
         110, 100, 97, 114, 121, 61, 34, 98, 34, 13, 10])
      [[13, 10, 45, 45, 98, 13, 10, 65, 58, 32, 98, 13, 10, 13, 10, 120, 121, 13, 10, 45],
       [45, 98, 45, 45, 13, 10]]).complete = false ∧
    (feed_chunks [] []
      (receive_cloud_response_headers {}
        [67, 111, 110, 116, 101, 110, 116, 45, 84, 121, 112, 101, 58, 32, 109, 117, 108,
         116, 105, 112, 97, 114, 116, 47, 109, 105, 120, 101, 100, 59, 32, 98, 111, 117,
         110, 100, 97, 114, 121, 61, 34, 98, 34, 13, 10])
      [[13, 10, 45, 45, 98, 13, 10, 65, 58, 32, 98, 13, 10, 13, 10, 120, 121, 13, 10, 45],
       [45, 98, 45, 45, 13, 10]]).parts.map (fun p => p.data)
      = [none, none] ∧
    (feed_chunks [] []
      (receive_cloud_response_headers {}
        [67, 111, 110, 116, 101, 110, 116, 45, 84, 121, 112, 101, 58, 32, 109, 117, 108,
         116, 105, 112, 97, 114, 116, 47, 109, 105, 120, 101, 100, 59, 32, 98, 111, 117,
         110, 100, 97, 114, 121, 61, 34, 98, 34, 13, 10])
      ([13, 10, 45, 45, 98, 13, 10, 65, 58, 32, 98, 13, 10, 13, 10, 120, 121, 13, 10, 45,
         45, 98, 45, 45, 13, 10].map
        (fun b => [b]))).complete = false := by
  decide

/-! ## Single-part responses -/

theorem rcr_loop_single (td ts : Bytes) (p : response_part) (c : Bytes) (hfd : p.fd = false) :
    rcr_loop none false td ts (c.length + 1) ⟨[], p, c, false⟩ =
      ⟨[], if c = [] then p
           else { p with data := some ((p.data.getD []).take p.datasize ++ c),
                         datasize := p.datasize + c.length },
        [], false⟩ := by
  cases c with
  | nil => simp [rcr_loop]
  | cons a t =>
    simp only [rcr_loop, List.length_cons]
    unfold rcr_iter
    simp [rcr_loop, hfd]

theorem receive_single_first (td ts : Bytes) (r : server_response) (c : Bytes)
    (hb : r.boundary = none) (hc : r.complete = false) (hp : r.parts = [])
    (hs : r.data_stash = none) :
    SinglePart (receive_cloud_response td ts (some c) r).1 r.size c := by
  unfold receive_cloud_response
  simp only [hc, hs, hp, hb, List.getLast?_nil, Option.isNone_some, Bool.false_eq_true, if_false,
    rcr_loop_single td ts {} c rfl]
  cases c with
  | nil =>
    by_cases h0 : r.size = 0
    · simp [SinglePart, h0, hb]
    · simp [SinglePart, h0, hb, hc, Ne.symm h0]
  | cons a t =>
    simp [SinglePart, hb]
    split <;> simp_all

theorem receive_single_next (td ts : Bytes) (r : server_response) (n : Nat) (acc c : Bytes)
    (h : SinglePart r n acc) (hle : acc.length + c.length ≤ n) :
    SinglePart (receive_cloud_response td ts (some c) r).1 n (acc ++ c) := by
  obtain ⟨hb, hs, hn, hcm, p, hp, hfd, hds, hd, hsome⟩ := h
  unfold receive_cloud_response
  by_cases hc : r.complete = true
  · have hc0 : c = [] := by
      have := hcm.1 hc
      exact List.eq_nil_of_length_eq_zero (by omega)
    subst hc0
    simp only [hc, if_true, List.append_nil]
    exact ⟨hb, hs, hn, hcm, p, hp, hfd, hds, hd, hsome⟩
  · have hc1 : r.complete = false := by simpa using hc
    have hne : acc.length ≠ n := fun e => hc (hcm.2 e)
    simp only [hc1, hs, hp, hb, Option.isNone_some, Bool.false_eq_true, if_false,
      List.getLast?_singleton, List.dropLast_single, rcr_loop_single td ts p c hfd]
    cases c with
    | nil =>
      simp [SinglePart, hb, hn, hds, hne, hfd, hd]
      exact hsome
    | cons a t =>
      simp [SinglePart, hb, hn, hds, hfd, hd]
      have hd2 : p.data.getD [] = acc := hd
      split <;> simp_all

theorem receive_single_flush (td ts : Bytes) (r : server_response) (n : Nat) (acc : Bytes)
    (h : SinglePart r n acc) :
    SinglePart (receive_cloud_response td ts none r).1 n acc := by
  obtain ⟨hb, hs, hn, hcm, p, hp, hfd, hds, hd, hsome⟩ := h
  unfold receive_cloud_response
  by_cases hc : r.complete = true
  · simp only [hc, if_true]
    exact ⟨hb, hs, hn, hcm, p, hp, hfd, hds, hd, hsome⟩
  · have hc1 : r.complete = false := by simpa using hc
    simp only [hc1, hs, Bool.false_eq_true, if_false]
    exact ⟨hb, rfl, hn, by simpa [hc1] using hcm, p, hp, hfd, hds, hd, hsome⟩

theorem receive_single_chunks (td ts : Bytes) (n : Nat) (chunks : List Bytes) :
    ∀ (r : server_response) (acc : Bytes), SinglePart r n acc →
      acc.length + chunks.flatten.length ≤ n →
      SinglePart
        (chunks.foldl (fun r c => (receive_cloud_response td ts (some c) r).1) r)
        n (acc ++ chunks.flatten) := by
  induction chunks with
  | nil => intro r acc h _; simpa using h
  | cons c t ih =>
    intro r acc h hle
    simp only [List.flatten_cons, List.length_append] at hle
    simp only [List.foldl_cons, List.flatten_cons, ← List.append_assoc]
    exact ih _ _ (receive_single_next td ts r n acc c h (by omega))
      (by simp only [List.length_append]; omega)

theorem feed_chunks_single (td ts : Bytes) (r : server_response) (c : Bytes) (t : List Bytes)
    (hb : r.boundary = none) (hc : r.complete = false) (hp : r.parts = [])
    (hs : r.data_stash = none) (hle : (c :: t).flatten.length ≤ r.size) :
    SinglePart (feed_chunks td ts r (c :: t)) r.size (c :: t).flatten := by
  unfold feed_chunks
  simp only [List.flatten_cons, List.length_append] at hle
  exact receive_single_flush td ts _ _ _
    (receive_single_chunks td ts r.size t _ c (receive_single_first td ts r c hb hc hp hs)
      (by omega))

/-- C8, evaluated at the failing input: the header line `Content-Length: 0`
announces an empty body, and the response has no boundary.  When the body
callback is never called and `receive_cloud_response` gets the final flush
call alone, the response is not marked complete and has no part, although
the body has exactly the length announced.  When the body callback is called
once with a chunk of no bytes before the flush call, the same response is
marked complete. -/
theorem empty_body_never_complete :
    (receive_cloud_response_headers {}
        [67, 111, 110, 116, 101, 110, 116, 45, 76, 101, 110, 103, 116, 104, 58, 32, 48,
         13, 10]).size = ([] : List Bytes).flatten.length ∧
    (receive_cloud_response_headers {}
        [67, 111, 110, 116, 101, 110, 116, 45, 76, 101, 110, 103, 116, 104, 58, 32, 48,
         13, 10]).boundary = none ∧
    (feed_chunks [] []
      (receive_cloud_response_headers {}
        [67, 111, 110, 116, 101, 110, 116, 45, 76, 101, 110, 103, 116, 104, 58, 32, 48,
         13, 10]) []).complete = false ∧
    (feed_chunks [] []
      (receive_cloud_response_headers {}
        [67, 111, 110, 116, 101, 110, 116, 45, 76, 101, 110, 103, 116, 104, 58, 32, 48,
         13, 10]) []).parts = [] ∧
    (feed_chunks [] []
      (receive_cloud_response_headers {}
        [67, 111, 110, 116, 101, 110, 116, 45, 76, 101, 110, 103, 116, 104, 58, 32, 48,
         13, 10]) [[]]).complete = true := by
  decide

/-- A response without boundary and its `Content-Length`: take a response on
which the body callback has not run yet (not complete, no part, no stash),
with `size` as the header callback set it, and feed `receive_cloud_response`
any chunks in order and then the final flush call.  If the chunks hold fewer bytes than
`size`, the response is not marked complete.  If there is at least one chunk
(an empty one will do) and the chunks hold exactly `size` bytes, the
response is marked complete and its one part holds exactly the bytes of
the chunks, in memory. -/
theorem single_part_complete_at_content_length (td ts : Bytes) (r : server_response)
    (chunks : List Bytes)
    (hb : r.boundary = none) (hc : r.complete = false) (hp : r.parts = [])
    (hs : r.data_stash = none) :
    (chunks.flatten.length < r.size → (feed_chunks td ts r chunks).complete = false) ∧
    (chunks ≠ [] → chunks.flatten.length = r.size →
      (feed_chunks td ts r chunks).complete = true ∧
      ∃ p, (feed_chunks td ts r chunks).parts = [p] ∧ p.fd = false ∧
        p.datasize = chunks.flatten.length ∧ p.data.getD [] = chunks.flatten ∧
        (chunks.flatten ≠ [] → p.data = some chunks.flatten)) := by
  cases chunks with
  | nil =>
    refine ⟨fun _ => ?_, fun h => absurd rfl h⟩
    simp [feed_chunks, receive_cloud_response, hc, hs]
  | cons c t =>
    refine ⟨fun hlt => ?_, fun _ heq => ?_⟩
    · obtain ⟨-, -, -, hcm, -⟩ := feed_chunks_single td ts r c t hb hc hp hs (Nat.le_of_lt hlt)
      cases hv : (feed_chunks td ts r (c :: t)).complete
      · rfl
      · exact absurd (hcm.1 hv) (Nat.ne_of_lt hlt)
    · obtain ⟨-, -, -, hcm, p, h1, h2, h3, h4, h5⟩ :=
        feed_chunks_single td ts r c t hb hc hp hs (Nat.le_of_eq heq)
      exact ⟨hcm.2 heq, p, h1, h2, h3, h4, h5⟩

/-- An instance: the header line `Content-Length: 3` and the body `"abc"`
cut into `"a"`, an empty chunk and `"bc"`. -/
theorem single_part_complete_at_content_length_witness :
    (feed_chunks [] []
      (receive_cloud_response_headers {}
        [67, 111, 110, 116, 101, 110, 116, 45, 76, 101, 110, 103, 116, 104, 58, 32, 51,
         13, 10])
      [[97], [], [98, 99]]).complete = true :=
  ((single_part_complete_at_content_length [] []
      (receive_cloud_response_headers {}
        [67, 111, 110, 116, 101, 110, 116, 45, 76, 101, 110, 103, 116, 104, 58, 32, 51,
         13, 10])
      [[97], [], [98, 99]] (by decide) (by decide) (by decide) (by decide)).2
    (by decide) (by decide)).1

/-! ### Sending a complete response -/

theorem pass_body_send_full (w : World) (k : Nat) (hs : body_send w.conn.dfa_state = true)
    (hsb : w.conn.send_buffer = none)
    (hk : (send_operand w.conn.dfa_state w.conn.dr).2 ≤ k) :
    do_local_comms_step w (.xfer k) =
      ({ w with
          conn := { w.conn with
            send_buffer := none
            current_offset := (send_operand w.conn.dfa_state w.conn.dr).2
            current_size := 0
            dfa_state := send_successor w.conn.dfa_state }
          sock := { w.sock with
            out := w.sock.out ++ List.take (send_operand w.conn.dfa_state w.conn.dr).2 (send_operand w.conn.dfa_state w.conn.dr).1 } },
        .cont) := by
  have hsf := send_full w (send_operand w.conn.dfa_state w.conn.dr).1
    (send_operand w.conn.dfa_state w.conn.dr).2 k hk hsb
  unfold do_local_comms_step
  cases hst : w.conn.dfa_state <;> simp [hst, body_send] at hs <;>
    simp only [hst] at hsf ⊢ <;> rw [hsf]

theorem pass_dr_done (w : World) (io : Sys) (hs : w.conn.dfa_state = STATE_SEND_DR_DONE) :
    do_local_comms_step w io =
      ({ w with conn := { w.conn with dr := none, dfa_state := STATE_SEND_INIT } }, .cont) := by
  unfold do_local_comms_step
  simp only [hs]

theorem get_response_body (c : local_connection_state) (r : server_response)
    (p : response_part) (t : List response_part)
    (h : c.response = some r) (hb : c.response_begun = true) (hc : c.current_part = p :: t)
    (hp : p.data.isSome = true) :
    get_response c = (D_BODY,
      { c with current_part := t,
               dr := some (.body p.headers p.headersize p.data p.datasize) }) := by
  unfold get_response; rw [h]; simp [hb, hc, next_part, hp, daemon_responses.code]

theorem get_response_attachment (c : local_connection_state) (r : server_response)
    (p : response_part) (t : List response_part)
    (h : c.response = some r) (hb : c.response_begun = true) (hc : c.current_part = p :: t)
    (hp : p.data.isSome = false) (hf : p.filename.isSome = true) :
    get_response c = (D_ATTACHMENT,
      { c with current_part := t,
               dr := some (.attachment p.headers p.headersize p.filename p.tmp_filename) }) := by
  unfold get_response; rw [h]; simp [hb, hc, next_part, hp, hf, daemon_responses.code]

theorem send_data_part (w : World) (r : server_response) (p : response_part)
    (t : List response_part) (k F : Nat) (o : List Sys)
    (h : SendReady w r (p :: t)) (hp : p.data.isSome = true) (hk : part_max_send p ≤ k) :
    ∃ w', do_local_comms (F + 4) w (.xfer k :: .xfer k :: .xfer k :: o) = do_local_comms F w' o ∧
      SendReady w' r t ∧ w'.sock.out = w.sock.out ++ part_frame p ∧
      w'.log = w.log ++ [.sent 68] := by
  obtain ⟨hl, hs, hsb, hr, hb, hcp, hdr⟩ := h
  have hk' : 13 ≤ k ∧ p.headersize ≤ k ∧ p.datasize ≤ k := by
    unfold part_max_send at hk; omega
  have hg := get_response_body w.conn r p t hr hb hcp hp
  obtain ⟨w1, hw1, e1⟩ : ∃ w1, w1 = ({ w with
          conn := { w.conn with dfa_state := STATE_SEND_DATA_HEADER,
                                 dfa_next_state := STATE_SEND_DATA_HEADER,
                                 current_data := none, send_buffer := none,
                                 current_offset := 9, current_size := 0,
                                 current_part := t,
                                 dr := some (.body p.headers p.headersize p.data p.datasize) },
          sock := { w.sock with out := w.sock.out ++ ([68] ++ le32 p.headersize ++ le32 p.datasize) },
          log := w.log ++ [.sent 68] } : World) ∧
      do_local_comms_step w (.xfer k) = (w1, .cont) := by
    refine ⟨_, rfl, ?_⟩
    rw [pass_send_init_full w k hs hsb (by rw [hg]; simp [build_packet, le32]; omega)]
    simp [packet_built, hg, build_packet, le32]
  have s1 : w1.conn.dfa_state = STATE_SEND_DATA_HEADER := by rw [hw1]
  obtain ⟨w2, hw2, e2⟩ : ∃ w2, w2 = ({ w1 with
          conn := { w1.conn with send_buffer := none, current_offset := p.headersize,
                                  current_size := 0, dfa_state := STATE_SEND_DATA_BODY },
          sock := { w1.sock with out := w1.sock.out ++ (p.headers.getD []).take p.headersize } }
            : World) ∧
      do_local_comms_step w1 (.xfer k) = (w2, .cont) := by
    refine ⟨_, rfl, ?_⟩
    rw [pass_body_send_full w1 k (by rw [s1]; rfl) (by rw [hw1])
      (by rw [hw1]; simp [send_operand]; omega)]
    rw [hw1]; simp [send_operand, send_successor]
  have s2 : w2.conn.dfa_state = STATE_SEND_DATA_BODY := by rw [hw2]
  obtain ⟨w3, hw3, e3⟩ : ∃ w3, w3 = ({ w2 with
          conn := { w2.conn with send_buffer := none, current_offset := p.datasize,
                                  current_size := 0, dfa_state := STATE_SEND_DR_DONE },
          sock := { w2.sock with out := w2.sock.out ++ (p.data.getD []).take p.datasize } }
            : World) ∧
      do_local_comms_step w2 (.xfer k) = (w3, .cont) := by
    refine ⟨_, rfl, ?_⟩
    rw [pass_body_send_full w2 k (by rw [s2]; rfl) (by rw [hw2])
      (by rw [hw2, hw1]; simp [send_operand]; omega)]
    rw [hw2, hw1]; simp [send_operand, send_successor]
  have s3 : w3.conn.dfa_state = STATE_SEND_DR_DONE := by rw [hw3]
  obtain ⟨w4, hw4, e4⟩ : ∃ w4, w4 = ({ w3 with
          conn := { w3.conn with dr := none, dfa_state := STATE_SEND_INIT } } : World) ∧
      do_local_comms_step w3 (o.headD .again) = (w4, .cont) :=
    ⟨_, rfl, pass_dr_done w3 (o.headD .again) s3⟩
  refine ⟨w4, ?_, ?_, ?_, ?_⟩
  · rw [show F + 4 = (F + 3) + 1 from rfl, do_local_comms_succ]
    simp only [List.headD_cons, e1, hs, uses_io, if_true, List.tail_cons]
    rw [show F + 3 = (F + 2) + 1 from rfl, do_local_comms_succ]
    simp only [List.headD_cons, e2, s1, uses_io, if_true, List.tail_cons]
    rw [show F + 2 = (F + 1) + 1 from rfl, do_local_comms_succ]
    simp only [List.headD_cons, e3, s2, uses_io, if_true, List.tail_cons]
    rw [do_local_comms_succ]
    simp only [e4, s3, uses_io, Bool.false_eq_true, if_false]
  · rw [hw4, hw3, hw2, hw1]
    exact ⟨hl, rfl, rfl, hr, hb, rfl, rfl⟩
  · rw [hw4, hw3, hw2, hw1]
    simp [part_frame, hp]
  · rw [hw4, hw3, hw2, hw1]

theorem send_attachment_part (w : World) (r : server_response) (p : response_part)
    (t : List response_part) (k F : Nat) (o : List Sys)
    (h : SendReady w r (p :: t)) (hp : p.data.isSome = false) (hf : p.filename.isSome = true)
    (hk : part_max_send p ≤ k) :
    ∃ w', do_local_comms (F + 5) w (.xfer k :: .xfer k :: .xfer k :: .xfer k :: o)
        = do_local_comms F w' o ∧
      SendReady w' r t ∧ w'.sock.out = w.sock.out ++ part_frame p ∧
      w'.log = w.log ++ [.sent 65] := by
  obtain ⟨hl, hs, hsb, hr, hb, hcp, hdr⟩ := h
  have hk' : 13 ≤ k ∧ p.headersize ≤ k ∧ strlen (p.filename.getD []) ≤ k ∧
      strlen (p.tmp_filename.getD []) ≤ k := by
    unfold part_max_send at hk; omega
  have hg := get_response_attachment w.conn r p t hr hb hcp hp hf
  obtain ⟨w1, hw1, e1⟩ : ∃ w1, w1 = ({ w with
          conn := { w.conn with dfa_state := STATE_SEND_ATTACHMENT_HEADER,
                                 dfa_next_state := STATE_SEND_ATTACHMENT_HEADER,
                                 current_data := none, send_buffer := none,
                                 current_offset := 13, current_size := 0,
                                 current_part := t,
                                 dr := some (.attachment p.headers p.headersize p.filename
                                          p.tmp_filename) },
          sock := { w.sock with out := w.sock.out ++ ([65] ++ le32 p.headersize
            ++ le32 (strlen (p.filename.getD [])) ++ le32 (strlen (p.tmp_filename.getD []))) },
          log := w.log ++ [.sent 65] } : World) ∧
      do_local_comms_step w (.xfer k) = (w1, .cont) := by
    refine ⟨_, rfl, ?_⟩
    rw [pass_send_init_full w k hs hsb (by rw [hg]; simp [build_packet, le32]; omega)]
    simp [packet_built, hg, build_packet, le32]
  have s1 : w1.conn.dfa_state = STATE_SEND_ATTACHMENT_HEADER := by rw [hw1]
  obtain ⟨w2, hw2, e2⟩ : ∃ w2, w2 = ({ w1 with
          conn := { w1.conn with send_buffer := none, current_offset := p.headersize,
                                  current_size := 0,
                                  dfa_state := STATE_SEND_ATTACHMENT_FAILNAME },
          sock := { w1.sock with out := w1.sock.out ++ (p.headers.getD []).take p.headersize } }
            : World) ∧
      do_local_comms_step w1 (.xfer k) = (w2, .cont) := by
    refine ⟨_, rfl, ?_⟩
    rw [pass_body_send_full w1 k (by rw [s1]; rfl) (by rw [hw1])
      (by rw [hw1]; simp [send_operand]; omega)]
    rw [hw1]; simp [send_operand, send_successor]
  have s2 : w2.conn.dfa_state = STATE_SEND_ATTACHMENT_FAILNAME := by rw [hw2]
  obtain ⟨w3, hw3, e3⟩ : ∃ w3, w3 = ({ w2 with
          conn := { w2.conn with send_buffer := none,
                                  current_offset := strlen (p.filename.getD []),
                                  current_size := 0,
                                  dfa_state := STATE_SEND_ATTACHMENT_TMPFILENAME },
          sock := { w2.sock with out := w2.sock.out ++ cstr (p.filename.getD []) } }
            : World) ∧
      do_local_comms_step w2 (.xfer k) = (w3, .cont) := by
    refine ⟨_, rfl, ?_⟩
    rw [pass_body_send_full w2 k (by rw [s2]; rfl) (by rw [hw2])
      (by rw [hw2, hw1]; simp [send_operand]; omega)]
    rw [hw2, hw1]; simp [send_operand, send_successor, strlen]
  have s3 : w3.conn.dfa_state = STATE_SEND_ATTACHMENT_TMPFILENAME := by rw [hw3]
  obtain ⟨w4, hw4, e4⟩ : ∃ w4, w4 = ({ w3 with
          conn := { w3.conn with send_buffer := none,
                                  current_offset := strlen (p.tmp_filename.getD []),
                                  current_size := 0,
                                  dfa_state := STATE_SEND_DR_DONE },
          sock := { w3.sock with out := w3.sock.out ++ cstr (p.tmp_filename.getD []) } }
            : World) ∧
      do_local_comms_step w3 (.xfer k) = (w4, .cont) := by
    refine ⟨_, rfl, ?_⟩
    rw [pass_body_send_full w3 k (by rw [s3]; rfl) (by rw [hw3])
      (by rw [hw3, hw2, hw1]; simp [send_operand]; omega)]
    rw [hw3, hw2, hw1]; simp [send_operand, send_successor, strlen]
  have s4 : w4.conn.dfa_state = STATE_SEND_DR_DONE := by rw [hw4]
  obtain ⟨w5, hw5, e5⟩ : ∃ w5, w5 = ({ w4 with
          conn := { w4.conn with dr := none, dfa_state := STATE_SEND_INIT } } : World) ∧
      do_local_comms_step w4 (o.headD .again) = (w5, .cont) :=
    ⟨_, rfl, pass_dr_done w4 (o.headD .again) s4⟩
  refine ⟨w5, ?_, ?_, ?_, ?_⟩
  · rw [show F + 5 = (F + 4) + 1 from rfl, do_local_comms_succ]
    simp only [List.headD_cons, e1, hs, uses_io, if_true, List.tail_cons]
    rw [show F + 4 = (F + 3) + 1 from rfl, do_local_comms_succ]
    simp only [List.headD_cons, e2, s1, uses_io, if_true, List.tail_cons]
    rw [show F + 3 = (F + 2) + 1 from rfl, do_local_comms_succ]
    simp only [List.headD_cons, e3, s2, uses_io, if_true, List.tail_cons]
    rw [show F + 2 = (F + 1) + 1 from rfl, do_local_comms_succ]
    simp only [List.headD_cons, e4, s3, uses_io, if_true, List.tail_cons]
    rw [do_local_comms_succ]
    simp only [e5, s4, uses_io, Bool.false_eq_true, if_false]
  · rw [hw5, hw4, hw3, hw2, hw1]
    exact ⟨hl, rfl, rfl, hr, hb, rfl, rfl⟩
  · rw [hw5, hw4, hw3, hw2, hw1]
    simp [part_frame, hp, hf]
  · rw [hw5, hw4, hw3, hw2, hw1]

theorem step_send_init (w : World) (io : Sys) (hs : w.conn.dfa_state = STATE_SEND_INIT)
    (hsb : w.conn.send_buffer = none) :
    do_local_comms_step w io =
      match send_all_nonblock { w with conn := packet_built w.conn }
          ((packet_built w.conn).current_data.getD []) (packet_built w.conn).current_size io with
      | (w, false) => (w, Flow.ret)
      | (w, true) =>
        ({ w with conn := { w.conn with dfa_state := w.conn.dfa_next_state, current_data := none },
                  log := w.log ++ [.sent ((w.conn.current_data.getD []).headD 0)] }, .cont) := by
  unfold do_local_comms_step
  simp only [hs, hsb, Option.isNone_none, if_true]
  rfl

theorem step_skip_part (w : World) (r : server_response) (p : response_part)
    (t : List response_part) (io : Sys)
    (h : SendReady w r (p :: t))
    (hp : p.data.isSome = false) (hf : p.filename.isSome = false) :
    SendReady { w with conn := { w.conn with current_part := t } } r t ∧
    do_local_comms_step w io
      = do_local_comms_step { w with conn := { w.conn with current_part := t } } io := by
  obtain ⟨hl, hs, hsb, hr, hb, hcp, hdr⟩ := h
  refine ⟨⟨hl, hs, hsb, hr, hb, rfl, hdr⟩, ?_⟩
  have hg : get_response w.conn = get_response { w.conn with current_part := t } := by
    unfold get_response
    simp [hr, hb, hcp, next_part, hp, hf]
  have hpb : packet_built w.conn = packet_built { w.conn with current_part := t } := by
    unfold packet_built
    rw [hg]
  rw [step_send_init w io hs hsb,
    step_send_init { w with conn := { w.conn with current_part := t } } io hs hsb, hpb]

theorem do_local_comms_skip_part (w : World) (r : server_response) (p : response_part)
    (t : List response_part) (F : Nat) (o : List Sys)
    (h : SendReady w r (p :: t))
    (hp : p.data.isSome = false) (hf : p.filename.isSome = false) :
    do_local_comms F w o
      = do_local_comms F { w with conn := { w.conn with current_part := t } } o := by
  cases F with
  | zero => rfl
  | succ n =>
    rw [do_local_comms_succ, do_local_comms_succ,
      (step_skip_part w r p t (o.headD .again) h hp hf).2]

theorem send_parts (r : server_response) (k : Nat) (parts : List response_part) :
    ∀ (w : World) (F : Nat) (o : List Sys), SendReady w r parts →
      (∀ p ∈ parts, part_max_send p ≤ k) →
      ∃ w', do_local_comms (F + (parts.map part_passes).sum) w
            (List.replicate (parts.map part_sends).sum (.xfer k) ++ o) = do_local_comms F w' o ∧
        SendReady w' r [] ∧
        w'.sock.out = w.sock.out ++ (parts.map part_frame).flatten ∧
        w'.log = w.log ++ (parts.filterMap part_code).map .sent := by
  induction parts with
  | nil =>
    intro w F o h _
    exact ⟨w, by simp, h, by simp, by simp⟩
  | cons p t ih =>
    intro w F o h hk
    have hkp := hk p (List.mem_cons_self _ _)
    have hkt : ∀ q ∈ t, part_max_send q ≤ k := fun q hq => hk q (List.mem_cons_of_mem _ hq)
    by_cases hp : p.data.isSome = true
    · obtain ⟨w1, e1, h1, o1, l1⟩ := send_data_part w r p t k (F + (t.map part_passes).sum)
        (List.replicate (t.map part_sends).sum (.xfer k) ++ o) h hp hkp
      obtain ⟨w2, e2, h2, o2, l2⟩ := ih w1 F o h1 hkt
      refine ⟨w2, ?_, h2, ?_, ?_⟩
      · rw [← e2, ← e1]
        simp only [List.map_cons, List.sum_cons, part_passes, part_sends, hp, if_true]
        rw [show F + (4 + (t.map part_passes).sum) = F + (t.map part_passes).sum + 4 by omega]
        rw [show 3 + (t.map part_sends).sum = (t.map part_sends).sum + 3 by omega]
        simp [List.replicate_succ]
      · rw [o2, o1]; simp
      · rw [l2, l1]; simp [part_code, hp]
    · have hp0 : p.data.isSome = false := by simpa using hp
      by_cases hf : p.filename.isSome = true
      · obtain ⟨w1, e1, h1, o1, l1⟩ := send_attachment_part w r p t k
          (F + (t.map part_passes).sum)
          (List.replicate (t.map part_sends).sum (.xfer k) ++ o) h hp0 hf hkp
        obtain ⟨w2, e2, h2, o2, l2⟩ := ih w1 F o h1 hkt
        refine ⟨w2, ?_, h2, ?_, ?_⟩
        · rw [← e2, ← e1]
          simp only [List.map_cons, List.sum_cons, part_passes, part_sends, hp0, hf, if_true,
            Bool.false_eq_true, if_false]
          rw [show F + (5 + (t.map part_passes).sum) = F + (t.map part_passes).sum + 5 by omega]
          rw [show 4 + (t.map part_sends).sum = (t.map part_sends).sum + 4 by omega]
          simp [List.replicate_succ]
        · rw [o2, o1]; simp
        · rw [l2, l1]; simp [part_code, hp0, hf]
      · have hf0 : p.filename.isSome = false := by simpa using hf
        obtain ⟨w2, e2, h2, o2, l2⟩ := ih { w with conn := { w.conn with current_part := t } } F o
          (step_skip_part w r p t .again h hp0 hf0).1 hkt
        refine ⟨w2, ?_, h2, ?_, ?_⟩
        · rw [← e2, do_local_comms_skip_part w r p t _ _ h hp0 hf0]
          simp [part_passes, part_sends, hp0, hf0]
        · rw [o2]; simp [part_frame, hp0, hf0]
        · rw [l2]; simp [part_code, hp0, hf0]

theorem get_response_complete (c : local_connection_state) (r : server_response)
    (h : c.response = some r) (hb : c.response_begun = true) (hc : c.current_part = []) :
    get_response c = (D_RESPONSE_COMPLETE,
      { c with current_part := [], response := none, response_begun := false }) := by
  unfold get_response; rw [h]; simp [hb, hc, next_part]

theorem send_terminal (w : World) (r : server_response) (k F : Nat)
    (h : SendReady w r []) (hk : 1 ≤ k) :
    ∃ w', do_local_comms (F + 3) w [.xfer k] = some (w', []) ∧
      w'.sock.out = w.sock.out ++ [67] ∧ w'.log = w.log ++ [.sent 67, .job_complete] ∧
      w'.conn.dfa_state = STATE_RECV_INIT ∧ w'.live = true := by
  obtain ⟨hl, hs, hsb, hr, hb, hcp, hdr⟩ := h
  have hg := get_response_complete w.conn r hr hb hcp
  obtain ⟨w1, hw1, e1⟩ : ∃ w1, w1 = ({ w with
          conn := { w.conn with dfa_state := STATE_RESET, dfa_next_state := STATE_RESET,
                                 current_data := none, send_buffer := none,
                                 current_offset := 1, current_size := 0,
                                 current_part := [], response := none, response_begun := false },
          sock := { w.sock with out := w.sock.out ++ [67] },
          log := w.log ++ [.sent 67] } : World) ∧
      do_local_comms_step w (.xfer k) = (w1, .cont) := by
    refine ⟨_, rfl, ?_⟩
    rw [pass_send_init_full w k hs hsb (by rw [hg]; simp [build_packet]; omega)]
    simp [packet_built, hg, build_packet, hdr]
  have f1 : w1.conn.dfa_state = STATE_RESET := by rw [hw1]
  obtain ⟨w2, hw2, e2⟩ : ∃ w2, w2 = ({ w1 with
          conn := { w1.conn with url := none, post := [], mmaps := [], response := none,
                                 job_number := (w1.conn.job_number + 1) % 4294967296,
                                 dfa_state := STATE_RECV_INIT },
          d := { w1.d with fds_write := fd_clr w1.conn.fd w1.d.fds_write },
          log := w1.log ++ [.job_complete] } : World) ∧
      do_local_comms_step w1 .again = (w2, .cont) :=
    ⟨_, rfl, pass_reset w1 .again f1⟩
  have f2 : w2.conn.dfa_state = STATE_RECV_INIT := by rw [hw2]
  have f2d : w2.conn.current_data = none := by rw [hw2, hw1]
  obtain ⟨w3, e3, g1, g2, g3, g4, -, -, g5⟩ :=
    pass_recv_init_blocked w2 f2 (Or.inl f2d) .again (Or.inl rfl)
  refine ⟨w3, ?_, ?_, ?_, ?_, ?_⟩
  · rw [do_local_comms_succ]
    simp only [List.headD_cons, e1, hs, uses_io, if_true, List.tail_cons]
    rw [do_local_comms_succ]
    simp only [List.headD_nil, e2, f1, uses_io, Bool.false_eq_true, if_false]
    rw [do_local_comms_succ]
    simp only [List.headD_nil, e3, f2, uses_io, if_true, List.tail_nil]
  · rw [g1, hw2, hw1]
  · rw [g2, hw2, hw1]; simp
  · rw [g5, hw2]
  · rw [g4, hw2, hw1]; exact hl

theorem replicate_add_two (n : Nat) (a : Sys) :
    List.replicate (n + 2) a = a :: (List.replicate n a ++ [a]) := by
  rw [List.replicate_succ, List.replicate_succ']

theorem response_frames_whole_sends (d : daemon) (self newfd cn : Nat) (evs : List SessionEvent)
    (r : server_response) (k F : Nat)
    (hl : (run_events (World.fresh d self newfd cn) evs).live = true)
    (hs : (run_events (World.fresh d self newfd cn) evs).conn.dfa_state = STATE_INPROGRESS)
    (hc : r.complete = true) (hk3 : 3 ≤ k) (hk : ∀ p ∈ r.parts, part_max_send p ≤ k) :
    ∃ w', do_local_comms (F + (r.parts.map part_passes).sum + 4)
          (session_step (run_events (World.fresh d self newfd cn) evs) (.completed (some r)))
          (List.replicate ((r.parts.map part_sends).sum + 2) (.xfer k)) = some (w', []) ∧
      w'.sock.out = (run_events (World.fresh d self newfd cn) evs).sock.out
        ++ status_frame r.code ++ (r.parts.map part_frame).flatten ++ [67] ∧
      w'.log = (run_events (World.fresh d self newfd cn) evs).log
        ++ [.sent 82] ++ (r.parts.filterMap part_code).map .sent ++ [.sent 67, .job_complete] ∧
      w'.conn.dfa_state = STATE_RECV_INIT ∧ w'.live = true := by
  have hinv := SInv_run d self newfd cn evs
  generalize run_events (World.fresh d self newfd cn) evs = w at *
  simp only [SInv, hl, if_true] at hinv
  obtain ⟨-, hf⟩ := hinv
  have hq := hf.quiet_clean (by simp [hs, quiet])
  obtain ⟨w0, hw0⟩ : ∃ w0, w0 = ({ w with
      conn := completion_effect w.conn (some r),
      d := { w.d with fds_write := fd_set w.conn.fd w.d.fds_write } } : World) := ⟨_, rfl⟩
  have e0 : session_step w (.completed (some r)) = w0 := by
    simp [session_step, hl, hs, hw0]
  rw [e0]
  have f0 : w0.conn.dfa_state = STATE_SEND_INIT := by rw [hw0]; rfl
  have f0b : w0.conn.send_buffer = none := by rw [hw0]; exact hq.2.2.1
  have hg := get_response_code w0.conn r (by rw [hw0]; rfl) (by rw [hw0]; exact hq.2.1) hc
  obtain ⟨w1, hw1, e1⟩ : ∃ w1, w1 = ({ w0 with
          conn := { w0.conn with dfa_state := STATE_SEND_INIT, dfa_next_state := STATE_SEND_INIT,
                                 current_data := none, send_buffer := none,
                                 current_offset := 3, current_size := 0,
                                 current_part := r.parts, dr := none, response_begun := true },
          sock := { w0.sock with out := w0.sock.out ++ status_frame r.code },
          log := w0.log ++ [.sent 82] } : World) ∧
      do_local_comms_step w0 (.xfer k) = (w1, .cont) := by
    refine ⟨_, rfl, ?_⟩
    rw [pass_send_init_full w0 k f0 f0b (by rw [hg]; simp [build_packet]; omega)]
    simp [packet_built, hg, build_packet, status_frame]
  have r1 : SendReady w1 r r.parts := by
    rw [hw1, hw0]
    exact ⟨hl, rfl, rfl, rfl, rfl, rfl, rfl⟩
  obtain ⟨w2, e2, r2, o2, l2⟩ := send_parts r k r.parts w1 (F + 3) [.xfer k] r1 hk
  obtain ⟨w3, e3, o3, l3, s3, v3⟩ := send_terminal w2 r k F r2 (by omega)
  refine ⟨w3, ?_, ?_, ?_, s3, v3⟩
  · rw [show F + (r.parts.map part_passes).sum + 4
        = (F + 3 + (r.parts.map part_passes).sum) + 1 by omega,
      do_local_comms_succ, replicate_add_two]
    simp only [List.headD_cons, e1, f0, uses_io, if_true, List.tail_cons]
    rw [e2, e3]
  · rw [o3, o2, hw1, hw0]
  · rw [l3, l2, hw1, hw0]

/-! ### Receiving a request: any split of the stream gives the same session -/

theorem recv_mid (w : World) (f rest : Bytes) (o0 j n : Nat) (io : Sys) (hj : j < f.length) :
    recv_all_nonblock (mid w (some (f.take j)) (o0 + j) (f.length - j) (f.drop j ++ rest)) n io
        = (mid w (some f) (o0 + f.length) 0 rest, true) ∨
    ∃ j', j' < f.length ∧ (∀ k, io = .xfer k → 1 ≤ k → j < j') ∧
      recv_all_nonblock (mid w (some (f.take j)) (o0 + j) (f.length - j) (f.drop j ++ rest)) n io
        = (mid w (some (f.take j')) (o0 + j') (f.length - j') (f.drop j' ++ rest), false) := by
  have hne : f.drop j ++ rest ≠ [] := by
    intro h
    have := congrArg List.length h
    simp at this
    omega
  cases io with
  | again =>
    exact Or.inr ⟨j, hj, (fun k hk => by cases hk), by simp [recv_all_nonblock, mid, sys_recv]⟩
  | fail =>
    exact Or.inr ⟨j, hj, (fun k hk => by cases hk), by simp [recv_all_nonblock, mid, sys_recv]⟩
  | xfer k =>
    by_cases hk0 : k = 0
    · subst hk0
      refine Or.inr ⟨j, hj, fun k hk h1 => ?_, ?_⟩
      · cases hk; omega
      have hlen : f.length - j ≠ 0 := by omega
      simp [recv_all_nonblock, mid, sys_recv, hne, hlen]
    · by_cases hk : f.length - j ≤ k
      · left
        have hmin : min k (f.length - j) = f.length - j := by omega
        have hlen : f.length - j ≠ 0 := by omega
        have e1 : List.take (f.length - j) (f.drop j ++ rest) = f.drop j := by
          rw [List.take_append_of_le_length (by simp)]
          exact List.take_of_length_le (by simp)
        have e2 : List.drop (f.length - j) (f.drop j ++ rest) = rest := by
          rw [List.drop_append_of_le_length (by simp)]
          simp
          omega
        simp [recv_all_nonblock, mid, sys_recv, hne, hlen, hk0, hmin, e1, e2]
        omega
      · right
        have hk' : k < f.length - j := by omega
        refine ⟨j + k, by omega, fun _ _ _ => by omega, ?_⟩
        have hmin : min k (f.length - j) = k := by omega
        have hlen : f.length - j ≠ 0 := by omega
        have e1 : List.take k (f.drop j ++ rest) = (f.drop j).take k := by
          rw [List.take_append_of_le_length (by simp; omega)]
        have e2 : List.drop k (f.drop j ++ rest) = f.drop (j + k) ++ rest := by
          rw [List.drop_append_of_le_length (by simp; omega), List.drop_drop]
        have e3 : f.take j ++ (f.drop j).take k = f.take (j + k) := by
          rw [List.take_add]
        simp [recv_all_nonblock, mid, sys_recv, hne, hlen, hk0, hmin, e1, e2, e3]
        omega

theorem recv_buffer_size (w : World) (b : Bytes) (n m : Nat) (io : Sys)
    (h : w.conn.current_data = some b) :
    recv_all_nonblock w n io = recv_all_nonblock w m io := by
  simp [recv_all_nonblock, h]

theorem recv_mid_all (w : World) (f rest : Bytes) (o0 j : Nat) (io : Sys) (hj : j < f.length) :
    (∀ n, recv_all_nonblock (mid w (some (f.take j)) (o0 + j) (f.length - j) (f.drop j ++ rest))
        n io = (mid w (some f) (o0 + f.length) 0 rest, true)) ∨
    ∃ j', j' < f.length ∧ (∀ k, io = .xfer k → 1 ≤ k → j < j') ∧ ∀ n,
      recv_all_nonblock (mid w (some (f.take j)) (o0 + j) (f.length - j) (f.drop j ++ rest)) n io
        = (mid w (some (f.take j')) (o0 + j') (f.length - j') (f.drop j' ++ rest), false) := by
  rcases recv_mid w f rest o0 j 0 io hj with h | ⟨j', hj', hk, h⟩
  · exact Or.inl fun n => (recv_buffer_size _ (f.take j) n 0 io rfl).trans h
  · exact Or.inr ⟨j', hj', hk, fun n => (recv_buffer_size _ (f.take j) n 0 io rfl).trans h⟩

theorem recv_mid_full (w : World) (f rest : Bytes) (o0 n : Nat) (hf : f ≠ []) :
    recv_all_nonblock (mid w (some []) o0 f.length (f ++ rest)) n (.xfer f.length)
      = (mid w (some f) (o0 + f.length) 0 rest, true) := by
  have hlen : 0 < f.length := List.length_pos.mpr hf
  have hne : f ++ rest ≠ [] := by simp [hf]
  have h0 : f.length ≠ 0 := by omega
  simp [recv_all_nonblock, mid, sys_recv, hne, h0, hf]

theorem step_mid (w : World) (f rest : Bytes) (o0 j : Nat) (io : Sys) (hj : j < f.length)
    (hst : receiving w.conn.dfa_state = true) :
    do_local_comms_step (mid w (some (f.take j)) (o0 + j) (f.length - j) (f.drop j ++ rest)) io
        = do_local_comms_step (mid w (some []) o0 f.length (f ++ rest)) (.xfer f.length) ∨
    ∃ j', j' < f.length ∧ (∀ k, io = .xfer k → 1 ≤ k → j < j') ∧
      do_local_comms_step (mid w (some (f.take j)) (o0 + j) (f.length - j) (f.drop j ++ rest)) io
        = (mid w (some (f.take j')) (o0 + j') (f.length - j') (f.drop j' ++ rest), .ret) := by
  have hf : f ≠ [] := by intro h; simp [h] at hj
  have hst1 : ∀ a b c e, (mid w a b c e).conn.dfa_state = w.conn.dfa_state := fun _ _ _ _ => rfl
  rcases recv_mid_all w f rest o0 j io hj with h | ⟨j', hj', hk, h⟩
  · left
    unfold do_local_comms_step
    simp only [hst1]
    cases hs : w.conn.dfa_state <;> simp [receiving, hs] at hst <;>
      simp only [h, recv_mid_full w f rest o0 _ hf]
  · right
    refine ⟨j', hj', hk, ?_⟩
    unfold do_local_comms_step
    simp only [hst1]
    cases hs : w.conn.dfa_state <;> simp [receiving, hs] at hst <;>
      simp only [h]

theorem run_pass_cons (w : World) (io : Sys) (t : List Sys) (hl : w.live = true) :
    run_events w ((io :: t).map .pass)
      = run_events (do_local_comms_step w io).1 (t.map .pass) := by
  simp [run_events, session_step, hl]

theorem passes_mid (w : World) (f rest : Bytes) (o0 : Nat) (hl : w.live = true)
    (hst : receiving w.conn.dfa_state = true) (ios : List Sys) :
    ∀ j, j < f.length →
      (run_events (mid w (some (f.take j)) (o0 + j) (f.length - j) (f.drop j ++ rest))
          (ios.map .pass)).sock.inq ≠ [] ∨
      ∃ ios1 ios2, ios = ios1 ++ ios2 ∧
        run_events (mid w (some (f.take j)) (o0 + j) (f.length - j) (f.drop j ++ rest))
            (ios1.map .pass)
          = (do_local_comms_step (mid w (some []) o0 f.length (f ++ rest)) (.xfer f.length)).1 := by
  have hlm : ∀ a b c e, (mid w a b c e).live = true := fun _ _ _ _ => hl
  induction ios with
  | nil =>
    intro j hj
    left
    intro h
    have := congrArg List.length h
    simp [run_events, mid] at this
    omega
  | cons io t ih =>
    intro j hj
    rcases step_mid w f rest o0 j io hj hst with h | ⟨j', hj', -, h⟩
    · right
      refine ⟨[io], t, rfl, ?_⟩
      rw [run_pass_cons _ io [] (hlm _ _ _ _), h]
      rfl
    · rw [run_pass_cons _ io t (hlm _ _ _ _), h]
      rcases ih j' hj' with h1 | ⟨ios1, ios2, e, h2⟩
      · exact Or.inl h1
      · right
        refine ⟨io :: ios1, ios2, by rw [e]; rfl, ?_⟩
        rw [run_pass_cons _ io ios1 (hlm _ _ _ _), h]
        exact h2

theorem step_start (w : World) (n o0 : Nat) (io : Sys)
    (hst : receiving w.conn.dfa_state = true)
    (h : (w.conn.current_data = none ∧ init_size w.conn = n ∧ o0 = 0) ∨
         (w.conn.current_data = some [] ∧ w.conn.current_size = n ∧
           o0 = w.conn.current_offset)) :
    do_local_comms_step w io = do_local_comms_step (mid w (some []) o0 n w.sock.inq) io := by
  rcases h with ⟨hcd, hn, ho⟩ | ⟨hcd, hn, ho⟩
  · have hr : ∀ m, recv_all_nonblock w m io
        = recv_all_nonblock (mid w (some []) o0 m w.sock.inq) m io := by
      intro m
      simp [recv_all_nonblock, hcd, mid, ho]
    have hst1 : ∀ a b c e, (mid w a b c e).conn.dfa_state = w.conn.dfa_state :=
      fun _ _ _ _ => rfl
    have hsz : ∀ a b c e, (mid w a b c e).conn.current_size = c := fun _ _ _ _ => rfl
    unfold init_size at hn
    cases hs : w.conn.dfa_state <;> simp [receiving, hs] at hst <;>
      rw [hs] at hn <;> simp only at hn <;> subst hn <;>
      (unfold do_local_comms_step; simp only [hst1, hsz, hs]; rw [hr])
  · have e : mid w (some []) o0 n w.sock.inq = w := by
      cases w with
      | mk d conn live sock others shm temp_dir tmp_string heap log ub =>
        cases conn
        cases sock
        simp_all [mid]
    rw [e]

theorem passes_field (w : World) (f rest : Bytes) (o0 : Nat) (hl : w.live = true)
    (hst : receiving w.conn.dfa_state = true) (hf : f ≠ [])
    (h : (w.conn.current_data = none ∧ init_size w.conn = f.length ∧ o0 = 0) ∨
         (w.conn.current_data = some [] ∧ w.conn.current_size = f.length ∧
           o0 = w.conn.current_offset))
    (hinq : w.sock.inq = f ++ rest) :
    Passes w (do_local_comms_step w (.xfer f.length)).1 := by
  intro ios
  have hs0 := fun io => step_start w f.length o0 io hst h
  rw [hinq] at hs0
  cases ios with
  | nil => left; simp [run_events, hinq, hf]
  | cons io t =>
    rw [run_pass_cons w io t hl, hs0 io]
    have hlen : 0 < f.length := List.length_pos.mpr hf
    rcases step_mid w f rest o0 0 io hlen hst with h1 | ⟨j', hj', -, h1⟩
    · right
      refine ⟨[io], t, rfl, ?_⟩
      rw [run_pass_cons w io [] hl, hs0 io, hs0 (.xfer f.length)]
      simp only [List.take_zero, Nat.add_zero, Nat.sub_zero, List.drop_zero] at h1
      rw [h1]
      rfl
    · simp only [List.take_zero, Nat.add_zero, Nat.sub_zero, List.drop_zero] at h1
      rw [h1]
      rcases passes_mid w f rest o0 hl hst t j' hj' with h2 | ⟨ios1, ios2, e, h2⟩
      · exact Or.inl h2
      · right
        refine ⟨io :: ios1, ios2, by rw [e]; rfl, ?_⟩
        rw [run_pass_cons w io ios1 hl, hs0 io, h1, h2, hs0 (.xfer f.length)]

theorem run_pass_append (w : World) (l1 l2 : List Sys) :
    run_events w ((l1 ++ l2).map .pass)
      = run_events (run_events w (l1.map .pass)) (l2.map .pass) := by
  simp [run_events, List.foldl_append]

theorem passes_trans (a b c : World) (hab : Passes a b) (hbc : Passes b c) : Passes a c := by
  intro ios
  rcases hab ios with h | ⟨i1, i2, e, h⟩
  · exact Or.inl h
  · rcases hbc i2 with h2 | ⟨j1, j2, e2, h2⟩
    · left
      rw [e, run_pass_append, h]
      exact h2
    · right
      refine ⟨i1 ++ j1, j2, by rw [e, e2, List.append_assoc], ?_⟩
      rw [run_pass_append, h, h2]

theorem passes_pass (w v : World) (hl : w.live = true) (hinq : w.sock.inq ≠ [])
    (h : ∀ io, (do_local_comms_step w io).1 = v) : Passes w v := by
  intro ios
  cases ios with
  | nil => exact Or.inl hinq
  | cons io t =>
    right
    refine ⟨[io], t, rfl, ?_⟩
    rw [run_pass_cons w io [] hl, h io]
    rfl

theorem passes_refl (w : World) : Passes w w := fun ios => Or.inr ⟨[], ios, rfl, rfl⟩

theorem within_mid (w : World) (f rest : Bytes) (o0 : Nat) (hl : w.live = true)
    (hst : receiving w.conn.dfa_state = true) (ios : List Sys) :
    ∀ j, j < f.length → transferring ios → f.length - j ≤ ios.length →
      ∃ ios1 ios2, ios = ios1 ++ ios2 ∧ ios1.length ≤ f.length - j ∧
        run_events (mid w (some (f.take j)) (o0 + j) (f.length - j) (f.drop j ++ rest))
            (ios1.map .pass)
          = (do_local_comms_step (mid w (some []) o0 f.length (f ++ rest)) (.xfer f.length)).1 := by
  have hlm : ∀ a b c e, (mid w a b c e).live = true := fun _ _ _ _ => hl
  induction ios with
  | nil =>
    intro j hj _ hlen
    simp at hlen
    omega
  | cons io t ih =>
    intro j hj htr hlen
    obtain ⟨k, hk, rfl⟩ := htr io (List.mem_cons_self _ _)
    have htr' : transferring t := fun x hx => htr x (List.mem_cons_of_mem _ hx)
    simp only [List.length_cons] at hlen
    rcases step_mid w f rest o0 j (.xfer k) hj hst with h | ⟨j', hj', hlt, h⟩
    · refine ⟨[.xfer k], t, rfl, by simp; omega, ?_⟩
      rw [run_pass_cons _ (.xfer k) [] (hlm _ _ _ _), h]
      rfl
    · have hjj := hlt k rfl hk
      obtain ⟨i1, i2, e, hle, hrun⟩ := ih j' hj' htr' (by omega)
      refine ⟨.xfer k :: i1, i2, by rw [e]; rfl, by simp; omega, ?_⟩
      rw [run_pass_cons _ (.xfer k) i1 (hlm _ _ _ _), h]
      exact hrun

theorem within_field (w : World) (f rest : Bytes) (o0 : Nat) (hl : w.live = true)
    (hst : receiving w.conn.dfa_state = true) (hf : f ≠ [])
    (h : (w.conn.current_data = none ∧ init_size w.conn = f.length ∧ o0 = 0) ∨
         (w.conn.current_data = some [] ∧ w.conn.current_size = f.length ∧
           o0 = w.conn.current_offset))
    (hinq : w.sock.inq = f ++ rest) :
    Within f.length w (do_local_comms_step w (.xfer f.length)).1 := by
  intro ios htr hlen
  have hs0 := fun io => step_start w f.length o0 io hst h
  rw [hinq] at hs0
  have hpos : 0 < f.length := List.length_pos.mpr hf
  cases ios with
  | nil => exact absurd (by simpa using hlen) hf
  | cons io t =>
    obtain ⟨k, hk, rfl⟩ := htr io (List.mem_cons_self _ _)
    have htr' : transferring t := fun x hx => htr x (List.mem_cons_of_mem _ hx)
    simp only [List.length_cons] at hlen
    rcases step_mid w f rest o0 0 (.xfer k) hpos hst with h1 | ⟨j', hj', hlt, h1⟩
    · refine ⟨[.xfer k], t, rfl, by simp; omega, ?_⟩
      rw [run_pass_cons w (.xfer k) [] hl, hs0 (.xfer k), hs0 (.xfer f.length)]
      simp only [List.take_zero, Nat.add_zero, Nat.sub_zero, List.drop_zero] at h1
      rw [h1]
      rfl
    · have hjj := hlt k rfl hk
      simp only [List.take_zero, Nat.add_zero, Nat.sub_zero, List.drop_zero] at h1
      obtain ⟨i1, i2, e, hle, hrun⟩ := within_mid w f rest o0 hl hst t j' hj' htr' (by omega)
      refine ⟨.xfer k :: i1, i2, by rw [e]; rfl, by simp; omega, ?_⟩
      rw [run_pass_cons w (.xfer k) i1 hl, hs0 (.xfer k), h1, hrun, hs0 (.xfer f.length)]

theorem transferring_append (a b : List Sys) (h : transferring (a ++ b)) :
    transferring a ∧ transferring b :=
  ⟨fun x hx => h x (List.mem_append_left _ hx), fun x hx => h x (List.mem_append_right _ hx)⟩

theorem within_trans (n m : Nat) (a b c : World) (hab : Within n a b) (hbc : Within m b c) :
    Within (n + m) a c := by
  intro ios htr hlen
  obtain ⟨i1, i2, e, hle, h⟩ := hab ios htr (by omega)
  subst e
  simp only [List.length_append] at hlen
  obtain ⟨j1, j2, e2, hle2, h2⟩ := hbc i2 (transferring_append _ _ htr).2 (by omega)
  refine ⟨i1 ++ j1, j2, by rw [e2, List.append_assoc], by simp; omega, ?_⟩
  rw [run_pass_append, h, h2]

theorem within_pass (w v : World) (hl : w.live = true)
    (h : ∀ io, (do_local_comms_step w io).1 = v) : Within 1 w v := by
  intro ios _ hlen
  cases ios with
  | nil => simp at hlen
  | cons io t =>
    refine ⟨[io], t, rfl, by simp, ?_⟩
    rw [run_pass_cons w io [] hl, h io]
    rfl

theorem thru_field (w : World) (f rest : Bytes) (o0 : Nat) (hl : w.live = true)
    (hst : receiving w.conn.dfa_state = true) (hf : f ≠ [])
    (h : (w.conn.current_data = none ∧ init_size w.conn = f.length ∧ o0 = 0) ∨
         (w.conn.current_data = some [] ∧ w.conn.current_size = f.length ∧
           o0 = w.conn.current_offset))
    (hinq : w.sock.inq = f ++ rest) :
    Thru w (do_local_comms_step w (.xfer f.length)).1 :=
  ⟨passes_field w f rest o0 hl hst hf h hinq, f.length,
    within_field w f rest o0 hl hst hf h hinq⟩

theorem thru_trans (a b c : World) (hab : Thru a b) (hbc : Thru b c) : Thru a c := by
  obtain ⟨p1, n, q1⟩ := hab
  obtain ⟨p2, m, q2⟩ := hbc
  exact ⟨passes_trans a b c p1 p2, n + m, within_trans n m a b c q1 q2⟩

theorem thru_pass (w v : World) (hl : w.live = true) (hinq : w.sock.inq ≠ [])
    (h : ∀ io, (do_local_comms_step w io).1 = v) : Thru w v :=
  ⟨passes_pass w v hl hinq h, 1, within_pass w v hl h⟩

theorem thru_refl (w : World) : Thru w w :=
  ⟨passes_refl w, 0, fun ios _ _ => ⟨[], ios, rfl, Nat.le_refl 0, rfl⟩⟩

theorem le32_length (n : Nat) : (le32 n).length = 4 := rfl

theorem decode_size_le32 (n : Nat) (h : n < 2147483648) : decode_size (le32 n) = n := by
  unfold decode_size le32_bits le32
  simp only [List.getD_cons_zero, List.getD_cons_succ]
  have e : n % 256 % 256 + n / 256 % 256 % 256 * 256 + n / 65536 % 256 % 256 * 65536
      + n / 16777216 % 256 % 256 * 16777216 = n := by omega
  rw [e, if_pos h]

theorem cstr_idem (b : Bytes) : cstr (cstr b) = cstr b := by
  unfold cstr
  exact List.takeWhile_idem

theorem recv_start_full (w : World) (f rest : Bytes) (hf : f ≠ [])
    (hcd : w.conn.current_data = none) (hinq : w.sock.inq = f ++ rest) :
    recv_all_nonblock w f.length (.xfer f.length) = (mid w (some f) f.length 0 rest, true) := by
  have hne : f ++ rest ≠ [] := by simp [hf]
  have h0 : f.length ≠ 0 := by
    intro h; exact hf (List.eq_nil_of_length_eq_zero h)
  simp [recv_all_nonblock, mid, sys_recv, hcd, hinq, hne, h0, hf]

theorem step_recv_size (w : World) (n : Nat) (rest : Bytes) (hn : n < 2147483648)
    (hs : w.conn.dfa_state = STATE_RECV_SIZE) (hcd : w.conn.current_data = none)
    (hinq : w.sock.inq = le32 n ++ rest) :
    do_local_comms_step w (.xfer 4) =
      ({ w with conn := { w.conn with current_size := n, current_data := none,
                                      current_offset := 4,
                                      dfa_state := w.conn.dfa_next_state },
                sock := { w.sock with inq := rest } }, .cont) := by
  have hr := recv_start_full w (le32 n) rest (by simp [le32]) hcd hinq
  rw [le32_length] at hr
  unfold do_local_comms_step
  simp only [hs, hr]
  simp [mid, decode_size_le32 n hn]

theorem step_recv_field (w : World) (f rest : Bytes) (hf : f ≠ [])
    (hst : receiving w.conn.dfa_state = true) (hs1 : w.conn.dfa_state ≠ STATE_RECV_INIT)
    (hs2 : w.conn.dfa_state ≠ STATE_RECV_SIZE)
    (hcd : w.conn.current_data = none) (hsz : w.conn.current_size = f.length)
    (hinq : w.sock.inq = f ++ rest) :
    do_local_comms_step w (.xfer f.length) =
      ({ mid w (some f) f.length 0 rest with
          conn := { field_complete (mid w (some f) f.length 0 rest).conn f with
                      current_data := none } }, .cont) := by
  have hr := recv_start_full w f rest hf hcd hinq
  unfold do_local_comms_step
  cases hs : w.conn.dfa_state <;> simp [receiving, hs] at hst hs1 hs2 <;>
    simp only [hsz, hr] <;> simp [mid]

theorem step_recv_init_code (w : World) (c : Nat) (rest : Bytes)
    (hc : c = 85 ∨ c = 72 ∨ c = 70 ∨ c = 65)
    (hs : w.conn.dfa_state = STATE_RECV_INIT)
    (hri : w.conn.current_data = none ∨ (w.conn.current_data = some [] ∧ w.conn.current_size = 1))
    (hinq : w.sock.inq = c :: rest) :
    ∃ b, do_local_comms_step w (.xfer 1) =
      ({ mid w none b 0 rest with
          conn := { (mid w none b 0 rest).conn with
                      dfa_state := STATE_RECV_SIZE, dfa_next_state := code_state c } },
        .cont) := by
  obtain ⟨b, hb⟩ := recv_init_full w c rest 1 (Nat.le_refl 1) hinq hri
  refine ⟨b, ?_⟩
  unfold do_local_comms_step
  simp only [hs, hb]
  rcases hc with rfl | rfl | rfl | rfl <;> simp [mid, code_state]

theorem thru_code (w : World) (c : Nat) (rest : Bytes)
    (hc : c = 85 ∨ c = 72 ∨ c = 70 ∨ c = 65) (h : AtFrame w (c :: rest)) :
    ∃ b, Thru w { mid w none b 0 rest with
          conn := { (mid w none b 0 rest).conn with
                      dfa_state := STATE_RECV_SIZE, dfa_next_state := code_state c } } := by
  obtain ⟨hl, hs, hri, hinq⟩ := h
  obtain ⟨b, hb⟩ := step_recv_init_code w c rest hc hs hri hinq
  refine ⟨b, ?_⟩
  have ht := thru_field w [c] rest (if w.conn.current_data = none then 0 else w.conn.current_offset)
    hl (by rw [hs]; rfl) (by simp)
    (by
      rcases hri with h1 | ⟨h1, h2⟩
      · left; exact ⟨h1, by simp [init_size, hs], by simp [h1]⟩
      · right; exact ⟨h1, by simpa using h2, by simp [h1]⟩)
    (by simpa using hinq)
  simp only [List.length_singleton] at ht
  rw [hb] at ht
  exact ht

theorem thru_size_field (w : World) (s : dfa) (f rest : Bytes) (hl : w.live = true)
    (hs : w.conn.dfa_state = STATE_RECV_SIZE) (hnx : w.conn.dfa_next_state = s)
    (hrs : receiving s = true) (hs1 : s ≠ STATE_RECV_INIT) (hs2 : s ≠ STATE_RECV_SIZE)
    (hcd : w.conn.current_data = none) (hf1 : 1 ≤ f.length) (hf2 : f.length < 2147483648)
    (hinq : w.sock.inq = le32 f.length ++ (f ++ rest)) :
    Thru w { mid w none f.length 0 rest with
      conn := { field_complete
                  { (mid w (some f) f.length 0 rest).conn with dfa_state := s } f with
                current_data := none } } := by
  have hf : f ≠ [] := by intro h; simp [h] at hf1
  subst hnx
  have e1 := step_recv_size w f.length (f ++ rest) hf2 hs hcd hinq
  have t1 := thru_field w (le32 f.length) (f ++ rest) 0 hl (by rw [hs]; rfl) (by simp [le32])
    (Or.inl ⟨hcd, by simp [init_size, hs, le32], rfl⟩) hinq
  rw [le32_length, e1] at t1
  refine thru_trans _ _ _ t1 ?_
  have e2 := step_recv_field
    { w with conn := { w.conn with current_size := f.length, current_data := none,
                                    current_offset := 4, dfa_state := w.conn.dfa_next_state },
             sock := { w.sock with inq := f ++ rest } } f rest hf
    hrs hs1 hs2 rfl rfl rfl
  have hinit : init_size { w.conn with current_size := f.length, current_data := none, current_offset := 4, dfa_state := w.conn.dfa_next_state } = f.length := by
    unfold init_size
    cases hx : w.conn.dfa_next_state <;> simp_all [receiving]
  have t2 := thru_field
    { w with conn := { w.conn with current_size := f.length, current_data := none,
                                    current_offset := 4, dfa_state := w.conn.dfa_next_state },
             sock := { w.sock with inq := f ++ rest } } f rest 0 hl
    hrs hf (Or.inl ⟨rfl, hinit, rfl⟩) rfl
  rw [e2] at t2
  exact t2

theorem thru_code_at (w : World) (c : Nat) (rest : Bytes)
    (hc : c = 85 ∨ c = 72 ∨ c = 70 ∨ c = 65) (h : AtFrame w (c :: rest)) :
    ∃ v, Thru w v ∧ v.live = true ∧ v.conn.dfa_state = STATE_RECV_SIZE ∧
      v.conn.dfa_next_state = code_state c ∧ v.conn.current_data = none ∧
      v.sock.inq = rest ∧ v.shm = w.shm ∧ request_of v.conn = request_of w.conn := by
  obtain ⟨b, t⟩ := thru_code w c rest hc h
  exact ⟨_, t, h.1, rfl, rfl, rfl, rfl, rfl, rfl⟩

theorem thru_call_url (w : World) (u rest : Bytes) (hu : wire_string u)
    (h : AtFrame w (set_daemon_url u ++ rest)) :
    ∃ v, Thru w v ∧ AtFrame v rest ∧ v.conn.current_data = none ∧ v.shm = w.shm ∧
      request_of v.conn = request_of (set_url w.conn u) := by
  have hinq : set_daemon_url u ++ rest
      = 85 :: (le32 (cstr u).length ++ (cstr u ++ rest)) := by
    simp [set_daemon_url, strlen]
  rw [hinq] at h
  obtain ⟨w1, t1, l1, s1, n1, c1, q1, m1, r1⟩ := thru_code_at w 85 _ (Or.inl rfl) h
  have t2 := thru_size_field w1 STATE_RECV_URL (cstr u) rest l1 s1 n1 rfl (by decide) (by decide)
    c1 hu.1 hu.2 q1
  refine ⟨_, thru_trans _ _ _ t1 t2, ?_, ?_, ?_, ?_⟩
  · exact ⟨l1, rfl, Or.inl rfl, rfl⟩
  · rfl
  · exact m1
  · simp only [request_of, Prod.mk.injEq] at r1
    obtain ⟨e1, e2, e3, e4, e5⟩ := r1
    simp [request_of, field_complete, set_url, reset_response, mid, cstr_idem, e2, e3, e4]

theorem thru_size_field_at (w : World) (s : dfa) (f rest : Bytes) (hl : w.live = true)
    (hs : w.conn.dfa_state = STATE_RECV_SIZE) (hnx : w.conn.dfa_next_state = s)
    (hrs : receiving s = true) (hs1 : s ≠ STATE_RECV_INIT) (hs2 : s ≠ STATE_RECV_SIZE)
    (hcd : w.conn.current_data = none) (hf : wire_string f)
    (hinq : w.sock.inq = le32 (strlen f) ++ (cstr f ++ rest)) :
    ∃ v, Thru w v ∧ v.live = true ∧ v.sock.inq = rest ∧ v.shm = w.shm ∧
      v.conn = { field_complete
                  { (mid w (some (cstr f)) (cstr f).length 0 rest).conn with dfa_state := s }
                  (cstr f) with
                current_data := none } :=
  ⟨_, thru_size_field w s (cstr f) rest hl hs hnx hrs hs1 hs2 hcd hf.1 hf.2 hinq,
    hl, rfl, rfl, rfl⟩

theorem thru_call_header (w : World) (u rest : Bytes) (hu : wire_string u)
    (h : AtFrame w (add_daemon_header u ++ rest)) :
    ∃ v, Thru w v ∧ AtFrame v rest ∧ v.conn.current_data = none ∧ v.shm = w.shm ∧
      request_of v.conn = request_of (add_header w.conn u) := by
  have hinq : add_daemon_header u ++ rest
      = 72 :: (le32 (strlen u) ++ (cstr u ++ rest)) := by
    simp [add_daemon_header]
  rw [hinq] at h
  obtain ⟨w1, t1, l1, s1, n1, c1, q1, m1, r1⟩ := thru_code_at w 72 _ (Or.inr (Or.inl rfl)) h
  obtain ⟨w2, t2, l2, q2, m2, e2⟩ := thru_size_field_at w1 STATE_RECV_HEADER u rest l1 s1 n1 rfl
    (by decide) (by decide) c1 hu q1
  simp only [request_of, Prod.mk.injEq] at r1
  obtain ⟨r1a, r1b, r1c, r1d, r1e⟩ := r1
  refine ⟨w2, thru_trans _ _ _ t1 t2, ?_, ?_, ?_, ?_⟩
  · exact ⟨l2, by rw [e2]; rfl, Or.inl (by rw [e2]), q2⟩
  · rw [e2]
  · rw [m2, m1]
  · rw [e2]
    simp [request_of, field_complete, add_header, reset_response, mid, cstr_idem, r1a, r1b, r1c,
      r1d]

theorem thru_call_form_data (w : World) (n v rest : Bytes) (hn : wire_string n)
    (hv : wire_string v) (h : AtFrame w (add_daemon_form_data n v ++ rest)) :
    ∃ x, Thru w x ∧ AtFrame x rest ∧ x.conn.current_data = none ∧ x.shm = w.shm ∧
      request_of x.conn = request_of (add_form_data w.conn n v) := by
  have hinq : add_daemon_form_data n v ++ rest
      = 70 :: (le32 (strlen n) ++ (cstr n ++ (le32 (strlen v) ++ (cstr v ++ rest)))) := by
    simp [add_daemon_form_data]
  rw [hinq] at h
  obtain ⟨w1, t1, l1, s1, n1, c1, q1, m1, r1⟩ :=
    thru_code_at w 70 _ (Or.inr (Or.inr (Or.inl rfl))) h
  obtain ⟨w2, t2, l2, q2, m2, e2⟩ := thru_size_field_at w1 STATE_RECV_FORM_NAME n _ l1 s1 n1 rfl
    (by decide) (by decide) c1 hn q1
  obtain ⟨w3, t3, l3, q3, m3, e3⟩ := thru_size_field_at w2 STATE_RECV_FORM_DATA v rest l2
    (by rw [e2]; rfl) (by rw [e2]; rfl) rfl (by decide) (by decide) (by rw [e2]) hv q2
  simp only [request_of, Prod.mk.injEq] at r1
  obtain ⟨r1a, r1b, r1c, r1d, r1e⟩ := r1
  refine ⟨w3, thru_trans _ _ _ t1 (thru_trans _ _ _ t2 t3), ?_, ?_, ?_, ?_⟩
  · exact ⟨l3, by rw [e3]; rfl, Or.inl (by rw [e3]), q3⟩
  · rw [e3]
  · rw [m3, m2, m1]
  · rw [e3]
    simp [e2, request_of, field_complete, add_form_data, reset_response, mid, cstr_idem, r1a, r1b,
      r1c, r1d]

theorem add_form_attachment_request (shm : List (Bytes × stashed_file))
    (c c' : local_connection_state) (a b d : Bytes) (sz : Nat)
    (h : request_of c = request_of c') :
    request_of (add_form_attachment shm c (cstr a) (cstr b) sz (cstr d)).2
      = request_of (add_form_attachment shm c' a b sz d).2 := by
  simp only [request_of, Prod.mk.injEq] at h
  obtain ⟨h1, h2, h3, h4, h5⟩ := h
  unfold add_form_attachment
  simp only [cstr_idem]
  split
  · simp [request_of, h1, h2, h3, h4, h5]
  · split <;> simp [request_of, reset_response, h1, h2, h3, h4, h5]

theorem step_attachment_complete (w : World) (io : Sys)
    (hs : w.conn.dfa_state = STATE_RECV_ATTACHMENT_COMPLETE) :
    do_local_comms_step w io =
      ({ w with conn :=
          { (add_form_attachment w.shm w.conn (w.conn.stashed_string0.getD [])
              (w.conn.stashed_string1.getD []) w.conn.current_size
              (w.conn.stashed_string2.getD [])).2 with
            stashed_string0 := none, stashed_string1 := none, stashed_string2 := none,
            dfa_state := STATE_RECV_INIT } }, .cont) := by
  unfold do_local_comms_step
  simp only [hs]

theorem add_form_attachment_buffer (shm : List (Bytes × stashed_file))
    (c : local_connection_state) (a b d : Bytes) (sz : Nat) :
    (add_form_attachment shm c a b sz d).2.current_data = c.current_data := by
  unfold add_form_attachment
  split
  · rfl
  · split <;> rfl

theorem thru_call_form_attachment (sizeof_sf : Nat) (w : World) (n : Bytes) (sf : stashed_file)
    (f rest : Bytes) (hn : wire_string n) (hsn : wire_string sf.shm_name) (hf : wire_string f)
    (hm : (sizeof_sf + sf.size) % 18446744073709551616 < 2147483648) (hrest : rest ≠ [])
    (h : AtFrame w (add_daemon_form_attachment sizeof_sf n sf f ++ rest)) :
    ∃ x, Thru w x ∧ AtFrame x rest ∧ x.conn.current_data = none ∧ x.shm = w.shm ∧
      request_of x.conn = request_of (add_form_attachment w.shm w.conn n sf.shm_name
        ((sizeof_sf + sf.size) % 18446744073709551616) f).2 := by
  have hinq : add_daemon_form_attachment sizeof_sf n sf f ++ rest
      = 65 :: (le32 (strlen n) ++ (cstr n ++ (le32 (strlen sf.shm_name) ++ (cstr sf.shm_name
          ++ (le32 (strlen f) ++ (cstr f
          ++ (le32 ((sizeof_sf + sf.size) % 18446744073709551616) ++ rest))))))) := by
    simp [add_daemon_form_attachment]
  rw [hinq] at h
  obtain ⟨w1, t1, l1, s1, n1, c1, q1, m1, r1⟩ :=
    thru_code_at w 65 _ (Or.inr (Or.inr (Or.inr rfl))) h
  obtain ⟨w2, t2, l2, q2, m2, e2⟩ := thru_size_field_at w1 STATE_RECV_ATTACHMENT_NAME n _ l1 s1
    n1 rfl (by decide) (by decide) c1 hn q1
  obtain ⟨w3, t3, l3, q3, m3, e3⟩ := thru_size_field_at w2 STATE_RECV_ATTACHMENT_FILE sf.shm_name
    _ l2 (by rw [e2]; rfl) (by rw [e2]; rfl) rfl (by decide) (by decide) (by rw [e2]) hsn q2
  obtain ⟨w4, t4, l4, q4, m4, e4⟩ := thru_size_field_at w3 STATE_RECV_ATTACHMENT_FILENAME f
    _ l3 (by rw [e3]; rfl) (by rw [e3]; rfl) rfl (by decide) (by decide) (by rw [e3]) hf q3
  have s4 : w4.conn.dfa_state = STATE_RECV_SIZE := by rw [e4]; rfl
  have c4 : w4.conn.current_data = none := by rw [e4]
  have t5 := thru_field w4 (le32 ((sizeof_sf + sf.size) % 18446744073709551616)) rest 0 l4
    (by rw [s4]; rfl) (by simp [le32]) (Or.inl ⟨c4, by simp [init_size, s4, le32], rfl⟩) q4
  rw [le32_length, step_recv_size w4 _ rest hm s4 c4 q4] at t5
  obtain ⟨w5, hw5⟩ : ∃ w5, w5 = ({ w4 with
      conn := { w4.conn with
        current_size := (sizeof_sf + sf.size) % 18446744073709551616, current_data := none,
        current_offset := 4, dfa_state := w4.conn.dfa_next_state },
      sock := { w4.sock with inq := rest } } : World) := ⟨_, rfl⟩
  rw [← hw5] at t5
  have s5 : w5.conn.dfa_state = STATE_RECV_ATTACHMENT_COMPLETE := by rw [hw5, e4]; rfl
  have t6 := thru_pass w5 _ (by rw [hw5]; exact l4) (by rw [hw5]; exact hrest)
    (fun io => by rw [step_attachment_complete w5 io s5])
  simp only [request_of, Prod.mk.injEq] at r1
  obtain ⟨r1a, r1b, r1c, r1d, r1e⟩ := r1
  refine ⟨_, thru_trans _ _ _ t1 (thru_trans _ _ _ t2 (thru_trans _ _ _ t3
    (thru_trans _ _ _ t4 (thru_trans _ _ _ t5 t6)))), ?_, ?_, ?_, ?_⟩
  · refine ⟨by rw [hw5]; exact l4, rfl, Or.inl ?_, by rw [hw5]⟩
    show (add_form_attachment _ _ _ _ _ _).2.current_data = none
    rw [add_form_attachment_buffer, hw5]
  · show (add_form_attachment _ _ _ _ _ _).2.current_data = none
    rw [add_form_attachment_buffer, hw5]
  · show w5.shm = w.shm
    rw [hw5]
    show w4.shm = w.shm
    rw [m4, m3, m2, m1]
  · have e5 : w5.shm = w.shm := by
      rw [hw5]
      show w4.shm = w.shm
      rw [m4, m3, m2, m1]
    have k0 : w5.conn.stashed_string0 = some (cstr n) := by
      rw [hw5, e4]; simp [field_complete, mid, e3, e2]
    have k1 : w5.conn.stashed_string1 = some (cstr sf.shm_name) := by
      rw [hw5, e4]; simp [field_complete, mid, e3, e2]
    have k2 : w5.conn.stashed_string2 = some (cstr f) := by
      rw [hw5, e4]; simp [field_complete, mid, e3, e2]
    have k3 : w5.conn.current_size = (sizeof_sf + sf.size) % 18446744073709551616 := by
      rw [hw5]
    have k4 : request_of w5.conn = request_of w.conn := by
      rw [hw5, e4]
      simp [request_of, field_complete, mid, e3, e2, r1a, r1b, r1c, r1d, r1e]
    show request_of (add_form_attachment w5.shm w5.conn _ _ _ _).2 = _
    simp only [request_of]
    rw [k0, k1, k2, k3, e5]
    exact add_form_attachment_request w.shm w5.conn w.conn n sf.shm_name f _ k4

theorem direct_request (shm : List (Bytes × stashed_file)) (sizeof_sf : Nat)
    (c c' : local_connection_state) (call : ClientCall) (h : request_of c = request_of c') :
    request_of (call.direct shm sizeof_sf c) = request_of (call.direct shm sizeof_sf c') := by
  have h0 := h
  simp only [request_of, Prod.mk.injEq] at h
  obtain ⟨h1, h2, h3, h4, h5⟩ := h
  cases call with
  | url u => simp [ClientCall.direct, request_of, set_url, reset_response, h2, h3, h4]
  | header u => simp [ClientCall.direct, request_of, add_header, reset_response, h1, h2, h3, h4]
  | form_data n v =>
    simp [ClientCall.direct, request_of, add_form_data, reset_response, h1, h2, h3, h4]
  | form_attachment n sf f =>
    simp only [ClientCall.direct]
    rw [← add_form_attachment_request shm c c' n sf.shm_name f _ h0,
      ← add_form_attachment_request shm c c n sf.shm_name f _ rfl]

theorem direct_fold_request (shm : List (Bytes × stashed_file)) (sizeof_sf : Nat)
    (calls : List ClientCall) :
    ∀ c c' : local_connection_state, request_of c = request_of c' →
      request_of (calls.foldl (ClientCall.direct shm sizeof_sf) c)
        = request_of (calls.foldl (ClientCall.direct shm sizeof_sf) c') := by
  induction calls with
  | nil => intro c c' h; exact h
  | cons a t ih =>
    intro c c' h
    exact ih _ _ (direct_request shm sizeof_sf c c' a h)

theorem thru_call (sizeof_sf : Nat) (call : ClientCall) (w : World) (rest : Bytes)
    (hsend : call.sendable sizeof_sf) (hrest : rest ≠ [])
    (h : AtFrame w (call.frame sizeof_sf ++ rest)) :
    ∃ v, Thru w v ∧ AtFrame v rest ∧ v.shm = w.shm ∧
      request_of v.conn = request_of (call.direct w.shm sizeof_sf w.conn) := by
  cases call with
  | url u =>
    obtain ⟨v, t, a, -, m, r⟩ := thru_call_url w u rest hsend h
    exact ⟨v, t, a, m, r⟩
  | header u =>
    obtain ⟨v, t, a, -, m, r⟩ := thru_call_header w u rest hsend h
    exact ⟨v, t, a, m, r⟩
  | form_data n x =>
    obtain ⟨v, t, a, -, m, r⟩ := thru_call_form_data w n x rest hsend.1 hsend.2 h
    exact ⟨v, t, a, m, r⟩
  | form_attachment n sf f =>
    obtain ⟨v, t, a, -, m, r⟩ := thru_call_form_attachment sizeof_sf w n sf f rest hsend.1
      hsend.2.1 hsend.2.2.1 hsend.2.2.2 hrest h
    exact ⟨v, t, a, m, r⟩


theorem thru_calls (sizeof_sf : Nat) (calls : List ClientCall) :
    ∀ (w : World) (rest : Bytes), (∀ c ∈ calls, c.sendable sizeof_sf) → rest ≠ [] →
      AtFrame w ((calls.map (ClientCall.frame sizeof_sf)).flatten ++ rest) →
      ∃ v, Thru w v ∧ AtFrame v rest ∧ v.shm = w.shm ∧
        request_of v.conn
          = request_of (calls.foldl (ClientCall.direct w.shm sizeof_sf) w.conn) := by
  induction calls with
  | nil =>
    intro w rest _ _ h
    exact ⟨w, thru_refl w, by simpa using h, rfl, rfl⟩
  | cons a t ih =>
    intro w rest hsend hrest h
    simp only [List.map_cons, List.flatten_cons, List.append_assoc] at h
    obtain ⟨v1, t1, a1, m1, r1⟩ := thru_call sizeof_sf a w _
      (hsend a (List.mem_cons_self _ _)) (by simp [hrest]) h
    obtain ⟨v2, t2, a2, m2, r2⟩ := ih v1 rest
      (fun c hc => hsend c (List.mem_cons_of_mem _ hc)) hrest a1
    refine ⟨v2, thru_trans _ _ _ t1 t2, a2, by rw [m2, m1], ?_⟩
    rw [r2, m1]
    exact direct_fold_request w.shm sizeof_sf t _ _ r1

theorem step_submit (w : World) (hs : w.conn.dfa_state = STATE_RECV_INIT)
    (hri : w.conn.current_data = none ∨ (w.conn.current_data = some [] ∧ w.conn.current_size = 1))
    (hl : w.live = true) (hurl : w.conn.url.isSome = true) (hinq : w.sock.inq = [82]) :
    (do_local_comms_step w (.xfer 1)).1.live = true ∧
    (do_local_comms_step w (.xfer 1)).1.conn.dfa_state = STATE_WAITING ∧
    (do_local_comms_step w (.xfer 1)).1.sock.inq = [] ∧
    request_of (do_local_comms_step w (.xfer 1)).1.conn = request_of w.conn := by
  obtain ⟨b, hb⟩ := recv_init_full w 82 [] 1 (Nat.le_refl 1) hinq hri
  have hu : w.conn.url.isNone = false := by
    cases hx : w.conn.url <;> simp_all
  unfold do_local_comms_step
  simp only [hs, hb]
  simp only [List.headD_cons, Option.getD_some]
  simp [hu]
  split <;> simp [hl, request_of]

theorem run_waiting (w : World) (hs : w.conn.dfa_state = STATE_WAITING) (ios : List Sys) :
    run_events w (ios.map .pass) = w := by
  induction ios with
  | nil => rfl
  | cons io t ih =>
    have e : session_step w (.pass io) = w := by
      simp only [session_step]
      split
      · unfold do_local_comms_step
        simp only [hs]
      · rfl
    simp only [List.map_cons, run_events, List.foldl_cons, e]
    exact ih

/-- C1, counterexample.  In both runs every `send` of the client accepts
its whole buffer, so the wire holds the frames of the calls.  First run: the
client calls `add_daemon_form_data ("n", "v")` and
`request_daemon_response ()` without having set a URL; one call of
`do_local_comms` reads the whole stream, answers `'F'` and is back in
`STATE_RECV_INIT` with an empty form, while the call handed the session the
field `("n", "v")`.  Second run: the client sets the URL `"a"` and attaches
a file whose map size is `2^32 + 8`; the session ends up waiting with a
mapping of length 8. -/
theorem request_not_held :
    client_request 8 [.form_data [110] [118]] (List.replicate 5 [.count 100])
      = ⟨add_daemon_form_data [110] [118] ++ request_daemon_response, true, false⟩ ∧
    (do_local_comms 9
        (session_step (World.fresh {} 1 5 0)
          (.client_send
            (client_request 8 [.form_data [110] [118]] (List.replicate 5 [.count 100])).wire))
        (List.replicate 7 (.xfer 100))).map
          (fun p => (p.1.sock.inq, p.1.conn.post, p.1.sock.out, p.1.conn.dfa_state))
      = some ([], [], [70], STATE_RECV_INIT) ∧
    ((ClientCall.form_data [110] [118]).direct [] 8 (new_lcs 1 5 0)).post
      = [.contents [110] [118]] ∧
    (do_local_comms 14
        (run_events (World.fresh {} 1 5 0)
          [.host [([115], ⟨[115], 4294967296, []⟩)],
           .client_send
            (client_request 8
              [.url [97], .form_attachment [110] ⟨[115], 4294967296, []⟩ [102]]
              (List.replicate 10 [.count 100])).wire])
        (List.replicate 12 (.xfer 100))).map
          (fun p => (p.1.sock.inq, p.1.conn.mmaps, p.1.conn.dfa_state))
      = some ([], [⟨[115], 8⟩], STATE_WAITING) ∧
    ([ClientCall.url [97], .form_attachment [110] ⟨[115], 4294967296, []⟩ [102]].foldl
        (ClientCall.direct [([115], ⟨[115], 4294967296, []⟩)] 8) (new_lcs 1 5 0)).mmaps
      = [⟨[115], 4294967304⟩] := by
  decide

/-- The daemon's half of the round trip: a session (reached by any run)
stands at the start of a frame with nothing unread, and the frames of any
sequence of sendable calls followed by `'R'` arrive on its socket; a URL is
set by then.  Enough passes of `do_local_comms` whose `recv` calls transfer
at least one byte each read the whole stream, and however the bytes are
split over the `recv` calls, once all bytes are read the session is alive in
`STATE_WAITING` and holds the request that the same calls build when they
call the daemon-side functions directly. -/
theorem request_round_trip_frames (d : daemon) (self newfd cn : Nat) (evs : List SessionEvent)
    (sizeof_sf : Nat) (calls : List ClientCall)
    (hl : (run_events (World.fresh d self newfd cn) evs).live = true)
    (hs : (run_events (World.fresh d self newfd cn) evs).conn.dfa_state = STATE_RECV_INIT)
    (hq : (run_events (World.fresh d self newfd cn) evs).sock.inq = [])
    (hsend : ∀ c ∈ calls, c.sendable sizeof_sf)
    (hurl : (calls.foldl
        (ClientCall.direct (run_events (World.fresh d self newfd cn) evs).shm sizeof_sf)
        (run_events (World.fresh d self newfd cn) evs).conn).url.isSome = true) :
    (∃ n, ∀ ios : List Sys, transferring ios → n ≤ ios.length →
      (run_events
        (session_step (run_events (World.fresh d self newfd cn) evs)
          (.client_send ((calls.map (ClientCall.frame sizeof_sf)).flatten
            ++ request_daemon_response)))
        (ios.map .pass)).sock.inq = []) ∧
    ∀ ios : List Sys,
      (run_events
        (session_step (run_events (World.fresh d self newfd cn) evs)
          (.client_send ((calls.map (ClientCall.frame sizeof_sf)).flatten
            ++ request_daemon_response)))
        (ios.map .pass)).sock.inq = [] →
      (run_events
        (session_step (run_events (World.fresh d self newfd cn) evs)
          (.client_send ((calls.map (ClientCall.frame sizeof_sf)).flatten
            ++ request_daemon_response)))
        (ios.map .pass)).live = true ∧
      (run_events
        (session_step (run_events (World.fresh d self newfd cn) evs)
          (.client_send ((calls.map (ClientCall.frame sizeof_sf)).flatten
            ++ request_daemon_response)))
        (ios.map .pass)).conn.dfa_state = STATE_WAITING ∧
      request_of (run_events
        (session_step (run_events (World.fresh d self newfd cn) evs)
          (.client_send ((calls.map (ClientCall.frame sizeof_sf)).flatten
            ++ request_daemon_response)))
        (ios.map .pass)).conn
        = request_of (calls.foldl
            (ClientCall.direct (run_events (World.fresh d self newfd cn) evs).shm sizeof_sf)
            (run_events (World.fresh d self newfd cn) evs).conn) := by
  have hinv := SInv_run d self newfd cn evs
  generalize run_events (World.fresh d self newfd cn) evs = w at *
  simp only [SInv, hl, if_true] at hinv
  obtain ⟨-, hf⟩ := hinv
  have hri := hf.recv_init hs
  obtain ⟨w0, hw0⟩ : ∃ w0, w0 = session_step w (.client_send
      ((calls.map (ClientCall.frame sizeof_sf)).flatten ++ request_daemon_response)) := ⟨_, rfl⟩
  rw [← hw0]
  have a0 : AtFrame w0 ((calls.map (ClientCall.frame sizeof_sf)).flatten
      ++ request_daemon_response) := by
    rw [hw0]
    exact ⟨hl, hs, hri, by simp [session_step, hq]⟩
  have m0 : w0.shm = w.shm := by rw [hw0]; rfl
  have c0 : w0.conn = w.conn := by rw [hw0]; rfl
  obtain ⟨v, t1, ⟨lv, sv, rv, qv⟩, mv, rq⟩ := thru_calls sizeof_sf calls w0
    request_daemon_response hsend (by simp [request_daemon_response]) a0
  rw [m0, c0] at rq
  have uv : v.conn.url.isSome = true := by
    have := congrArg Prod.fst rq
    simp only [request_of] at this
    rw [this]
    exact hurl
  have t2 := thru_field v [82] [] (if v.conn.current_data = none then 0 else v.conn.current_offset)
    lv (by rw [sv]; rfl) (by simp)
    (by
      rcases rv with h1 | ⟨h1, h2⟩
      · left; exact ⟨h1, by simp [init_size, sv], by simp [h1]⟩
      · right; exact ⟨h1, by simpa using h2, by simp [h1]⟩)
    (by simpa [request_daemon_response] using qv)
  simp only [List.length_singleton] at t2
  obtain ⟨f1, f2, f3, f4⟩ := step_submit v sv rv lv uv (by simpa [request_daemon_response] using qv)
  obtain ⟨hp, n, hw⟩ := thru_trans _ _ _ t1 t2
  refine ⟨⟨n, fun ios htr hlen => ?_⟩, fun ios hdone => ?_⟩
  · obtain ⟨i1, i2, e, -, h⟩ := hw ios htr hlen
    rw [e, run_pass_append, h, run_waiting _ f2]
    exact f3
  · rcases hp ios with h | ⟨i1, i2, e, h⟩
    · exact absurd hdone h
    · rw [e, run_pass_append, h, run_waiting _ f2]
      exact ⟨f1, f2, f4.trans rq⟩

/-! ### Sending a response: any split of the sends gives the same frames -/

theorem send_mid (w : World) (buf : Bytes) (out0 : Bytes) (sz j : Nat) (d : Bytes) (n : Nat)
    (io : Sys) (hj : j < sz ∨ j = 0 ∧ sz = 0) :
    send_all_nonblock (smid w (some buf) j (sz - j) (out0 ++ buf.take j)) d n io
        = (smid w none sz 0 (out0 ++ buf.take sz), true) ∨
    (∃ j', (j' < sz ∨ j' = 0 ∧ sz = 0) ∧ j ≤ j' ∧ (∀ k, io = .xfer k → 1 ≤ k → j < j') ∧
      send_all_nonblock (smid w (some buf) j (sz - j) (out0 ++ buf.take j)) d n io
        = (smid w (some buf) j' (sz - j') (out0 ++ buf.take j'), false)) ∨
    (io = .fail ∧
      send_all_nonblock (smid w (some buf) j (sz - j) (out0 ++ buf.take j)) d n io
        = (close_local_connection
            { smid w (some buf) j (sz - j) (out0 ++ buf.take j) with
                log := w.log ++ [.send_error] }, false)) := by
  cases io with
  | fail => right; right; exact ⟨rfl, by simp [send_all_nonblock, smid]⟩
  | again =>
    right; left
    exact ⟨j, hj, Nat.le_refl j, (fun k hk => by cases hk), by simp [send_all_nonblock, smid]⟩
  | xfer k =>
    have e3 : ∀ m, buf.take j ++ (buf.drop j).take m = buf.take (j + m) := by
      intro m; rw [List.take_add]
    by_cases hk : sz - j ≤ k
    · left
      have hmin : min k (sz - j) = sz - j := by omega
      have hjs : j + (sz - j) = sz := by omega
      simp [send_all_nonblock, smid, hmin, e3, hjs, List.append_assoc]
    · right; left
      have hk' : k < sz - j := by omega
      have hmin : min k (sz - j) = k := by omega
      have hne : sz - j - k ≠ 0 := by omega
      refine ⟨j + k, Or.inl (by omega), by omega, (fun k1 h1 h2 => by cases h1; omega), ?_⟩
      have e4 : sz - (j + k) = sz - j - k := by omega
      simp [send_all_nonblock, smid, hmin, e3, hne, e4, List.append_assoc]

theorem send_mid_full (w : World) (buf out0 : Bytes) (sz : Nat) (d : Bytes) (n : Nat) :
    send_all_nonblock (smid w (some buf) 0 sz out0) d n (.xfer sz)
      = (smid w none sz 0 (out0 ++ buf.take sz), true) := by
  simp [send_all_nonblock, smid]

theorem step_smid (w : World) (buf out0 : Bytes) (sz j : Nat) (io : Sys)
    (hj : j < sz ∨ j = 0 ∧ sz = 0) (hst : sending w.conn.dfa_state = true) :
    do_local_comms_step (smid w (some buf) j (sz - j) (out0 ++ buf.take j)) io
        = do_local_comms_step (smid w (some buf) 0 sz out0) (.xfer sz) ∨
    (∃ j', (j' < sz ∨ j' = 0 ∧ sz = 0) ∧ j ≤ j' ∧ (∀ k, io = .xfer k → 1 ≤ k → j < j') ∧
      do_local_comms_step (smid w (some buf) j (sz - j) (out0 ++ buf.take j)) io
        = (smid w (some buf) j' (sz - j') (out0 ++ buf.take j'), .ret)) ∨
    (io = .fail ∧
      do_local_comms_step (smid w (some buf) j (sz - j) (out0 ++ buf.take j)) io
        = (close_local_connection
            { smid w (some buf) j (sz - j) (out0 ++ buf.take j) with
                log := w.log ++ [.send_error] }, .ret)) := by
  have hst1 : ∀ a b c e, (smid w a b c e).conn.dfa_state = w.conn.dfa_state := fun _ _ _ _ => rfl
  have hsb : ∀ b c e, (smid w (some buf) b c e).conn.send_buffer.isNone = false :=
    fun _ _ _ => rfl
  have hfull := fun d n => send_mid_full w buf out0 sz d n
  have hmid := fun d n => send_mid w buf out0 sz j d n io hj
  cases hs : w.conn.dfa_state <;> simp [sending, hs] at hst
  all_goals
    unfold do_local_comms_step
    simp only [hst1, hs, hsb, Bool.false_eq_true, if_false]
    first
      | (rcases hmid ((smid w (some buf) j (sz - j) (out0 ++ buf.take j)).conn.current_data.getD [])
            (smid w (some buf) j (sz - j) (out0 ++ buf.take j)).conn.current_size
          with h | ⟨j', h1, h2, h3, h⟩ | ⟨hio, h⟩
         · left; rw [h, hfull]
         · right; left; exact ⟨j', h1, h2, h3, by rw [h]⟩
         · right; right; exact ⟨hio, by rw [h]⟩)
      | (rcases hmid (send_operand w.conn.dfa_state
              (smid w (some buf) j (sz - j) (out0 ++ buf.take j)).conn.dr).1
            (send_operand w.conn.dfa_state
              (smid w (some buf) j (sz - j) (out0 ++ buf.take j)).conn.dr).2
          with h | ⟨j', h1, h2, h3, h⟩ | ⟨hio, h⟩
         · left; rw [hs] at h; rw [h, hfull]
         · right; left; rw [hs] at h; exact ⟨j', h1, h2, h3, by rw [h]⟩
         · right; right; rw [hs] at h; exact ⟨hio, by rw [h]⟩)

theorem run_dead (w : World) (hl : w.live = false) (ios : List Sys) :
    run_events w (ios.map .pass) = w := by
  induction ios with
  | nil => rfl
  | cons io t ih =>
    have e : session_step w (.pass io) = w := by simp [session_step, hl]
    simp only [List.map_cons, run_events, List.foldl_cons, e]
    exact ih

theorem sent_codes_append (a b : List log_line) :
    sent_codes (a ++ b) = sent_codes a ++ sent_codes b := by
  simp [sent_codes, List.filterMap_append]

theorem emitting_smid (w : World) (buf out0 R : Bytes) (sz j : Nat) (bytes : Bytes)
    (codes remc : List Nat) (hj : j ≤ sz) (hE : out0 ++ buf.take sz ++ R = bytes)
    (hC : sent_codes w.log ++ remc = codes) (sb : Option Bytes) (a b : Nat) :
    Emitting bytes codes (smid w sb a b (out0 ++ buf.take j)) := by
  refine ⟨(buf.drop j).take (sz - j) ++ R, remc, ?_, hC⟩
  show out0 ++ buf.take j ++ ((buf.drop j).take (sz - j) ++ R) = bytes
  rw [← hE]
  have e : buf.take j ++ (buf.drop j).take (sz - j) = buf.take sz := by
    rw [← List.take_add]
    congr 1
    omega
  simp only [List.append_assoc]
  rw [← List.append_assoc (buf.take j), e]

theorem emitting_closed (w : World) (bytes : Bytes) (codes : List Nat)
    (h : Emitting bytes codes w) :
    Emitting bytes codes (close_local_connection { w with log := w.log ++ [.send_error] }) := by
  obtain ⟨rem, remc, h1, h2⟩ := h
  refine ⟨rem, remc, h1, ?_⟩
  show sent_codes (w.log ++ [.send_error] ++ [.closing]) ++ remc = codes
  rw [sent_codes_append, sent_codes_append]
  simpa [sent_codes] using h2

theorem spasses_mid (w : World) (buf out0 R : Bytes) (sz : Nat) (bytes : Bytes)
    (codes remc : List Nat) (hl : w.live = true) (hst : sending w.conn.dfa_state = true)
    (hE : out0 ++ buf.take sz ++ R = bytes) (hC : sent_codes w.log ++ remc = codes)
    (ios : List Sys) :
    ∀ j, (j < sz ∨ j = 0 ∧ sz = 0) →
      Emitting bytes codes
        (run_events (smid w (some buf) j (sz - j) (out0 ++ buf.take j)) (ios.map .pass)) ∨
      ∃ ios1 ios2, ios = ios1 ++ ios2 ∧
        run_events (smid w (some buf) j (sz - j) (out0 ++ buf.take j)) (ios1.map .pass)
          = (do_local_comms_step (smid w (some buf) 0 sz out0) (.xfer sz)).1 := by
  have hlm : ∀ a b c e, (smid w a b c e).live = true := fun _ _ _ _ => hl
  have hem : ∀ j, (j < sz ∨ j = 0 ∧ sz = 0) → ∀ sb a b,
      Emitting bytes codes (smid w sb a b (out0 ++ buf.take j)) := by
    intro j hj sb a b
    exact emitting_smid w buf out0 R sz j bytes codes remc (by omega) hE hC sb a b
  induction ios with
  | nil =>
    intro j hj
    exact Or.inl (hem j hj _ _ _)
  | cons io t ih =>
    intro j hj
    rcases step_smid w buf out0 sz j io hj hst with h | ⟨j', hj', -, -, h⟩ | ⟨-, h⟩
    · right
      refine ⟨[io], t, rfl, ?_⟩
      rw [run_pass_cons _ io [] (hlm _ _ _ _), h]
      rfl
    · rw [run_pass_cons _ io t (hlm _ _ _ _), h]
      rcases ih j' hj' with h1 | ⟨ios1, ios2, e, h2⟩
      · exact Or.inl h1
      · right
        refine ⟨io :: ios1, ios2, by rw [e]; rfl, ?_⟩
        rw [run_pass_cons _ io ios1 (hlm _ _ _ _), h]
        exact h2
    · left
      rw [run_pass_cons _ io t (hlm _ _ _ _), h, run_dead _ rfl]
      exact emitting_closed _ bytes codes (hem j hj _ _ _)

theorem within_smid (w : World) (buf out0 : Bytes) (sz : Nat) (hl : w.live = true)
    (hst : sending w.conn.dfa_state = true) (ios : List Sys) :
    ∀ j, (j < sz ∨ j = 0 ∧ sz = 0) → transferring ios → sz - j + 1 ≤ ios.length →
      ∃ ios1 ios2, ios = ios1 ++ ios2 ∧ ios1.length ≤ sz - j + 1 ∧
        run_events (smid w (some buf) j (sz - j) (out0 ++ buf.take j)) (ios1.map .pass)
          = (do_local_comms_step (smid w (some buf) 0 sz out0) (.xfer sz)).1 := by
  have hlm : ∀ a b c e, (smid w a b c e).live = true := fun _ _ _ _ => hl
  induction ios with
  | nil =>
    intro j hj _ hlen
    simp at hlen
  | cons io t ih =>
    intro j hj htr hlen
    obtain ⟨k, hk, rfl⟩ := htr io (List.mem_cons_self _ _)
    have htr' : transferring t := fun x hx => htr x (List.mem_cons_of_mem _ hx)
    simp only [List.length_cons] at hlen
    rcases step_smid w buf out0 sz j (.xfer k) hj hst with h | ⟨j', hj', -, hlt, h⟩ | ⟨hio, -⟩
    · refine ⟨[.xfer k], t, rfl, by simp, ?_⟩
      rw [run_pass_cons _ (.xfer k) [] (hlm _ _ _ _), h]
      rfl
    · have hjj := hlt k rfl hk
      obtain ⟨i1, i2, e, hle, hrun⟩ := ih j' hj' htr' (by omega)
      refine ⟨.xfer k :: i1, i2, by rw [e]; rfl, by simp; omega, ?_⟩
      rw [run_pass_cons _ (.xfer k) i1 (hlm _ _ _ _), h]
      exact hrun
    · cases hio

theorem send_start (w : World) (d d' : Bytes) (n n' : Nat) (io : Sys)
    (hsb : w.conn.send_buffer = none) :
    send_all_nonblock w d n io = send_all_nonblock (smid w (some d) 0 n w.sock.out) d' n' io := by
  unfold send_all_nonblock
  simp only [hsb, smid, Option.isNone_none, Option.isNone_some, if_true, Bool.false_eq_true,
    if_false]

theorem sstart_body (w : World) (io : Sys) (hs : body_send w.conn.dfa_state = true)
    (hsb : w.conn.send_buffer = none) :
    do_local_comms_step w io
      = do_local_comms_step
          (smid w (some (send_operand w.conn.dfa_state w.conn.dr).1) 0
            (send_operand w.conn.dfa_state w.conn.dr).2 w.sock.out) io := by
  have hst1 : ∀ a b c e, (smid w a b c e).conn.dfa_state = w.conn.dfa_state := fun _ _ _ _ => rfl
  have hdr : ∀ a b c e, (smid w a b c e).conn.dr = w.conn.dr := fun _ _ _ _ => rfl
  have h := fun d' n' => send_start w (send_operand w.conn.dfa_state w.conn.dr).1 d'
    (send_operand w.conn.dfa_state w.conn.dr).2 n' io hsb
  cases hst : w.conn.dfa_state <;> simp [hst, body_send] at hs <;>
    (unfold do_local_comms_step; simp only [hst1, hdr, hst] at h ⊢; rw [← h])

theorem packet_built_buffer (c : local_connection_state) (h : c.send_buffer = none) :
    (packet_built c).send_buffer = none := by
  unfold packet_built get_response
  split
  · exact h
  · split
    · split <;> exact h
    · split <;> exact h

theorem sstart_init (w : World) (io : Sys) (hs : w.conn.dfa_state = STATE_SEND_INIT)
    (hsb : w.conn.send_buffer = none) :
    do_local_comms_step w io
      = do_local_comms_step
          (smid { w with conn := packet_built w.conn }
            (some (build_packet (get_response w.conn).1 (get_response w.conn).2.dr).1) 0
            (build_packet (get_response w.conn).1 (get_response w.conn).2.dr).1.length
            w.sock.out) io := by
  rw [step_send_init w io hs hsb]
  have e1 : (packet_built w.conn).current_data
      = some (build_packet (get_response w.conn).1 (get_response w.conn).2.dr).1 := rfl
  have e2 : (packet_built w.conn).current_size
      = (build_packet (get_response w.conn).1 (get_response w.conn).2.dr).1.length := rfl
  have e3 : (packet_built w.conn).dfa_state = STATE_SEND_INIT := by
    unfold packet_built get_response
    split
    · exact hs
    · split
      · split <;> exact hs
      · split <;> exact hs
  rw [e1, e2, Option.getD_some,
    send_start { w with conn := packet_built w.conn } _
      ((packet_built w.conn).current_data.getD []) _
      (build_packet (get_response w.conn).1 (get_response w.conn).2.dr).1.length io
      (packet_built_buffer _ hsb)]
  unfold do_local_comms_step
  simp only [smid, e3, Option.isNone_some, Bool.false_eq_true, if_false]

theorem slink (w v : World) (buf : Bytes) (sz : Nat) (bytes R : Bytes) (codes remc : List Nat)
    (hl : w.live = true) (hvl : v.live = true) (hst : sending v.conn.dfa_state = true)
    (hstart : ∀ io, do_local_comms_step w io
      = do_local_comms_step (smid v (some buf) 0 sz v.sock.out) io)
    (hlog : v.log = w.log) (hout : v.sock.out = w.sock.out)
    (hE : w.sock.out ++ buf.take sz ++ R = bytes) (hC : sent_codes w.log ++ remc = codes) :
    SThru bytes codes w (do_local_comms_step w (.xfer sz)).1 := by
  have hj0 : 0 < sz ∨ 0 = 0 ∧ sz = 0 := by
    rcases Nat.eq_zero_or_pos sz with h | h
    · exact Or.inr ⟨rfl, h⟩
    · exact Or.inl h
  have hE' : v.sock.out ++ buf.take sz ++ R = bytes := by rw [hout]; exact hE
  have hC' : sent_codes v.log ++ remc = codes := by rw [hlog]; exact hC
  have hvm : ∀ a b c e, (smid v a b c e).live = true := fun _ _ _ _ => hvl
  constructor
  · intro ios
    cases ios with
    | nil => exact Or.inl ⟨buf.take sz ++ R, remc, by rw [← List.append_assoc]; exact hE, hC⟩
    | cons io t =>
      rw [run_pass_cons w io t hl, hstart io]
      rcases step_smid v buf v.sock.out sz 0 io hj0 hst with h | ⟨j', hj', -, -, h⟩ | ⟨-, h⟩
      · right
        refine ⟨[io], t, rfl, ?_⟩
        rw [run_pass_cons w io [] hl, hstart io, hstart (.xfer sz)]
        simp only [List.take_zero, Nat.sub_zero, List.append_nil] at h
        rw [h]
        rfl
      · simp only [List.take_zero, Nat.sub_zero, List.append_nil] at h
        rw [h]
        rcases spasses_mid v buf v.sock.out R sz bytes codes remc hvl hst hE' hC' t j' hj'
          with h2 | ⟨ios1, ios2, e, h2⟩
        · exact Or.inl h2
        · right
          refine ⟨io :: ios1, ios2, by rw [e]; rfl, ?_⟩
          rw [run_pass_cons w io ios1 hl, hstart io, h, h2, hstart (.xfer sz)]
      · left
        simp only [List.take_zero, Nat.sub_zero, List.append_nil] at h
        rw [h, run_dead _ rfl]
        exact emitting_closed _ bytes codes
          (by
            have := emitting_smid v buf v.sock.out R sz 0 bytes codes remc (Nat.zero_le _) hE' hC'
              (some buf) 0 sz
            simpa using this)
  · refine ⟨sz + 1, ?_⟩
    intro ios htr hlen
    cases ios with
    | nil => simp at hlen
    | cons io t =>
      obtain ⟨k, hk, rfl⟩ := htr io (List.mem_cons_self _ _)
      have htr' : transferring t := fun x hx => htr x (List.mem_cons_of_mem _ hx)
      simp only [List.length_cons] at hlen
      rcases step_smid v buf v.sock.out sz 0 (.xfer k) hj0 hst
        with h | ⟨j', hj', -, hlt, h⟩ | ⟨hio, -⟩
      · refine ⟨[.xfer k], t, rfl, by simp, ?_⟩
        rw [run_pass_cons w (.xfer k) [] hl, hstart (.xfer k), hstart (.xfer sz)]
        simp only [List.take_zero, Nat.sub_zero, List.append_nil] at h
        rw [h]
        rfl
      · have hjj := hlt k rfl hk
        simp only [List.take_zero, Nat.sub_zero, List.append_nil] at h
        obtain ⟨i1, i2, e, hle, hrun⟩ := within_smid v buf v.sock.out sz hvl hst t j' hj' htr'
          (by omega)
        refine ⟨.xfer k :: i1, i2, by rw [e]; rfl, by simp; omega, ?_⟩
        rw [run_pass_cons w (.xfer k) i1 hl, hstart (.xfer k), h, hrun, hstart (.xfer sz)]
      · cases hio

theorem spasses_trans (bytes : Bytes) (codes : List Nat) (a b c : World)
    (hab : SPasses bytes codes a b) (hbc : SPasses bytes codes b c) :
    SPasses bytes codes a c := by
  intro ios
  rcases hab ios with h | ⟨i1, i2, e, h⟩
  · exact Or.inl h
  · rcases hbc i2 with h2 | ⟨j1, j2, e2, h2⟩
    · left
      rw [e, run_pass_append, h]
      exact h2
    · right
      refine ⟨i1 ++ j1, j2, by rw [e, e2, List.append_assoc], ?_⟩
      rw [run_pass_append, h, h2]

theorem sthru_trans (bytes : Bytes) (codes : List Nat) (a b c : World)
    (hab : SThru bytes codes a b) (hbc : SThru bytes codes b c) : SThru bytes codes a c := by
  obtain ⟨p1, n, q1⟩ := hab
  obtain ⟨p2, m, q2⟩ := hbc
  exact ⟨spasses_trans bytes codes a b c p1 p2, n + m, within_trans n m a b c q1 q2⟩

theorem sthru_pass (bytes : Bytes) (codes : List Nat) (w v : World) (hl : w.live = true)
    (hem : Emitting bytes codes w) (h : ∀ io, (do_local_comms_step w io).1 = v) :
    SThru bytes codes w v := by
  refine ⟨fun ios => ?_, 1, within_pass w v hl h⟩
  cases ios with
  | nil => exact Or.inl hem
  | cons io t =>
    right
    refine ⟨[io], t, rfl, ?_⟩
    rw [run_pass_cons w io [] hl, h io]
    rfl

theorem sthru_refl (bytes : Bytes) (codes : List Nat) (w : World) : SThru bytes codes w w :=
  ⟨fun ios => Or.inr ⟨[], ios, rfl, rfl⟩, 0, fun ios _ _ => ⟨[], ios, rfl, Nat.le_refl 0, rfl⟩⟩

theorem packet_built_state (c : local_connection_state) (h : c.dfa_state = STATE_SEND_INIT) :
    (packet_built c).dfa_state = STATE_SEND_INIT := by
  unfold packet_built get_response
  split
  · exact h
  · split
    · split <;> exact h
    · split <;> exact h

theorem slink_init (w : World) (bytes R : Bytes) (codes remc : List Nat) (hl : w.live = true)
    (hs : w.conn.dfa_state = STATE_SEND_INIT) (hsb : w.conn.send_buffer = none)
    (hE : w.sock.out ++ (build_packet (get_response w.conn).1 (get_response w.conn).2.dr).1 ++ R
      = bytes)
    (hC : sent_codes w.log ++ remc = codes) :
    SThru bytes codes w (do_local_comms_step w (.xfer
      (build_packet (get_response w.conn).1 (get_response w.conn).2.dr).1.length)).1 :=
  slink w { w with conn := packet_built w.conn } _ _ bytes R codes remc hl hl
    (by show sending (packet_built w.conn).dfa_state = true
        rw [packet_built_state _ hs]; rfl)
    (fun io => sstart_init w io hs hsb) rfl rfl
    (by rw [List.take_length]; exact hE) hC

theorem slink_body (w : World) (bytes R : Bytes) (codes remc : List Nat) (hl : w.live = true)
    (hs : body_send w.conn.dfa_state = true) (hsb : w.conn.send_buffer = none)
    (hE : w.sock.out ++ (send_operand w.conn.dfa_state w.conn.dr).1.take
        (send_operand w.conn.dfa_state w.conn.dr).2 ++ R = bytes)
    (hC : sent_codes w.log ++ remc = codes) :
    SThru bytes codes w (do_local_comms_step w (.xfer
      (send_operand w.conn.dfa_state w.conn.dr).2)).1 :=
  slink w w _ _ bytes R codes remc hl hl
    (by cases hst : w.conn.dfa_state <;> simp [hst, body_send] at hs <;> rfl)
    (fun io => sstart_body w io hs hsb) rfl rfl hE hC

theorem next_part_skips (skips l : List response_part) (h : ∀ q ∈ skips, is_skip q = true) :
    next_part (skips ++ l) = next_part l := by
  induction skips with
  | nil => rfl
  | cons a t ih =>
    have ha := h a (List.mem_cons_self _ _)
    simp only [is_skip, Bool.and_eq_true, Option.isNone_iff_eq_none] at ha
    have : next_part (a :: (t ++ l)) = next_part (t ++ l) := by
      simp [next_part, ha.1, ha.2]
    rw [List.cons_append, this]
    exact ih (fun q hq => h q (List.mem_cons_of_mem _ hq))

theorem get_response_body_skips (c : local_connection_state) (r : server_response)
    (skips : List response_part) (p : response_part) (t : List response_part)
    (h : c.response = some r) (hb : c.response_begun = true)
    (hc : c.current_part = skips ++ p :: t) (hsk : ∀ q ∈ skips, is_skip q = true)
    (hp : p.data.isSome = true) :
    get_response c = (D_BODY,
      { c with current_part := t,
               dr := some (.body p.headers p.headersize p.data p.datasize) }) := by
  unfold get_response
  rw [h]
  simp [hb, hc, next_part_skips skips (p :: t) hsk, next_part, hp, daemon_responses.code]

theorem get_response_attachment_skips (c : local_connection_state) (r : server_response)
    (skips : List response_part) (p : response_part) (t : List response_part)
    (h : c.response = some r) (hb : c.response_begun = true)
    (hc : c.current_part = skips ++ p :: t) (hsk : ∀ q ∈ skips, is_skip q = true)
    (hp : p.data.isSome = false) (hf : p.filename.isSome = true) :
    get_response c = (D_ATTACHMENT,
      { c with current_part := t,
               dr := some (.attachment p.headers p.headersize p.filename p.tmp_filename) }) := by
  unfold get_response
  rw [h]
  simp [hb, hc, next_part_skips skips (p :: t) hsk, next_part, hp, hf, daemon_responses.code]

theorem get_response_complete_skips (c : local_connection_state) (r : server_response)
    (skips : List response_part)
    (h : c.response = some r) (hb : c.response_begun = true)
    (hc : c.current_part = skips ++ []) (hsk : ∀ q ∈ skips, is_skip q = true) :
    get_response c = (D_RESPONSE_COMPLETE,
      { c with current_part := [], response := none, response_begun := false }) := by
  have hn : next_part skips = (none, []) := by
    have := next_part_skips skips [] hsk
    simpa [next_part] using this
  unfold get_response
  rw [h]
  simp [hb, hc, hn]

theorem emitting_of (w : World) (bytes R : Bytes) (codes remc : List Nat)
    (hE : w.sock.out ++ R = bytes) (hC : sent_codes w.log ++ remc = codes) :
    Emitting bytes codes w := ⟨R, remc, hE, hC⟩

theorem sthru_data_part (w : World) (r : server_response) (p : response_part)
    (t : List response_part) (bytes R : Bytes) (codes remc : List Nat)
    (h : SendReadyS w r (p :: t)) (hp : p.data.isSome = true)
    (hE : w.sock.out ++ part_frame p ++ R = bytes)
    (hC : sent_codes w.log ++ 68 :: remc = codes) :
    ∃ v, SThru bytes codes w v ∧ SendReadyS v r t ∧ v.sock.out = w.sock.out ++ part_frame p ∧
      v.log = w.log ++ [.sent 68] := by
  obtain ⟨hl, hs, hsb, hr, hb, hdr, skips, hcp, hsk⟩ := h
  have hg := get_response_body_skips w.conn r skips p t hr hb hcp hsk hp
  have hpk : (build_packet (get_response w.conn).1 (get_response w.conn).2.dr).1
      = [68] ++ le32 p.headersize ++ le32 p.datasize := by
    rw [hg]; simp [build_packet]
  have hpf : part_frame p = ([68] ++ le32 p.headersize ++ le32 p.datasize)
      ++ ((p.headers.getD []).take p.headersize ++ (p.data.getD []).take p.datasize) := by
    simp [part_frame, hp]
  rw [hpf] at hE
  obtain ⟨w1, hw1, e1⟩ : ∃ w1, w1 = ({ w with
          conn := { w.conn with dfa_state := STATE_SEND_DATA_HEADER,
                                 dfa_next_state := STATE_SEND_DATA_HEADER,
                                 current_data := none, send_buffer := none,
                                 current_offset := 9, current_size := 0,
                                 current_part := t,
                                 dr := some (.body p.headers p.headersize p.data p.datasize) },
          sock := { w.sock with out := w.sock.out ++ ([68] ++ le32 p.headersize ++ le32 p.datasize) },
          log := w.log ++ [.sent 68] } : World) ∧
      do_local_comms_step w (.xfer 9) = (w1, .cont) := by
    refine ⟨_, rfl, ?_⟩
    rw [pass_send_init_full w 9 hs hsb (by rw [hg]; simp [build_packet, le32])]
    simp [packet_built, hg, build_packet, le32]
  have l1 := slink_init w bytes
    ((p.headers.getD []).take p.headersize ++ (p.data.getD []).take p.datasize ++ R) codes
    (68 :: remc) hl hs hsb (by rw [hpk, ← hE]; simp) hC
  rw [hpk] at l1
  simp only [le32, List.length_append, List.length_singleton, List.length_cons,
    List.length_nil] at l1
  rw [e1] at l1
  have s1 : w1.conn.dfa_state = STATE_SEND_DATA_HEADER := by rw [hw1]
  have hC1 : sent_codes w1.log ++ remc = codes := by
    rw [hw1, ← hC]; simp [sent_codes]
  obtain ⟨w2, hw2, e2⟩ : ∃ w2, w2 = ({ w1 with
          conn := { w1.conn with send_buffer := none, current_offset := p.headersize,
                                  current_size := 0, dfa_state := STATE_SEND_DATA_BODY },
          sock := { w1.sock with out := w1.sock.out ++ (p.headers.getD []).take p.headersize } }
            : World) ∧
      do_local_comms_step w1 (.xfer p.headersize) = (w2, .cont) := by
    refine ⟨_, rfl, ?_⟩
    rw [pass_body_send_full w1 p.headersize (by rw [s1]; rfl) (by rw [hw1])
      (by rw [hw1]; simp [send_operand])]
    rw [hw1]; simp [send_operand, send_successor]
  have l2 := slink_body w1 bytes ((p.data.getD []).take p.datasize ++ R) codes remc
    (by rw [hw1]; exact hl) (by rw [s1]; rfl) (by rw [hw1])
    (by rw [hw1, ← hE]; simp [send_operand]) hC1
  have o1 : (send_operand w1.conn.dfa_state w1.conn.dr).2 = p.headersize := by
    rw [hw1]; simp [send_operand]
  rw [o1, e2] at l2
  have s2 : w2.conn.dfa_state = STATE_SEND_DATA_BODY := by rw [hw2]
  have hC2 : sent_codes w2.log ++ remc = codes := by rw [hw2]; exact hC1
  obtain ⟨w3, hw3, e3⟩ : ∃ w3, w3 = ({ w2 with
          conn := { w2.conn with send_buffer := none, current_offset := p.datasize,
                                  current_size := 0, dfa_state := STATE_SEND_DR_DONE },
          sock := { w2.sock with out := w2.sock.out ++ (p.data.getD []).take p.datasize } }
            : World) ∧
      do_local_comms_step w2 (.xfer p.datasize) = (w3, .cont) := by
    refine ⟨_, rfl, ?_⟩
    rw [pass_body_send_full w2 p.datasize (by rw [s2]; rfl) (by rw [hw2])
      (by rw [hw2, hw1]; simp [send_operand])]
    rw [hw2, hw1]; simp [send_operand, send_successor]
  have l3 := slink_body w2 bytes R codes remc
    (by rw [hw2, hw1]; exact hl) (by rw [s2]; rfl) (by rw [hw2])
    (by rw [hw2, hw1, ← hE]; simp [send_operand]) hC2
  have o2 : (send_operand w2.conn.dfa_state w2.conn.dr).2 = p.datasize := by
    rw [hw2, hw1]; simp [send_operand]
  rw [o2, e3] at l3
  have s3 : w3.conn.dfa_state = STATE_SEND_DR_DONE := by rw [hw3]
  obtain ⟨w4, hw4⟩ : ∃ w4, w4 = ({ w3 with
          conn := { w3.conn with dr := none, dfa_state := STATE_SEND_INIT } } : World) :=
    ⟨_, rfl⟩
  have l4 := sthru_pass bytes codes w3 w4 (by rw [hw3, hw2, hw1]; exact hl)
    (emitting_of w3 bytes R codes remc (by rw [hw3, hw2, hw1, ← hE]; simp)
      (by rw [hw3]; exact hC2))
    (fun io => by rw [pass_dr_done w3 io s3, hw4])
  refine ⟨w4, sthru_trans _ _ _ _ _ l1 (sthru_trans _ _ _ _ _ l2 (sthru_trans _ _ _ _ _ l3 l4)),
    ?_, ?_, ?_⟩
  · rw [hw4, hw3, hw2, hw1]
    exact ⟨hl, rfl, rfl, hr, hb, rfl, [], rfl, by simp⟩
  · rw [hw4, hw3, hw2, hw1, hpf]
    simp
  · rw [hw4, hw3, hw2, hw1]

theorem sthru_attachment_part (w : World) (r : server_response) (p : response_part)
    (t : List response_part) (bytes R : Bytes) (codes remc : List Nat)
    (h : SendReadyS w r (p :: t)) (hp : p.data.isSome = false) (hf : p.filename.isSome = true)
    (hE : w.sock.out ++ part_frame p ++ R = bytes)
    (hC : sent_codes w.log ++ 65 :: remc = codes) :
    ∃ v, SThru bytes codes w v ∧ SendReadyS v r t ∧ v.sock.out = w.sock.out ++ part_frame p ∧
      v.log = w.log ++ [.sent 65] := by
  obtain ⟨hl, hs, hsb, hr, hb, hdr, skips, hcp, hsk⟩ := h
  have hg := get_response_attachment_skips w.conn r skips p t hr hb hcp hsk hp hf
  have hpk : (build_packet (get_response w.conn).1 (get_response w.conn).2.dr).1
      = [65] ++ le32 p.headersize ++ le32 (strlen (p.filename.getD []))
          ++ le32 (strlen (p.tmp_filename.getD [])) := by
    rw [hg]; simp [build_packet]
  have hpf : part_frame p = ([65] ++ le32 p.headersize ++ le32 (strlen (p.filename.getD []))
          ++ le32 (strlen (p.tmp_filename.getD [])))
      ++ ((p.headers.getD []).take p.headersize ++ (cstr (p.filename.getD [])
          ++ cstr (p.tmp_filename.getD []))) := by
    simp [part_frame, hp, hf]
  rw [hpf] at hE
  obtain ⟨w1, hw1, e1⟩ : ∃ w1, w1 = ({ w with
          conn := { w.conn with dfa_state := STATE_SEND_ATTACHMENT_HEADER,
                                 dfa_next_state := STATE_SEND_ATTACHMENT_HEADER,
                                 current_data := none, send_buffer := none,
                                 current_offset := 13, current_size := 0,
                                 current_part := t,
                                 dr := some (.attachment p.headers p.headersize p.filename
                                          p.tmp_filename) },
          sock := { w.sock with out := w.sock.out ++ ([65] ++ le32 p.headersize
            ++ le32 (strlen (p.filename.getD [])) ++ le32 (strlen (p.tmp_filename.getD []))) },
          log := w.log ++ [.sent 65] } : World) ∧
      do_local_comms_step w (.xfer 13) = (w1, .cont) := by
    refine ⟨_, rfl, ?_⟩
    rw [pass_send_init_full w 13 hs hsb (by rw [hg]; simp [build_packet, le32])]
    simp [packet_built, hg, build_packet, le32]
  have l1 := slink_init w bytes
    ((p.headers.getD []).take p.headersize ++ (cstr (p.filename.getD [])
      ++ cstr (p.tmp_filename.getD [])) ++ R) codes
    (65 :: remc) hl hs hsb (by rw [hpk, ← hE]; simp) hC
  rw [hpk] at l1
  simp only [le32, List.length_append, List.length_singleton, List.length_cons,
    List.length_nil] at l1
  rw [e1] at l1
  have s1 : w1.conn.dfa_state = STATE_SEND_ATTACHMENT_HEADER := by rw [hw1]
  have hC1 : sent_codes w1.log ++ remc = codes := by
    rw [hw1, ← hC]; simp [sent_codes]
  obtain ⟨w2, hw2, e2⟩ : ∃ w2, w2 = ({ w1 with
          conn := { w1.conn with send_buffer := none, current_offset := p.headersize,
                                  current_size := 0,
                                  dfa_state := STATE_SEND_ATTACHMENT_FAILNAME },
          sock := { w1.sock with out := w1.sock.out ++ (p.headers.getD []).take p.headersize } }
            : World) ∧
      do_local_comms_step w1 (.xfer p.headersize) = (w2, .cont) := by
    refine ⟨_, rfl, ?_⟩
    rw [pass_body_send_full w1 p.headersize (by rw [s1]; rfl) (by rw [hw1])
      (by rw [hw1]; simp [send_operand])]
    rw [hw1]; simp [send_operand, send_successor]
  have l2 := slink_body w1 bytes
    (cstr (p.filename.getD []) ++ cstr (p.tmp_filename.getD []) ++ R) codes remc
    (by rw [hw1]; exact hl) (by rw [s1]; rfl) (by rw [hw1])
    (by rw [hw1, ← hE]; simp [send_operand]) hC1
  have o1 : (send_operand w1.conn.dfa_state w1.conn.dr).2 = p.headersize := by
    rw [hw1]; simp [send_operand]
  rw [o1, e2] at l2
  have s2 : w2.conn.dfa_state = STATE_SEND_ATTACHMENT_FAILNAME := by rw [hw2]
  have hC2 : sent_codes w2.log ++ remc = codes := by rw [hw2]; exact hC1
  obtain ⟨w3, hw3, e3⟩ : ∃ w3, w3 = ({ w2 with
          conn := { w2.conn with send_buffer := none,
                                  current_offset := strlen (p.filename.getD []),
                                  current_size := 0,
                                  dfa_state := STATE_SEND_ATTACHMENT_TMPFILENAME },
          sock := { w2.sock with out := w2.sock.out ++ cstr (p.filename.getD []) } }
            : World) ∧
      do_local_comms_step w2 (.xfer (strlen (p.filename.getD []))) = (w3, .cont) := by
    refine ⟨_, rfl, ?_⟩
    rw [pass_body_send_full w2 _ (by rw [s2]; rfl) (by rw [hw2])
      (by rw [hw2, hw1]; simp [send_operand])]
    rw [hw2, hw1]; simp [send_operand, send_successor, strlen]
  have l3 := slink_body w2 bytes (cstr (p.tmp_filename.getD []) ++ R) codes remc
    (by rw [hw2, hw1]; exact hl) (by rw [s2]; rfl) (by rw [hw2])
    (by rw [hw2, hw1, ← hE]; simp [send_operand, strlen]) hC2
  have o2 : (send_operand w2.conn.dfa_state w2.conn.dr).2 = strlen (p.filename.getD []) := by
    rw [hw2, hw1]; simp [send_operand]
  rw [o2, e3] at l3
  have s3 : w3.conn.dfa_state = STATE_SEND_ATTACHMENT_TMPFILENAME := by rw [hw3]
  have hC3 : sent_codes w3.log ++ remc = codes := by rw [hw3]; exact hC2
  obtain ⟨w4, hw4, e4⟩ : ∃ w4, w4 = ({ w3 with
          conn := { w3.conn with send_buffer := none,
                                  current_offset := strlen (p.tmp_filename.getD []),
                                  current_size := 0,
                                  dfa_state := STATE_SEND_DR_DONE },
          sock := { w3.sock with out := w3.sock.out ++ cstr (p.tmp_filename.getD []) } }
            : World) ∧
      do_local_comms_step w3 (.xfer (strlen (p.tmp_filename.getD []))) = (w4, .cont) := by
    refine ⟨_, rfl, ?_⟩
    rw [pass_body_send_full w3 _ (by rw [s3]; rfl) (by rw [hw3])
      (by rw [hw3, hw2, hw1]; simp [send_operand])]
    rw [hw3, hw2, hw1]; simp [send_operand, send_successor, strlen]
  have l4 := slink_body w3 bytes R codes remc
    (by rw [hw3, hw2, hw1]; exact hl) (by rw [s3]; rfl) (by rw [hw3])
    (by rw [hw3, hw2, hw1, ← hE]; simp [send_operand, strlen]) hC3
  have o3 : (send_operand w3.conn.dfa_state w3.conn.dr).2 = strlen (p.tmp_filename.getD []) := by
    rw [hw3, hw2, hw1]; simp [send_operand]
  rw [o3, e4] at l4
  have s4 : w4.conn.dfa_state = STATE_SEND_DR_DONE := by rw [hw4]
  obtain ⟨w5, hw5⟩ : ∃ w5, w5 = ({ w4 with
          conn := { w4.conn with dr := none, dfa_state := STATE_SEND_INIT } } : World) :=
    ⟨_, rfl⟩
  have l5 := sthru_pass bytes codes w4 w5 (by rw [hw4, hw3, hw2, hw1]; exact hl)
    (emitting_of w4 bytes R codes remc (by rw [hw4, hw3, hw2, hw1, ← hE]; simp)
      (by rw [hw4]; exact hC3))
    (fun io => by rw [pass_dr_done w4 io s4, hw5])
  refine ⟨w5, sthru_trans _ _ _ _ _ l1 (sthru_trans _ _ _ _ _ l2 (sthru_trans _ _ _ _ _ l3
    (sthru_trans _ _ _ _ _ l4 l5))), ?_, ?_, ?_⟩
  · rw [hw5, hw4, hw3, hw2, hw1]
    exact ⟨hl, rfl, rfl, hr, hb, rfl, [], rfl, by simp⟩
  · rw [hw5, hw4, hw3, hw2, hw1, hpf]
    simp
  · rw [hw5, hw4, hw3, hw2, hw1]

theorem sthru_parts (r : server_response) (parts : List response_part) :
    ∀ (w : World) (bytes R : Bytes) (codes remc : List Nat), SendReadyS w r parts →
      w.sock.out ++ (parts.map part_frame).flatten ++ R = bytes →
      sent_codes w.log ++ (parts.filterMap part_code ++ remc) = codes →
      ∃ v, SThru bytes codes w v ∧ SendReadyS v r [] ∧
        v.sock.out = w.sock.out ++ (parts.map part_frame).flatten ∧
        v.log = w.log ++ (parts.filterMap part_code).map .sent := by
  induction parts with
  | nil =>
    intro w bytes R codes remc h _ _
    exact ⟨w, sthru_refl bytes codes w, h, by simp, by simp⟩
  | cons p t ih =>
    intro w bytes R codes remc h hE hC
    by_cases hp : p.data.isSome = true
    · obtain ⟨v1, t1, h1, o1, l1⟩ := sthru_data_part w r p t bytes
        ((t.map part_frame).flatten ++ R) codes (t.filterMap part_code ++ remc) h hp
        (by rw [← hE]; simp) (by rw [← hC]; simp [part_code, hp])
      obtain ⟨v2, t2, h2, o2, l2⟩ := ih v1 bytes R codes remc h1
        (by rw [o1, ← hE]; simp) (by rw [l1, ← hC]; simp [sent_codes, part_code, hp])
      refine ⟨v2, sthru_trans _ _ _ _ _ t1 t2, h2, ?_, ?_⟩
      · rw [o2, o1]; simp
      · rw [l2, l1]; simp [part_code, hp]
    · have hp0 : p.data.isSome = false := by simpa using hp
      by_cases hf : p.filename.isSome = true
      · obtain ⟨v1, t1, h1, o1, l1⟩ := sthru_attachment_part w r p t bytes
          ((t.map part_frame).flatten ++ R) codes (t.filterMap part_code ++ remc) h hp0 hf
          (by rw [← hE]; simp) (by rw [← hC]; simp [part_code, hp0, hf])
        obtain ⟨v2, t2, h2, o2, l2⟩ := ih v1 bytes R codes remc h1
          (by rw [o1, ← hE]; simp) (by rw [l1, ← hC]; simp [sent_codes, part_code, hp0, hf])
        refine ⟨v2, sthru_trans _ _ _ _ _ t1 t2, h2, ?_, ?_⟩
        · rw [o2, o1]; simp
        · rw [l2, l1]; simp [part_code, hp0, hf]
      · have hf0 : p.filename.isSome = false := by simpa using hf
        obtain ⟨hl, hs, hsb, hr, hb, hdr, skips, hcp, hsk⟩ := h
        have h' : SendReadyS w r t := by
          refine ⟨hl, hs, hsb, hr, hb, hdr, skips ++ [p], by rw [hcp]; simp, ?_⟩
          intro q hq
          rcases List.mem_append.mp hq with h1 | h1
          · exact hsk q h1
          · simp only [List.mem_singleton] at h1
            subst h1
            simp [is_skip, hp0, hf0]
            exact ⟨by simpa using hp0, by simpa using hf0⟩
        obtain ⟨v2, t2, h2, o2, l2⟩ := ih w bytes R codes remc h'
          (by rw [← hE]; simp [part_frame, hp0, hf0])
          (by rw [← hC]; simp [part_code, hp0, hf0])
        refine ⟨v2, t2, h2, ?_, ?_⟩
        · rw [o2]; simp [part_frame, hp0, hf0]
        · rw [l2]; simp [part_code, hp0, hf0]

theorem sent_codes_sent (l : List Nat) : sent_codes (l.map .sent) = l := by
  induction l with
  | nil => rfl
  | cons a t ih =>
    have : sent_codes (log_line.sent a :: t.map .sent) = a :: sent_codes (t.map .sent) := rfl
    rw [List.map_cons, this, ih]

theorem sthru_terminal (w : World) (r : server_response) (bytes : Bytes) (codes : List Nat)
    (h : SendReadyS w r []) (hE : w.sock.out ++ [67] = bytes)
    (hC : sent_codes w.log ++ [67] = codes) :
    ∃ v, SThru bytes codes w v ∧ v.live = true ∧ v.conn.dfa_state = STATE_RESET ∧
      v.sock.out = w.sock.out ++ [67] ∧ v.log = w.log ++ [.sent 67] := by
  obtain ⟨hl, hs, hsb, hr, hb, hdr, skips, hcp, hsk⟩ := h
  have hg := get_response_complete_skips w.conn r skips hr hb hcp hsk
  have hpk : (build_packet (get_response w.conn).1 (get_response w.conn).2.dr).1 = [67] := by
    rw [hg]; simp [build_packet]
  obtain ⟨w1, hw1, e1⟩ : ∃ w1, w1 = ({ w with
          conn := { w.conn with dfa_state := STATE_RESET, dfa_next_state := STATE_RESET,
                                 current_data := none, send_buffer := none,
                                 current_offset := 1, current_size := 0,
                                 current_part := [], response := none, response_begun := false },
          sock := { w.sock with out := w.sock.out ++ [67] },
          log := w.log ++ [.sent 67] } : World) ∧
      do_local_comms_step w (.xfer 1) = (w1, .cont) := by
    refine ⟨_, rfl, ?_⟩
    rw [pass_send_init_full w 1 hs hsb (by rw [hg]; simp [build_packet])]
    simp [packet_built, hg, build_packet, hdr]
  have l1 := slink_init w bytes [] codes [67] hl hs hsb (by rw [hpk, ← hE]; simp) hC
  rw [hpk] at l1
  simp only [List.length_singleton] at l1
  rw [e1] at l1
  refine ⟨w1, l1, ?_, ?_, ?_, ?_⟩
  · rw [hw1]; exact hl
  · rw [hw1]
  · rw [hw1]
  · rw [hw1]

theorem response_frames_any_sends (w : World) (r : server_response)
    (hl : w.live = true) (hs : w.conn.dfa_state = STATE_SEND_INIT)
    (hsb : w.conn.send_buffer = none) (hr : w.conn.response = some r)
    (hb : w.conn.response_begun = false) (hc : r.complete = true) :
    ∃ v, v.live = true ∧ v.conn.dfa_state = STATE_RESET ∧
      v.sock.out = w.sock.out ++ status_frame r.code ++ (r.parts.map part_frame).flatten ++ [67] ∧
      v.log = w.log ++ [.sent 82] ++ (r.parts.filterMap part_code).map .sent ++ [.sent 67] ∧
      SThru (w.sock.out ++ status_frame r.code ++ (r.parts.map part_frame).flatten ++ [67])
        (sent_codes w.log ++ 82 :: (r.parts.filterMap part_code ++ [67])) w v := by
  have hg := get_response_code w.conn r hr hb hc
  have hpk : (build_packet (get_response w.conn).1 (get_response w.conn).2.dr).1
      = status_frame r.code := by
    rw [hg]; simp [build_packet, status_frame]
  obtain ⟨w1, hw1, e1⟩ : ∃ w1, w1 = ({ w with
          conn := { w.conn with dfa_state := STATE_SEND_INIT, dfa_next_state := STATE_SEND_INIT,
                                 current_data := none, send_buffer := none,
                                 current_offset := 3, current_size := 0,
                                 current_part := r.parts, dr := none, response_begun := true },
          sock := { w.sock with out := w.sock.out ++ status_frame r.code },
          log := w.log ++ [.sent 82] } : World) ∧
      do_local_comms_step w (.xfer 3) = (w1, .cont) := by
    refine ⟨_, rfl, ?_⟩
    rw [pass_send_init_full w 3 hs hsb (by rw [hg]; simp [build_packet])]
    simp [packet_built, hg, build_packet, status_frame]
  have l1 := slink_init w
    (w.sock.out ++ status_frame r.code ++ (r.parts.map part_frame).flatten ++ [67])
    ((r.parts.map part_frame).flatten ++ [67])
    (sent_codes w.log ++ 82 :: (r.parts.filterMap part_code ++ [67]))
    (82 :: (r.parts.filterMap part_code ++ [67])) hl hs hsb (by rw [hpk]; simp) rfl
  rw [hpk, show (status_frame r.code).length = 3 from rfl, e1] at l1
  have r1 : SendReadyS w1 r r.parts := by
    rw [hw1]
    exact ⟨hl, rfl, rfl, hr, rfl, rfl, [], rfl, by simp⟩
  obtain ⟨w2, t2, r2, o2, l2⟩ := sthru_parts r r.parts w1
    (w.sock.out ++ status_frame r.code ++ (r.parts.map part_frame).flatten ++ [67]) [67]
    (sent_codes w.log ++ 82 :: (r.parts.filterMap part_code ++ [67])) [67] r1
    (by rw [hw1]) (by rw [hw1]; simp [sent_codes])
  obtain ⟨w3, t3, v3, s3, o3, l3⟩ := sthru_terminal w2 r
    (w.sock.out ++ status_frame r.code ++ (r.parts.map part_frame).flatten ++ [67])
    (sent_codes w.log ++ 82 :: (r.parts.filterMap part_code ++ [67])) r2
    (by rw [o2, hw1])
    (by rw [l2, hw1, sent_codes_append, sent_codes_append, sent_codes_sent]; simp [sent_codes])
  refine ⟨w3, v3, s3, ?_, ?_, sthru_trans _ _ _ _ _ l1 (sthru_trans _ _ _ _ _ t2 t3)⟩
  · rw [o3, o2, hw1]
  · rw [l3, l2, hw1]

/-- C4: a session in progress (reached by any run) is handed a complete
response.  The expected output is the status frame `'R'`, then for each part
in the order of the part list the `'D'` frame of a part that holds in-memory
data or the `'A'` frame of a part that holds an attachment filename
(nothing for a part that holds neither), then the terminal `'C'`.  First,
when every `send` transfers its whole buffer, one call of `do_local_comms`
writes exactly that, logs exactly these frames in this order and returns in
`STATE_RECV_INIT`.  Second, whatever the `send` calls do (partial
transfers, `EAGAIN`, errors), what the session has written and logged is a
prefix of the expected bytes and frame codes until it stands in
`STATE_RESET` with exactly the expected output, and enough transferring
passes get it there. -/
theorem response_frame_order (d : daemon) (self newfd cn : Nat) (evs : List SessionEvent)
    (r : server_response)
    (hl : (run_events (World.fresh d self newfd cn) evs).live = true)
    (hs : (run_events (World.fresh d self newfd cn) evs).conn.dfa_state = STATE_INPROGRESS)
    (hc : r.complete = true) :
    (∀ k F : Nat, 3 ≤ k → (∀ p ∈ r.parts, part_max_send p ≤ k) →
      ∃ w', do_local_comms (F + (r.parts.map part_passes).sum + 4)
          (session_step (run_events (World.fresh d self newfd cn) evs) (.completed (some r)))
          (List.replicate ((r.parts.map part_sends).sum + 2) (.xfer k)) = some (w', []) ∧
        w'.sock.out = (run_events (World.fresh d self newfd cn) evs).sock.out
          ++ status_frame r.code ++ (r.parts.map part_frame).flatten ++ [67] ∧
        w'.log = (run_events (World.fresh d self newfd cn) evs).log
          ++ [.sent 82] ++ (r.parts.filterMap part_code).map .sent ++ [.sent 67, .job_complete] ∧
        w'.conn.dfa_state = STATE_RECV_INIT ∧ w'.live = true) ∧
    ∃ v, v.live = true ∧ v.conn.dfa_state = STATE_RESET ∧
      v.sock.out = (run_events (World.fresh d self newfd cn) evs).sock.out
        ++ status_frame r.code ++ (r.parts.map part_frame).flatten ++ [67] ∧
      v.log = (run_events (World.fresh d self newfd cn) evs).log
        ++ [.sent 82] ++ (r.parts.filterMap part_code).map .sent ++ [.sent 67] ∧
      SThru
        ((run_events (World.fresh d self newfd cn) evs).sock.out
          ++ status_frame r.code ++ (r.parts.map part_frame).flatten ++ [67])
        (sent_codes (run_events (World.fresh d self newfd cn) evs).log
          ++ 82 :: (r.parts.filterMap part_code ++ [67]))
        (session_step (run_events (World.fresh d self newfd cn) evs) (.completed (some r))) v := by
  refine ⟨fun k F hk3 hk => response_frames_whole_sends d self newfd cn evs r k F hl hs hc hk3 hk,
    ?_⟩
  have hinv := SInv_run d self newfd cn evs
  generalize run_events (World.fresh d self newfd cn) evs = w at *
  simp only [SInv, hl, if_true] at hinv
  obtain ⟨-, hf⟩ := hinv
  have hq := hf.quiet_clean (by simp [hs, quiet])
  obtain ⟨w0, hw0⟩ : ∃ w0, w0 = ({ w with
      conn := completion_effect w.conn (some r),
      d := { w.d with fds_write := fd_set w.conn.fd w.d.fds_write } } : World) := ⟨_, rfl⟩
  have e0 : session_step w (.completed (some r)) = w0 := by
    simp [session_step, hl, hs, hw0]
  rw [e0]
  have h := response_frames_any_sends w0 r (by rw [hw0]; exact hl) (by rw [hw0]; rfl)
    (by rw [hw0]; exact hq.2.2.1) (by rw [hw0]; rfl) (by rw [hw0]; exact hq.2.1) hc
  have ho : w0.sock.out = w.sock.out := by rw [hw0]
  have hg : w0.log = w.log := by rw [hw0]
  rw [ho, hg] at h
  exact h

/-- Witness for C4: a session sets the URL `"a"`, submits, is dispatched
and is handed a complete response with code 200 and three parts: an empty
one, one with the data `"xy"`, one with the attachment filename `"f"`. -/
theorem response_frame_order_witness :
    ∃ w', do_local_comms 13
          (session_step
            (run_events (World.fresh {} 1 5 0)
              [.client_send (set_daemon_url [97] ++ request_daemon_response),
               .pass (.xfer 1), .pass (.xfer 4), .pass (.xfer 1), .pass (.xfer 1),
               .dispatched 0])
            (.completed (some
              { code := 200, complete := true,
                parts := [{}, { data := some [120, 121], datasize := 2 },
                          { filename := some [102], tmp_filename := some [116] }] })))
          (List.replicate 9 (.xfer 100)) = some (w', []) ∧
      w'.log = [.job_ready, .sent 82, .sent 68, .sent 65, .sent 67, .job_complete] ∧
      w'.sock.out = [82, 200, 0, 68, 0, 0, 0, 0, 2, 0, 0, 0, 120, 121,
                     65, 0, 0, 0, 0, 1, 0, 0, 0, 1, 0, 0, 0, 102, 116, 67] := by
  obtain ⟨w', h1, h2, h3, -⟩ := (response_frame_order {} 1 5 0
    [.client_send (set_daemon_url [97] ++ request_daemon_response),
     .pass (.xfer 1), .pass (.xfer 4), .pass (.xfer 1), .pass (.xfer 1), .dispatched 0]
    { code := 200, complete := true,
      parts := [{}, { data := some [120, 121], datasize := 2 },
                { filename := some [102], tmp_filename := some [116] }] }
    (by decide) (by decide) rfl).1 100 0 (by decide) (by decide)
  exact ⟨w', h1, h3.trans (by decide), h2.trans (by decide)⟩

/-! ### The incomplete response -/

theorem incomplete_any_sends (w : World) (r : server_response)
    (hl : w.live = true) (hs : w.conn.dfa_state = STATE_SEND_INIT)
    (hsb : w.conn.send_buffer = none) (hr : w.conn.response = some r)
    (hb : w.conn.response_begun = false) (hc : r.complete = false) :
    ∃ v, v.live = true ∧ v.conn.dfa_state = STATE_RESET ∧
      v.sock.out = w.sock.out ++ [69] ∧ v.log = w.log ++ [.sent 69] ∧
      SThru (w.sock.out ++ [69]) (sent_codes w.log ++ [69]) w v := by
  have hg := get_response_incomplete w.conn r hr hb hc
  have hpk : (build_packet (get_response w.conn).1 (get_response w.conn).2.dr).1 = [69] := by
    rw [hg]; simp [build_packet]
  obtain ⟨w1, hw1, e1⟩ : ∃ w1, w1 = ({ w with
          conn := { w.conn with dfa_state := STATE_RESET, dfa_next_state := STATE_RESET,
                                 current_data := none, send_buffer := none,
                                 current_offset := 1, current_size := 0,
                                 current_part := r.parts, response := none },
          sock := { w.sock with out := w.sock.out ++ [69] },
          log := w.log ++ [.sent 69] } : World) ∧
      do_local_comms_step w (.xfer 1) = (w1, .cont) := by
    refine ⟨_, rfl, ?_⟩
    rw [pass_send_init_full w 1 hs hsb (by rw [hg]; simp [build_packet])]
    simp [packet_built, hg, build_packet]
  have l1 := slink_init w (w.sock.out ++ [69]) [] (sent_codes w.log ++ [69]) [69] hl hs hsb
    (by rw [hpk]; simp) rfl
  rw [hpk] at l1
  simp only [List.length_singleton] at l1
  rw [e1] at l1
  refine ⟨w1, ?_, ?_, ?_, ?_, l1⟩
  · rw [hw1]; exact hl
  · rw [hw1]
  · rw [hw1]
  · rw [hw1]

/-- C7: a session in progress (reached by any run) is handed a response
not marked complete.  When the `send` transfers the byte, one call of
`do_local_comms` writes the single byte `'E'` and nothing else, logs no
other frame, and returns in `STATE_RECV_INIT`; on that byte the client's
`get_daemon_response` returns `D_RESPONSE_INCOMPLETE` when its `recv`
delivers the byte, and no other code whatever its `recv` calls return, and
`D_RESPONSE_INCOMPLETE` is not `D_REQUEST_FAILED`.  Whatever the `send`
calls of the daemon do, the session has
written and logged nothing or just `'E'` until it stands in `STATE_RESET`
with exactly `'E'` written. -/
theorem incomplete_response_frame (d : daemon) (self newfd cn : Nat) (evs : List SessionEvent)
    (r : server_response)
    (hl : (run_events (World.fresh d self newfd cn) evs).live = true)
    (hs : (run_events (World.fresh d self newfd cn) evs).conn.dfa_state = STATE_INPROGRESS)
    (hc : r.complete = false) :
    (∀ k fuel : Nat, 1 ≤ k →
      ∃ w', do_local_comms (fuel + 3)
          (session_step (run_events (World.fresh d self newfd cn) evs) (.completed (some r)))
          [.xfer k] = some (w', []) ∧
      w'.sock.out = (run_events (World.fresh d self newfd cn) evs).sock.out ++ [69] ∧
      w'.log = (run_events (World.fresh d self newfd cn) evs).log ++ [.sent 69, .job_complete] ∧
      w'.conn.dfa_state = STATE_RECV_INIT ∧ w'.live = true ∧
      (∀ (oracle : List (List BlockingResult)) (x : daemon_read),
        get_daemon_response oracle
            (w'.sock.out.drop (run_events (World.fresh d self newfd cn) evs).sock.out.length)
          = some x → x.code = D_RESPONSE_INCOMPLETE) ∧
      (∀ (n : Nat) (rs : List BlockingResult) (oracle : List (List BlockingResult)), 1 ≤ n →
        get_daemon_response ((.count n :: rs) :: oracle)
            (w'.sock.out.drop (run_events (World.fresh d self newfd cn) evs).sock.out.length)
          = some ⟨D_RESPONSE_INCOMPLETE, none, [], oracle⟩) ∧
      D_RESPONSE_INCOMPLETE ≠ D_REQUEST_FAILED) ∧
    ∃ v, v.live = true ∧ v.conn.dfa_state = STATE_RESET ∧
      v.sock.out = (run_events (World.fresh d self newfd cn) evs).sock.out ++ [69] ∧
      v.log = (run_events (World.fresh d self newfd cn) evs).log ++ [.sent 69] ∧
      SThru ((run_events (World.fresh d self newfd cn) evs).sock.out ++ [69])
        (sent_codes (run_events (World.fresh d self newfd cn) evs).log ++ [69])
        (session_step (run_events (World.fresh d self newfd cn) evs) (.completed (some r))) v := by
  refine ⟨fun k fuel hk => incomplete_response_whole_send d self newfd cn evs r k fuel hk hl hs hc,
    ?_⟩
  have hinv := SInv_run d self newfd cn evs
  generalize run_events (World.fresh d self newfd cn) evs = w at *
  simp only [SInv, hl, if_true] at hinv
  obtain ⟨-, hf⟩ := hinv
  have hq := hf.quiet_clean (by simp [hs, quiet])
  obtain ⟨w0, hw0⟩ : ∃ w0, w0 = ({ w with
      conn := completion_effect w.conn (some r),
      d := { w.d with fds_write := fd_set w.conn.fd w.d.fds_write } } : World) := ⟨_, rfl⟩
  have e0 : session_step w (.completed (some r)) = w0 := by
    simp [session_step, hl, hs, hw0]
  rw [e0]
  have h := incomplete_any_sends w0 r (by rw [hw0]; exact hl) (by rw [hw0]; rfl)
    (by rw [hw0]; exact hq.2.2.1) (by rw [hw0]; rfl) (by rw [hw0]; exact hq.2.1) hc
  have ho : w0.sock.out = w.sock.out := by rw [hw0]
  have hg : w0.log = w.log := by rw [hw0]
  rw [ho, hg] at h
  exact h

/-- Witness for C7: a fresh session sets the URL `"a"`, submits, is
dispatched to handle 0 and is handed an empty, incomplete response. -/
theorem incomplete_response_frame_witness :
    ∃ w', do_local_comms 3
          (session_step
            (run_events (World.fresh {} 1 5 0)
              [.client_send (set_daemon_url [97] ++ request_daemon_response),
               .pass (.xfer 1), .pass (.xfer 4), .pass (.xfer 1), .pass (.xfer 1),
               .dispatched 0])
            (.completed (some {})))
          [.xfer 1] = some (w', []) ∧ w'.sock.out = [69] := by
  obtain ⟨w', h1, h2, -⟩ := (incomplete_response_frame {} 1 5 0
    [.client_send (set_daemon_url [97] ++ request_daemon_response),
     .pass (.xfer 1), .pass (.xfer 4), .pass (.xfer 1), .pass (.xfer 1), .dispatched 0]
    {} (by decide) (by decide) rfl).1 1 0 (by decide)
  exact ⟨w', h1, h2⟩

/-! ### The effects of `STATE_RESET` -/

/-- C11: one pass of `do_local_comms` over a session in `STATE_RESET` goes
on to the next pass with the URL unset, the form empty, no mapping left on
the session's list, no stored response, the job number one more (the field
is an `unsigned int`: one more modulo `2^32`, which is one more unless it
was `2^32 - 1`), the session's descriptor cleared from the write set (and
no other descriptor touched), the read set, the session list, the client
count and the socket as they were (the session stays live), and the
session in `STATE_RECV_INIT`. -/
theorem reset_state_effects (w : World) (io : Sys) (hs : w.conn.dfa_state = STATE_RESET) :
    (do_local_comms_step w io).2 = .cont ∧
    (do_local_comms_step w io).1.conn.url = none ∧
    (do_local_comms_step w io).1.conn.post = [] ∧
    (do_local_comms_step w io).1.conn.mmaps = [] ∧
    (do_local_comms_step w io).1.conn.response = none ∧
    (do_local_comms_step w io).1.conn.job_number = (w.conn.job_number + 1) % 4294967296 ∧
    (w.conn.job_number + 1 < 4294967296 →
      (do_local_comms_step w io).1.conn.job_number = w.conn.job_number + 1) ∧
    (do_local_comms_step w io).1.d.fds_write = fd_clr w.conn.fd w.d.fds_write ∧
    w.conn.fd ∉ (do_local_comms_step w io).1.d.fds_write ∧
    (∀ fd, fd ≠ w.conn.fd →
      (fd ∈ (do_local_comms_step w io).1.d.fds_write ↔ fd ∈ w.d.fds_write)) ∧
    (do_local_comms_step w io).1.d.fds_read = w.d.fds_read ∧
    (do_local_comms_step w io).1.d.local_list = w.d.local_list ∧
    (do_local_comms_step w io).1.d.active_clients = w.d.active_clients ∧
    (do_local_comms_step w io).1.live = w.live ∧
    (do_local_comms_step w io).1.sock = w.sock ∧
    (do_local_comms_step w io).1.conn.fd = w.conn.fd ∧
    (do_local_comms_step w io).1.conn.dfa_state = STATE_RECV_INIT := by
  rw [pass_reset w io hs]
  refine ⟨rfl, rfl, rfl, rfl, rfl, rfl, ?_, rfl, ?_, ?_, rfl, rfl, rfl, rfl, rfl, rfl, rfl⟩
  · intro h
    exact Nat.mod_eq_of_lt h
  · simp [fd_clr]
  · intro fd hfd
    simp [fd_clr, hfd]

/-- Witness for C11: a session in `STATE_RESET` that holds a URL, a form
with one attachment, its mapping and a response, with its descriptor 5 and
another descriptor 6 in the write set. -/
theorem reset_state_effects_witness :
    (do_local_comms_step
      { d := { local_list := [1], last_local := some 1, active_clients := 1,
               fds_read := [5], fds_write := [6, 5] },
        conn := { self := 1, fd := 5, client_number := 0, job_number := 3, url := some [97],
                  post := [.buffer [110] [102] [115] 2], mmaps := [⟨[115], 18⟩],
                  response := some {}, dfa_state := STATE_RESET } } .again).1.d.fds_write
      = [6] :=
  (reset_state_effects
      { d := { local_list := [1], last_local := some 1, active_clients := 1,
               fds_read := [5], fds_write := [6, 5] },
        conn := { self := 1, fd := 5, client_number := 0, job_number := 3, url := some [97],
                  post := [.buffer [110] [102] [115] 2], mmaps := [⟨[115], 18⟩],
                  response := some {}, dfa_state := STATE_RESET } } .again rfl).2.2.2.2.2.2.2.1

/-! ### The 32-bit length prefix -/

theorem le32_bits_le32 (n : Nat) (h : n < 4294967296) : le32_bits (le32 n) = n := by
  unfold le32_bits le32
  simp only [List.getD_cons_zero, List.getD_cons_succ]
  omega

theorem decode_size_le32_high (n : Nat) (h1 : 2147483648 ≤ n) (h2 : n < 4294967296) :
    decode_size (le32 n) = n + 18446744069414584320 := by
  unfold decode_size
  rw [le32_bits_le32 n h2, if_neg (by omega)]

set_option maxRecDepth 100000 in
/-- C12, evaluated at the failing input: the client attaches a shared file
whose map size is `2^31` (`sizeof (*sf)` = 16, `sf->size` = `2^31 - 16`).
The four length bytes `add_daemon_form_attachment` writes are `00 00 00 80`,
the little-endian encoding of `2^31`; the daemon, having received the frame
through `STATE_RECV_SIZE`, holds `current_size = 2^64 - 2^31`, not `2^31`. -/
theorem length_bit31_sign_extended :
    add_daemon_form_attachment 16 [110] ⟨[115], 2147483632, []⟩ [102]
      = [65, 1, 0, 0, 0, 110, 1, 0, 0, 0, 115, 1, 0, 0, 0, 102, 0, 0, 0, 128] ∧
    le32_bits [0, 0, 0, 128] = 2147483648 ∧
    (run_events (World.fresh {} 1 5 0)
        [.client_send (add_daemon_form_attachment 16 [110] ⟨[115], 2147483632, []⟩ [102]),
         .pass (.xfer 1), .pass (.xfer 4), .pass (.xfer 1), .pass (.xfer 4), .pass (.xfer 1),
         .pass (.xfer 4), .pass (.xfer 1), .pass (.xfer 4)]).conn.dfa_state
      = STATE_RECV_ATTACHMENT_COMPLETE ∧
    (run_events (World.fresh {} 1 5 0)
        [.client_send (add_daemon_form_attachment 16 [110] ⟨[115], 2147483632, []⟩ [102]),
         .pass (.xfer 1), .pass (.xfer 4), .pass (.xfer 1), .pass (.xfer 4), .pass (.xfer 1),
         .pass (.xfer 4), .pass (.xfer 1), .pass (.xfer 4)]).conn.current_size
      = 18446744071562067968 := by
  decide

/-! ### The layout of the `'D'` frame -/

set_option maxRecDepth 100000 in
/-- C13, counterexample: a session is handed a complete response with code
200 and one part with the header block `"h"` and the data `"d"`.  The bytes
the daemon writes are `'R'` 200 0, then `'D'`, the length 1, the length 1,
`"h"`, `"d"`, then `'C'`: both lengths come before the header block.  This
is not the order code, length, header block, length, data. -/
theorem body_frame_lengths_first :
    (run_events (World.fresh {} 1 5 0)
        [.client_send (set_daemon_url [97] ++ request_daemon_response),
         .pass (.xfer 1), .pass (.xfer 4), .pass (.xfer 1), .pass (.xfer 1), .dispatched 0,
         .completed (some { code := 200, complete := true,
                            parts := [{ headers := some [104], headersize := 1,
                                        data := some [100], datasize := 1 }] }),
         .pass (.xfer 100), .pass (.xfer 100), .pass (.xfer 100), .pass (.xfer 100),
         .pass (.xfer 100), .pass (.xfer 100)]).sock.out
      = [82, 200, 0, 68, 1, 0, 0, 0, 1, 0, 0, 0, 104, 100, 67] ∧
    D_frame_as_specified [104] [100] = [68, 1, 0, 0, 0, 104, 1, 0, 0, 0, 100] ∧
    (run_events (World.fresh {} 1 5 0)
        [.client_send (set_daemon_url [97] ++ request_daemon_response),
         .pass (.xfer 1), .pass (.xfer 4), .pass (.xfer 1), .pass (.xfer 1), .dispatched 0,
         .completed (some { code := 200, complete := true,
                            parts := [{ headers := some [104], headersize := 1,
                                        data := some [100], datasize := 1 }] }),
         .pass (.xfer 100), .pass (.xfer 100), .pass (.xfer 100), .pass (.xfer 100),
         .pass (.xfer 100), .pass (.xfer 100)]).sock.out
      ≠ [82, 200, 0] ++ D_frame_as_specified [104] [100] ++ [67] := by
  decide

/-- C13, amended: a `'D'` frame consists of the opcode byte `'D'`, then the
32-bit length of the header block, then the 32-bit length of the data, then
the header block bytes, then the data bytes.  For a session about to send a
part that holds the header block `hb` and the data `db`: when every `send`
transfers its whole buffer, four passes of `do_local_comms` write exactly
these bytes and leave the session ready for the next part; and whatever the
`send` calls do, what the session has written stays a prefix of these bytes
until it is ready for the next part with exactly these bytes written, and
enough transferring passes get it there. -/
theorem body_frame_layout (w : World) (r : server_response) (p : response_part)
    (t : List response_part) (hb db : Bytes)
    (h : SendReady w r (p :: t)) (hh : p.headers.getD [] = hb) (hhs : p.headersize = hb.length)
    (hd : p.data = some db) (hds : p.datasize = db.length) :
    (∀ (k F : Nat) (o : List Sys), part_max_send p ≤ k →
      ∃ w', do_local_comms (F + 4) w (.xfer k :: .xfer k :: .xfer k :: o)
          = do_local_comms F w' o ∧
        SendReady w' r t ∧
        w'.sock.out = w.sock.out ++ ([68] ++ le32 hb.length ++ le32 db.length ++ hb ++ db) ∧
        w'.log = w.log ++ [.sent 68]) ∧
    ∃ v, SThru (w.sock.out ++ ([68] ++ le32 hb.length ++ le32 db.length ++ hb ++ db))
        (sent_codes w.log ++ [68]) w v ∧
      SendReadyS v r t ∧
      v.sock.out = w.sock.out ++ ([68] ++ le32 hb.length ++ le32 db.length ++ hb ++ db) ∧
      v.log = w.log ++ [.sent 68] := by
  have hp : p.data.isSome = true := by rw [hd]; rfl
  have hf : part_frame p = [68] ++ le32 hb.length ++ le32 db.length ++ hb ++ db := by
    simp [part_frame, hd, hh, hhs, hds]
  constructor
  · intro k F o hk
    obtain ⟨w', e, hr, ho, hl⟩ := send_data_part w r p t k F o h hp hk
    exact ⟨w', e, hr, by rw [ho, hf], hl⟩
  · obtain ⟨hl, hs, hsb, hr, hbg, hcp, hdr⟩ := h
    obtain ⟨v, t1, r1, o1, l1⟩ := sthru_data_part w r p t
      (w.sock.out ++ ([68] ++ le32 hb.length ++ le32 db.length ++ hb ++ db)) []
      (sent_codes w.log ++ [68]) []
      ⟨hl, hs, hsb, hr, hbg, hdr, [], by simpa using hcp, by simp⟩ hp
      (by rw [hf]; simp) rfl
    exact ⟨v, t1, r1, by rw [o1, hf], l1⟩

/-- Witness for C13: a session with response begun, about to send a part
with the header block `"h"` and the data `"d"`. -/
theorem body_frame_layout_witness :
    ∃ w', do_local_comms 4
        { d := {}, conn := { self := 1, fd := 5, client_number := 0,
                             dfa_state := STATE_SEND_INIT, response_begun := true,
                             response := some { code := 200, complete := true },
                             current_part := [{ headers := some [104], headersize := 1,
                                                data := some [100], datasize := 1 }] } }
        [.xfer 13, .xfer 13, .xfer 13] = do_local_comms 0 w' [] ∧
      w'.sock.out = [68, 1, 0, 0, 0, 1, 0, 0, 0, 104, 100] := by
  obtain ⟨w', h1, -, h2, -⟩ := (body_frame_layout
    { d := {}, conn := { self := 1, fd := 5, client_number := 0,
                         dfa_state := STATE_SEND_INIT, response_begun := true,
                         response := some { code := 200, complete := true },
                         current_part := [{ headers := some [104], headersize := 1,
                                            data := some [100], datasize := 1 }] } }
    { code := 200, complete := true }
    { headers := some [104], headersize := 1, data := some [100], datasize := 1 } []
    [104] [100] ⟨rfl, rfl, rfl, rfl, rfl, rfl, rfl⟩ rfl rfl rfl rfl).1 13 0 [] (by decide)
  exact ⟨w', h1, h2⟩

/-! ### Tearing a session down (`close_local_connection`) -/

theorem unlink_local_fst (c : Nat) (l : List Nat) (prev last : Option Nat) :
    (unlink_local c prev last l).1 = l.erase c := by
  induction l generalizing prev with
  | nil => rfl
  | cons x t ih =>
    by_cases hx : x = c
    · simp [unlink_local, hx]
    · simp [unlink_local, hx, ih, List.erase_cons_tail]

/-- The globals after `close_local_connection` for a session that is not
waiting and has no handle: only the session list with its tail pointer, the
two descriptor sets and the client count change. -/
theorem close_globals_plain (w : World) (hs : w.conn.dfa_state ≠ STATE_WAITING)
    (hi : w.conn.iconn = none) :
    (close_local_connection w).d =
      { w.d with
          local_list := w.d.local_list.erase w.conn.self
          last_local := (unlink_local w.conn.self none w.d.last_local w.d.local_list).2
          fds_read := fd_clr w.conn.fd w.d.fds_read
          fds_write := fd_clr w.conn.fd w.d.fds_write
          active_clients := w.d.active_clients - 1 } := by
  unfold close_local_connection
  simp [hs, hi, unlink_local_fst]

theorem close_others (w : World) : (close_local_connection w).others = w.others := rfl

theorem close_log (w : World) : (close_local_connection w).log = w.log ++ [.closing] := rfl

theorem close_conn_iconn (w : World) : (close_local_connection w).conn.iconn = w.conn.iconn := rfl

theorem recv_all_nonblock_iconn (w : World) (n : Nat) (io : Sys) :
    (recv_all_nonblock w n io).1.conn.iconn = w.conn.iconn := by
  obtain ⟨a, b, m, s', -, h | h | ⟨h, -⟩⟩ := recv_all_nonblock_shape w n io <;> (rw [h]; try rfl)

theorem send_all_nonblock_iconn (w : World) (data : Bytes) (n : Nat) (io : Sys) :
    (send_all_nonblock w data n io).1.conn.iconn = w.conn.iconn := by
  obtain ⟨a, b, m, s', h | ⟨h, -⟩ | h⟩ := send_all_nonblock_shape w data n io <;> (rw [h]; try rfl)

theorem field_complete_iconn (c : local_connection_state) (f : Bytes) :
    (field_complete c f).iconn = c.iconn := by
  unfold field_complete
  cases c.dfa_state <;> rfl

theorem get_response_iconn (c : local_connection_state) :
    (get_response c).2.iconn = c.iconn := by
  unfold get_response
  split
  · rfl
  · split
    · split <;> rfl
    · split <;> rfl

theorem add_form_attachment_iconn (shm : List (Bytes × stashed_file))
    (c : local_connection_state) (a b : Bytes) (n : Nat) (f : Bytes) :
    (add_form_attachment shm c a b n f).2.iconn = c.iconn := by
  unfold add_form_attachment
  split
  · rfl
  · split <;> rfl

theorem pass_iconn (w : World) (io : Sys) :
    (do_local_comms_step w io).1.conn.iconn = w.conn.iconn := by
  unfold do_local_comms_step
  cases hs : w.conn.dfa_state <;> simp only []
  case STATE_RECV_INIT =>
    have := recv_all_nonblock_iconn w 1 io
    cases hr : recv_all_nonblock w 1 io with
    | mk w' ready =>
      rw [hr] at this
      cases ready
      · simpa using this
      · simp only []
        split_ifs <;> first | (simp only [close_conn_iconn]; exact this) | exact this | skip
        split <;> exact this
  case STATE_RECV_SIZE =>
    have := recv_all_nonblock_iconn w 4 io
    cases hr : recv_all_nonblock w 4 io with
    | mk w' ready =>
      rw [hr] at this
      cases ready <;> simpa using this
  case STATE_RECV_ATTACHMENT_COMPLETE => exact add_form_attachment_iconn _ _ _ _ _ _
  case STATE_RESET => rfl
  case STATE_SEND_INIT =>
    split
    · rename_i w' heq
      have h1 := congrArg (fun p => p.1.conn.iconn) heq
      simp only [send_all_nonblock_iconn] at h1
      rw [← h1]
      split
      · exact get_response_iconn w.conn
      · rfl
    · rename_i w' heq
      have h1 := congrArg (fun p => p.1.conn.iconn) heq
      simp only [send_all_nonblock_iconn] at h1
      show w'.conn.iconn = _
      rw [← h1]
      split
      · exact get_response_iconn w.conn
      · rfl
  case STATE_SEND_DATA_HEADER | STATE_SEND_DATA_BODY | STATE_SEND_ATTACHMENT_HEADER
      | STATE_SEND_ATTACHMENT_FAILNAME | STATE_SEND_ATTACHMENT_TMPFILENAME =>
    split
    · rename_i w' heq
      have h1 := congrArg (fun p => p.1.conn.iconn) heq
      simp only [send_all_nonblock_iconn] at h1
      exact h1.symm
    · rename_i w' heq
      have h1 := congrArg (fun p => p.1.conn.iconn) heq
      simp only [send_all_nonblock_iconn] at h1
      exact h1.symm
  all_goals
    have := recv_all_nonblock_iconn w w.conn.current_size io
    cases hr : recv_all_nonblock w w.conn.current_size io with
    | mk w' ready =>
      rw [hr] at this
      cases ready
      · simpa using this
      · simp only [field_complete_iconn]; exact this


theorem pass_inprogress (w : World) (io : Sys) (hs : w.conn.dfa_state = STATE_INPROGRESS) :
    do_local_comms_step w io = (w, .ret) := by
  unfold do_local_comms_step
  simp only [hs]

/-- In every run of a session, a handle is linked to the session only while
the session is in `STATE_INPROGRESS`. -/
theorem iconn_run (d : daemon) (self newfd cn : Nat) (evs : List SessionEvent) :
    (run_events (World.fresh d self newfd cn) evs).conn.iconn ≠ none →
      (run_events (World.fresh d self newfd cn) evs).conn.dfa_state = STATE_INPROGRESS := by
  have key : ∀ (evs : List SessionEvent) (w : World),
      (w.conn.iconn ≠ none → w.conn.dfa_state = STATE_INPROGRESS) →
      ((run_events w evs).conn.iconn ≠ none →
        (run_events w evs).conn.dfa_state = STATE_INPROGRESS) := by
    intro evs
    induction evs with
    | nil => intro w h; exact h
    | cons ev rest ih =>
      intro w h
      refine ih (session_step w ev) ?_
      cases ev with
      | pass io =>
        simp only [session_step]
        split
        · by_cases hs : w.conn.dfa_state = STATE_INPROGRESS
          · rw [pass_inprogress w io hs]; exact h
          · intro hi
            rw [pass_iconn] at hi
            exact absurd (h hi) hs
        · exact h
      | client_send bs => exact h
      | client_close => exact h
      | globals d => exact h
      | host shm => exact h
      | dispatched i =>
        simp only [session_step]
        split
        · intro _; rfl
        · exact h
      | completed r =>
        simp only [session_step]
        split
        · intro hi; exact absurd rfl hi
        · exact h
  exact key evs _ (fun h => absurd rfl h)

/-! ### Socket failures -/

/-- C16: a session (reached by any run) waits for an opcode in
`STATE_RECV_INIT` and receives a byte other than `'U'`, `'H'`, `'F'`, `'A'`
and `'R'`.  `do_local_comms` logs the byte, tears the session down and
returns.  Of the globals only the session list with its tail pointer, the
two descriptor sets and the client count change: the job queue with the
count of waiting jobs and the upstream handles with their counts are as
they were, and so are the other sessions; nothing is written to the
client. -/
theorem unexpected_opcode_closes (d : daemon) (self newfd cn : Nat) (evs : List SessionEvent)
    (c : Nat) (rest : Bytes) (k F : Nat) (o : List Sys)
    (hl : (run_events (World.fresh d self newfd cn) evs).live = true)
    (hs : (run_events (World.fresh d self newfd cn) evs).conn.dfa_state = STATE_RECV_INIT)
    (hinq : (run_events (World.fresh d self newfd cn) evs).sock.inq = c :: rest)
    (hc : c ≠ 85 ∧ c ≠ 72 ∧ c ≠ 70 ∧ c ≠ 65 ∧ c ≠ 82) (hk : 1 ≤ k) :
    ∃ w', do_local_comms (F + 1) (run_events (World.fresh d self newfd cn) evs) (.xfer k :: o)
        = some (w', o) ∧
      w'.live = false ∧
      w'.others = (run_events (World.fresh d self newfd cn) evs).others ∧
      w'.d.jq = (run_events (World.fresh d self newfd cn) evs).d.jq ∧
      w'.d.waiting_jobs = (run_events (World.fresh d self newfd cn) evs).d.waiting_jobs ∧
      w'.d.internet = (run_events (World.fresh d self newfd cn) evs).d.internet ∧
      w'.d.active_internet_connection_count
        = (run_events (World.fresh d self newfd cn) evs).d.active_internet_connection_count ∧
      w'.d = { (run_events (World.fresh d self newfd cn) evs).d with
          local_list := (run_events (World.fresh d self newfd cn) evs).d.local_list.erase
            (run_events (World.fresh d self newfd cn) evs).conn.self
          last_local := (unlink_local (run_events (World.fresh d self newfd cn) evs).conn.self none
            (run_events (World.fresh d self newfd cn) evs).d.last_local
            (run_events (World.fresh d self newfd cn) evs).d.local_list).2
          fds_read := fd_clr (run_events (World.fresh d self newfd cn) evs).conn.fd
            (run_events (World.fresh d self newfd cn) evs).d.fds_read
          fds_write := fd_clr (run_events (World.fresh d self newfd cn) evs).conn.fd
            (run_events (World.fresh d self newfd cn) evs).d.fds_write
          active_clients :=
            (run_events (World.fresh d self newfd cn) evs).d.active_clients - 1 } ∧
      w'.log = (run_events (World.fresh d self newfd cn) evs).log
        ++ [.unexpected_code c, .closing] ∧
      w'.sock.out = (run_events (World.fresh d self newfd cn) evs).sock.out := by
  have hinv := SInv_run d self newfd cn evs
  have hic := iconn_run d self newfd cn evs
  generalize run_events (World.fresh d self newfd cn) evs = w at *
  simp only [SInv, hl, if_true] at hinv
  obtain ⟨-, hf⟩ := hinv
  have hi : w.conn.iconn = none := by
    by_contra h
    have := hic h
    rw [hs] at this
    cases this
  obtain ⟨b, hb⟩ := recv_init_full w c rest k hk hinq (hf.recv_init hs)
  obtain ⟨h1, h2, h3, h4, h5⟩ := hc
  obtain ⟨w1, hw1, e1⟩ : ∃ w1, w1 = close_local_connection
        ({ w with
            conn := { w.conn with current_data := some [c], current_offset := b,
                                  current_size := 0, dfa_state := STATE_RECV_SIZE },
            sock := { w.sock with inq := rest },
            log := w.log ++ [.unexpected_code c] } : World) ∧
      do_local_comms_step w (.xfer k) = (w1, .ret) := by
    refine ⟨_, rfl, ?_⟩
    unfold do_local_comms_step
    simp only [hs, hb]
    simp [h1, h2, h3, h4, h5]
  have hd := close_globals_plain
    ({ w with
        conn := { w.conn with current_data := some [c], current_offset := b,
                              current_size := 0, dfa_state := STATE_RECV_SIZE },
        sock := { w.sock with inq := rest },
        log := w.log ++ [.unexpected_code c] } : World) (by simp) hi
  rw [← hw1] at hd
  refine ⟨w1, ?_, ?_, ?_, ?_, ?_, ?_, ?_, hd, ?_, ?_⟩
  · rw [do_local_comms_succ]
    simp only [List.headD_cons, e1, hs, uses_io, if_true, List.tail_cons]
  · rw [hw1]; rfl
  · rw [hw1]; rfl
  · rw [hd]
  · rw [hd]
  · rw [hd]
  · rw [hd]
  · rw [hw1]; simp [close_log]
  · rw [hw1]; rfl

/-- Witness for C16: session 1 receives the byte `'Z'`. -/
theorem unexpected_opcode_closes_witness :
    ∃ w', do_local_comms 1
        (run_events
          (World.fresh { local_list := [1], last_local := some 1, active_clients := 1,
                         fds_read := [5] } 1 5 0)
          [.client_send [90]]) [.xfer 1] = some (w', []) ∧
      w'.live = false ∧ w'.log = [.unexpected_code 90, .closing] := by
  obtain ⟨w', h1, h2, -, -, -, -, -, -, h3, -⟩ := unexpected_opcode_closes
    { local_list := [1], last_local := some 1, active_clients := 1, fds_read := [5] } 1 5 0
    [.client_send [90]] 90 [] 1 0 [] (by decide) (by decide) (by decide) (by decide)
    (by decide)
  exact ⟨w', h1, h2, h3⟩

/-! ### The effects of `close_local_connection` -/

/-- C20: `add_form_attachment` returns 1 or 0.  It returns 1 exactly when
the region opened under the requested share name maps (an object of that
name exists and the size is not zero) and the share name stored in the
region equals the requested name; then one attachment section is appended
to the session's form, the mapping is recorded at the head of the session's
mapping list, and the cached response is discarded.  When it returns 0 the
session is unchanged altogether, so its form, its recorded mappings and its
cached response are as they were.  `STATE_RECV_ATTACHMENT_COMPLETE` makes
this call with the three stashed strings and the received size, ignores the
return value and goes on in `STATE_RECV_INIT`. -/
theorem add_form_attachment_guard (shm : List (Bytes × stashed_file))
    (conn : local_connection_state) (name shared_name : Bytes) (size : Nat)
    (filename : Bytes) :
    ((add_form_attachment shm conn name shared_name size filename).1 = 1 ∨
      (add_form_attachment shm conn name shared_name size filename).1 = 0) ∧
    ((add_form_attachment shm conn name shared_name size filename).1 = 1 ↔
      ∃ sf, size ≠ 0 ∧ shm.lookup (cstr shared_name) = some sf ∧
        cstr sf.shm_name = cstr shared_name) ∧
    (∀ sf, size ≠ 0 → shm.lookup (cstr shared_name) = some sf →
      cstr sf.shm_name = cstr shared_name →
      (add_form_attachment shm conn name shared_name size filename).2 =
        { conn with
            post := conn.post
              ++ [.buffer (cstr name) (cstr filename) (cstr shared_name) sf.size]
            mmaps := ⟨cstr shared_name, size⟩ :: conn.mmaps
            response := none }) ∧
    ((add_form_attachment shm conn name shared_name size filename).1 = 0 →
      (add_form_attachment shm conn name shared_name size filename).2 = conn) ∧
    (∀ (w : World) (io : Sys), w.conn.dfa_state = STATE_RECV_ATTACHMENT_COMPLETE →
      (do_local_comms_step w io).2 = .cont ∧
      (do_local_comms_step w io).1.conn =
        { (add_form_attachment w.shm w.conn (w.conn.stashed_string0.getD [])
            (w.conn.stashed_string1.getD []) w.conn.current_size
            (w.conn.stashed_string2.getD [])).2 with
          stashed_string0 := none, stashed_string1 := none, stashed_string2 := none,
          dfa_state := STATE_RECV_INIT }) := by
  refine ⟨?_, ?_, ?_, ?_, ?_⟩
  · unfold add_form_attachment
    split
    · exact Or.inr rfl
    · split
      · exact Or.inr rfl
      · exact Or.inl rfl
  · unfold add_form_attachment
    by_cases hz : size = 0
    · simp [hz]
    · simp only [hz, if_false]
      cases hl : shm.lookup (cstr shared_name) with
      | none => simp
      | some sf =>
        by_cases hn : cstr sf.shm_name = cstr shared_name
        · simp [hn, hz]
        · simp [hn]
  · intro sf hz hl hn
    unfold add_form_attachment
    simp [hz, hl, hn, reset_response]
  · unfold add_form_attachment
    split
    · intro _; rfl
    · split
      · intro _; rfl
      · intro h; cases h
  · intro w io hs
    unfold do_local_comms_step
    simp [hs]

/-- Witness for C20: the host holds the object `"s"` whose region stores
the name `"s"`; the session asks for `"s"` with size 18. -/
theorem add_form_attachment_guard_witness :
    (add_form_attachment [([115], ⟨[115], 2, [120, 121]⟩)] (new_lcs 1 5 0)
        [110] [115] 18 [102]).2 =
      { new_lcs 1 5 0 with
          post := [.buffer [110] [102] [115] 2]
          mmaps := [⟨[115], 18⟩] } :=
  (add_form_attachment_guard [([115], ⟨[115], 2, [120, 121]⟩)] (new_lcs 1 5 0)
    [110] [115] 18 [102]).2.2.1 ⟨[115], 2, [120, 121]⟩ (by decide) (by decide) (by decide)

/-! ### Handles and sessions by address -/

theorem update_first_split (p : internet_connection_state → Bool)
    (f : internet_connection_state → internet_connection_state)
    (pre post : List internet_connection_state) (ic : internet_connection_state)
    (hpre : ∀ x ∈ pre, p x = false) (hic : p ic = true) :
    update_first p f (pre ++ ic :: post) = pre ++ f ic :: post := by
  induction pre with
  | nil => simp [update_first, hic]
  | cons x t ih =>
    have hx : p x = false := hpre x (by simp)
    simp [update_first, hx, ih (fun y hy => hpre y (List.mem_cons_of_mem _ hy))]

theorem find_split (p : internet_connection_state → Bool)
    (pre post : List internet_connection_state) (ic : internet_connection_state)
    (hpre : ∀ x ∈ pre, p x = false) (hic : p ic = true) :
    (pre ++ ic :: post).find? p = some ic := by
  induction pre with
  | nil => simp [hic]
  | cons x t ih =>
    have hx : p x = false := hpre x (by simp)
    simp [List.find?, hx, ih (fun y hy => hpre y (List.mem_cons_of_mem _ hy))]

theorem find_map_same (c : Nat) (f : local_connection_state → local_connection_state)
    (hf : ∀ s, (f s).self = s.self) (l : List local_connection_state) :
    (l.map (fun x => if x.self = c then f x else x)).find? (fun x => x.self = c)
      = (l.find? (fun x => x.self = c)).map f := by
  induction l with
  | nil => rfl
  | cons x t ih =>
    by_cases hx : x.self = c
    · simp [List.find?, hx, hf]
    · simp [List.find?, hx, ih]

theorem find_map_other (c a : Nat) (f : local_connection_state → local_connection_state)
    (hf : ∀ s, (f s).self = s.self) (ha : a ≠ c) (l : List local_connection_state) :
    (l.map (fun x => if x.self = c then f x else x)).find? (fun x => x.self = a)
      = l.find? (fun x => x.self = a) := by
  induction l with
  | nil => rfl
  | cons x t ih =>
    rw [List.map_cons, List.find?_cons, List.find?_cons, ih]
    by_cases hx : x.self = c
    · have hxa : decide (x.self = a) = false := by
        simp only [decide_eq_false_iff_not]
        exact fun h => ha (h.symm.trans hx)
      have hfa : decide ((f x).self = a) = false := by rw [hf]; exact hxa
      rw [if_pos hx, hfa, hxa]
    · rw [if_neg hx]

theorem find_conn_update_same (w : World) (c : Nat)
    (f : local_connection_state → local_connection_state) (hf : ∀ s, (f s).self = s.self) :
    (w.update_conn c f).find_conn c = (w.find_conn c).map f := by
  unfold World.update_conn World.find_conn
  by_cases h : w.live = true ∧ w.conn.self = c
  · simp [h, hf]
  · rw [if_neg h, if_neg h]
    simp only [if_neg h]
    exact find_map_same c f hf w.others

theorem find_conn_update_other (w : World) (c a : Nat)
    (f : local_connection_state → local_connection_state) (hf : ∀ s, (f s).self = s.self)
    (ha : a ≠ c) : (w.update_conn c f).find_conn a = w.find_conn a := by
  unfold World.update_conn World.find_conn
  by_cases h : w.live = true ∧ w.conn.self = c
  · have h2 : ¬ (w.live = true ∧ w.conn.self = a) := fun h3 => ha (h3.2.symm.trans h.2)
    have h3 : ¬ (w.live = true ∧ (f w.conn).self = a) := by rw [hf]; exact h2
    rw [if_pos h, if_neg h2]
    simp only [if_neg h3]
  · rw [if_neg h]
    by_cases h2 : w.live = true ∧ w.conn.self = a
    · simp [h2]
    · simp only [if_neg h2]
      exact find_map_other c a f hf ha w.others

theorem update_conn_globals (w : World) (c : Nat)
    (f : local_connection_state → local_connection_state) :
    (w.update_conn c f).d = w.d ∧ (w.update_conn c f).ub = w.ub ∧
    (w.update_conn c f).live = w.live ∧ (w.update_conn c f).log = w.log := by
  unfold World.update_conn
  split <;> exact ⟨rfl, rfl, rfl, rfl⟩

theorem find_conn_globals (w : World) (d : daemon) (log : List log_line) (a : Nat) :
    ({ w with d := d, log := log } : World).find_conn a = w.find_conn a := rfl

/-! ### A completed handle (`handle_completed_internet_connections`) -/

/-- The common end of both branches of the completion of a handle. -/
theorem handle_completed_split (w : World) (eh result : Nat)
    (pre post : List internet_connection_state) (ic : internet_connection_state)
    (resp : server_response)
    (hint : w.d.internet = pre ++ ic :: post) (hpre : ∀ x ∈ pre, x.curl_handle ≠ eh)
    (hic : ic.curl_handle = eh) (hresp : ic.response = some resp) :
    (ic.lconn = none →
      handle_completed_one w eh result =
        { w with d := { w.d with
            internet := pre ++ { ic with response := none, lconn := none, active := false } :: post
            active_internet_connection_count := w.d.active_internet_connection_count - 1 } }) ∧
    (∀ l lc, ic.lconn = some l → w.find_conn l = some lc →
      handle_completed_one w eh result =
        ({ w with
            d := { w.d with
              get_request_counter :=
                if lc.post.isEmpty then (w.d.get_request_counter + 1) % 4294967296
                else w.d.get_request_counter
              post_request_counter :=
                if lc.post.isEmpty then w.d.post_request_counter
                else (w.d.post_request_counter + 1) % 4294967296
              fds_write := fd_set lc.fd w.d.fds_write
              internet :=
                pre ++ { ic with response := none, lconn := none, active := false } :: post
              active_internet_connection_count := w.d.active_internet_connection_count - 1 }
            log := w.log ++ [if result = CURLE_OK then log_line.request_completed
                             else log_line.request_failed] } : World).update_conn l
          (fun c => completion_effect c
            (some (receive_cloud_response w.temp_dir w.tmp_string none resp).1))) := by
  have hp : ∀ x ∈ pre, (fun ic : internet_connection_state => decide (ic.curl_handle = eh)) x
      = false := fun x hx => by simpa using hpre x hx
  have hq : (fun ic : internet_connection_state => decide (ic.curl_handle = eh)) ic = true := by
    simpa using hic
  have hf := find_split _ pre post ic hp hq
  have hu := update_first_split _
    (fun ic => { ic with response := none, lconn := none, active := false }) pre post ic hp hq
  rw [← hint] at hf hu
  constructor
  · intro hl
    unfold handle_completed_one
    rw [hf]
    simp only [hresp, hl, hu]
  · intro l lc hl hlc
    unfold handle_completed_one
    rw [hf]
    simp only [hresp, hl, hlc]
    by_cases he : lc.post.isEmpty = true
    · simp [he, hu]
    · simp [he, hu]

theorem fd_set_mem (fd : Nat) (s : List Nat) : fd ∈ fd_set fd s := by
  unfold fd_set
  split
  · assumption
  · simp

/-- C19: `handle_completed_internet_connections` reads one `CURLMSG_DONE`
message for the easy handle `eh`, which belongs to the handle `ic` of the
pool (the first with that easy handle), holding the response `resp`.  If
the handle references a session `l` (and `l` is a session): afterwards that
session holds the handle's response (as the final flush call of
`receive_cloud_response` leaves it), is in `STATE_SEND_INIT` and references
no handle, its descriptor is in the write set, and every other session is
as it was.  If the handle's session reference is null: no session is
modified and the write set is unchanged.  In both cases the handle ends
with no response, no session reference and `active = false`, the other
handles are as they were, and `active_internet_connection_count` is one
less. -/
theorem handle_completed_effects (w : World) (eh result : Nat)
    (pre post : List internet_connection_state) (ic : internet_connection_state)
    (resp : server_response)
    (hint : w.d.internet = pre ++ ic :: post) (hpre : ∀ x ∈ pre, x.curl_handle ≠ eh)
    (hic : ic.curl_handle = eh) (hresp : ic.response = some resp) :
    (∀ l lc, ic.lconn = some l → w.find_conn l = some lc →
      (handle_completed_internet_connections w [(eh, result)]).find_conn l
        = some { lc with
            response := some (receive_cloud_response w.temp_dir w.tmp_string none resp).1
            dfa_state := STATE_SEND_INIT
            iconn := none } ∧
      lc.fd ∈ (handle_completed_internet_connections w [(eh, result)]).d.fds_write ∧
      (∀ a, a ≠ l →
        (handle_completed_internet_connections w [(eh, result)]).find_conn a
          = w.find_conn a)) ∧
    (ic.lconn = none →
      (handle_completed_internet_connections w [(eh, result)]).conn = w.conn ∧
      (handle_completed_internet_connections w [(eh, result)]).others = w.others ∧
      (handle_completed_internet_connections w [(eh, result)]).live = w.live ∧
      (handle_completed_internet_connections w [(eh, result)]).d.fds_write = w.d.fds_write) ∧
    ((ic.lconn = none ∨ ∃ l lc, ic.lconn = some l ∧ w.find_conn l = some lc) →
      (handle_completed_internet_connections w [(eh, result)]).d.internet
        = pre ++ { ic with response := none, lconn := none, active := false } :: post ∧
      (handle_completed_internet_connections w [(eh, result)]).d.active_internet_connection_count
        = w.d.active_internet_connection_count - 1 ∧
      (handle_completed_internet_connections w [(eh, result)]).d.internet_pool_count
        = w.d.internet_pool_count ∧
      (handle_completed_internet_connections w [(eh, result)]).ub = w.ub) := by
  have e0 : handle_completed_internet_connections w [(eh, result)]
      = handle_completed_one w eh result := rfl
  obtain ⟨hA, hB⟩ := handle_completed_split w eh result pre post ic resp hint hpre hic hresp
  have hself : ∀ (r : Option server_response) (s : local_connection_state),
      (completion_effect s r).self = s.self := fun _ _ => rfl
  rw [e0]
  refine ⟨?_, ?_, ?_⟩
  · intro l lc hl hlc
    rw [hB l lc hl hlc]
    refine ⟨?_, ?_, ?_⟩
    · rw [find_conn_update_same _ _ _ (hself _), find_conn_globals, hlc]
      rfl
    · rw [(update_conn_globals _ _ _).1]
      exact fd_set_mem _ _
    · intro a ha
      rw [find_conn_update_other _ _ _ _ (hself _) ha, find_conn_globals]
  · intro hl
    rw [hA hl]
    exact ⟨rfl, rfl, rfl, rfl⟩
  · rintro (hl | ⟨l, lc, hl, hlc⟩)
    · rw [hA hl]
      exact ⟨rfl, rfl, rfl, rfl⟩
    · rw [hB l lc hl hlc]
      obtain ⟨h1, h2, -, -⟩ := update_conn_globals
        ({ w with
            d := { w.d with
              get_request_counter :=
                if lc.post.isEmpty then (w.d.get_request_counter + 1) % 4294967296
                else w.d.get_request_counter
              post_request_counter :=
                if lc.post.isEmpty then w.d.post_request_counter
                else (w.d.post_request_counter + 1) % 4294967296
              fds_write := fd_set lc.fd w.d.fds_write
              internet :=
                pre ++ { ic with response := none, lconn := none, active := false } :: post
              active_internet_connection_count := w.d.active_internet_connection_count - 1 }
            log := w.log ++ [if result = CURLE_OK then log_line.request_completed
                             else log_line.request_failed] } : World) l
        (fun c => completion_effect c
          (some (receive_cloud_response w.temp_dir w.tmp_string none resp).1))
      rw [h1, h2]
      exact ⟨rfl, rfl, rfl, rfl⟩

/-- Witness for C19: handle 0 of a pool of one serves session 1 and
completes with a complete response of code 200. -/
theorem handle_completed_effects_witness :
    (handle_completed_internet_connections
      { d := { internet := [{ curl_handle := 100, connection_number := 0, active := true,
                              response := some { code := 200, complete := true },
                              lconn := some 1 }],
               active_internet_connection_count := 1, internet_pool_count := 1 },
        conn := { self := 1, fd := 5, client_number := 0, url := some [97], iconn := some 0,
                  dfa_state := STATE_INPROGRESS } } [(100, 0)]).d.internet
      = [{ curl_handle := 100, connection_number := 0 }] :=
  ((handle_completed_effects
      { d := { internet := [{ curl_handle := 100, connection_number := 0, active := true,
                              response := some { code := 200, complete := true },
                              lconn := some 1 }],
               active_internet_connection_count := 1, internet_pool_count := 1 },
        conn := { self := 1, fd := 5, client_number := 0, url := some [97], iconn := some 0,
                  dfa_state := STATE_INPROGRESS } } 100 0 [] []
      { curl_handle := 100, connection_number := 0, active := true,
        response := some { code := 200, complete := true }, lconn := some 1 }
      { code := 200, complete := true } rfl (by simp) rfl rfl).2.2
    (Or.inr ⟨1, { self := 1, fd := 5, client_number := 0, url := some [97], iconn := some 0,
                  dfa_state := STATE_INPROGRESS }, rfl, rfl⟩)).1

/-! ### Dispatch (`dispatch_jobs`) -/

theorem exists_first_inactive (l : List internet_connection_state)
    (h : (l.filter (fun ic => ic.active)).length < l.length) :
    ∃ pre ic post, l = pre ++ ic :: post ∧ (∀ x ∈ pre, x.active = true) ∧ ic.active = false := by
  induction l with
  | nil => simp at h
  | cons x t ih =>
    by_cases hx : x.active = true
    · have h' : (t.filter (fun ic => ic.active)).length < t.length := by
        simpa [List.filter_cons, hx] using h
      obtain ⟨pre, ic, post, e, hp, hi⟩ := ih h'
      refine ⟨x :: pre, ic, post, by simp [e], ?_, hi⟩
      intro y hy
      rcases List.mem_cons.mp hy with rfl | hy
      · exact hx
      · exact hp y hy
    · exact ⟨[], x, t, rfl, by simp, by simpa using hx⟩

theorem filter_active_split (pre post : List internet_connection_state)
    (ic : internet_connection_state) (hp : ∀ x ∈ pre, x.active = true) :
    ((pre ++ ic :: post).filter (fun ic => ic.active)).length
      = pre.length + ((ic :: post).filter (fun ic => ic.active)).length := by
  rw [List.filter_append, List.length_append]
  congr 1
  rw [List.filter_eq_self.mpr (fun x hx => by simpa using hp x hx)]

theorem inactive_split (pre post : List internet_connection_state)
    (ic : internet_connection_state) (hp : ∀ x ∈ pre, x.active = true) :
    inactive_handles (pre ++ ic :: post) = inactive_handles (ic :: post) := by
  unfold inactive_handles
  rw [List.filter_append]
  have : pre.filter (fun ic => !ic.active) = [] := by
    rw [List.filter_eq_nil_iff]
    intro x hx
    simp [hp x hx]
  rw [this, List.nil_append]

theorem active_inactive_length (l : List internet_connection_state) :
    (l.filter (fun ic => ic.active)).length + (inactive_handles l).length = l.length := by
  unfold inactive_handles
  induction l with
  | nil => rfl
  | cons x t ih =>
    by_cases hx : x.active = true
    · simp [List.filter_cons, hx]; omega
    · simp [List.filter_cons, hx]; omega

theorem assign_handles_nil (l : List internet_connection_state) : assign_handles [] l = l := by
  cases l <;> simp [assign_handles]

theorem assign_handles_empty (cs : List Nat) : assign_handles cs [] = [] := by
  cases cs <;> simp [assign_handles]

theorem assign_handles_prefix (cs : List Nat) (pre l : List internet_connection_state)
    (hp : ∀ x ∈ pre, x.active = true) :
    assign_handles cs (pre ++ l) = pre ++ assign_handles cs l := by
  induction pre with
  | nil => rfl
  | cons x t ih =>
    have hx : x.active = true := hp x (by simp)
    have ih' := ih (fun y hy => hp y (List.mem_cons_of_mem _ hy))
    cases cs with
    | nil => simp [assign_handles_nil]
    | cons c cs => simp [assign_handles, hx, ih']

theorem assign_handles_none (cs : List Nat) (l : List internet_connection_state)
    (h : inactive_handles l = []) : assign_handles cs l = l := by
  have hall : ∀ x ∈ l, x.active = true := by
    intro x hx
    have := List.filter_eq_nil_iff.mp h x hx
    simpa using this
  have := assign_handles_prefix cs l [] hall
  simp only [List.append_nil] at this
  rw [this, assign_handles_empty, List.append_nil]

theorem dispatch_one_step (w : World) (h : DispatchReady w) (hw : w.d.waiting_jobs ≠ 0)
    (ha : w.d.active_internet_connection_count < w.d.internet_pool_count) :
    ∃ c rest jq' pre ic post,
      w.d.jq.conns = c :: rest ∧ jq'.conns = rest ∧ (∃ s, QInv jq' s) ∧
      w.d.internet = pre ++ ic :: post ∧ (∀ x ∈ pre, x.active = true) ∧ ic.active = false ∧
      dispatch_one w = ({ w with d := { w.d with
          jq := jq'
          internet := pre ++ setup_internet_request { ic with lconn := some c, active := true }
            :: post
          active_internet_connection_count := w.d.active_internet_connection_count + 1
          internet_request_counter := (w.d.internet_request_counter + 1) % 4294967296
          waiting_jobs := w.d.waiting_jobs - 1 } } : World).update_conn c
        (fun s => dispatch_effect s ic.connection_number) := by
  obtain ⟨hub, ⟨s, hq⟩, hwj, hac, hpc⟩ := h
  obtain ⟨q1, e1, h1⟩ := QInv_step w.d.jq s .pop hq trivial
  simp only [QOp.apply, Option.map_eq_some'] at e1
  obtain ⟨⟨r, q2⟩, e2, e3⟩ := e1
  simp only at e3
  subst e3
  obtain ⟨hr, hc⟩ := pop_result w.d.jq q2 r e2
  have hlen : w.d.jq.conns.length ≠ 0 := by
    simp only [JobQueue.conns, List.length_map]
    intro h0
    rw [h0] at hwj
    exact hw (by simpa using hwj)
  cases hcs : w.d.jq.conns with
  | nil => rw [hcs] at hlen; exact absurd rfl hlen
  | cons c rest =>
    rw [hcs] at hr hc
    simp only [List.head?_cons, List.tail_cons] at hr hc
    subst hr
    have hlt : (w.d.internet.filter (fun ic => ic.active)).length < w.d.internet.length := by
      rw [hac, hpc] at ha
      exact_mod_cast ha
    obtain ⟨pre, ic, post, ei, hp, hi⟩ := exists_first_inactive w.d.internet hlt
    refine ⟨c, rest, q2, pre, ic, post, rfl, hc, ⟨_, h1⟩, ei, hp, hi, ?_⟩
    have hpp : ∀ x ∈ pre, (fun ic : internet_connection_state => !ic.active) x = false :=
      fun x hx => by simp [hp x hx]
    have hqq : (fun ic : internet_connection_state => !ic.active) ic = true := by simp [hi]
    have hf := find_split _ pre post ic hpp hqq
    have hu := update_first_split _
      (fun ic => setup_internet_request { ic with lconn := some c, active := true })
      pre post ic hpp hqq
    rw [← ei] at hf hu
    unfold dispatch_one
    rw [e2]
    simp only [hf, hu]

theorem dispatch_one_ready (w : World) (h : DispatchReady w) (hw : w.d.waiting_jobs ≠ 0)
    (ha : w.d.active_internet_connection_count < w.d.internet_pool_count) :
    DispatchReady (dispatch_one w) := by
  obtain ⟨c, rest, jq', pre, ic, post, hcs, hc', hq', ei, hp, hi, e⟩ :=
    dispatch_one_step w h hw ha
  obtain ⟨hub, -, hwj, hac, hpc⟩ := h
  have hl1 : w.d.jq.job_queue.length = rest.length + 1 := by
    have := congrArg List.length hcs
    simpa [JobQueue.conns] using this
  have hl2 : jq'.job_queue.length = rest.length := by
    have := congrArg List.length hc'
    simpa [JobQueue.conns] using this
  obtain ⟨g1, g2, -, -⟩ := update_conn_globals
    ({ w with d := { w.d with
          jq := jq'
          internet := pre ++ setup_internet_request { ic with lconn := some c, active := true }
            :: post
          active_internet_connection_count := w.d.active_internet_connection_count + 1
          internet_request_counter := (w.d.internet_request_counter + 1) % 4294967296
          waiting_jobs := w.d.waiting_jobs - 1 } } : World) c
    (fun s => dispatch_effect s ic.connection_number)
  rw [← e] at g1 g2
  refine ⟨by rw [g2]; exact hub, by rw [g1]; exact hq', ?_, ?_, ?_⟩
  · rw [g1]
    show w.d.waiting_jobs - 1 = (jq'.job_queue.length : Int)
    rw [hwj, hl1, hl2]
    push_cast
    omega
  · rw [g1]
    show w.d.active_internet_connection_count + 1 = _
    rw [hac, ei, filter_active_split pre post ic hp, filter_active_split pre post _ hp]
    simp [List.filter_cons, hi, setup_internet_request]
    omega
  · rw [g1]
    show w.d.internet_pool_count = _
    rw [hpc, ei]
    simp

theorem dispatch_jobs_succ (fuel : Nat) (w : World) :
    dispatch_jobs (fuel + 1) w =
      if w.d.waiting_jobs ≠ 0 ∧ w.d.active_internet_connection_count < w.d.internet_pool_count
          ∧ !w.ub then
        dispatch_jobs fuel (dispatch_one w)
      else w := rfl

theorem dispatch_jobs_stop (fuel : Nat) (w : World)
    (h : ¬ (w.d.waiting_jobs ≠ 0 ∧
      w.d.active_internet_connection_count < w.d.internet_pool_count ∧ (!w.ub) = true)) :
    dispatch_jobs fuel w = w := by
  cases fuel with
  | zero => rfl
  | succ n => rw [dispatch_jobs_succ, if_neg h]

theorem dispatch_jobs_ready (fuel : Nat) : ∀ w : World, DispatchReady w →
    DispatchReady (dispatch_jobs fuel w) := by
  induction fuel with
  | zero => intro w h; exact h
  | succ n ih =>
    intro w h
    rw [dispatch_jobs_succ]
    split
    · rename_i hc
      exact ih _ (dispatch_one_ready w h hc.1 hc.2.1)
    · exact h

/-- Under `DispatchReady` the loop condition of `dispatch_jobs` says that a
job is queued and a handle is inactive. -/
theorem dispatch_cond (w : World) (h : DispatchReady w) :
    (w.d.waiting_jobs ≠ 0 ∧
      w.d.active_internet_connection_count < w.d.internet_pool_count ∧ (!w.ub) = true) ↔
    (w.d.jq.conns ≠ [] ∧ inactive_handles w.d.internet ≠ []) := by
  obtain ⟨hub, -, hwj, hac, hpc⟩ := h
  have hl := active_inactive_length w.d.internet
  have e1 : w.d.jq.conns ≠ [] ↔ w.d.jq.job_queue.length ≠ 0 := by
    simp [JobQueue.conns]
  have e2 : inactive_handles w.d.internet ≠ [] ↔ (inactive_handles w.d.internet).length ≠ 0 := by
    simp
  rw [e1, e2, hwj, hac, hpc, hub]
  constructor
  · rintro ⟨h1, h2, -⟩
    refine ⟨fun h0 => h1 (by rw [h0]; rfl), ?_⟩
    have : (w.d.internet.filter (fun ic => ic.active)).length < w.d.internet.length := by
      exact_mod_cast h2
    omega
  · rintro ⟨h1, h2⟩
    refine ⟨fun h0 => h1 (by exact_mod_cast h0), ?_, rfl⟩
    have : (w.d.internet.filter (fun ic => ic.active)).length < w.d.internet.length := by omega
    exact_mod_cast this

theorem dispatched_stop (w : World)
    (hs : w.d.jq.conns = [] ∨ inactive_handles w.d.internet = []) : Dispatched w w := by
  have hn : min w.d.jq.conns.length (inactive_handles w.d.internet).length = 0 := by
    rcases hs with h | h <;> simp [h]
  refine ⟨by rw [hn]; rfl, ?_, hs, ?_, fun a _ => rfl⟩
  · rcases hs with h | h
    · rw [h, assign_handles_nil]
    · rw [assign_handles_none _ _ h]
  · intro _ p hp
    rcases hs with h | h
    · rw [h] at hp; simp at hp
    · rw [h] at hp; simp at hp

theorem dispatched_step (w w' : World) (h : DispatchReady w) (hw : w.d.waiting_jobs ≠ 0)
    (ha : w.d.active_internet_connection_count < w.d.internet_pool_count)
    (hd : Dispatched (dispatch_one w) w') : Dispatched w w' := by
  obtain ⟨c, rest, jq', pre, ic, post, hcs, hc', -, ei, hp, hi, e⟩ :=
    dispatch_one_step w h hw ha
  obtain ⟨g1, -, -, -⟩ := update_conn_globals
    ({ w with d := { w.d with
          jq := jq'
          internet := pre ++ setup_internet_request { ic with lconn := some c, active := true }
            :: post
          active_internet_connection_count := w.d.active_internet_connection_count + 1
          internet_request_counter := (w.d.internet_request_counter + 1) % 4294967296
          waiting_jobs := w.d.waiting_jobs - 1 } } : World) c
    (fun s => dispatch_effect s ic.connection_number)
  rw [← e] at g1
  have hself : ∀ (n : Nat) (s : local_connection_state), (dispatch_effect s n).self = s.self :=
    fun _ _ => rfl
  have f1 : (dispatch_one w).find_conn c
      = (w.find_conn c).map (fun s => dispatch_effect s ic.connection_number) := by
    rw [e, find_conn_update_same _ _ _ (hself _)]
    rfl
  have f2 : ∀ a, a ≠ c → (dispatch_one w).find_conn a = w.find_conn a := by
    intro a ha
    rw [e, find_conn_update_other _ _ _ _ (hself _) ha]
    rfl
  have j1 : (dispatch_one w).d.jq.conns = rest := by rw [g1]; exact hc'
  have i1 : (dispatch_one w).d.internet
      = pre ++ setup_internet_request { ic with lconn := some c, active := true } :: post := by
    rw [g1]
  have hact : (setup_internet_request { ic with lconn := some c, active := true }).active
      = true := rfl
  have k1 : inactive_handles (dispatch_one w).d.internet = inactive_handles post := by
    rw [i1, inactive_split _ _ _ hp]
    simp [inactive_handles, List.filter_cons, hact]
  have k0 : inactive_handles w.d.internet = ic :: inactive_handles post := by
    rw [ei, inactive_split _ _ _ hp]
    simp [inactive_handles, List.filter_cons, hi]
  obtain ⟨d1, d2, d3, d4, d5⟩ := hd
  rw [j1, k1] at d1 d5
  rw [j1, i1] at d2
  rw [j1, k1] at d4
  have hmin : min (c :: rest).length (ic :: inactive_handles post).length
      = min rest.length (inactive_handles post).length + 1 := by
    simp only [List.length_cons]
    omega
  refine ⟨?_, ?_, d3, ?_, ?_⟩
  · rw [hcs, k0, hmin, List.drop_succ_cons]
    exact d1
  · rw [d2, hcs, ei, assign_handles_prefix _ _ _ hp, assign_handles_prefix _ _ _ hp]
    congr 1
    cases rest with
    | nil => simp [assign_handles, hi, assign_handles_nil]
    | cons r rs => simp [assign_handles, hi, hact]
  · intro hnd p hp'
    rw [hcs] at hnd hp'
    rw [k0] at hp'
    simp only [List.map_cons, List.zip_cons_cons, List.mem_cons] at hp'
    have hcr : c ∉ rest := (List.nodup_cons.mp hnd).1
    rcases hp' with rfl | hp'
    · simp only
      rw [d5 c (fun hm => hcr (List.mem_of_mem_take hm)), f1]
    · have hm : p.1 ∈ rest := (List.of_mem_zip hp').1
      have hne : p.1 ≠ c := fun h0 => hcr (h0 ▸ hm)
      rw [d4 (List.nodup_cons.mp hnd).2 p hp', f2 _ hne]
  · intro a ha'
    rw [hcs, k0, hmin, List.take_succ_cons] at ha'
    have hne : a ≠ c := fun h0 => ha' (by simp [h0])
    have hnt : a ∉ rest.take (min rest.length (inactive_handles post).length) :=
      fun hm => ha' (List.mem_cons_of_mem _ hm)
    rw [d5 a hnt, f2 a hne]

theorem dispatch_jobs_run (fuel : Nat) : ∀ w : World, DispatchReady w →
    min w.d.jq.conns.length (inactive_handles w.d.internet).length ≤ fuel →
    Dispatched w (dispatch_jobs fuel w) := by
  induction fuel with
  | zero =>
    intro w h hn
    have h0 : min w.d.jq.conns.length (inactive_handles w.d.internet).length = 0 := by omega
    have hs : w.d.jq.conns = [] ∨ inactive_handles w.d.internet = [] := by
      rcases Nat.min_eq_zero_iff.mp h0 with h1 | h1
      · exact Or.inl (List.eq_nil_of_length_eq_zero h1)
      · exact Or.inr (List.eq_nil_of_length_eq_zero h1)
    exact dispatched_stop w hs
  | succ n ih =>
    intro w h hn
    rw [dispatch_jobs_succ]
    split
    · rename_i hc
      have hc2 := (dispatch_cond w h).mp hc
      have h1 := dispatch_one_ready w h hc.1 hc.2.1
      refine dispatched_step w _ h hc.1 hc.2.1 (ih _ h1 ?_)
      obtain ⟨c, rest, jq', pre, ic, post, hcs, hc', -, ei, hp, hi, e⟩ :=
        dispatch_one_step w h hc.1 hc.2.1
      obtain ⟨g1, -, -, -⟩ := update_conn_globals
        ({ w with d := { w.d with
              jq := jq'
              internet := pre
                ++ setup_internet_request { ic with lconn := some c, active := true } :: post
              active_internet_connection_count := w.d.active_internet_connection_count + 1
              internet_request_counter := (w.d.internet_request_counter + 1) % 4294967296
              waiting_jobs := w.d.waiting_jobs - 1 } } : World) c
        (fun s => dispatch_effect s ic.connection_number)
      rw [← e] at g1
      have j1 : (dispatch_one w).d.jq.conns = rest := by rw [g1]; exact hc'
      have hact : (setup_internet_request { ic with lconn := some c, active := true }).active
          = true := rfl
      have k1 : inactive_handles (dispatch_one w).d.internet = inactive_handles post := by
        rw [g1]
        show inactive_handles (pre ++ _ :: post) = _
        rw [inactive_split _ _ _ hp]
        simp [inactive_handles, List.filter_cons, hact]
      have k0 : inactive_handles w.d.internet = ic :: inactive_handles post := by
        rw [ei, inactive_split _ _ _ hp]
        simp [inactive_handles, List.filter_cons, hi]
      rw [hcs, k0] at hn
      rw [j1, k1]
      simp only [List.length_cons] at hn
      omega
    · rename_i hc
      have hc2 := (dispatch_cond w h).not.mp hc
      have hs : w.d.jq.conns = [] ∨ inactive_handles w.d.internet = [] := by
        by_contra hcon
        push_neg at hcon
        exact hc2 hcon
      exact dispatched_stop w hs

theorem assign_handles_linked (cs : List Nat) (l : List internet_connection_state) :
    ∀ p ∈ List.zip cs (inactive_handles l),
      p.2.active = false ∧
      setup_internet_request { p.2 with lconn := some p.1, active := true }
        ∈ assign_handles cs l := by
  induction l generalizing cs with
  | nil => intro p hp; simp [inactive_handles] at hp
  | cons ic t ih =>
    intro p hp
    cases cs with
    | nil => simp at hp
    | cons c cs =>
      by_cases hi : ic.active = true
      · have e : inactive_handles (ic :: t) = inactive_handles t := by
          simp [inactive_handles, List.filter_cons, hi]
        rw [e] at hp
        obtain ⟨h1, h2⟩ := ih (c :: cs) p hp
        refine ⟨h1, ?_⟩
        simp only [assign_handles, hi, if_true]
        exact List.mem_cons_of_mem _ h2
      · have hi' : ic.active = false := by simpa using hi
        have e : inactive_handles (ic :: t) = ic :: inactive_handles t := by
          simp [inactive_handles, List.filter_cons, hi']
        rw [e, List.zip_cons_cons, List.mem_cons] at hp
        simp only [assign_handles, hi', Bool.false_eq_true, if_false]
        rcases hp with rfl | hp
        · exact ⟨hi', List.mem_cons_self _ _⟩
        · obtain ⟨h1, h2⟩ := ih cs p hp
          exact ⟨h1, List.mem_cons_of_mem _ h2⟩

theorem inactive_nil_iff (l : List internet_connection_state) :
    inactive_handles l = [] ↔ ∀ ic ∈ l, ic.active = true := by
  unfold inactive_handles
  rw [List.filter_eq_nil_iff]
  constructor
  · intro h ic hic
    simpa using h ic hic
  · intro h ic hic
    simp [h ic hic]

/-- C18: `dispatch_jobs` is run in a state where the job queue is sound,
`waiting_jobs` equals the length of the queue,
`active_internet_connection_count` equals the number of handles marked
active and the pool size `internet_pool_count` is the number of handles.
Let `n` be the smaller of the number of queued jobs and the number of
inactive handles.  With fuel for `n` passes of the loop, on return: the
first `n` jobs have left the queue and the rest is queued as before; the
queued sessions, in queue order, were paired with the inactive handles, in
pool order: each such handle was inactive and is now in the pool marked
active, with a fresh response and referencing its session, and the pool is
otherwise as it was; each dispatched session (no session being queued
twice) is the session it was, now in `STATE_INPROGRESS` and referencing its
handle; every session that was not dispatched is as it was; the queue is
empty or every handle is active; the two counters again equal the length of
the queue and the number of active handles; no undefined behaviour was
met.  And after any number of passes of the loop the count of active
handles equals the number of handles marked active and does not exceed the
pool size. -/
theorem dispatch_jobs_assigns (w : World) (fuel : Nat) (s : SegQueue)
    (hub : w.ub = false) (hq : QInv w.d.jq s)
    (hwj : w.d.waiting_jobs = (w.d.jq.job_queue.length : Int))
    (hac : w.d.active_internet_connection_count
      = ((w.d.internet.filter (fun ic => ic.active)).length : Int))
    (hpc : w.d.internet_pool_count = (w.d.internet.length : Int))
    (hfuel : min w.d.jq.conns.length (inactive_handles w.d.internet).length ≤ fuel) :
    (dispatch_jobs fuel w).d.jq.conns
      = w.d.jq.conns.drop (min w.d.jq.conns.length (inactive_handles w.d.internet).length) ∧
    (dispatch_jobs fuel w).d.internet = assign_handles w.d.jq.conns w.d.internet ∧
    (∀ p ∈ List.zip w.d.jq.conns (inactive_handles w.d.internet),
      p.2.active = false ∧
      setup_internet_request { p.2 with lconn := some p.1, active := true }
        ∈ (dispatch_jobs fuel w).d.internet) ∧
    (w.d.jq.conns.Nodup →
      ∀ p ∈ List.zip w.d.jq.conns
          ((inactive_handles w.d.internet).map (fun ic => ic.connection_number)),
        (dispatch_jobs fuel w).find_conn p.1
          = (w.find_conn p.1).map
              (fun c => { c with iconn := some p.2, dfa_state := STATE_INPROGRESS })) ∧
    (∀ a, a ∉ w.d.jq.conns.take
        (min w.d.jq.conns.length (inactive_handles w.d.internet).length) →
      (dispatch_jobs fuel w).find_conn a = w.find_conn a) ∧
    ((dispatch_jobs fuel w).d.jq.job_queue = [] ∨
      ∀ ic ∈ (dispatch_jobs fuel w).d.internet, ic.active = true) ∧
    (dispatch_jobs fuel w).ub = false ∧
    (∀ k : Nat,
      (dispatch_jobs k w).d.waiting_jobs = ((dispatch_jobs k w).d.jq.job_queue.length : Int) ∧
      (dispatch_jobs k w).d.active_internet_connection_count
        = (((dispatch_jobs k w).d.internet.filter (fun ic => ic.active)).length : Int) ∧
      (dispatch_jobs k w).d.internet_pool_count = ((dispatch_jobs k w).d.internet.length : Int) ∧
      (dispatch_jobs k w).d.active_internet_connection_count
        ≤ (dispatch_jobs k w).d.internet_pool_count) := by
  have hr : DispatchReady w := ⟨hub, ⟨s, hq⟩, hwj, hac, hpc⟩
  obtain ⟨d1, d2, d3, d4, d5⟩ := dispatch_jobs_run fuel w hr hfuel
  refine ⟨d1, d2, ?_, d4, d5, ?_, (dispatch_jobs_ready fuel w hr).1, ?_⟩
  · intro p hp
    rw [d2]
    exact assign_handles_linked _ _ p hp
  · rcases d3 with h | h
    · left
      simpa [JobQueue.conns] using h
    · right
      exact (inactive_nil_iff _).mp h
  · intro k
    obtain ⟨-, -, k1, k2, k3⟩ := dispatch_jobs_ready k w hr
    refine ⟨k1, k2, k3, ?_⟩
    rw [k2, k3]
    exact_mod_cast List.length_filter_le _ _

/-- Witness for C18: three sessions 1, 2, 3 are queued with GET jobs, the
pool has three handles of which the first is active.  Sessions 1 and 2 get
handles 1 and 2, session 3 stays queued. -/
theorem dispatch_jobs_assigns_witness :
    (dispatch_jobs 2
      { d := { jq := ⟨[⟨10, 1⟩, ⟨11, 2⟩, ⟨12, 3⟩], some 12, some 12⟩,
               waiting_jobs := 3, active_internet_connection_count := 1,
               internet_pool_count := 3,
               internet := [{ curl_handle := 100, connection_number := 0, active := true,
                              response := some {}, lconn := some 9 },
                            { curl_handle := 101, connection_number := 1 },
                            { curl_handle := 102, connection_number := 2 }] },
        conn := { self := 1, fd := 5, client_number := 0, url := some [97],
                  dfa_state := STATE_WAITING },
        others := [{ self := 2, fd := 6, client_number := 1, url := some [98],
                     dfa_state := STATE_WAITING },
                   { self := 3, fd := 7, client_number := 2, url := some [99],
                     dfa_state := STATE_WAITING }] }).d.jq.conns = [3] ∧
    (dispatch_jobs 2
      { d := { jq := ⟨[⟨10, 1⟩, ⟨11, 2⟩, ⟨12, 3⟩], some 12, some 12⟩,
               waiting_jobs := 3, active_internet_connection_count := 1,
               internet_pool_count := 3,
               internet := [{ curl_handle := 100, connection_number := 0, active := true,
                              response := some {}, lconn := some 9 },
                            { curl_handle := 101, connection_number := 1 },
                            { curl_handle := 102, connection_number := 2 }] },
        conn := { self := 1, fd := 5, client_number := 0, url := some [97],
                  dfa_state := STATE_WAITING },
        others := [{ self := 2, fd := 6, client_number := 1, url := some [98],
                     dfa_state := STATE_WAITING },
                   { self := 3, fd := 7, client_number := 2, url := some [99],
                     dfa_state := STATE_WAITING }] }).d.internet
      = [{ curl_handle := 100, connection_number := 0, active := true, response := some {},
           lconn := some 9 },
         { curl_handle := 101, connection_number := 1, active := true, response := some {},
           lconn := some 1 },
         { curl_handle := 102, connection_number := 2, active := true, response := some {},
           lconn := some 2 }] := by
  have h := dispatch_jobs_assigns
      { d := { jq := ⟨[⟨10, 1⟩, ⟨11, 2⟩, ⟨12, 3⟩], some 12, some 12⟩,
               waiting_jobs := 3, active_internet_connection_count := 1,
               internet_pool_count := 3,
               internet := [{ curl_handle := 100, connection_number := 0, active := true,
                              response := some {}, lconn := some 9 },
                            { curl_handle := 101, connection_number := 1 },
                            { curl_handle := 102, connection_number := 2 }] },
        conn := { self := 1, fd := 5, client_number := 0, url := some [97],
                  dfa_state := STATE_WAITING },
        others := [{ self := 2, fd := 6, client_number := 1, url := some [98],
                     dfa_state := STATE_WAITING },
                   { self := 3, fd := 7, client_number := 2, url := some [99],
                     dfa_state := STATE_WAITING }] } 2 ⟨[1, 2, 3], []⟩ rfl
      ⟨[⟨10, 1⟩, ⟨11, 2⟩, ⟨12, 3⟩], [], rfl, rfl, rfl, by decide, rfl, rfl⟩ rfl rfl rfl
      (by decide)
  exact ⟨h.1.trans (by decide), h.2.1.trans (by decide)⟩

/-! ### Exit functions -/

theorem exitfn_regs_state (regs : List ExitReg) (s : exitfn_state) :
    (regs.foldl ExitReg.apply s).exit_functions
        = (regs.reverse.map (fun r => match r with
            | .add f c => (⟨.user f, .ptr c⟩ : exit_function)
            | .add_nullary f => ⟨.call_nullary_exit_function, .nullary f⟩))
          ++ s.exit_functions ∧
    (regs.foldl ExitReg.apply s).calls = s.calls ∧
    (regs.foldl ExitReg.apply s).ub = s.ub := by
  induction regs generalizing s with
  | nil => exact ⟨rfl, rfl, rfl⟩
  | cons r t ih =>
    obtain ⟨h1, h2, h3⟩ := ih (ExitReg.apply s r)
    simp only [List.foldl_cons]
    refine ⟨?_, ?_, ?_⟩
    · rw [h1]
      cases r <;> simp [ExitReg.apply, exitfn_add, exitfn_add_nullary]
    · rw [h2]; cases r <;> rfl
    · rw [h3]; cases r <;> rfl

theorem exitfn_call_loop_regs (l : List ExitReg) (s : exitfn_state) :
    (exitfn_call_loop (l.map (fun r => match r with
        | .add f c => (⟨.user f, .ptr c⟩ : exit_function)
        | .add_nullary f => ⟨.call_nullary_exit_function, .nullary f⟩)) s)
      = { s with calls := s.calls ++ l.map ExitReg.call } := by
  induction l generalizing s with
  | nil => simp [exitfn_call_loop]
  | cons r t ih =>
    simp only [List.map_cons, exitfn_call_loop]
    rw [ih]
    cases r <;> simp [call_exit_function, ExitReg.call]

/-- C22: after any sequence of registrations with `exitfn_add` and
`exitfn_add_nullary` (from the empty list), `exitfn_call` makes exactly the
calls that were registered, one call for each registration, in the reverse
of the order of registration, and leaves the list empty, so that a second
`exitfn_call` changes nothing and in particular calls nothing;
`exitfn_reset` empties the list and calls nothing, and an `exitfn_call`
after it calls nothing either.  The registered functions are taken not to
call back into `exitfn.c`. -/
theorem exitfn_call_reverse_order (regs : List ExitReg) :
    (exitfn_call (regs.foldl ExitReg.apply {})).calls = regs.reverse.map ExitReg.call ∧
    (exitfn_call (regs.foldl ExitReg.apply {})).exit_functions = [] ∧
    (exitfn_call (regs.foldl ExitReg.apply {})).ub = false ∧
    exitfn_call (exitfn_call (regs.foldl ExitReg.apply {}))
      = exitfn_call (regs.foldl ExitReg.apply {}) ∧
    (exitfn_reset (regs.foldl ExitReg.apply {})).exit_functions = [] ∧
    (exitfn_reset (regs.foldl ExitReg.apply {})).calls = [] ∧
    (exitfn_call (exitfn_reset (regs.foldl ExitReg.apply {}))).calls = [] := by
  obtain ⟨h1, h2, h3⟩ := exitfn_regs_state regs {}
  simp only [List.append_nil] at h1
  have hc : exitfn_call (regs.foldl ExitReg.apply {})
      = { exit_functions := [], calls := regs.reverse.map ExitReg.call, ub := false } := by
    unfold exitfn_call
    rw [h1, exitfn_call_loop_regs, h2, h3]
    rfl
  rw [hc]
  refine ⟨rfl, rfl, rfl, rfl, rfl, h2, ?_⟩
  unfold exitfn_call exitfn_reset
  simp only [exitfn_call_loop]
  exact h2

/-! ### The assertions of `pop_queued_job` -/

/-- The two assertions of `pop_queued_job` on a non-empty queue, in terms of
the pointers as they are after the head was unlinked. -/
theorem pop_asserts_of_some (q : JobQueue) (job : job_queue_node) (rest : List job_queue_node)
    (hq : q.job_queue = job :: rest) (h : pop_queued_job q ≠ none) :
    ((if q.last_queued_get = some job.addr then none else q.last_queued_get) ≠ none →
      ∃ tmp ∈ rest,
        (if q.last_queued_get = some job.addr then none else q.last_queued_get)
          = some tmp.addr) ∧
    (rest = [] →
      (if q.last_queued_get = some job.addr then none else q.last_queued_get) = none ∧
      (if q.last_queued_post = some job.addr then none else q.last_queued_post) = none) := by
  unfold pop_queued_job at h
  rw [hq] at h
  simp only at h
  generalize (if q.last_queued_get = some job.addr then none else q.last_queued_get) = lg at h ⊢
  generalize (if q.last_queued_post = some job.addr then none else q.last_queued_post) = lp
    at h ⊢
  split at h
  · exact absurd rfl h
  · rename_i h1
    split at h
    · exact absurd rfl h
    · rename_i h2
      constructor
      · intro hlg
        cases lg with
        | none => exact absurd rfl hlg
        | some x =>
          simp only [Option.isSome_some, Bool.true_and, Bool.not_eq_true', Bool.not_eq_false,
            List.any_eq_true] at h1
          obtain ⟨tmp, hm, ht⟩ := h1
          exact ⟨tmp, hm, by simpa using ht⟩
      · intro hr
        subst hr
        simp only [List.isEmpty_nil, Bool.true_and, Bool.or_eq_true, not_or,
          Bool.not_eq_true] at h2
        refine ⟨?_, ?_⟩
        · cases lg with
          | none => rfl
          | some x => exact absurd h2.1 (by simp)
        · cases lp with
          | none => rfl
          | some x => exact absurd h2.2 (by simp)

/-- C23: in every state of the job queue reached from the empty queue by
calls of `queue_new_job`, `pop_queued_job` and `dequeue_job` (the allocator
handing out node addresses that are not linked in the queue), no assertion
has failed on the way, and a `pop_queued_job` made in that state passes both
of its assertions: with the head unlinked and the two side pointers cleared
where they pointed to it, a non-null `last_queued_get` is the address of a
node of the remaining list, and when the remaining list is empty
`last_queued_get` and `last_queued_post` are both null. -/
theorem pop_assertions_hold (ops : List QOp) (hfresh : allocs_fresh JobQueue.empty ops) :
    ∃ q, run_ops JobQueue.empty ops = some q ∧ pop_queued_job q ≠ none ∧
      ∀ job rest, q.job_queue = job :: rest →
        ((if q.last_queued_get = some job.addr then none else q.last_queued_get) ≠ none →
          ∃ tmp ∈ rest,
            (if q.last_queued_get = some job.addr then none else q.last_queued_get)
              = some tmp.addr) ∧
        (rest = [] →
          (if q.last_queued_get = some job.addr then none else q.last_queued_get) = none ∧
          (if q.last_queued_post = some job.addr then none else q.last_queued_post) = none) := by
  have h0 : QInv JobQueue.empty ⟨[], []⟩ :=
    ⟨[], [], rfl, rfl, rfl, by simp [JobQueue.empty], rfl, rfl⟩
  obtain ⟨q, e, hq⟩ := QInv_run ops _ _ h0 hfresh
  obtain ⟨q1, e1, -⟩ := QInv_step q _ .pop hq trivial
  have hp : pop_queued_job q ≠ none := by
    intro h
    simp [QOp.apply, h] at e1
  exact ⟨q, e, hp, fun job rest hjq => pop_asserts_of_some q job rest hjq hp⟩

/-- Witness for C23: a POST and two GETs arrive, the first GET is withdrawn
and the head is popped. -/
theorem pop_assertions_hold_witness :
    allocs_fresh JobQueue.empty
        [.enqueue 10 1 true, .enqueue 11 2 false, .enqueue 12 3 false, .dequeue 2, .pop] ∧
    ∃ q, run_ops JobQueue.empty
        [.enqueue 10 1 true, .enqueue 11 2 false, .enqueue 12 3 false, .dequeue 2, .pop]
      = some q ∧ pop_queued_job q ≠ none :=
  have hf : allocs_fresh JobQueue.empty
        [.enqueue 10 1 true, .enqueue 11 2 false, .enqueue 12 3 false, .dequeue 2, .pop] := by
    simp [allocs_fresh, QOp.apply, queue_new_job, link_after, dequeue_job, dequeue_job_loop,
      pop_queued_job, JobQueue.empty, JobQueue.addrs]
  ⟨hf, (pop_assertions_hold _ hf).imp (fun _ h => ⟨h.1, h.2.1⟩)⟩

/-! ### Short writes -/

/-- C25: a session in progress (reached by any run) is handed any response
`r`.  Let `stream` be the status frame, the part frames and `'C'` when `r`
is marked complete, and the single `'E'` when it is not.  When every `send`
accepts its whole buffer, one call of `do_local_comms` writes exactly
`stream`.  For every sequence of `send` results whatsoever (short writes of
any length, `EAGAIN`/`EWOULDBLOCK`/`EINTR`, over any number of calls of
`do_local_comms`), what has been written is a prefix of `stream`, until the
run goes through the point at which the session stands in `STATE_RESET` with
exactly `stream` written; and some number of passes whose `send` calls each
transfer at least one byte is enough to get there. -/
theorem short_writes_same_stream (d : daemon) (self newfd cn : Nat) (evs : List SessionEvent)
    (r : server_response)
    (hl : (run_events (World.fresh d self newfd cn) evs).live = true)
    (hs : (run_events (World.fresh d self newfd cn) evs).conn.dfa_state = STATE_INPROGRESS) :
    ∃ stream : Bytes,
      stream = (if r.complete then
          status_frame r.code ++ (r.parts.map part_frame).flatten ++ [67] else [69]) ∧
      (∀ k F : Nat, 3 ≤ k → (∀ p ∈ r.parts, part_max_send p ≤ k) →
        ∃ w' n m, do_local_comms (F + n)
            (session_step (run_events (World.fresh d self newfd cn) evs) (.completed (some r)))
            (List.replicate m (.xfer k)) = some (w', []) ∧
          w'.sock.out = (run_events (World.fresh d self newfd cn) evs).sock.out ++ stream) ∧
      ∃ v, v.live = true ∧ v.conn.dfa_state = STATE_RESET ∧
        v.sock.out = (run_events (World.fresh d self newfd cn) evs).sock.out ++ stream ∧
        (∀ ios : List Sys,
          (∃ rem, (run_events
              (session_step (run_events (World.fresh d self newfd cn) evs)
                (.completed (some r))) (ios.map .pass)).sock.out ++ rem
            = (run_events (World.fresh d self newfd cn) evs).sock.out ++ stream) ∨
          ∃ ios1 ios2, ios = ios1 ++ ios2 ∧
            run_events
              (session_step (run_events (World.fresh d self newfd cn) evs)
                (.completed (some r))) (ios1.map .pass) = v) ∧
        ∃ n, ∀ ios : List Sys, (∀ io ∈ ios, ∃ k, 1 ≤ k ∧ io = .xfer k) → n ≤ ios.length →
          ∃ ios1 ios2, ios = ios1 ++ ios2 ∧ ios1.length ≤ n ∧
            run_events
              (session_step (run_events (World.fresh d self newfd cn) evs)
                (.completed (some r))) (ios1.map .pass) = v := by
  have hinv := SInv_run d self newfd cn evs
  by_cases hc : r.complete = true
  · refine ⟨_, rfl, ?_, ?_⟩
    · intro k F hk3 hk
      obtain ⟨w', e, ho, -⟩ :=
        response_frames_whole_sends d self newfd cn evs r k F hl hs hc hk3 hk
      exact ⟨w', (r.parts.map part_passes).sum + 4, (r.parts.map part_sends).sum + 2,
        by rw [← Nat.add_assoc]; exact e, by rw [ho, if_pos hc]; simp⟩
    · generalize run_events (World.fresh d self newfd cn) evs = w at *
      simp only [SInv, hl, if_true] at hinv
      obtain ⟨-, hf⟩ := hinv
      have hq := hf.quiet_clean (by simp [hs, quiet])
      obtain ⟨w0, hw0⟩ : ∃ w0, w0 = ({ w with
          conn := completion_effect w.conn (some r),
          d := { w.d with fds_write := fd_set w.conn.fd w.d.fds_write } } : World) := ⟨_, rfl⟩
      have e0 : session_step w (.completed (some r)) = w0 := by
        simp [session_step, hl, hs, hw0]
      rw [e0]
      obtain ⟨v, h1, h2, h3, -, h5, n, h6⟩ := response_frames_any_sends w0 r
        (by rw [hw0]; exact hl) (by rw [hw0]; rfl)
        (by rw [hw0]; exact hq.2.2.1) (by rw [hw0]; rfl) (by rw [hw0]; exact hq.2.1) hc
      have ho : w0.sock.out = w.sock.out := by rw [hw0]
      rw [ho] at h3 h5
      rw [if_pos hc]
      refine ⟨v, h1, h2, by rw [h3]; simp, ?_, n, h6⟩
      intro ios
      rcases h5 ios with ⟨rem, -, he, -⟩ | h
      · exact Or.inl ⟨rem, by rw [he]; simp⟩
      · exact Or.inr h
  · have hc' : r.complete = false := by simpa using hc
    refine ⟨_, rfl, ?_, ?_⟩
    · intro k F hk3 _
      obtain ⟨w', e, ho, -⟩ :=
        incomplete_response_whole_send d self newfd cn evs r k F (by omega) hl hs hc'
      exact ⟨w', 3, 1, e, by rw [ho, if_neg hc]⟩
    · generalize run_events (World.fresh d self newfd cn) evs = w at *
      simp only [SInv, hl, if_true] at hinv
      obtain ⟨-, hf⟩ := hinv
      have hq := hf.quiet_clean (by simp [hs, quiet])
      obtain ⟨w0, hw0⟩ : ∃ w0, w0 = ({ w with
          conn := completion_effect w.conn (some r),
          d := { w.d with fds_write := fd_set w.conn.fd w.d.fds_write } } : World) := ⟨_, rfl⟩
      have e0 : session_step w (.completed (some r)) = w0 := by
        simp [session_step, hl, hs, hw0]
      rw [e0]
      obtain ⟨v, h1, h2, h3, -, h5, n, h6⟩ := incomplete_any_sends w0 r
        (by rw [hw0]; exact hl) (by rw [hw0]; rfl)
        (by rw [hw0]; exact hq.2.2.1) (by rw [hw0]; rfl) (by rw [hw0]; exact hq.2.1) hc'
      have ho : w0.sock.out = w.sock.out := by rw [hw0]
      rw [ho] at h3 h5
      rw [if_neg hc]
      refine ⟨v, h1, h2, h3, ?_, n, h6⟩
      intro ios
      rcases h5 ios with ⟨rem, -, he, -⟩ | h
      · exact Or.inl ⟨rem, he⟩
      · exact Or.inr h

/-- Witness for C25: a fresh session sets the URL `"a"`, submits, is
dispatched to handle 0 and is handed an empty response that is not marked
complete. -/
theorem short_writes_same_stream_witness :
    ∃ (stream : Bytes) (v : World), stream = [69] ∧ v.conn.dfa_state = STATE_RESET ∧
      v.sock.out = stream := by
  obtain ⟨stream, h1, -, v, -, h2, h3, -⟩ := short_writes_same_stream {} 1 5 0
    [.client_send (set_daemon_url [97] ++ request_daemon_response),
     .pass (.xfer 1), .pass (.xfer 4), .pass (.xfer 1), .pass (.xfer 1), .dispatched 0]
    {} (by decide) (by decide)
  refine ⟨stream, v, h1.trans (by decide), h2, ?_⟩
  rw [h3]
  have e : (run_events (World.fresh {} 1 5 0)
    [.client_send (set_daemon_url [97] ++ request_daemon_response),
     .pass (.xfer 1), .pass (.xfer 4), .pass (.xfer 1), .pass (.xfer 1),
     .dispatched 0]).sock.out = [] := by decide
  rw [e, List.nil_append]

/-! ### The client's `send_all` and `recv_all` -/

/-- Without transient failures `send_all` does what its name says: when
every `send` returns a count and `send_all` returns 1, the wire holds
exactly the first `length` bytes of `data`, in order. -/
theorem send_all_loop_counts (data : Bytes) (length : Nat) :
    ∀ (results : List BlockingResult) (sent : Nat),
      (∀ r ∈ results, ∃ n, r = .count n) → sent ≤ length →
      (send_all_loop data length results sent (data.take sent)).retval = some 1 →
      (send_all_loop data length results sent (data.take sent)).wire = data.take length ∧
      (send_all_loop data length results sent (data.take sent)).ub = false := by
  intro results
  induction results with
  | nil =>
    intro sent _ hs h
    unfold send_all_loop at h ⊢
    split at h
    · cases h
    · rename_i hlt
      have : sent = length := by omega
      rw [if_neg hlt, this]
      exact ⟨rfl, rfl⟩
  | cons r rest ih =>
    intro sent hr hs h
    obtain ⟨n, rfl⟩ := hr r (List.mem_cons_self _ _)
    have hrest : ∀ r ∈ rest, ∃ n, r = BlockingResult.count n :=
      fun r hm => hr r (List.mem_cons_of_mem _ hm)
    unfold send_all_loop at h ⊢
    by_cases hlt : (sent : Int) < (length : Int)
    · have h0 : ¬ ((sent : Int) < 0) := by omega
      simp only [hlt, not_true_eq_false, if_false, h0] at h ⊢
      have e1 : ((length : Int) - (sent : Int)).toNat = length - sent := by omega
      have e2 : ((sent : Int)).toNat = sent := by omega
      have e3 : (sent : Int) + ((min n (length - sent) : Nat) : Int)
          = ((sent + min n (length - sent) : Nat) : Int) := by push_cast; rfl
      have e4 : data.take sent ++ (data.drop sent).take (min n (length - sent))
          = data.take (sent + min n (length - sent)) := by
        rw [List.take_add]
      rw [e1, e2, e3, e4] at h ⊢
      exact ih (sent + min n (length - sent)) hrest (by omega) h
    · have : sent = length := by omega
      rw [if_pos hlt, this]
      exact ⟨rfl, rfl⟩

/-- Without transient failures `recv_all` fills the buffer: when every
`recv` returns a count and the loop returns 1, the buffer holds exactly the
next `length` bytes of the stream and the stream is left after them. -/
theorem recv_all_loop_counts (orig : Bytes) (length : Nat) :
    ∀ (results : List BlockingResult) (received : Nat) (data : Bytes),
      (∀ r ∈ results, ∃ n, r = .count n) → received ≤ length → data.length = length →
      data.take received = orig.take received → received ≤ orig.length →
      (recv_all_loop length results received data (orig.drop received)).retval = some 1 →
      (recv_all_loop length results received data (orig.drop received)).data
        = orig.take length ∧
      (recv_all_loop length results received data (orig.drop received)).stream
        = orig.drop length ∧
      (recv_all_loop length results received data (orig.drop received)).ub = false := by
  intro results
  induction results with
  | nil =>
    intro received data _ hs hl ht _ h
    unfold recv_all_loop at h ⊢
    split at h
    · cases h
    · rename_i hlt
      have e : received = length := by omega
      rw [if_neg hlt]
      subst e
      refine ⟨?_, rfl, rfl⟩
      rw [← ht, ← hl, List.take_length]
  | cons r rest ih =>
    intro received data hr hs hl ht ho h
    obtain ⟨n, rfl⟩ := hr r (List.mem_cons_self _ _)
    have hrest : ∀ r ∈ rest, ∃ n, r = BlockingResult.count n :=
      fun r hm => hr r (List.mem_cons_of_mem _ hm)
    unfold recv_all_loop at h ⊢
    by_cases hlt : (received : Int) < (length : Int)
    · have h0 : ¬ ((received : Int) < 0) := by omega
      simp only [hlt, not_true_eq_false, if_false, h0] at h ⊢
      have e1 : ((length : Int) - (received : Int)).toNat = length - received := by omega
      have e2 : ((received : Int)).toNat = received := by omega
      rw [e1, e2] at h ⊢
      generalize hk : min (min n (length - received)) (orig.drop received).length = k at h ⊢
      by_cases hk0 : k = 0
      · rw [if_pos hk0] at h
        cases h
      · rw [if_neg hk0] at h ⊢
        have hkl : k ≤ length - received := by omega
        have hko : k ≤ orig.length - received := by
          have : (orig.drop received).length = orig.length - received := List.length_drop _ _
          omega
        have e3 : (received : Int) + (k : Int) = ((received + k : Nat) : Int) := by push_cast; rfl
        have e4 : (orig.drop received).drop k = orig.drop (received + k) := by
          rw [List.drop_drop, Nat.add_comm]
        have e5 : data.take received ++ (orig.drop received).take k = orig.take (received + k) := by
          rw [ht, List.take_add]
        have l5 : (orig.take (received + k)).length = received + k := by
          rw [List.length_take]; omega
        rw [e3, e4, e5] at h ⊢
        refine ih (received + k) _ hrest (by omega) ?_ ?_ (by omega) h
        · rw [List.length_append, l5, List.length_drop]; omega
        · rw [List.take_append_of_le_length (by omega), List.take_take]
          simp
    · have e : received = length := by omega
      rw [if_pos hlt]
      subst e
      refine ⟨?_, rfl, rfl⟩
      rw [← ht, ← hl, List.take_length]

/-- C27, evaluated at the failing input: `send_all` is given the two bytes
`"ab"`; the first `send` accepts one byte, the second fails with `EINTR`,
the third accepts two bytes.  `send_all` returns 1 with `"aab"` on the wire:
the transient -1 was added to `sent`, so the first byte went out twice.
`recv_all` is to fill a buffer of two bytes from the stream `"abc"` with the
same three results: it returns 1 with `"bc"` in the buffer and has taken
three bytes from the stream.  With the transient failure first, either
function hands the system call a pointer one byte before the buffer. -/
theorem transient_result_shifts_offset :
    send_all [97, 98] 2 [.count 1, .transient, .count 2]
      = ⟨some 1, [97, 97, 98], false⟩ ∧
    recv_all_loop 2 [.count 1, .transient, .count 2] 0 [0, 0] [97, 98, 99]
      = ⟨some 1, [98, 99], [], false⟩ ∧
    (send_all [97, 98] 2 [.transient, .count 2]).ub = true ∧
    (recv_all_loop 2 [.transient, .count 2] 0 [0, 0] [97, 98, 99]).ub = true := by
  decide

/-! ### A failed connection to the daemon -/

/-- `connect_to_daemon` reports a failure with the value 0; it never returns
the invalid handle -1. -/
theorem connect_to_daemon_handle (env : connect_env) :
    0 ≤ (connect_to_daemon env).handle := by
  unfold connect_to_daemon
  split
  · exact Int.le_refl 0
  · simp only
    split_ifs <;> exact Int.ofNat_nonneg _

/-- So `init_daemon_connection` never takes its failure branch: whatever
the system calls return, the cloud mode is left as it was and the handle
returned is not -1. -/
theorem init_daemon_connection_no_failure (cloud_mode user_key_header client_id_header : Bytes)
    (env : connect_env) (send_ok : Bool) :
    (init_daemon_connection cloud_mode user_key_header client_id_header env send_ok).cloud_mode
      = cloud_mode ∧
    (init_daemon_connection cloud_mode user_key_header client_id_header env send_ok).dh ≠ -1 ∧
    (init_daemon_connection cloud_mode user_key_header client_id_header env send_ok).header_calls
      ≠ [] := by
  have h := connect_to_daemon_handle env
  have hne : (connect_to_daemon env).handle ≠ -1 := by
    intro h1
    rw [h1] at h
    exact absurd h (by decide)
  unfold init_daemon_connection
  simp only [hne, if_false]
  refine ⟨trivial, hne, ?_⟩
  unfold add_daemon_header_calls
  simp only [hne, if_false]
  cases send_ok <;> simp

set_option maxRecDepth 100000 in
/-- C28, evaluated at the failing inputs: the cloud mode is `"race"`, the
user key header is `"k"`, the client id header is `"none"`.  First,
`socket` fails: `connect_to_daemon` returns 0.  Second, `socket` returns
descriptor 3 and none of the 201 `connect` calls succeeds:
`connect_to_daemon` launches a daemon, closes the descriptor and returns 0.
In both cases `init_daemon_connection` compares the handle with -1, so it
returns 0, leaves the cloud mode `"race"`, and calls `send_all` on
descriptor 0 with the `'H'` frame of the first header (and, where that
succeeds, goes on with the header text and the second header). -/
theorem failed_connect_not_detected :
    connect_to_daemon ⟨none, true, []⟩ = ⟨0, false, 0, false⟩ ∧
    connect_to_daemon ⟨some 3, true, List.replicate 201 false⟩ = ⟨0, true, 201, true⟩ ∧
    init_daemon_connection [114, 97, 99, 101] [107] [110, 111, 110, 101] ⟨none, true, []⟩ false
      = ⟨0, [114, 97, 99, 101], [(0, [72, 1, 0, 0, 0]), (0, [72, 4, 0, 0, 0])]⟩ ∧
    init_daemon_connection [114, 97, 99, 101] [107] [110, 111, 110, 101]
        ⟨some 3, true, List.replicate 201 false⟩ true
      = ⟨0, [114, 97, 99, 101],
          [(0, [72, 1, 0, 0, 0]), (0, [107]), (0, [72, 4, 0, 0, 0]),
           (0, [110, 111, 110, 101])]⟩ ∧
    cloud_offline_mode [114, 97, 99, 101] = false := by
  decide

/-! ### The `Content-Type` line of the response -/

theorem memchr_append (B : Bytes) (c : Nat) (t : Bytes) (h : c ∉ B) :
    memchr (B ++ c :: t) c = some B.length := by
  unfold memchr
  have e : (B ++ c :: t).indexOf c = B.length := by
    induction B with
    | nil => simp
    | cons x B ih =>
      have hx : x ≠ c := fun hx => h (by simp [hx])
      have hB : c ∉ B := fun hm => h (List.mem_cons_of_mem _ hm)
      simp [List.indexOf_cons, hx, ih hB]
  simp only [e]
  rw [if_pos (by simp)]

theorem cstr_of_no_zero (l : Bytes) (h : 0 ∉ l) : cstr l = l := by
  unfold cstr
  rw [List.takeWhile_eq_self_iff]
  intro x hx
  simp only [ne_eq, decide_not, Bool.not_eq_true', decide_eq_false_iff_not]
  intro h0
  exact h (h0 ▸ hx)

theorem content_type_multipart_boundary (response : server_response) (B : Bytes)
    (hq : 34 ∉ B) (h0 : 0 ∉ B) :
    receive_cloud_response_headers response
        (lit_content_type ++ lit_multipart_mixed ++ [59] ++ lit_boundary ++ B ++ [34, 13, 10])
      = { response with type := some lit_multipart_mixed,
                        boundary := some ([13, 10, 45, 45] ++ B) } := by
  have hidx : List.indexOf 34 (B ++ [34, 13, 10]) = B.length := by
    have := memchr_append B 34 [13, 10] hq
    unfold memchr at this
    simp only at this
    split at this
    · exact Option.some.inj this
    · cases this
  have htw : List.takeWhile (fun x => !decide (x = 0)) B = B := by
    have := cstr_of_no_zero B h0
    unfold cstr at this
    simpa using this
  unfold receive_cloud_response_headers
  simp only [lit_content_type, lit_multipart_mixed, lit_boundary, lit_http, List.cons_append,
    List.nil_append, List.append_assoc, List.length_cons, List.length_append, List.length_nil]
  simp [cstr, List.takeWhile, List.isPrefixOf, memchr, List.indexOf_cons]
  rw [if_neg (by omega), hidx, if_pos (by omega)]
  simp [List.take_left', htw]

theorem content_type_test_fails (value : Bytes) (hv : ¬ lit_multipart_mixed <+: value) :
    ¬ ((value ++ [13, 10]).take (min (value.length + 2) 15)
        = lit_multipart_mixed.take (min (value.length + 2) 15)) := by
  intro h
  by_cases hl : 15 ≤ value.length
  · have hmin : min (value.length + 2) 15 = 15 := by omega
    rw [hmin, List.take_append_of_le_length hl] at h
    apply hv
    have e : lit_multipart_mixed.take 15 = lit_multipart_mixed := rfl
    rw [e] at h
    rw [← h]
    exact List.take_prefix _ _
  · have hm : 13 ∈ (value ++ [13, 10]).take (min (value.length + 2) 15) := by
      have e : min (value.length + 2) 15 = value.length + (min (value.length + 2) 15 - value.length) := by
        omega
      rw [e, List.take_append]
      apply List.mem_append_right
      have : 1 ≤ min (value.length + 2) 15 - value.length := by omega
      obtain ⟨k, hk⟩ : ∃ k, min (value.length + 2) 15 - value.length = k + 1 :=
        ⟨min (value.length + 2) 15 - value.length - 1, by omega⟩
      rw [hk]
      simp
    rw [h] at hm
    have := List.mem_of_mem_take hm
    simp [lit_multipart_mixed] at this

theorem content_type_other (response : server_response) (value : Bytes)
    (hv : ¬ lit_multipart_mixed <+: value) :
    ∃ t, receive_cloud_response_headers response (lit_content_type ++ value ++ [13, 10])
      = { response with type := some t } := by
  have ht := content_type_test_fails value hv
  obtain ⟨data, hdata, hd, hl, h14, hs⟩ : ∃ data, data = lit_content_type ++ value ++ [13, 10] ∧
      data.drop 14 = value ++ [13, 10] ∧ data.length = value.length + 16 ∧
      data.take (min data.length 14) = lit_content_type.take (min data.length 14) ∧
      lit_http.isPrefixOf (cstr data) = false := by
    refine ⟨_, rfl, ?_, ?_, ?_, ?_⟩
    · simp [lit_content_type]
    · simp [lit_content_type]
    · have e : min (lit_content_type ++ value ++ [13, 10]).length 14 = 14 := by
        simp [lit_content_type]
      rw [e]
      simp [lit_content_type]
    · simp [lit_content_type, lit_http, cstr, List.takeWhile, List.isPrefixOf]
  rw [← hdata]
  unfold receive_cloud_response_headers
  simp only []
  have hlen : data.length - 14 = value.length + 2 := by omega
  rw [if_neg (by omega), hd, hlen, if_neg ht, if_pos h14]
  rw [if_neg (by rw [hs]; simp)]
  exact ⟨_, rfl⟩

/-- C21, as stated, fails for a MIME type that only begins with
`multipart/mixed`: the line
`Content-Type: multipart/mixedup; boundary="x"` followed by CRLF records the
type `multipart/mixedup` and nevertheless sets the part delimiter to CRLF
`--x`, because the type is compared over 15 bytes only. -/
theorem content_type_prefix_sets_delimiter :
    receive_cloud_response_headers {}
        [67, 111, 110, 116, 101, 110, 116, 45, 84, 121, 112, 101, 58, 32,
         109, 117, 108, 116, 105, 112, 97, 114, 116, 47, 109, 105, 120, 101, 100, 117, 112,
         59, 32, 98, 111, 117, 110, 100, 97, 114, 121, 61, 34, 120, 34, 13, 10]
      = { type := some [109, 117, 108, 116, 105, 112, 97, 114, 116, 47, 109, 105, 120, 101, 100,
                        117, 112],
          boundary := some [13, 10, 45, 45, 120] } ∧
    ([109, 117, 108, 116, 105, 112, 97, 114, 116, 47, 109, 105, 120, 101, 100, 117, 112] : Bytes)
      ≠ lit_multipart_mixed := by
  decide

/-- C21, amended: for every boundary string `B` (a C string, so without NUL)
that contains no double quote, `receive_cloud_response_headers` given the line
`Content-Type: multipart/mixed; boundary="B"` followed by CRLF sets the MIME
type to `multipart/mixed` and the part delimiter to CRLF `--` `B`, leaving
every other field; and for a `Content-Type` line ended by CRLF whose value
does not begin with `multipart/mixed`, only the MIME type is written: the
delimiter and every other field stay as they were. -/
theorem content_type_line_delimiter (response : server_response) :
    (∀ B : Bytes, 34 ∉ B → 0 ∉ B →
      receive_cloud_response_headers response
          (lit_content_type ++ lit_multipart_mixed ++ [59] ++ lit_boundary ++ B ++ [34, 13, 10])
        = { response with type := some lit_multipart_mixed,
                          boundary := some (CRLF ++ [45, 45] ++ B) }) ∧
    (∀ value : Bytes, ¬ lit_multipart_mixed <+: value →
      ∃ t, receive_cloud_response_headers response (lit_content_type ++ value ++ CRLF)
        = { response with type := some t }) :=
  ⟨fun B hq h0 => content_type_multipart_boundary response B hq h0,
   fun value hv => content_type_other response value hv⟩

theorem content_type_line_delimiter_witness :
    receive_cloud_response_headers {}
        (lit_content_type ++ lit_multipart_mixed ++ [59] ++ lit_boundary ++ [120, 121]
          ++ [34, 13, 10])
      = { type := some lit_multipart_mixed, boundary := some [13, 10, 45, 45, 120, 121] } ∧
    (receive_cloud_response_headers {}
        (lit_content_type ++ [116, 101, 120, 116, 47, 112, 108, 97, 105, 110] ++ CRLF)).boundary
      = none :=
  ⟨(content_type_line_delimiter {}).1 [120, 121] (by decide) (by decide),
   by
    obtain ⟨t, ht⟩ := (content_type_line_delimiter {}).2
      [116, 101, 120, 116, 47, 112, 108, 97, 105, 110] (by decide)
    rw [ht]⟩

/-! ### Termination of the scanning loop of `receive_cloud_response` -/

theorem memmem_some (hay needle : Bytes) (i : Nat) (h : memmem hay needle = some i) :
    needle <+: hay.drop i ∧ i + needle.length ≤ hay.length ∧
      ∀ j, j < i → ¬ needle <+: hay.drop j := by
  induction hay generalizing i with
  | nil =>
    simp only [memmem] at h
    split at h
    · rename_i hn
      cases h
      subst hn
      simp
    · cases h
  | cons a t ih =>
    simp only [memmem] at h
    split at h
    · rename_i hp
      cases h
      have hp2 : needle <+: a :: t := List.isPrefixOf_iff_prefix.mp hp
      refine ⟨by simpa using hp2, by simpa using hp2.length_le, fun j hj => by omega⟩
    · rename_i hp
      cases hm : memmem t needle with
      | none => rw [hm] at h; cases h
      | some k =>
        rw [hm] at h
        simp only [Option.map_some'] at h
        cases h
        obtain ⟨h1, h2, h3⟩ := ih k hm
        refine ⟨by simpa using h1, by simp only [List.length_cons]; omega, ?_⟩
        intro j hj
        cases j with
        | zero =>
          intro hpre
          apply hp
          exact List.isPrefixOf_iff_prefix.mpr (by simpa using hpre)
        | succ j =>
          simpa using h3 j (by omega)

theorem rcr_iter_decreases (boundary : Option Bytes) (flush : Bool) (td ts : Bytes)
    (st st' : rcr_state)
    (hc : st.data.length > (match boundary with | none => 0 | some b => strlen b)
          ∨ (flush = true ∧ st.data.length > 0))
    (h : rcr_iter boundary flush td ts st = (st', true)) :
    st'.data.length < st.data.length := by
  have hpos : 0 < st.data.length := by
    rcases hc with hc | hc
    · omega
    · exact hc.2
  unfold rcr_iter at h
  cases boundary with
  | none =>
    simp only [Option.isSome_none] at h
    split at h
    · cases h
    · simp only [Bool.false_eq_true, if_false] at h
      cases h
      simp
      exact hpos
  | some b =>
    cases hm : memmem st.data (cstr b) with
    | none =>
      simp only [hm, Option.isSome_none] at h
      split at h
      · cases h
      · simp only [Bool.false_eq_true, if_false] at h
        cases h
        simp only [List.length_drop]
        cases flush with
        | true => simp; exact hpos
        | false =>
          simp only [Bool.false_eq_true, if_false]
          simp only [Bool.false_eq_true, false_and, or_false] at hc
          omega
    | some i =>
      simp only [hm, Option.isSome_some, if_true] at h
      split at h
      · cases h
      · split at h
        · cases h
        · split at h
          · cases h
          · cases h
            simp only [List.length_drop]
            rename_i nl hnl _
            have : 0 < nl ∨ nl = st.data.length - i := by
              split at hnl
              · cases hnl; left; omega
              · split at hnl
                · cases hnl
                  right
                  simp
                · cases hnl
            omega

theorem rcr_cond_iff (boundary : Option Bytes) (flush : Bool) (st : rcr_state) :
    rcr_cond boundary flush st = true ↔
      (st.data.length > (match boundary with | none => 0 | some b => strlen b)
        ∨ (flush = true ∧ st.data.length > 0)) := by
  simp [rcr_cond]

theorem rcr_loop_while (boundary : Option Bytes) (flush : Bool) (td ts : Bytes) (fuel : Nat) :
    ∀ st : rcr_state, st.data.length < fuel →
      rcr_while boundary flush td ts st (rcr_loop boundary flush td ts fuel st) := by
  induction fuel with
  | zero => intro st h; omega
  | succ n ih =>
    intro st h
    unfold rcr_loop
    simp only []
    split
    · rename_i hc2
      have hc : rcr_cond boundary flush st = true := (rcr_cond_iff boundary flush st).mpr hc2
      cases hi : rcr_iter boundary flush td ts st with
      | mk st' cont =>
        cases cont with
        | true =>
          simp only []
          have := rcr_iter_decreases boundary flush td ts st st' hc2 hi
          exact rcr_while.next st st' _ hc hi (ih st' (by omega))
        | false =>
          simp only []
          exact rcr_while.brk st st' hc hi
    · rename_i hc2
      have hc : ¬ rcr_cond boundary flush st = true :=
        fun h2 => hc2 ((rcr_cond_iff boundary flush st).mp h2)
      exact rcr_while.exit st (by simpa using hc)

theorem read_header_lines_fuel (f1 : Nat) :
    ∀ (f2 : Nat) (region : Bytes) (part : response_part) (used : Nat),
      region.length < f1 → region.length < f2 →
      read_header_lines f1 region part used = read_header_lines f2 region part used := by
  induction f1 with
  | zero => intro f2 region part used h; omega
  | succ n ih =>
    intro f2 region part used h1 h2
    cases f2 with
    | zero => omega
    | succ m =>
      unfold read_header_lines
      split
      · rfl
      · cases hm : memmem region CRLF with
        | none => rfl
        | some i =>
          simp only []
          split
          · rfl
          · have hb := (memmem_some region CRLF i hm).2.1
            simp only [CRLF, List.length_cons, List.length_nil] at hb
            apply ih
            · simp only [List.length_drop]; omega
            · simp only [List.length_drop]; omega

theorem parse_part_headers_fuel (td ts : Bytes) (f1 : Nat) :
    ∀ (f2 : Nat) (headers : Bytes) (part : response_part),
      headers.length < f1 → headers.length < f2 →
      parse_part_headers td ts f1 headers part = parse_part_headers td ts f2 headers part := by
  induction f1 with
  | zero => intro f2 headers part h; omega
  | succ n ih =>
    intro f2 headers part h1 h2
    cases f2 with
    | zero => omega
    | succ m =>
      unfold parse_part_headers
      simp only []
      split
      · rename_i hlt
        apply ih
        · simp only [List.length_drop]; omega
        · simp only [List.length_drop]; omega
      · rfl

/-- C26: for every state of the scanning loop of `receive_cloud_response`
(every response, every unprocessed input, with or without boundary, in a data
call or in the final flush call), an iteration that goes back to the loop
condition leaves strictly fewer unprocessed bytes; hence the loop, given more
passes than there are unprocessed bytes (`receive_cloud_response` gives it
`size + 1`), is left after finitely many iterations through its condition or a
`break`; a boundary found by `memmem` at offset `i` lies wholly inside the
remaining `size - i` bytes, so `size - boundary_len` does not underflow; and
the two inner loops over the header lines end within the passes they are
given. -/
theorem scanning_loop_terminates (boundary : Option Bytes) (flush : Bool) (td ts : Bytes)
    (st : rcr_state) :
    (∀ st', rcr_cond boundary flush st = true →
      rcr_iter boundary flush td ts st = (st', true) → st'.data.length < st.data.length) ∧
    (∀ fuel, st.data.length < fuel →
      rcr_while boundary flush td ts st (rcr_loop boundary flush td ts fuel st)) ∧
    (∀ b i, boundary = some b → memmem st.data (cstr b) = some i →
      strlen b ≤ (st.data.drop i).length) ∧
    (∀ region part fuel, region.length < fuel →
      read_header_lines fuel region part 0
        = read_header_lines (region.length + 1) region part 0) ∧
    (∀ headers part fuel, headers.length < fuel →
      parse_part_headers td ts fuel headers part
        = parse_part_headers td ts (headers.length + 1) headers part) := by
  refine ⟨?_, ?_, ?_, ?_, ?_⟩
  · intro st' hc hi
    exact rcr_iter_decreases boundary flush td ts st st'
      ((rcr_cond_iff boundary flush st).mp hc) hi
  · intro fuel hf
    exact rcr_loop_while boundary flush td ts fuel st hf
  · intro b i _ hm
    have := (memmem_some st.data (cstr b) i hm).2.1
    simp only [strlen, List.length_drop]
    omega
  · intro region part fuel hf
    exact read_header_lines_fuel fuel _ region part 0 hf (by omega)
  · intro headers part fuel hf
    exact parse_part_headers_fuel td ts fuel _ headers part hf (by omega)

theorem scanning_loop_terminates_witness :
    (({ done := [], part := { data := some [120, 121], datasize := 2 }, data := [],
        complete := false } : rcr_state).data.length
      < ({ done := [], part := {}, data := [120, 121], complete := false } : rcr_state).data.length) ∧
    rcr_while none false [] [] ⟨[], {}, [120, 121], false⟩
      (rcr_loop none false [] [] 3 ⟨[], {}, [120, 121], false⟩) ∧
    strlen [13, 10, 45, 45, 98]
      ≤ (({ done := [], part := {}, data := [120, 121, 13, 10, 45, 45, 98, 45, 45, 13, 10],
            complete := false } : rcr_state).data.drop 2).length :=
  ⟨(scanning_loop_terminates none false [] [] ⟨[], {}, [120, 121], false⟩).1 _
      (by decide) (by decide),
   (scanning_loop_terminates none false [] [] ⟨[], {}, [120, 121], false⟩).2.1 3 (by decide),
   (scanning_loop_terminates (some [13, 10, 45, 45, 98]) false [] []
      ⟨[], {}, [120, 121, 13, 10, 45, 45, 98, 45, 45, 13, 10], false⟩).2.2.1
      [13, 10, 45, 45, 98] 2 rfl (by decide)⟩

/-! ### The `files needed` answer -/

theorem find_cloud_file_some (st : upload_state) (filename : Bytes) :
    (find_cloud_file st filename).isSome = true ↔
      ∃ f ∈ st.source_files ++ st.include_files, streq f.path filename = true := by
  unfold find_cloud_file
  cases h1 : st.source_files.find? (fun f => streq f.path filename) with
  | some f =>
    simp only [Option.isSome_some, true_iff]
    exact ⟨f, List.mem_append_left _ (List.mem_of_find?_eq_some h1),
      by simpa using List.find?_some h1⟩
  | none =>
    simp only []
    rw [List.find?_eq_none] at h1
    constructor
    · intro h
      obtain ⟨f, hf⟩ := Option.isSome_iff_exists.mp h
      exact ⟨f, List.mem_append_right _ (List.mem_of_find?_eq_some hf),
        by simpa using List.find?_some hf⟩
    · rintro ⟨f, hf, he⟩
      rcases List.mem_append.mp hf with hs | hi
      · exact absurd he (by simpa using h1 f hs)
      · cases h2 : st.include_files.find? (fun f => streq f.path filename) with
        | some g => rfl
        | none =>
          rw [List.find?_eq_none] at h2
          exact absurd he (by simpa using h2 f hi)

theorem files_needed_loop_calls (st : upload_state) (find : Bytes → Option stashed_file)
    (entries : List (Option Bytes)) :
    ∀ (count : Nat) (calls : List daemon_call),
      ∃ cs, (files_needed_loop st find entries count calls).2 = calls ++ cs ∧
        (∀ c ∈ cs, ∃ name sf filename, c = .add_daemon_form_attachment name sf filename ∧
          some filename ∈ entries ∧ attach_ok st find c) ∧
        (∀ n, (files_needed_loop st find entries count calls).1 = .finished n →
          n = count + cs.length) := by
  induction entries with
  | nil =>
    intro count calls
    exact ⟨[], by simp [files_needed_loop], by simp, by simp [files_needed_loop]⟩
  | cons e rest ih =>
    intro count calls
    cases e with
    | none =>
      obtain ⟨cs, h1, h2, h3⟩ := ih count calls
      refine ⟨cs, by simpa [files_needed_loop] using h1, ?_, by simpa [files_needed_loop] using h3⟩
      intro c hc
      obtain ⟨name, sf, filename, e1, e2, e3⟩ := h2 c hc
      exact ⟨name, sf, filename, e1, List.mem_cons_of_mem _ e2, e3⟩
    | some filename =>
      simp only [files_needed_loop]
      by_cases hobj : streq filename st.object_path = true
      · rw [if_pos hobj]
        by_cases hq : st.object_file_to_push.isNone = true
        · rw [if_pos hq]
          exact ⟨[], by simp, by simp, by simp⟩
        · rw [if_neg hq]
          cases hf : find filename with
          | none => exact ⟨[], by simp, by simp, by simp⟩
          | some sf =>
            simp only []
            obtain ⟨cs, h1, h2, h3⟩ := ih (count + 1)
              (calls ++ [.add_daemon_form_attachment lit_object sf filename])
            refine ⟨.add_daemon_form_attachment lit_object sf filename :: cs,
              by rw [h1]; simp, ?_, ?_⟩
            · intro c hc
              rcases List.mem_cons.mp hc with rfl | hc
              · refine ⟨_, _, _, rfl, by simp, ?_⟩
                refine ⟨Or.inl ⟨hobj, ?_⟩, hf, Or.inl ⟨rfl, hobj⟩⟩
                cases ho : st.object_file_to_push with
                | none => rw [ho] at hq; simp at hq
                | some _ => rfl
              · obtain ⟨name, sf2, fn, e1, e2, e3⟩ := h2 c hc
                exact ⟨name, sf2, fn, e1, List.mem_cons_of_mem _ e2, e3⟩
            · intro n hn
              have := h3 n hn
              simp only [List.length_cons]
              omega
      · rw [if_neg hobj]
        cases hc : find_cloud_file st filename with
        | none => exact ⟨[], by simp, by simp, by simp⟩
        | some f =>
          simp only []
          cases hf : find filename with
          | none => exact ⟨[], by simp, by simp, by simp⟩
          | some sf =>
            simp only []
            obtain ⟨cs, h1, h2, h3⟩ := ih (count + 1)
              (calls ++ [.add_daemon_form_attachment lit_source sf filename])
            refine ⟨.add_daemon_form_attachment lit_source sf filename :: cs,
              by rw [h1]; simp, ?_, ?_⟩
            · intro c hc2
              rcases List.mem_cons.mp hc2 with rfl | hc2
              · refine ⟨_, _, _, rfl, by simp, ?_⟩
                refine ⟨Or.inr ((find_cloud_file_some st filename).mp (by rw [hc]; rfl)), hf,
                  Or.inr ⟨rfl, by simpa using hobj⟩⟩
              · obtain ⟨name, sf2, fn, e1, e2, e3⟩ := h2 c hc2
                exact ⟨name, sf2, fn, e1, List.mem_cons_of_mem _ e2, e3⟩
            · intro n hn
              have := h3 n hn
              simp only [List.length_cons]
              omega

theorem files_needed_loop_bad (st : upload_state) (find : Bytes → Option stashed_file)
    (entries : List (Option Bytes)) :
    ∀ (count : Nat) (calls : List daemon_call) (bad : Bytes),
      some bad ∈ entries → ¬ upload_allowed st bad →
      (∀ n, (files_needed_loop st find entries count calls).1 ≠ .finished n) ∧
      ((∀ fn, some fn ∈ entries → upload_allowed st fn → (find fn).isSome = true) →
        (files_needed_loop st find entries count calls).1 = .bailout) := by
  induction entries with
  | nil => intro count calls bad hb; simp at hb
  | cons e rest ih =>
    intro count calls bad hb hbad
    cases e with
    | none =>
      have hb2 : some bad ∈ rest := by simpa using hb
      obtain ⟨h1, h2⟩ := ih count calls bad hb2 hbad
      simp only [files_needed_loop]
      exact ⟨h1, fun hs => h2 (fun fn hfn => hs fn (List.mem_cons_of_mem _ hfn))⟩
    | some filename =>
      simp only [files_needed_loop]
      by_cases hobj : streq filename st.object_path = true
      · rw [if_pos hobj]
        by_cases hq : st.object_file_to_push.isNone = true
        · rw [if_pos hq]
          exact ⟨by simp, fun _ => rfl⟩
        · rw [if_neg hq]
          have hall : upload_allowed st filename := by
            refine Or.inl ⟨hobj, ?_⟩
            cases ho : st.object_file_to_push with
            | none => rw [ho] at hq; simp at hq
            | some _ => rfl
          have hne : bad ≠ filename := fun h => hbad (h ▸ hall)
          have hb2 : some bad ∈ rest := by
            rcases List.mem_cons.mp hb with h | h
            · exact absurd (Option.some.inj h) hne
            · exact h
          cases hf : find filename with
          | none =>
            refine ⟨by simp, fun hs => ?_⟩
            have := hs filename (by simp) hall
            rw [hf] at this
            simp at this
          | some sf =>
            simp only []
            obtain ⟨h1, h2⟩ := ih (count + 1)
              (calls ++ [.add_daemon_form_attachment lit_object sf filename]) bad hb2 hbad
            exact ⟨h1, fun hs => h2 (fun fn hfn => hs fn (List.mem_cons_of_mem _ hfn))⟩
      · rw [if_neg hobj]
        cases hc : find_cloud_file st filename with
        | none => exact ⟨by simp, fun _ => rfl⟩
        | some f =>
          simp only []
          have hall : upload_allowed st filename :=
            Or.inr ((find_cloud_file_some st filename).mp (by rw [hc]; rfl))
          have hne : bad ≠ filename := fun h => hbad (h ▸ hall)
          have hb2 : some bad ∈ rest := by
            rcases List.mem_cons.mp hb with h | h
            · exact absurd (Option.some.inj h) hne
            · exact h
          cases hf : find filename with
          | none =>
            refine ⟨by simp, fun hs => ?_⟩
            have := hs filename (by simp) hall
            rw [hf] at this
            simp at this
          | some sf =>
            simp only []
            obtain ⟨h1, h2⟩ := ih (count + 1)
              (calls ++ [.add_daemon_form_attachment lit_source sf filename]) bad hb2 hbad
            exact ⟨h1, fun hs => h2 (fun fn hfn => hs fn (List.mem_cons_of_mem _ hfn))⟩

theorem post_results_loop_attach (st : upload_state) (find : Bytes → Option stashed_file)
    (url pds : Bytes) (answers : List server_answer) :
    ∀ (post_data : Bytes) (calls : List daemon_call),
      (∀ c ∈ calls, attach_ok st find c) →
      ∀ c ∈ (post_results_loop st find url pds answers post_data calls).1,
        attach_ok st find c := by
  induction answers with
  | nil =>
    intro post_data calls hc c hm
    simp only [post_results_loop, List.mem_append, List.mem_cons, List.mem_singleton,
      List.mem_nil_iff, or_false] at hm
    rcases hm with hm | rfl | rfl | rfl
    · exact hc c hm
    · trivial
    · trivial
    · trivial
  | cons a rest ih =>
    intro post_data calls hc
    have h3 : ∀ c ∈ calls ++ [daemon_call.set_daemon_url url,
        .add_daemon_form_data lit_data post_data, .request_daemon_response],
        attach_ok st find c := by
      intro c hm
      simp only [List.mem_append, List.mem_cons, List.mem_singleton, List.mem_nil_iff,
        or_false] at hm
      rcases hm with hm | rfl | rfl | rfl
      · exact hc c hm
      · trivial
      · trivial
      · trivial
    have hclose : ∀ l : List daemon_call, (∀ c ∈ l, attach_ok st find c) →
        ∀ c ∈ l ++ [daemon_call.close_daemon], attach_ok st find c := by
      intro l hl c hm
      rcases List.mem_append.mp hm with hm | hm
      · exact hl c hm
      · simp only [List.mem_singleton] at hm
        subst hm
        trivial
    cases a with
    | failed => exact hclose _ h3
    | success => exact hclose _ h3
    | error => exact hclose _ h3
    | other => exact hclose _ h3
    | source_list_needed => exact ih pds _ h3
    | files_needed data =>
      cases data with
      | none => exact hclose _ h3
      | some entries =>
        obtain ⟨cs, e1, e2, -⟩ := files_needed_loop_calls st find entries 0
          (calls ++ [.set_daemon_url url, .add_daemon_form_data lit_data post_data,
            .request_daemon_response])
        have h4 : ∀ c ∈ (files_needed_loop st find entries 0
            (calls ++ [.set_daemon_url url, .add_daemon_form_data lit_data post_data,
              .request_daemon_response])).2, attach_ok st find c := by
          intro c hm
          rw [e1] at hm
          rcases List.mem_append.mp hm with hm | hm
          · exact h3 c hm
          · obtain ⟨_, _, _, _, _, h⟩ := e2 c hm
            exact h
        simp only [post_results_loop]
        split
        · rename_i cl he
          rw [he] at h4
          exact hclose _ h4
        · rename_i n cl he
          rw [he] at h4
          exact ih post_data _ h4
        · rename_i cl he
          rw [he] at h4
          exact hclose _ h4
        · rename_i cl he
          rw [he] at h4
          exact h4
        · rename_i cl he
          rw [he] at h4
          exact h4

theorem post_results_loop_bad (st : upload_state) (find : Bytes → Option stashed_file)
    (url pds : Bytes) (entries : List (Option Bytes)) (bad : Bytes)
    (answers : List server_answer) (post_data : Bytes) (calls : List daemon_call)
    (hb : some bad ∈ entries) (hbad : ¬ upload_allowed st bad) :
    ∃ cs, (∀ c ∈ cs, ∃ name sf filename, c = .add_daemon_form_attachment name sf filename) ∧
      (post_results_loop st find url pds (.files_needed (some entries) :: answers)
          post_data calls).1
        = calls ++ [.set_daemon_url url, .add_daemon_form_data lit_data post_data,
                    .request_daemon_response] ++ cs
            ++ (if (post_results_loop st find url pds (.files_needed (some entries) :: answers)
                      post_data calls).2 = .closed then [.close_daemon] else []) ∧
      (post_results_loop st find url pds (.files_needed (some entries) :: answers)
          post_data calls).2 ≠ .waiting ∧
      ((∀ fn, some fn ∈ entries → upload_allowed st fn → (find fn).isSome = true) →
        (post_results_loop st find url pds (.files_needed (some entries) :: answers)
          post_data calls).2 = .closed) := by
  obtain ⟨cs, e1, e2, -⟩ := files_needed_loop_calls st find entries 0
    (calls ++ [.set_daemon_url url, .add_daemon_form_data lit_data post_data,
      .request_daemon_response])
  obtain ⟨b1, b2⟩ := files_needed_loop_bad st find entries 0
    (calls ++ [.set_daemon_url url, .add_daemon_form_data lit_data post_data,
      .request_daemon_response]) bad hb hbad
  refine ⟨cs, fun c hc => ?_, ?_⟩
  · obtain ⟨n, sf, fn, h, -, -⟩ := e2 c hc
    exact ⟨n, sf, fn, h⟩
  · obtain ⟨ex, cl, hr⟩ : ∃ ex cl, files_needed_loop st find entries 0
        (calls ++ [.set_daemon_url url, .add_daemon_form_data lit_data post_data,
          .request_daemon_response]) = (ex, cl) := ⟨_, _, rfl⟩
    rw [hr] at e1 b1 b2
    simp only [] at e1 b1 b2
    subst e1
    cases ex with
    | finished n => exact absurd rfl (b1 n)
    | bailout => simp [post_results_loop, hr]
    | assert_failed =>
      refine ⟨by simp [post_results_loop, hr], by simp [post_results_loop, hr], fun hs => ?_⟩
      have := b2 hs
      cases this
    | null_stash =>
      refine ⟨by simp [post_results_loop, hr], by simp [post_results_loop, hr], fun hs => ?_⟩
      have := b2 hs
      cases this

/-- C30: in `post_results_to_cloud`, whatever the answers to the successive
requests are, every `add_daemon_form_attachment` call attaches a name that
equals the recorded object path while an object file is queued for upload,
or that is the path of a recorded source or include file.  And when the
answer `"files needed"` lists a name that is none of these, the calls on the
handle after that request are attachments of earlier names only, followed by
`close_daemon`: no request is submitted again, whatever answers would
follow.  (The function then ends at `bailout:`; it ends earlier, without a
further call, when `find_stashed_file` does not find an earlier name.) -/
theorem files_needed_upload_rule (st : upload_state) (find : Bytes → Option stashed_file)
    (url pds : Bytes) :
    (∀ (answers : List server_answer) (post_data : Bytes),
      ∀ c ∈ (post_results_loop st find url pds answers post_data []).1,
        ∀ name sf filename, c = .add_daemon_form_attachment name sf filename →
          upload_allowed st filename) ∧
    (∀ (entries : List (Option Bytes)) (bad : Bytes) (answers : List server_answer)
        (post_data : Bytes) (calls : List daemon_call),
      some bad ∈ entries → ¬ upload_allowed st bad →
      ∃ cs, (∀ c ∈ cs, ∃ name sf filename, c = .add_daemon_form_attachment name sf filename) ∧
        (post_results_loop st find url pds (.files_needed (some entries) :: answers)
            post_data calls).1
          = calls ++ [.set_daemon_url url, .add_daemon_form_data lit_data post_data,
                      .request_daemon_response] ++ cs
              ++ (if (post_results_loop st find url pds
                        (.files_needed (some entries) :: answers) post_data calls).2 = .closed
                  then [.close_daemon] else []) ∧
        (post_results_loop st find url pds (.files_needed (some entries) :: answers)
            post_data calls).2 ≠ .waiting ∧
        ((∀ fn, some fn ∈ entries → upload_allowed st fn → (find fn).isSome = true) →
          (post_results_loop st find url pds (.files_needed (some entries) :: answers)
            post_data calls).2 = .closed)) := by
  constructor
  · intro answers post_data c hc name sf filename he
    have h := post_results_loop_attach st find url pds answers post_data [] (by simp) c hc
    subst he
    exact h.1
  · intro entries bad answers post_data calls hb hbad
    exact post_results_loop_bad st find url pds entries bad answers post_data calls hb hbad

theorem files_needed_upload_rule_witness :
    upload_allowed { object_path := [111], source_files := [{ path := [115] }] } [115] ∧
    ∃ cs, (∀ c ∈ cs, ∃ name sf filename, c = daemon_call.add_daemon_form_attachment name sf filename) ∧
      (post_results_loop { object_path := [111], source_files := [{ path := [115] }] }
          (fun _ => some ⟨[109], 0, []⟩) [117] []
          (.files_needed (some [some [115], some [120]]) :: [.success]) [100] []).1
        = [] ++ [.set_daemon_url [117], .add_daemon_form_data lit_data [100],
                 .request_daemon_response] ++ cs
            ++ (if (post_results_loop { object_path := [111], source_files := [{ path := [115] }] }
                      (fun _ => some ⟨[109], 0, []⟩) [117] []
                      (.files_needed (some [some [115], some [120]]) :: [.success]) [100] []).2
                    = .closed
                then [.close_daemon] else []) ∧
      (post_results_loop { object_path := [111], source_files := [{ path := [115] }] }
          (fun _ => some ⟨[109], 0, []⟩) [117] []
          (.files_needed (some [some [115], some [120]]) :: [.success]) [100] []).2 ≠ .waiting ∧
      ((∀ fn, some fn ∈ [some [115], some [120]] →
          upload_allowed { object_path := [111], source_files := [{ path := [115] }] } fn →
          ((fun _ => some ⟨[109], 0, []⟩ : Bytes → Option stashed_file) fn).isSome = true) →
        (post_results_loop { object_path := [111], source_files := [{ path := [115] }] }
          (fun _ => some ⟨[109], 0, []⟩) [117] []
          (.files_needed (some [some [115], some [120]]) :: [.success]) [100] []).2 = .closed) :=
  ⟨(files_needed_upload_rule { object_path := [111], source_files := [{ path := [115] }] }
      (fun _ => some ⟨[109], 0, []⟩) [117] []).1
      [.files_needed (some [some [115]]), .success] [100]
      (.add_daemon_form_attachment lit_source ⟨[109], 0, []⟩ [115]) (by decide)
      lit_source ⟨[109], 0, []⟩ [115] rfl,
   (files_needed_upload_rule { object_path := [111], source_files := [{ path := [115] }] }
      (fun _ => some ⟨[109], 0, []⟩) [117] []).2
      [some [115], some [120]] [120] [.success] [100] [] (by decide)
      (by
        intro h
        rcases h with h | ⟨f, hf, he⟩
        · exact absurd h.2 (by decide)
        · simp only [List.append_nil, List.mem_singleton] at hf
          subst hf
          exact absurd he (by decide))⟩

/-! ### Multipart bodies delivered in one chunk -/

theorem nameend_count (o : Option Nat) (n : Nat) :
    (match o with
      | none => 42 + n
      | some j => if 42 + j > 42 + n then 42 + n else 42 + j) - 42
      = (match o with
          | none => n
          | some j => min j n) := by
  cases o with
  | none => simp
  | some j =>
    simp only []
    split <;> omega

theorem is_count_iff (r : BlockingResult) : r.is_count = true ↔ ∃ n, r = .count n := by
  cases r <;> simp [BlockingResult.is_count]

theorem send_all_counts_wire (buf : Bytes) (rs : List BlockingResult)
    (hres : ∀ r ∈ rs, r.is_count = true)
    (h : (send_all buf (buf.length : Int) rs).retval = some 1) :
    (send_all buf (buf.length : Int) rs).wire = buf ∧
    (send_all buf (buf.length : Int) rs).ub = false := by
  have := send_all_loop_counts buf buf.length rs 0
    (fun r hr => (is_count_iff r).mp (hres r hr)) (Nat.zero_le _)
  simp only [List.take_zero, Nat.cast_zero, List.take_length] at this
  exact this h

theorem send_chain_counts (bufs : List (Bytes × Int)) :
    ∀ oracle : List (List BlockingResult),
      (∀ b ∈ bufs, b.2 = (b.1.length : Int)) →
      (∀ rs ∈ oracle, ∀ r ∈ rs, r.is_count = true) →
      (send_chain bufs oracle).1 = some 1 →
      (send_chain bufs oracle).2.1 = (bufs.map Prod.fst).flatten ∧
      ∀ rs ∈ (send_chain bufs oracle).2.2, ∀ r ∈ rs, r.is_count = true := by
  induction bufs with
  | nil => intro oracle _ hres _; exact ⟨rfl, hres⟩
  | cons b t ih =>
    intro oracle hlen hres h
    obtain ⟨buf, len⟩ := b
    have hl : len = (buf.length : Int) := hlen (buf, len) (by simp)
    subst hl
    have hhead : ∀ r ∈ oracle.headD [], r.is_count = true := by
      cases oracle with
      | nil => intro r hr; simp at hr
      | cons a o => exact hres a (by simp)
    have htail : ∀ rs ∈ oracle.tail, ∀ r ∈ rs, r.is_count = true :=
      fun rs hrs => hres rs (List.mem_of_mem_tail hrs)
    unfold send_chain at h ⊢
    simp only [] at h ⊢
    by_cases hub : (send_all buf (buf.length : Int) (oracle.headD [])).ub = true
    · rw [if_pos hub] at h
      cases h
    · rw [if_neg hub] at h ⊢
      cases hr : (send_all buf (buf.length : Int) (oracle.headD [])).retval with
      | none => rw [hr] at h; cases h
      | some v =>
        rw [hr] at h
        by_cases hv : v = 1
        · subst hv
          simp only [] at h ⊢
          obtain ⟨w1, -⟩ := send_all_counts_wire buf _ hhead hr
          obtain ⟨i1, i2⟩ := ih oracle.tail (fun b hb => hlen b (by simp [hb])) htail h
          rw [w1, i1]
          exact ⟨by simp, i2⟩
        · exfalso
          cases v with
          | zero => cases h
          | succ m =>
            cases m with
            | zero => exact hv rfl
            | succ k => cases h

theorem int_of_size_small (n : Nat) (h : n < 2147483648) : int_of_size n = (n : Int) := by
  unfold int_of_size
  have e : n % 4294967296 = n := Nat.mod_eq_of_lt (by omega)
  rw [e, if_pos h]

theorem client_sends_frame (sizeof_sf : Nat) (c : ClientCall) :
    ((client_sends sizeof_sf (some c)).map Prod.fst).flatten = c.frame sizeof_sf := by
  cases c <;>
    simp [client_sends, ClientCall.frame, set_daemon_url, add_daemon_header,
      add_daemon_form_data, add_daemon_form_attachment]

theorem client_sends_length (sizeof_sf : Nat) (c : ClientCall) (h : c.sendable sizeof_sf) :
    ∀ b ∈ client_sends sizeof_sf (some c), b.2 = (b.1.length : Int) := by
  have hs : ∀ s : Bytes, wire_string s → int_of_size (strlen s) = ((cstr s).length : Int) :=
    fun s hw => int_of_size_small _ hw.2
  cases c with
  | url u =>
    intro b hb
    simp only [client_sends, List.mem_cons, List.mem_singleton, List.mem_nil_iff, or_false] at hb
    rcases hb with rfl | rfl
    · simp [le32]
    · exact hs u h
  | header u =>
    intro b hb
    simp only [client_sends, List.mem_cons, List.mem_singleton, List.mem_nil_iff, or_false] at hb
    rcases hb with rfl | rfl
    · simp [le32]
    · exact hs u h
  | form_data n v =>
    intro b hb
    simp only [client_sends, List.mem_cons, List.mem_singleton, List.mem_nil_iff, or_false] at hb
    rcases hb with rfl | rfl | rfl | rfl
    · simp [le32]
    · exact hs n h.1
    · simp [le32]
    · exact hs v h.2
  | form_attachment n sf f =>
    intro b hb
    simp only [client_sends, List.mem_cons, List.mem_singleton, List.mem_nil_iff, or_false] at hb
    rcases hb with rfl | rfl | rfl | rfl | rfl | rfl | rfl
    · simp [le32]
    · exact hs n h.1
    · simp [le32]
    · exact hs _ h.2.1
    · simp [le32]
    · exact hs f h.2.2.1
    · simp [le32]

theorem client_run_counts (sizeof_sf : Nat) (cs : List (Option ClientCall)) :
    ∀ oracle : List (List BlockingResult),
      (∀ c ∈ cs, ∀ b ∈ client_sends sizeof_sf c, b.2 = (b.1.length : Int)) →
      (∀ rs ∈ oracle, ∀ r ∈ rs, r.is_count = true) →
      (client_run sizeof_sf cs oracle).ok = true →
      (client_run sizeof_sf cs oracle).wire
          = (cs.map (fun c => ((client_sends sizeof_sf c).map Prod.fst).flatten)).flatten ∧
      (client_run sizeof_sf cs oracle).stuck = false := by
  induction cs with
  | nil => intro oracle _ _ _; exact ⟨rfl, rfl⟩
  | cons c t ih =>
    intro oracle hlen hres hok
    unfold client_run at hok ⊢
    simp only [] at hok ⊢
    cases hr : (send_chain (client_sends sizeof_sf c) oracle).1 with
    | none => rw [hr] at hok; cases hok
    | some v =>
      rw [hr] at hok
      simp only [Bool.and_eq_true, decide_eq_true_eq] at hok
      obtain ⟨hv, hok2⟩ := hok
      subst hv
      obtain ⟨c1, c2⟩ := send_chain_counts _ oracle (hlen c (by simp)) hres hr
      obtain ⟨i1, i2⟩ := ih _ (fun x hx => hlen x (by simp [hx])) c2 hok2
      simp only []
      rw [c1, i1, i2]
      exact ⟨by simp, rfl⟩

/-- When every `send` of the client returns a byte count and every
`send_all` returns 1, the wire holds the frames of the calls, in order,
followed by the `'R'` of `request_daemon_response`. -/
theorem client_request_wire (sizeof_sf : Nat) (calls : List ClientCall)
    (oracle : List (List BlockingResult))
    (hsend : ∀ c ∈ calls, c.sendable sizeof_sf)
    (hres : ∀ rs ∈ oracle, ∀ r ∈ rs, r.is_count = true)
    (hok : (client_request sizeof_sf calls oracle).ok = true) :
    (client_request sizeof_sf calls oracle).wire
      = (calls.map (ClientCall.frame sizeof_sf)).flatten ++ request_daemon_response := by
  unfold client_request at hok ⊢
  obtain ⟨h1, -⟩ := client_run_counts sizeof_sf _ oracle
    (by
      intro c hc b hb
      rcases List.mem_append.mp hc with h | h
      · obtain ⟨x, hx, rfl⟩ := List.mem_map.mp h
        exact client_sends_length sizeof_sf x (hsend x hx) b hb
      · simp only [List.mem_singleton] at h
        subst h
        simp only [client_sends, List.mem_singleton] at hb
        subst hb
        rfl)
    hres hok
  rw [h1]
  simp only [List.map_append, List.map_map, List.flatten_append, List.map_cons, List.map_nil,
    List.flatten_cons, List.flatten_nil, List.append_nil]
  congr 1
  congr 1
  apply List.map_congr_left
  intro c _
  exact client_sends_frame sizeof_sf c

/-- C1, amended: a session (reached by any run) stands at the start of a
frame with nothing unread; the client makes any sequence of the calls
`set_daemon_url`, `add_daemon_header`, `add_daemon_form_data` and
`add_daemon_form_attachment` in which every string is non-empty and shorter
than `2^31` and every map size is below `2^31`, then
`request_daemon_response`; a URL is set by then; and no `send` of the client
is interrupted or fails: every `send` returns a byte count and every
`send_all` returns 1.  Enough passes of `do_local_comms` whose `recv` calls
transfer at least one byte each read the whole stream.  However the bytes
are split over the `recv` calls (any passes with any outcomes of `recv`),
once all bytes are read the session is alive in `STATE_WAITING` and its URL,
header list, form and mappings are exactly those that the same calls build
when they call the daemon-side functions `set_url`, `add_header`,
`add_form_data` and `add_form_attachment` directly. -/
theorem request_round_trip (d : daemon) (self newfd cn : Nat) (evs : List SessionEvent)
    (sizeof_sf : Nat) (calls : List ClientCall) (oracle : List (List BlockingResult))
    (hl : (run_events (World.fresh d self newfd cn) evs).live = true)
    (hs : (run_events (World.fresh d self newfd cn) evs).conn.dfa_state = STATE_RECV_INIT)
    (hq : (run_events (World.fresh d self newfd cn) evs).sock.inq = [])
    (hsend : ∀ c ∈ calls, c.sendable sizeof_sf)
    (hurl : (calls.foldl
        (ClientCall.direct (run_events (World.fresh d self newfd cn) evs).shm sizeof_sf)
        (run_events (World.fresh d self newfd cn) evs).conn).url.isSome = true)
    (hres : ∀ rs ∈ oracle, ∀ r ∈ rs, r.is_count = true)
    (hok : (client_request sizeof_sf calls oracle).ok = true) :
    (∃ n, ∀ ios : List Sys, transferring ios → n ≤ ios.length →
      (run_events
        (session_step (run_events (World.fresh d self newfd cn) evs)
          (.client_send (client_request sizeof_sf calls oracle).wire))
        (ios.map .pass)).sock.inq = []) ∧
    ∀ ios : List Sys,
      (run_events
        (session_step (run_events (World.fresh d self newfd cn) evs)
          (.client_send (client_request sizeof_sf calls oracle).wire))
        (ios.map .pass)).sock.inq = [] →
      (run_events
        (session_step (run_events (World.fresh d self newfd cn) evs)
          (.client_send (client_request sizeof_sf calls oracle).wire))
        (ios.map .pass)).live = true ∧
      (run_events
        (session_step (run_events (World.fresh d self newfd cn) evs)
          (.client_send (client_request sizeof_sf calls oracle).wire))
        (ios.map .pass)).conn.dfa_state = STATE_WAITING ∧
      request_of (run_events
        (session_step (run_events (World.fresh d self newfd cn) evs)
          (.client_send (client_request sizeof_sf calls oracle).wire))
        (ios.map .pass)).conn
        = request_of (calls.foldl
            (ClientCall.direct (run_events (World.fresh d self newfd cn) evs).shm sizeof_sf)
            (run_events (World.fresh d self newfd cn) evs).conn) := by
  rw [client_request_wire sizeof_sf calls oracle hsend hres hok]
  exact request_round_trip_frames d self newfd cn evs sizeof_sf calls hl hs hq hsend hurl

set_option maxRecDepth 100000 in
/-- Witness for C1: with the shared-memory object `"s"` of size 3 on the
host, the client sets the URL `"a"`, adds the header `"h"`, the field
`("n", "v")` and the attachment `("n", "s", "f")`, and submits, every `send`
taking one byte; the daemon reads the stream one byte per `recv`. -/
theorem request_round_trip_witness :
    request_of (run_events
        (session_step (run_events (World.fresh {} 1 5 0) [.host [([115], ⟨[115], 3, [1, 2, 3]⟩)]])
          (.client_send (client_request 8 [ClientCall.url [97], .header [104],
              .form_data [110] [118], .form_attachment [110] ⟨[115], 3, [1, 2, 3]⟩ [102]]
              (List.replicate 16 (List.replicate 5 (.count 1)))).wire))
        ((List.replicate 50 (Sys.xfer 1)).map .pass)).conn
      = (some [97], [[104]], [.contents [110] [118], .buffer [110] [102] [115] 3],
          [⟨[115], 11⟩], none) :=
  ((request_round_trip {} 1 5 0 [.host [([115], ⟨[115], 3, [1, 2, 3]⟩)]] 8
      [ClientCall.url [97], .header [104], .form_data [110] [118],
        .form_attachment [110] ⟨[115], 3, [1, 2, 3]⟩ [102]]
      (List.replicate 16 (List.replicate 5 (.count 1)))
      (by decide) (by decide) (by decide) (by decide) (by decide) (by decide) (by decide)).2
    (List.replicate 50 (.xfer 1)) (by decide)).2.2.trans (by decide)

/-! ### What the client decodes from the response frames -/

theorem positive_iff (r : BlockingResult) : r.positive = true ↔ ∃ n, 1 ≤ n ∧ r = .count n := by
  cases r <;> simp [BlockingResult.positive]

/-- With positive counts only, and enough of them, the loop of `recv_all`
returns 1 with the next `length` bytes of the stream in the buffer. -/
theorem recv_all_loop_steady (orig : Bytes) (length : Nat) :
    ∀ (results : List BlockingResult) (received : Nat) (data : Bytes),
      (∀ r ∈ results, r.positive = true) → received ≤ length →
      length - received ≤ results.length → data.length = length →
      data.take received = orig.take received → length ≤ orig.length →
      recv_all_loop length results received data (orig.drop received)
        = ⟨some 1, orig.take length, orig.drop length, false⟩ := by
  intro results
  induction results with
  | nil =>
    intro received data _ hs hn hl ht _
    have e : received = length := by simp at hn; omega
    subst e
    rw [recv_all_loop_done _ _ _ _ _ (by omega), ← ht, ← hl, List.take_length]
  | cons r rest ih =>
    intro received data hr hs hn hl ht ho
    by_cases hlt : received < length
    · obtain ⟨n, hn1, rfl⟩ := (positive_iff r).mp (hr r (List.mem_cons_self _ _))
      have hrest : ∀ r ∈ rest, r.positive = true :=
        fun r hm => hr r (List.mem_cons_of_mem _ hm)
      unfold recv_all_loop
      have hlt2 : (received : Int) < (length : Int) := by omega
      have h0 : ¬ ((received : Int) < 0) := by omega
      simp only [hlt2, not_true_eq_false, if_false, h0]
      have e1 : ((length : Int) - (received : Int)).toNat = length - received := by omega
      have e2 : ((received : Int)).toNat = received := by omega
      rw [e1, e2]
      have hdl : (orig.drop received).length = orig.length - received := List.length_drop _ _
      generalize hk : min (min n (length - received)) (orig.drop received).length = k
      have hk0 : k ≠ 0 := by omega
      rw [if_neg hk0]
      have hkl : k ≤ length - received := by omega
      have e3 : (received : Int) + (k : Int) = ((received + k : Nat) : Int) := by push_cast; rfl
      have e4 : (orig.drop received).drop k = orig.drop (received + k) := by
        rw [List.drop_drop, Nat.add_comm]
      have e5 : data.take received ++ (orig.drop received).take k = orig.take (received + k) := by
        rw [ht, List.take_add]
      have l5 : (orig.take (received + k)).length = received + k := by
        rw [List.length_take]; omega
      rw [e3, e4, e5]
      refine ih (received + k) _ hrest (by omega) ?_ ?_ ?_ ho
      · simp only [List.length_cons] at hn; omega
      · rw [List.length_append, l5, List.length_drop]; omega
      · rw [List.take_append_of_le_length (by omega), List.take_take]
        simp
    · have e : received = length := by omega
      subst e
      rw [recv_all_loop_done _ _ _ _ _ (by omega), ← ht, ← hl, List.take_length]

theorem recv_all_steady (rs : List BlockingResult) (f rest : Bytes)
    (h : f.length < 9223372036854775808) (hs : steady rs f.length) :
    recv_all rs (f ++ rest) f.length = ⟨some 1, f, rest, false⟩ := by
  unfold recv_all
  rw [if_neg (by omega)]
  have := recv_all_loop_steady (f ++ rest) f.length rs 0 (List.replicate f.length 0) hs.1
    (Nat.zero_le _) (by have := hs.2; omega) (by simp) (by simp) (by simp)
  simpa using this

theorem recv_next_steady (rs : List BlockingResult) (oracle : List (List BlockingResult))
    (f rest : Bytes) (h : f.length < 9223372036854775808) (hs : steady rs f.length) :
    recv_next (rs :: oracle) (f ++ rest) f.length = some (some f, rest, oracle) := by
  unfold recv_next
  simp only [recv_all_steady rs f rest h hs]
  rfl

theorem steady_mono (rs : List BlockingResult) (n m : Nat) (h : steady rs n) (hm : m ≤ n) :
    steady rs m := ⟨h.1, Nat.le_trans hm h.2⟩

theorem get_daemon_response_status (code : Int) (rest : Bytes) (h0 : 0 ≤ code)
    (h1 : code < 65536) (rs1 rs2 : List BlockingResult) (oracle : List (List BlockingResult))
    (s1 : steady rs1 1) (s2 : steady rs2 2) :
    get_daemon_response (rs1 :: rs2 :: oracle) (status_frame code ++ rest)
      = some ⟨D_HTTP_RESULT_CODE, some (.http_result_code code), rest, oracle⟩ := by
  obtain ⟨n, rfl⟩ := Int.eq_ofNat_of_zero_le h0
  have hn : n < 65536 := by omega
  have e1 : ((n : Int) % 256).toNat = n % 256 := by omega
  have e2 : ((n : Int) / 256 % 256).toNat = n / 256 % 256 := by omega
  simp only [status_frame, e1, e2, List.cons_append, List.nil_append]
  have r1 := recv_next_steady rs1 [] [82] (n % 256 :: n / 256 % 256 :: rest) (by simp) s1
  have r2 := recv_next_steady rs2 oracle [n % 256, n / 256 % 256] rest (by simp) s2
  simp only [List.cons_append, List.nil_append, List.length_cons, List.length_nil] at r1 r2
  rw [get_daemon_response, r1]
  simp only [List.headD_cons, show (82 : Nat) ≠ 70 by decide, show (82 : Nat) ≠ 69 by decide,
    show (82 : Nat) ≠ 67 by decide, if_false, if_true]
  rw [r2]
  simp only [List.getD_cons_zero, List.getD_cons_succ]
  have e3 : n % 256 % 256 + n / 256 % 256 % 256 * 256 = n := by omega
  rw [e3]

theorem get_daemon_response_body (hb db rest : Bytes) (h1 : hb.length < 2147483648)
    (h2 : db.length < 2147483648) (rs1 rs2 rs3 rs4 : List BlockingResult)
    (oracle : List (List BlockingResult))
    (s1 : steady rs1 1) (s2 : steady rs2 8) (s3 : steady rs3 hb.length)
    (s4 : steady rs4 db.length) :
    get_daemon_response (rs1 :: rs2 :: rs3 :: rs4 :: oracle)
        ([68] ++ le32 hb.length ++ le32 db.length ++ hb ++ db ++ rest)
      = some ⟨D_BODY, some (.body (some hb) hb.length (some db) db.length), rest, oracle⟩ := by
  have r1 := recv_next_steady rs1 [] [68]
    (le32 hb.length ++ le32 db.length ++ hb ++ db ++ rest) (by simp) s1
  have r2 := recv_next_steady rs2 (rs3 :: rs4 :: oracle) (le32 hb.length ++ le32 db.length)
    (hb ++ db ++ rest) (by simp [le32]) s2
  have r3 := recv_next_steady rs3 (rs4 :: oracle) hb (db ++ rest) (by omega) s3
  have r4 := recv_next_steady rs4 oracle db rest (by omega) s4
  have hl : (le32 hb.length ++ le32 db.length).length = 8 := rfl
  rw [hl] at r2
  have hl1 : ([68] : Bytes).length = 1 := rfl
  rw [hl1] at r1
  simp only [List.append_assoc] at r1 r2 r3 r4 ⊢
  rw [get_daemon_response, r1]
  simp only [List.headD_cons, show (68 : Nat) ≠ 70 by decide, show (68 : Nat) ≠ 69 by decide,
    show (68 : Nat) ≠ 67 by decide, show (68 : Nat) ≠ 82 by decide, if_false, if_true]
  rw [r2]
  have t1 : (le32 hb.length ++ le32 db.length).take 4 = le32 hb.length := rfl
  have t2 : (le32 hb.length ++ le32 db.length).drop 4 = le32 db.length := rfl
  simp only [t1, t2, decode_size_le32 _ h1, decode_size_le32 _ h2, r3, r4]

theorem get_daemon_response_attachment (hb fn tmp rest : Bytes) (h1 : hb.length < 2147483648)
    (h2 : fn.length < 2147483648) (h3 : tmp.length < 2147483648)
    (rs1 rs2 rs3 rs4 rs5 : List BlockingResult) (oracle : List (List BlockingResult))
    (s1 : steady rs1 1) (s2 : steady rs2 12) (s3 : steady rs3 hb.length)
    (s4 : steady rs4 fn.length) (s5 : steady rs5 tmp.length) :
    get_daemon_response (rs1 :: rs2 :: rs3 :: rs4 :: rs5 :: oracle)
        ([65] ++ le32 hb.length ++ le32 fn.length ++ le32 tmp.length ++ hb ++ fn ++ tmp ++ rest)
      = some ⟨D_ATTACHMENT, some (.attachment (some hb) hb.length (some fn) (some tmp)),
          rest, oracle⟩ := by
  have r1 := recv_next_steady rs1 [] [65]
    (le32 hb.length ++ le32 fn.length ++ le32 tmp.length ++ hb ++ fn ++ tmp ++ rest)
    (by simp) s1
  have r2 := recv_next_steady rs2 (rs3 :: rs4 :: rs5 :: oracle)
    (le32 hb.length ++ le32 fn.length ++ le32 tmp.length) (hb ++ fn ++ tmp ++ rest)
    (by simp [le32]) s2
  have r3 := recv_next_steady rs3 (rs4 :: rs5 :: oracle) hb (fn ++ tmp ++ rest) (by omega) s3
  have r4 := recv_next_steady rs4 (rs5 :: oracle) fn (tmp ++ rest) (by omega) s4
  have r5 := recv_next_steady rs5 oracle tmp rest (by omega) s5
  have hl : (le32 hb.length ++ le32 fn.length ++ le32 tmp.length).length = 12 := rfl
  rw [hl] at r2
  have hl1 : ([65] : Bytes).length = 1 := rfl
  rw [hl1] at r1
  simp only [List.append_assoc] at r1 r2 r3 r4 r5 ⊢
  rw [get_daemon_response, r1]
  simp only [List.headD_cons, show (65 : Nat) ≠ 70 by decide, show (65 : Nat) ≠ 69 by decide,
    show (65 : Nat) ≠ 67 by decide, show (65 : Nat) ≠ 82 by decide,
    show (65 : Nat) ≠ 68 by decide, if_false, if_true]
  rw [r2]
  have t1 : (le32 hb.length ++ (le32 fn.length ++ le32 tmp.length)).take 4 = le32 hb.length := rfl
  have t2 : ((le32 hb.length ++ (le32 fn.length ++ le32 tmp.length)).drop 4).take 4
      = le32 fn.length := rfl
  have t3 : (le32 hb.length ++ (le32 fn.length ++ le32 tmp.length)).drop 8
      = le32 tmp.length := rfl
  simp only [t1, t2, t3, decode_size_le32 _ h1, decode_size_le32 _ h2, decode_size_le32 _ h3,
    r3, r4, r5]

/-- Without interrupted reads the client decodes what the daemon sent.  For a
session about to send (1) the status frame of a complete response whose code
is at least 0 and below 65536, (2) a part with in-memory data, with header
block `hb` and data `db` shorter than `2^31` bytes, or (3) a part with an
attachment, with header block `hb`, filename `fn` and temporary path `tmp`
shorter than `2^31` bytes: whatever the `send` calls do, what the session
writes stays a prefix of the frame until the frame is written whole and the
session is ready for the next packet, and enough transferring passes get it
there; and `get_daemon_response`, reading that frame followed by any bytes
`rest` with `recv` calls that all return positive byte counts, returns (1)
`D_HTTP_RESULT_CODE` with the same code, (2) `D_BODY` with the same header
block and data and their lengths, (3) `D_ATTACHMENT` with the same header
block, filename and temporary path, leaving `rest` unread. -/
theorem response_frame_steady_reads :
    (∀ (w : World) (r : server_response) (rest : Bytes),
      w.live = true → w.conn.dfa_state = STATE_SEND_INIT → w.conn.send_buffer = none →
      w.conn.response = some r → w.conn.response_begun = false → r.complete = true →
      0 ≤ r.code → r.code < 65536 →
      ∃ v, SThru (w.sock.out ++ status_frame r.code) (sent_codes w.log ++ [82]) w v ∧
        v.sock.out = w.sock.out ++ status_frame r.code ∧ SendReadyS v r r.parts ∧
        ∀ (rs1 rs2 : List BlockingResult) (oracle : List (List BlockingResult)),
          steady rs1 1 → steady rs2 2 →
          get_daemon_response (rs1 :: rs2 :: oracle) (status_frame r.code ++ rest)
            = some ⟨D_HTTP_RESULT_CODE, some (.http_result_code r.code), rest, oracle⟩) ∧
    (∀ (w : World) (r : server_response) (p : response_part) (t : List response_part)
        (hb db rest : Bytes),
      SendReady w r (p :: t) → p.headers.getD [] = hb → p.headersize = hb.length →
      p.data = some db → p.datasize = db.length →
      hb.length < 2147483648 → db.length < 2147483648 →
      ∃ v, SThru (w.sock.out ++ part_frame p) (sent_codes w.log ++ [68]) w v ∧
        v.sock.out = w.sock.out ++ part_frame p ∧ SendReadyS v r t ∧
        part_frame p = [68] ++ le32 hb.length ++ le32 db.length ++ hb ++ db ∧
        ∀ (rs1 rs2 rs3 rs4 : List BlockingResult) (oracle : List (List BlockingResult)),
          steady rs1 1 → steady rs2 8 → steady rs3 hb.length → steady rs4 db.length →
          get_daemon_response (rs1 :: rs2 :: rs3 :: rs4 :: oracle) (part_frame p ++ rest)
            = some ⟨D_BODY, some (.body (some hb) hb.length (some db) db.length),
                rest, oracle⟩) ∧
    (∀ (w : World) (r : server_response) (p : response_part) (t : List response_part)
        (hb fn tmp rest : Bytes),
      SendReady w r (p :: t) → p.headers.getD [] = hb → p.headersize = hb.length →
      p.data = none → p.filename = some fn → p.tmp_filename = some tmp →
      hb.length < 2147483648 → strlen fn < 2147483648 → strlen tmp < 2147483648 →
      ∃ v, SThru (w.sock.out ++ part_frame p) (sent_codes w.log ++ [65]) w v ∧
        v.sock.out = w.sock.out ++ part_frame p ∧ SendReadyS v r t ∧
        part_frame p = [65] ++ le32 hb.length ++ le32 (strlen fn) ++ le32 (strlen tmp)
          ++ hb ++ cstr fn ++ cstr tmp ∧
        ∀ (rs1 rs2 rs3 rs4 rs5 : List BlockingResult) (oracle : List (List BlockingResult)),
          steady rs1 1 → steady rs2 12 → steady rs3 hb.length →
          steady rs4 (strlen fn) → steady rs5 (strlen tmp) →
          get_daemon_response (rs1 :: rs2 :: rs3 :: rs4 :: rs5 :: oracle)
              (part_frame p ++ rest)
            = some ⟨D_ATTACHMENT,
                some (.attachment (some hb) hb.length (some (cstr fn)) (some (cstr tmp))),
                rest, oracle⟩) := by
  refine ⟨?_, ?_, ?_⟩
  · intro w r rest hl hs hsb hr hbg hc h0 h1
    have hg := get_response_code w.conn r hr hbg hc
    have hpk : (build_packet (get_response w.conn).1 (get_response w.conn).2.dr).1
        = status_frame r.code := by
      rw [hg]; simp [build_packet, status_frame]
    obtain ⟨w1, hw1, e1⟩ : ∃ w1, w1 = ({ w with
            conn := { w.conn with dfa_state := STATE_SEND_INIT, dfa_next_state := STATE_SEND_INIT,
                                   current_data := none, send_buffer := none,
                                   current_offset := 3, current_size := 0,
                                   current_part := r.parts, dr := none, response_begun := true },
            sock := { w.sock with out := w.sock.out ++ status_frame r.code },
            log := w.log ++ [.sent 82] } : World) ∧
        do_local_comms_step w (.xfer 3) = (w1, .cont) := by
      refine ⟨_, rfl, ?_⟩
      rw [pass_send_init_full w 3 hs hsb (by rw [hg]; simp [build_packet])]
      simp [packet_built, hg, build_packet, status_frame]
    have l1 := slink_init w (w.sock.out ++ status_frame r.code) []
      (sent_codes w.log ++ [82]) [82] hl hs hsb (by rw [hpk]; simp) rfl
    rw [hpk, show (status_frame r.code).length = 3 from rfl, e1] at l1
    refine ⟨w1, l1, by rw [hw1], ?_,
      fun rs1 rs2 oracle s1 s2 => get_daemon_response_status r.code rest h0 h1 rs1 rs2 oracle s1 s2⟩
    rw [hw1]
    exact ⟨hl, rfl, rfl, hr, rfl, rfl, [], rfl, by simp⟩
  · intro w r p t hb db rest h hh hhs hd hds h1 h2
    have hp : p.data.isSome = true := by rw [hd]; rfl
    have hf : part_frame p = [68] ++ le32 hb.length ++ le32 db.length ++ hb ++ db := by
      simp [part_frame, hd, hh, hhs, hds]
    obtain ⟨hl, hs, hsb, hr, hbg, hcp, hdr⟩ := h
    obtain ⟨v, t1, r1, o1, -⟩ := sthru_data_part w r p t
      (w.sock.out ++ part_frame p) [] (sent_codes w.log ++ [68]) []
      ⟨hl, hs, hsb, hr, hbg, hdr, [], by simpa using hcp, by simp⟩ hp (by simp) rfl
    refine ⟨v, t1, o1, r1, hf, ?_⟩
    intro rs1 rs2 rs3 rs4 oracle s1 s2 s3 s4
    rw [hf]
    exact get_daemon_response_body hb db rest h1 h2 rs1 rs2 rs3 rs4 oracle s1 s2 s3 s4
  · intro w r p t hb fn tmp rest h hh hhs hd hfn htmp h1 h2 h3
    have hp : p.data.isSome = false := by rw [hd]; rfl
    have hq : p.filename.isSome = true := by rw [hfn]; rfl
    have hf : part_frame p = [65] ++ le32 hb.length ++ le32 (cstr fn).length
        ++ le32 (cstr tmp).length ++ hb ++ cstr fn ++ cstr tmp := by
      simp [part_frame, hd, hfn, htmp, hh, hhs, strlen]
    obtain ⟨hl, hs, hsb, hr, hbg, hcp, hdr⟩ := h
    obtain ⟨v, t1, r1, o1, -⟩ := sthru_attachment_part w r p t
      (w.sock.out ++ part_frame p) [] (sent_codes w.log ++ [65]) []
      ⟨hl, hs, hsb, hr, hbg, hdr, [], by simpa using hcp, by simp⟩ hp hq (by simp) rfl
    refine ⟨v, t1, o1, r1, hf, ?_⟩
    intro rs1 rs2 rs3 rs4 rs5 oracle s1 s2 s3 s4 s5
    rw [hf]
    exact get_daemon_response_attachment hb (cstr fn) (cstr tmp) rest h1 h2 h3
      rs1 rs2 rs3 rs4 rs5 oracle s1 s2 s3 s4 s5

/-- C14, evaluated at the failing input: the daemon answers with the status
frame of code 200 and the terminal `'C'`, the bytes `R, 200, 0, C`.  When
every `recv` returns what it was asked for, `get_daemon_response` decodes
the code 200 and leaves the `'C'`.  When the read of the two code bytes goes
one byte, then -1 with `EINTR`, then two bytes, `recv_all` moves its offset
back and overwrites the 200 with the bytes `0, 'C'`: the client decodes the
code `67 * 256 = 17152` and has taken the terminal with it. -/
theorem interrupted_recv_decodes_other_code :
    status_frame 200 ++ [67] = [82, 200, 0, 67] ∧
    get_daemon_response [[.count 1], [.count 2]] [82, 200, 0, 67]
      = some ⟨D_HTTP_RESULT_CODE, some (.http_result_code 200), [67], []⟩ ∧
    get_daemon_response [[.count 1], [.count 1, .transient, .count 2]] [82, 200, 0, 67]
      = some ⟨D_HTTP_RESULT_CODE, some (.http_result_code 17152), [], []⟩ := by
  decide

/-! ### `cloud_cache_get` and the responses it reads -/

theorem steady_reads_cons (rs : List BlockingResult) (oracle : List (List BlockingResult))
    (n : Nat) (lengths : List Nat) (h : steady_reads (rs :: oracle) (n :: lengths) = true) :
    steady rs n ∧ steady_reads oracle lengths = true := by
  simp only [steady_reads, Bool.and_eq_true, List.all_eq_true, decide_eq_true_eq] at h
  exact ⟨⟨h.1.1, h.1.2⟩, h.2⟩

theorem steady_reads_uncons (oracle : List (List BlockingResult)) (n : Nat)
    (lengths : List Nat) (h : steady_reads oracle (n :: lengths) = true) :
    ∃ rs o, oracle = rs :: o ∧ steady rs n ∧ steady_reads o lengths = true := by
  cases oracle with
  | nil => simp [steady_reads] at h
  | cons rs o => exact ⟨rs, o, rfl, steady_reads_cons rs o n lengths h⟩

theorem steady_reads_length (lengths : List Nat) :
    ∀ (oracle : List (List BlockingResult)), steady_reads oracle lengths = true →
      lengths.length ≤ oracle.length := by
  induction lengths with
  | nil => intro oracle _; simp
  | cons n l ih =>
    intro oracle h
    obtain ⟨rs, o, rfl, -, h2⟩ := steady_reads_uncons _ _ _ h
    have := ih o h2
    simp only [List.length_cons]
    omega

end Daemon
